import Mathlib

/-!
# The getline line editor (`src/gnuwin32/getline/getline.c`)

A shallow embedding of the line editor: the file-level `static` variables of
`getline.c` become the fields of `State`, every C function becomes a function
on `State`, and the terminal is the pair of byte lists `out` (descriptor 1) and
`err` (descriptor 2).  The key source is the list `inp`; `gl_getc` pops it.

Conventions.
* C `int`s are `Int`; the values handled here are buffer indices, far below 2^31.
* `gl_buf` and `gl_killbuf` are byte arrays (`List Nat`), NUL-terminated as in C.
  A read outside the array yields `0` and a write outside it is dropped (both
  are undefined behaviour in C).
* Heap strings (prompts, history entries) are the list of their bytes without
  the terminating NUL; a `NULL` pointer is `none`.
* `gl_error` ends in `longjmp`; a routine that may reach it returns
  `Except State State`, where `Except.error s` is the state at the jump.
* Allocation is assumed to succeed.
-/

namespace Getline

/-- The static variables of `getline.c`, the hooks, and the terminal. -/
structure State where
  /-- dimension of the buffer received -/
  BUF_SIZE : Int
  /-- terminal mode flag, `-1` only on startup -/
  gl_init_done : Int
  /-- actual terminal width -/
  gl_termw : Int
  /-- width of EOL scrolling region -/
  gl_scroll : Int
  /-- net size available for input -/
  gl_width : Int
  /-- how far to redraw, 0 means all -/
  gl_extent : Int
  /-- overwrite mode -/
  gl_overwrite : Int
  /-- position in the input -/
  gl_pos : Int
  /-- size of the input -/
  gl_cnt : Int
  /-- input buffer, an array of `BUF_SIZE` bytes -/
  gl_buf : List Nat
  /-- killed text, an array of `BUF_SIZE` bytes -/
  gl_killbuf : List Nat
  /-- the saved prompt string -/
  gl_prompt : List Nat
  /-- search mode flag -/
  gl_search_mode : Int
  /-- hook applied to the buffer before display -/
  gl_in_hook : Option (List Nat → List Nat)
  /-- hook applied to the buffer at commit; yields the buffer and the change index -/
  gl_out_hook : Option (List Nat → List Nat × Int)
  /-- hook for the Tab key: buffer, prompt width, cursor to buffer, cursor, change index -/
  gl_tab_hook : Option (List Nat → Int → Int → List Nat × Int × Int)
  /-- returns printable prompt width -/
  gl_strlen : List Nat → Int
  /-- index of first on screen character (static of `gl_fixup`) -/
  gl_shift : Int
  /-- true if more text right of screen (static of `gl_fixup`) -/
  off_right : Int
  /-- true if more text left of screen (static of `gl_fixup`) -/
  off_left : Int
  /-- the prompt drawn last (static of `gl_fixup`) -/
  last_prompt : List Nat
  /-- number of slots of the history ring -/
  HIST_SIZE : Int
  /-- history slot being browsed -/
  hist_pos : Int
  /-- history slot written next -/
  hist_last : Int
  /-- whether history boundaries ring the bell -/
  gl_beep : Int
  /-- the history ring -/
  hist_buf : List (Option (List Nat))
  /-- the entry saved last (static `prev` of `gl_histadd`) -/
  hist_prev_saved : Option (List Nat)
  /-- prompt shown while searching, it includes the search string -/
  search_prompt : List Nat
  /-- the search string, an array of bytes -/
  search_string : List Nat
  /-- current location in `search_string` -/
  search_pos : Int
  /-- search direction flag -/
  search_forw_flg : Int
  /-- last match found -/
  search_last : Int
  /-- whether descriptors 0 and 1 are terminals (`isatty`) -/
  tty : Bool
  /-- the keys still to be read -/
  inp : List Int
  /-- bytes written to descriptor 1 -/
  out : List Nat
  /-- bytes written to descriptor 2 -/
  err : List Nat

/-! ## C arrays and strings -/

/-- Read `buf[i]`. -/
def rd (buf : List Nat) (i : Int) : Nat :=
  if i < 0 then 0 else buf.getD i.toNat 0

/-- Write `buf[i] = v`. -/
def wr (buf : List Nat) (i : Int) (v : Nat) : List Nat :=
  if i < 0 then buf else buf.set i.toNat v

/-- The C string held in an array: the bytes before the first NUL. -/
def cstr : List Nat → List Nat
  | [] => []
  | a :: l => if a = 0 then [] else a :: cstr l

/-- The function `strlen` of the C library. -/
def strlen (buf : List Nat) : Int :=
  (cstr buf).length

/-- The conversion of an `int` to a byte (`char ch = c`). -/
def toByte (c : Int) : Nat :=
  (c % 256).toNat

/-- The function `strcpy(dst, src)`: `src` is an array holding a C string. -/
def strcpy (dst src : List Nat) : List Nat :=
  (cstr src ++ [0] ++ dst.drop ((cstr src).length + 1)).take dst.length

/-- The function `strncpy(dst, src, n)` for a heap string `src`: at most `n`
bytes are copied and the rest of the `n` bytes is filled with NUL. -/
def strncpy (dst src : List Nat) (n : Int) : List Nat :=
  (src.take n.toNat ++ List.replicate (n.toNat - src.length) 0 ++ dst.drop n.toNat).take dst.length

/-- The function `strstr(hay, needle)` on strings: the index of the first
occurrence of `needle` in `hay`, `none` for a `NULL` result. -/
def strstr (hay needle : List Nat) : Option Nat :=
  (List.range (hay.length + 1)).find? (fun i => needle.isPrefixOf (hay.drop i))

/-- The function `strchr(p, c)` tested against `NULL`. -/
def strchr (p : List Nat) (c : Nat) : Bool :=
  p.contains c

/-- The function `iscntrl` of the C locale. -/
def iscntrl (c : Int) : Bool :=
  (0 ≤ c ∧ c < 32) ∨ c = 127

/-- The function `isspace` of the C locale. -/
def isspace (c : Nat) : Bool :=
  c = 32 ∨ (9 ≤ c ∧ c ≤ 13)

/-! ## Loops -/

/-- The loop `for (i = lo; i < hi; i++) body(i)`. -/
def forUp {σ : Type} (lo hi : Int) (body : Int → σ → σ) (s : σ) : σ :=
  (List.range (hi - lo).toNat).foldl (fun acc (k : Nat) => body (lo + (k : Int)) acc) s

/-- The loop `for (i = hi; i >= lo; i--) body(i)`. -/
def forDown {σ : Type} (hi lo : Int) (body : Int → σ → σ) (s : σ) : σ :=
  (List.range (hi - lo + 1).toNat).foldl (fun acc (k : Nat) => body (hi - (k : Int)) acc) s

/-! ## Terminal output -/

/-- The bytes `gl_putc(c)` writes: RAW mode needs a carriage return after a newline. -/
def putcBytes (c : Nat) : List Nat :=
  if c = 10 then [10, 13] else [c]

/-- Write one char to the terminal. -/
def gl_putc (c : Nat) (s : State) : State :=
  { s with out := s.out ++ putcBytes c }

/-- Write a line to the terminal. -/
def gl_puts (buf : List Nat) (s : State) : State :=
  { s with out := s.out ++ buf }

/-! ## Set-up and tear-down -/

/-- Initializes hist pointers.  The ring has `HIST_SIZE` slots whatever `size` is. -/
def gl_hist_init (_size beep : Int) (s : State) : State :=
  { s with
    hist_buf := some [] :: List.replicate (s.HIST_SIZE - 1).toNat none
    hist_pos := 0
    hist_last := 0
    gl_init_done := 0
    gl_beep := beep }

/-- Undo effects of `gl_init`, as necessary: the kill buffer is freed. -/
def gl_cleanup (s : State) : State :=
  { s with gl_killbuf := [], gl_init_done := 0 }

/-- Write error msg and die: the result is the state at the `longjmp`. -/
def gl_error (msg : List Nat) (s : State) : State :=
  let s := gl_cleanup s
  { s with err := s.err ++ msg }

/-- The text of the overflow diagnostic. -/
def msgOverflow : List Nat :=
  "\n*** Error: getline(): input buffer overflow\n".toList.map Char.toNat

/-- The text of the diagnostic for a non-interactive call. -/
def msgNotInteractive : List Nat :=
  "\n*** Error: getline(): not interactive, use stdio.\n".toList.map Char.toNat

/-- Set up variables and terminal: the kill buffer is allocated afresh, zeroed. -/
def gl_init (s : State) : Except State State :=
  let s := if s.gl_init_done < 0 then gl_hist_init 512 1 s else s
  if s.tty = false then .error (gl_error msgNotInteractive s)
  else .ok { s with gl_killbuf := List.replicate s.BUF_SIZE.toNat 0, gl_init_done := 1 }

/-! ## The redraw routine -/

/-- The start of `gl_fixup`: a reset (`change == -2`) or a changed prompt
redraws the prompt.  The source keeps `last_prompt` in an array of 80 bytes
that `strcpy` fills without a test; here it is the string itself, which is
what the array holds for a prompt of at most 79 bytes. -/
def fixup_prompt (prompt : List Nat) (change : Int) (s0 : State) : State :=
  if change = -2 then
    let s := forUp 0 s0.gl_pos (fun _ => gl_putc 8) s0
    let s := { s with gl_pos := 0, gl_cnt := 0, gl_shift := 0, off_right := 0, off_left := 0 }
    let s := gl_puts prompt s
    { s with last_prompt := prompt, gl_width := s.gl_termw - s.gl_strlen prompt }
  else if prompt ≠ s0.last_prompt then
    let l1 := s0.gl_strlen s0.last_prompt
    let l2 := s0.gl_strlen prompt
    let s := { s0 with gl_cnt := s0.gl_cnt + l1 - l2, last_prompt := prompt }
    let s := forUp 0 (s0.gl_pos + l1) (fun _ => gl_putc 8) s
    let s := gl_puts prompt s
    { s with gl_pos := s.gl_shift, gl_width := s.gl_termw - l2 }
  else s0

/-- The value of `change` after the start of `gl_fixup`. -/
def fixup_change (prompt : List Nat) (change : Int) (s0 : State) : Int :=
  if change = -2 then 0 else if prompt ≠ s0.last_prompt then 0 else change

/-- The lines `if (change >= 0) { gl_cnt = strlen(gl_buf); ... }` of `gl_fixup`. -/
def fixup_count (change : Int) (s : State) : State :=
  if change ≥ 0 then { s with gl_cnt := strlen s.gl_buf } else s

/-- The bells of `gl_fixup` for a cursor out of range. -/
def fixup_bell (cursor : Int) (s : State) : State :=
  let s := if cursor > s.gl_cnt then (if cursor ≠ s.BUF_SIZE then gl_putc 7 s else s) else s
  let cursor := if cursor > s.gl_cnt then s.gl_cnt else cursor
  if cursor < 0 then gl_putc 7 s else s

/-- The cursor of `gl_fixup` brought into `[0, gl_cnt]`. -/
def fixup_cursor (cursor : Int) (s : State) : Int :=
  let cursor := if cursor > s.gl_cnt then s.gl_cnt else cursor
  if cursor < 0 then 0 else cursor

/-- The local `extra` of `gl_fixup`: it shifts the scrolling boundary. -/
def fixup_extra (cursor : Int) (s : State) : Int :=
  if s.off_right ≠ 0 ∨ (s.off_left ≠ 0 ∧ cursor < s.gl_shift + s.gl_width - Int.tdiv s.gl_scroll 2)
  then 2 else 0

/-- The local `new_shift` of `gl_fixup`: the value of shift based on cursor. -/
def fixup_new_shift (cursor : Int) (s : State) : Int :=
  let new_shift := cursor + fixup_extra cursor s + s.gl_scroll - s.gl_width
  if new_shift > 0 then Int.tdiv new_shift s.gl_scroll * s.gl_scroll else 0

/-- The locals of `gl_fixup` that bound the redraw. -/
structure Bounds where
  /-- left bound for redraw -/
  left : Int
  /-- right bound for redraw -/
  right : Int
  /-- alternate right bound, using `gl_extent` -/
  new_right : Int
  /-- how far to backup before fixing -/
  backup : Int

/-- The scroll decision of `gl_fixup`: the new `gl_shift`, `off_left`, `off_right`. -/
def fixup_scroll (change new_shift : Int) (s : State) : State :=
  if new_shift ≠ s.gl_shift then
    let s := { s with gl_shift := new_shift }
    let s := { s with off_left := if s.gl_shift ≠ 0 then 1 else 0 }
    { s with off_right := if s.gl_cnt > s.gl_shift + s.gl_width - 1 then 1 else 0 }
  else if change ≥ 0 then
    { s with off_right := if s.gl_cnt > s.gl_shift + s.gl_width - 1 then 1 else 0 }
  else s

/-- The scroll decision of `gl_fixup`: the bounds of the redraw; `s` is the
state before the decision and `backup` the value computed from it. -/
def fixup_bounds (change new_shift backup : Int) (s : State) : Bounds :=
  let t := fixup_scroll change new_shift s
  let right : Int := if t.off_right ≠ 0 then t.gl_shift + t.gl_width - 2 else t.gl_cnt
  if new_shift ≠ s.gl_shift then
    { left := t.gl_shift, right := right, new_right := right, backup := backup }
  else if change ≥ 0 then
    let left : Int := if change < s.gl_shift + s.off_left then s.gl_shift else change
    let backup : Int := if change < s.gl_shift + s.off_left then backup else s.gl_pos - change
    { left := left, right := right, backup := backup,
      new_right := if s.gl_extent ≠ 0 ∧ right > left + s.gl_extent then left + s.gl_extent
                   else right }
  else { left := 0, right := -1, new_right := -1, backup := backup }

/-- Whether the redraw of `gl_fixup` starts with the left `$` marker. -/
def fixup_marker (b : Bounds) (s : State) : Bool :=
  b.left = s.gl_shift ∧ s.off_left ≠ 0

/-- The end of the block `if (left <= right)` of `gl_fixup`: the right `$`
marker, or blanks that erase remains of the previous line. -/
def fixup_draw_end (b : Bounds) (pad : Int) (s : State) : State :=
  if s.off_right ≠ 0 ∧ b.new_right = b.right then
    let s := gl_putc 36 s
    { s with gl_pos := s.gl_pos + 1 }
  else
    let s := forUp 0 pad (fun _ => gl_putc 32) s
    { s with gl_pos := s.gl_pos + pad }

/-- The block `if (left <= right)` of `gl_fixup`: clean up screen. -/
def fixup_draw (b : Bounds) (pad : Int) (s : State) : State :=
  if b.left ≤ b.right then
    let s1 := forUp 0 b.backup (fun _ => gl_putc 8) s
    let s2 := if fixup_marker b s1 then gl_putc 36 s1 else s1
    let left : Int := if fixup_marker b s1 then b.left + 1 else b.left
    let s3 := forUp left b.new_right (fun i st => gl_putc (rd st.gl_buf i) st) s2
    fixup_draw_end b pad { s3 with gl_pos := b.new_right }
  else s

/-- The end of `gl_fixup`: move to final cursor location. -/
def fixup_move (cursor : Int) (s : State) : State :=
  let s :=
    if s.gl_pos - cursor > 0 then forUp 0 (s.gl_pos - cursor) (fun _ => gl_putc 8) s
    else forUp s.gl_pos cursor (fun i st => gl_putc (rd st.gl_buf i) st) s
  { s with gl_pos := cursor }

/-- The old drawn length of `gl_fixup`, also the new one after the scroll decision. -/
def fixup_len (s : State) : Int :=
  if s.off_right ≠ 0 then s.gl_width - 1 else s.gl_cnt - s.gl_shift

/-- Fix up state variables and screen.  `change` is the index of the start of
changes in the input buffer, `-1` for no changes, `-2` for a new line;
`cursor` is the desired location of the cursor, `BUF_SIZE` for the end of the line. -/
def gl_fixup (prompt : List Nat) (change cursor : Int) (s0 : State) : State :=
  let s1 := fixup_prompt prompt change s0
  let change1 := fixup_change prompt change s0
  let pad0 := fixup_len s1
  let backup0 := s1.gl_pos - s1.gl_shift
  let s2 := fixup_count change1 s1
  let change2 := if change1 ≥ 0 ∧ change1 > s2.gl_cnt then s2.gl_cnt else change1
  let s3 := fixup_bell cursor s2
  let cursor1 := fixup_cursor cursor s2
  let new_shift := fixup_new_shift cursor1 s3
  let b := fixup_bounds change2 new_shift backup0 s3
  let s4 := fixup_scroll change2 new_shift s3
  let pad1 := pad0 - fixup_len s4
  let pad := if pad1 < 0 then 0 else pad1
  let s5 := fixup_draw b pad s4
  fixup_move cursor1 s5

/-! ## Editing commands -/

/-- Adds the character `c` to the input buffer at current location. -/
def gl_addchar (c : Int) (s : State) : State :=
  if s.gl_cnt ≥ s.BUF_SIZE - 2 then gl_putc 7 s
  else if s.gl_overwrite = 0 ∨ s.gl_pos = s.gl_cnt then
    let buf := forDown s.gl_cnt s.gl_pos (fun i b => wr b (i + 1) (rd b i)) s.gl_buf
    let buf := wr buf s.gl_pos (toByte c)
    gl_fixup s.gl_prompt s.gl_pos (s.gl_pos + 1) { s with gl_buf := buf }
  else
    gl_fixup s.gl_prompt s.gl_pos (s.gl_pos + 1)
      { s with gl_buf := wr s.gl_buf s.gl_pos (toByte c), gl_extent := 1 }

/-- The buffer of `gl_yank` in insert mode: the tail moves right by `len` and
the kill buffer is copied in. -/
def yank_insert (len : Int) (s : State) : List Nat :=
  let buf := forDown s.gl_cnt s.gl_pos (fun i b => wr b (i + len) (rd b i)) s.gl_buf
  forUp 0 len (fun i b => wr b (s.gl_pos + i) (rd s.gl_killbuf i)) buf

/-- The buffer of `gl_yank` in overwrite mode. -/
def yank_over (len : Int) (s : State) : List Nat :=
  let buf := if s.gl_pos + len > s.gl_cnt then wr s.gl_buf (s.gl_pos + len) 0 else s.gl_buf
  forUp 0 len (fun i b => wr b (s.gl_pos + i) (rd s.gl_killbuf i)) buf

/-- Adds the kill buffer to the input buffer at current location. -/
def gl_yank (s : State) : Except State State :=
  let len := strlen s.gl_killbuf
  if len > 0 then
    if s.gl_overwrite = 0 then
      if s.gl_cnt + len ≥ s.BUF_SIZE - 1 then .error (gl_error msgOverflow s)
      else .ok (gl_fixup s.gl_prompt s.gl_pos (s.gl_pos + len)
                  { s with gl_buf := yank_insert len s })
    else
      if s.gl_pos + len > s.gl_cnt ∧ s.gl_pos + len ≥ s.BUF_SIZE - 1 then
        .error (gl_error msgOverflow s)
      else .ok (gl_fixup s.gl_prompt s.gl_pos (s.gl_pos + len)
                  { s with gl_buf := yank_over len s, gl_extent := len })
  else .ok (gl_putc 7 s)

/-- Switch character under cursor and to left of cursor. -/
def gl_transpose (s : State) : State :=
  if s.gl_pos > 0 ∧ s.gl_cnt > s.gl_pos then
    let c := rd s.gl_buf (s.gl_pos - 1)
    let buf := wr s.gl_buf (s.gl_pos - 1) (rd s.gl_buf s.gl_pos)
    let buf := wr buf s.gl_pos c
    gl_fixup s.gl_prompt (s.gl_pos - 1) s.gl_pos { s with gl_buf := buf, gl_extent := 2 }
  else gl_putc 7 s

/-- The buffer that `gl_newline` finalizes: the one the out hook leaves. -/
def newline_buf (s : State) : List Nat :=
  match s.gl_out_hook with
  | some h => (h s.gl_buf).1
  | none => s.gl_buf

/-- The local `change` of `gl_newline`. -/
def newline_change (s : State) : Int :=
  match s.gl_out_hook with
  | some h => (h s.gl_buf).2
  | none => s.gl_cnt

/-- The local `len` of `gl_newline`. -/
def newline_len (s : State) : Int :=
  match s.gl_out_hook with
  | some h => strlen (h s.gl_buf).1
  | none => s.gl_cnt

/-- Cleans up entire line before returning to caller.  A newline is appended. -/
def gl_newline (s : State) : Except State State :=
  if s.gl_cnt ≥ s.BUF_SIZE - 1 then .error (gl_error msgOverflow s)
  else
    let len := newline_len s
    let loc := if s.gl_width - 5 > len then len else s.gl_width - 5
    let s1 := gl_fixup s.gl_prompt (newline_change s) loc { s with gl_buf := newline_buf s }
    .ok (gl_putc 10 { s1 with gl_buf := wr (wr s1.gl_buf len 10) (len + 1) 0 })

/-- Delete a character: `loc = -1` deletes the character to left of cursor,
`loc = 0` the character under cursor. -/
def gl_del (loc : Int) (s : State) : State :=
  if (loc = -1 ∧ s.gl_pos > 0) ∨ (loc = 0 ∧ s.gl_pos < s.gl_cnt) then
    let buf := forUp (s.gl_pos + loc) s.gl_cnt (fun i b => wr b i (rd b (i + 1))) s.gl_buf
    gl_fixup s.gl_prompt (s.gl_pos + loc) (s.gl_pos + loc) { s with gl_buf := buf }
  else gl_putc 7 s

/-- Delete from `pos` to the end of line. -/
def gl_kill (pos : Int) (s : State) : State :=
  if pos < s.gl_cnt then
    gl_fixup s.gl_prompt pos pos
      { s with gl_killbuf := strcpy s.gl_killbuf (s.gl_buf.drop pos.toNat),
               gl_buf := wr s.gl_buf pos 0 }
  else gl_putc 7 s

/-- The loop `while (p(gl_buf[pos]) && pos < gl_cnt) pos++`; it runs at most
`gl_cnt - pos` times. -/
def scanUp (p : Nat → Bool) (buf : List Nat) (cnt : Int) : Nat → Int → Int
  | 0, pos => pos
  | n + 1, pos => if p (rd buf pos) ∧ pos < cnt then scanUp p buf cnt n (pos + 1) else pos

/-- The loop `while (p(gl_buf[pos]) && pos > 0) pos--`; it runs at most `pos` times. -/
def scanDown (p : Nat → Bool) (buf : List Nat) : Nat → Int → Int
  | 0, pos => pos
  | n + 1, pos => if p (rd buf pos) ∧ pos > 0 then scanDown p buf n (pos - 1) else pos

/-- The position `gl_word` moves to. -/
def word_target (direction : Int) (s : State) : Int :=
  if direction > 0 then
    let pos := scanUp (fun c => !isspace c) s.gl_buf s.gl_cnt (s.gl_cnt - s.gl_pos).toNat s.gl_pos
    scanUp isspace s.gl_buf s.gl_cnt (s.gl_cnt - pos).toNat pos
  else
    let pos := if s.gl_pos > 0 then s.gl_pos - 1 else s.gl_pos
    let pos := scanDown isspace s.gl_buf pos.toNat pos
    let pos := scanDown (fun c => !isspace c) s.gl_buf pos.toNat pos
    if pos < s.gl_cnt ∧ isspace (rd s.gl_buf pos) then pos + 1 else pos

/-- Move forward or backward one word. -/
def gl_word (direction : Int) (s : State) : State :=
  gl_fixup s.gl_prompt (-1) (word_target direction s) s

/-- Emit a newline, reset and redraw prompt and current input line. -/
def gl_redraw (s : State) : State :=
  if s.gl_init_done > 0 then gl_fixup s.gl_prompt (-2) s.gl_pos (gl_putc 10 s) else s

/-- Default tab handler, acts like tabstops every 8 cols.  The result is the
buffer, the new `*loc` and the returned index. -/
def gl_tab (buf : List Nat) (offset loc : Int) : List Nat × Int × Int :=
  let len := strlen buf
  let count := 8 - Int.tmod (offset + loc) 8
  let buf := forDown len loc (fun i b => wr b (i + count) (rd b i)) buf
  let buf := forUp 0 count (fun i b => wr b (loc + i) 32) buf
  (buf, loc + count, loc)

/-- Specify width of screen. -/
def gl_setwidth (w : Int) (s : State) : Except State State :=
  if w > 20 then .ok { s with gl_termw := w, gl_scroll := Int.tdiv w 3 }
  else .error (gl_error ("\n*** Error: minimum screen width is 21\n".toList.map Char.toNat) s)

/-- Bind `gl_strlen`. -/
def gl_strwidth (func : Option (List Nat → Int)) (s : State) : State :=
  match func with
  | some f => { s with gl_strlen := f }
  | none => s

/-! ## History -/

/-- Read the slot `hist_buf[i]`. -/
def hslot (s : State) (i : Int) : Option (List Nat) :=
  if i < 0 then none else s.hist_buf.getD i.toNat none

/-- Write the slot `hist_buf[i] = e`. -/
def hset (h : List (Option (List Nat))) (i : Int) (e : Option (List Nat)) :
    List (Option (List Nat)) :=
  if i < 0 then h else h.set i.toNat e

/-- Makes a copy of a string, without NL: when the string holds a newline the
copy is its first `len - 1` bytes. -/
def hist_save (p : List Nat) : List Nat :=
  if strchr p 10 then p.take (p.length - 1) else p

/-- The statements of `gl_histadd` that store `buf` and move `hist_last`. -/
def hist_store (buf : List Nat) (s : State) : State :=
  let last := Int.tmod (s.hist_last + 1) s.HIST_SIZE
  { s with
    hist_buf := hset (hset s.hist_buf s.hist_last (some (hist_save buf))) last (some [])
    hist_prev_saved := some (hist_save buf)
    hist_last := last }

/-- The test of `gl_histadd` under `SKIP_DUPLICATES`: whether `buf` differs
from the entry saved last (`p` is `buf` after its leading blanks). -/
def hist_differs (buf p : List Nat) (s : State) : Bool :=
  let len : Int := (buf.length : Int) - (if strchr p 10 then 1 else 0)
  match s.hist_prev_saved with
  | none => true
  | some prev => (prev.length : Int) ≠ len ∨ prev.take len.toNat ≠ buf.take len.toNat

/-- The start of `gl_histadd`, in case it is called before `getline`. -/
def histadd_init (s : State) : State :=
  if s.gl_init_done < 0 then { gl_hist_init 512 1 s with gl_init_done := 0 } else s

/-- Adds entries to hist; `skipDup` tells whether `SKIP_DUPLICATES` is defined. -/
def gl_histadd (skipDup : Bool) (buf : List Nat) (s0 : State) : State :=
  let s := histadd_init s0
  let p := buf.dropWhile (fun c => c = 32 ∨ c = 9 ∨ c = 10)
  let s1 :=
    if p ≠ [] then
      (if skipDup then (if hist_differs buf p s then hist_store buf s else s)
       else hist_store buf s)
    else s
  { s1 with hist_pos := s1.hist_last }

/-- The bell of the history routines, rung when the entry found is `NULL`. -/
def hist_bell (s : State) : State :=
  if s.gl_beep ≠ 0 then gl_putc 7 s else s

/-- Loads previous hist entry into input buffer, sticks on first.  The result
is the string returned and the state. -/
def gl_hist_prev (s : State) : List Nat × State :=
  let next := Int.tmod (s.hist_pos - 1 + s.HIST_SIZE) s.HIST_SIZE
  if hslot s s.hist_pos ≠ none ∧ next ≠ s.hist_last then
    match hslot s next with
    | some e => (e, { s with hist_pos := next })
    | none => ([], hist_bell { s with hist_pos := next })
  else ([], hist_bell s)

/-- Loads next hist entry into input buffer, clears on last.  The result is
the string returned and the state. -/
def gl_hist_next (s : State) : List Nat × State :=
  if s.hist_pos ≠ s.hist_last then
    let next := Int.tmod (s.hist_pos + 1) s.HIST_SIZE
    match hslot s next with
    | some e => (e, { s with hist_pos := next })
    | none => ([], hist_bell { s with hist_pos := next })
  else ([], hist_bell s)

/-- The lines `gl_savehistory` writes to the file, `none` when it returns
before opening it.  The first loop tests the address `hist_buf + i`, which is
never null, so it writes nothing. -/
def gl_savehistory (s : State) : Option (List (List Nat)) :=
  if s.hist_last = 0 then none
  else some ((List.range s.hist_last.toNat).map (fun i => ((hslot s i).getD []) ++ [10]))

/-- Loads the lines of a file, each with its newline, into the history. -/
def gl_loadhistory (skipDup : Bool) (lines : List (List Nat)) (s : State) : State :=
  lines.foldl (fun acc l => gl_histadd skipDup l acc) s

/-! ## Search -/

/-- Increment, decrement or reset the search string and its prompt. -/
def search_update (c : Int) (s : State) : State :=
  if c = 0 then
    { s with
      search_pos := 0
      search_string := wr s.search_string 0 0
      search_prompt := wr (wr (wr s.search_prompt 0 63) 1 32) 2 0 }
  else if c > 0 then
    { s with
      search_string := wr (wr s.search_string s.search_pos (toByte c)) (s.search_pos + 1) 0
      search_prompt :=
        wr (wr (wr (wr s.search_prompt s.search_pos (toByte c)) (s.search_pos + 1) 63)
          (s.search_pos + 2) 32) (s.search_pos + 3) 0
      search_pos := s.search_pos + 1 }
  else if s.search_pos > 0 then
    { s with
      search_pos := s.search_pos - 1
      search_string := wr s.search_string (s.search_pos - 1) 0
      search_prompt :=
        wr (wr (wr s.search_prompt (s.search_pos - 1) 63) s.search_pos 32) (s.search_pos + 1) 0 }
  else { gl_putc 7 s with hist_pos := s.hist_last }

/-- The lines `strncpy(gl_buf, p, BUF_SIZE-2); gl_buf[BUF_SIZE-2] = 0`. -/
def load_buf (p : List Nat) (s : State) : State :=
  { s with gl_buf := wr (strncpy s.gl_buf p (s.BUF_SIZE - 2)) (s.BUF_SIZE - 2) 0 }

/-- The outcome of one history step of a search: `p` is the entry returned. -/
def search_hit (new_search : Int) (p : List Nat) (loc : Nat) (s : State) : State :=
  let s1 := gl_fixup (cstr s.search_prompt) 0 loc (load_buf p s)
  if new_search ≠ 0 then { s1 with search_last := s1.hist_pos } else s1

/-- The outcome of a search that found nothing. -/
def search_miss (s : State) : State :=
  gl_fixup (cstr s.search_prompt) 0 0 { s with gl_buf := wr s.gl_buf 0 0 }

/-- The loop `while (!found)` of `search_back` and `search_forw`, over the
history routine `step`; `none` when the fuel runs out. -/
def search_loop (step : State → List Nat × State) (new_search : Int) :
    Nat → State → Option State
  | 0, _ => none
  | n + 1, s =>
    let r := step s
    if r.1 = [] then some (search_miss r.2)
    else
      match strstr r.1 (cstr r.2.search_string) with
      | some loc => some (search_hit new_search r.1 loc r.2)
      | none => search_loop step new_search n r.2

/-- The entry into search mode, common to `search_back` and `search_forw`. -/
def search_enter (s : State) : State :=
  let s1 := search_update 0 { s with search_last := s.hist_last, hist_pos := s.hist_last }
  gl_fixup (cstr s1.search_prompt) 0 0 { s1 with gl_search_mode := 1, gl_buf := wr s1.gl_buf 0 0 }

/-- Look back for current string. -/
def search_back (new_search : Int) (s0 : State) : Option State :=
  let s := { s0 with search_forw_flg := 0 }
  if s.gl_search_mode = 0 then some (search_enter s)
  else if s.search_pos > 0 then search_loop gl_hist_prev new_search (s.HIST_SIZE.toNat + 1) s
  else some (gl_putc 7 s)

/-- Look forw for current string. -/
def search_forw (new_search : Int) (s0 : State) : Option State :=
  let s := { s0 with search_forw_flg := 1 }
  if s.gl_search_mode = 0 then some (search_enter s)
  else if s.search_pos > 0 then search_loop gl_hist_next new_search (s.HIST_SIZE.toNat + 1) s
  else some (gl_putc 7 s)

/-- The block `if (c < 0)` of `search_addchar`: reload the entry of the last
match, or of the blank line. -/
def search_reload (s : State) : State :=
  let s1 :=
    if s.search_pos > 0 then { s with hist_pos := s.search_last }
    else { s with gl_buf := wr s.gl_buf 0 0, hist_pos := s.hist_last }
  load_buf ((hslot s1 s1.hist_pos).getD []) s1

/-- Increment search string (`c < 0` unwinds it). -/
def search_addchar (c : Int) (s0 : State) : Option State :=
  let s1 := search_update c s0
  let s := if c < 0 then search_reload s1 else s1
  match strstr (cstr s.gl_buf) (cstr s.search_string) with
  | some loc => some (gl_fixup (cstr s.search_prompt) 0 loc s)
  | none =>
    if s.search_pos > 0 then
      (if s.search_forw_flg ≠ 0 then search_forw 0 s else search_back 0 s)
    else some (gl_fixup (cstr s.search_prompt) 0 0 s)

/-- The call of `gl_in_hook`, when one is installed. -/
def in_hook (s : State) : State :=
  match s.gl_in_hook with
  | some h => { s with gl_buf := h s.gl_buf }
  | none => s

/-- Reset with current contents. -/
def search_term (s : State) : State :=
  let s1 := { s with gl_search_mode := 0 }
  let s2 := if rd s1.gl_buf 0 = 0 then { s1 with hist_pos := s1.hist_last } else s1
  let s3 := in_hook s2
  gl_fixup s3.gl_prompt 0 s3.gl_pos s3

/-! ## The main loop -/

/-- What one turn of the loop of `getline` leads to. -/
inductive Outcome where
  /-- the loop goes on -/
  | cont (s : State)
  /-- `getline` returns `gl_buf` -/
  | ret (s : State)
  /-- `gl_error` was called: control is at `setjmp` again -/
  | jump (s : State)
  /-- a search loop ran out of fuel -/
  | stuck

/-- Read one char from terminal: the next key, `-1` when no key is left. -/
def gl_getc (s : State) : Int × State :=
  match s.inp with
  | [] => (-1, s)
  | c :: rest => (c, { s with inp := rest })

/-- Lift a routine that may call `gl_error`. -/
def ofExcept (r : Except State State) : Outcome :=
  match r with
  | .ok s => .cont s
  | .error s => .jump s

/-- Lift a search routine. -/
def ofSearch (r : Option State) : Outcome :=
  match r with
  | some s => .cont s
  | none => .stuck

/-- The cases `^N`, `^P` and the arrow keys up and down: load the history entry
`r.1` into the buffer. -/
def hist_load (r : List Nat × State) : State :=
  let s := in_hook (load_buf r.1 r.2)
  gl_fixup s.gl_prompt 0 s.BUF_SIZE s

/-- The case `^C`. -/
def key_intr (s : State) : State :=
  let s1 := gl_fixup s.gl_prompt (-1) s.gl_cnt s
  let s2 := gl_kill 0 (gl_puts [94, 67, 10] s1)
  gl_fixup s2.gl_prompt (-2) s2.BUF_SIZE s2

/-- The case `^D`: end of input on an empty line, else delete under the cursor. -/
def key_eof (s : State) : Outcome :=
  if s.gl_cnt = 0 then .ret (gl_putc 10 (gl_cleanup { s with gl_buf := wr s.gl_buf 0 0 }))
  else .cont (gl_del 0 s)

/-- The case TAB. -/
def key_tab (s : State) : State :=
  match s.gl_tab_hook with
  | some h =>
    let r := h s.gl_buf (s.gl_strlen s.gl_prompt) s.gl_pos
    let s1 := { s with gl_buf := r.1 }
    if r.2.2 ≥ 0 ∨ r.2.1 ≠ s.gl_pos then gl_fixup s1.gl_prompt r.2.2 r.2.1 s1 else s1
  | none => s

/-- The case of the escape key after `[`: ansi arrow keys. -/
def key_arrow (c : Int) (s : State) : State :=
  if c = 65 then hist_load (gl_hist_prev s)
  else if c = 66 then hist_load (gl_hist_next s)
  else if c = 67 then gl_fixup s.gl_prompt (-1) (s.gl_pos + 1) s
  else if c = 68 then gl_fixup s.gl_prompt (-1) (s.gl_pos - 1) s
  else gl_putc 7 s

/-- The case of the escape key: it reads one or two more keys. -/
def key_esc (s : State) : State :=
  let r := gl_getc s
  if r.1 = 91 then
    let r2 := gl_getc r.2
    key_arrow r2.1 r2.2
  else if r.1 = 102 ∨ r.1 = 70 then gl_word 1 r.2
  else if r.1 = 98 ∨ r.1 = 66 then gl_word (-1) r.2
  else gl_putc 7 r.2

/-- The cases of `switch (c)` that move the cursor or change the text. -/
def key_edit (c : Int) (s : State) : Outcome :=
  if c = 1 then .cont (gl_fixup s.gl_prompt (-1) 0 s)
  else if c = 2 then .cont (gl_fixup s.gl_prompt (-1) (s.gl_pos - 1) s)
  else if c = 3 then .cont (key_intr s)
  else if c = 4 then key_eof s
  else if c = 5 then .cont (gl_fixup s.gl_prompt (-1) s.gl_cnt s)
  else if c = 6 then .cont (gl_fixup s.gl_prompt (-1) (s.gl_pos + 1) s)
  else if c = 8 ∨ c = 127 then .cont (gl_del (-1) s)
  else if c = 9 then .cont (key_tab s)
  else if c = 11 then .cont (gl_kill s.gl_pos s)
  else if c = 12 then .cont (gl_redraw s)
  else if c = 15 then .cont { s with gl_overwrite := if s.gl_overwrite = 0 then 1 else 0 }
  else if c = 20 then .cont (gl_transpose s)
  else if c = 21 then .cont (gl_kill 0 s)
  else if c = 25 then ofExcept (gl_yank s)
  else if c = 27 then .cont (key_esc s)
  else .cont (if c > 0 then gl_putc 7 s else s)

/-- The statement `switch (c)` of `getline`.  Its default case is the one
compiled without `__unix__`. -/
def key_switch (c : Int) (s : State) : Outcome :=
  if c = 10 ∨ c = 13 then
    match gl_newline s with
    | .ok t => .ret (gl_cleanup t)
    | .error t => .jump t
  else if c = 14 then .cont (hist_load (gl_hist_next s))
  else if c = 16 then .cont (hist_load (gl_hist_prev s))
  else if c = 18 then ofSearch (search_back 1 s)
  else if c = 19 then ofSearch (search_forw 1 s)
  else key_edit c s

/-- The block `if (gl_search_mode)` for a control key: the key that goes on
to `switch (c)` and the state; `none` when a search loop ran out of fuel. -/
def search_key (c : Int) (s : State) : Option (Int × State) :=
  if s.gl_search_mode ≠ 0 then
    if c = 27 ∨ c = 14 ∨ c = 16 then some (0, search_term s)
    else if c = 8 ∨ c = 127 then (search_addchar (-1) s).map (fun t => (0, t))
    else if c ≠ 18 ∧ c ≠ 19 then some (c, search_term s)
    else some (c, s)
  else some (c, s)

/-- The body of the loop of `getline` for the key `c`. -/
def key (c : Int) (s0 : State) : Outcome :=
  let s := { s0 with gl_extent := 0 }
  if iscntrl c = false then
    (if s.gl_search_mode ≠ 0 then ofSearch (search_addchar c s) else .cont (gl_addchar c s))
  else
    match search_key c s with
    | some r => key_switch r.1 r.2
    | none => .stuck

/-- The branch of `getline` taken when `setjmp` returns after a `longjmp`:
`gl_newline(); gl_cleanup(); return gl_buf`.  When `gl_newline` calls
`gl_error` here, control comes back to this branch with `gl_cnt` and
`BUF_SIZE` as they were, so the call never returns: `none`.  In the source
`gl_error` has run `gl_cleanup` before the jump, so the `gl_cleanup` of this
branch frees `gl_killbuf` a second time, and after a failed `gl_init` the
pointer `gl_prompt` is what the call before left (`NULL` in a fresh program); both
are undefined behaviour, which the result `some` here does not show. -/
def recover (s : State) : Option State :=
  match gl_newline s with
  | .ok t => some (gl_cleanup t)
  | .error _ => none

/-- The loop `while ((c = gl_getc()) >= 0)` of `getline` and the lines after
it.  Every turn reads a key, so `inp.length + 1` turns of fuel are enough;
`none` is a call that does not return. -/
def getline_loop : Nat → State → Option State
  | 0, _ => none
  | n + 1, s =>
    let r := gl_getc s
    if r.1 ≥ 0 then
      match key r.1 r.2 with
      | .cont t => getline_loop n t
      | .ret t => some t
      | .jump t => recover t
      | .stuck => none
    else
      match gl_newline r.2 with
      | .ok t => some (gl_cleanup t)
      | .error t => recover t

/-- The lines of `getline` before its loop. -/
def getline_start (prompt : Option (List Nat)) (buf : List Nat) (buflen : Int) (s : State) :
    Except State State :=
  match gl_init { s with BUF_SIZE := buflen, gl_buf := wr buf 0 0 } with
  | .error e => .error e
  | .ok s1 =>
    let s2 := in_hook { s1 with gl_pos := 0, gl_prompt := prompt.getD [] }
    .ok (gl_fixup s2.gl_prompt (-2) s2.BUF_SIZE s2)

/-- Read a line of input into the array `buf` of `buflen` bytes.  The result
is the state at the return, whose `gl_buf` is the array returned. -/
def getline (prompt : Option (List Nat)) (buf : List Nat) (buflen : Int) (s : State) :
    Option State :=
  match getline_start prompt buf buflen s with
  | .error e => recover e
  | .ok s1 => getline_loop (s1.inp.length + 1) s1

/-! ## The state at program start -/

/-- The values the static variables have when the program starts, with the
keys `keys` waiting on a terminal. -/
def initial (keys : List Int) : State where
  BUF_SIZE := 0
  gl_init_done := -1
  gl_termw := 80
  gl_scroll := 27
  gl_width := 0
  gl_extent := 0
  gl_overwrite := 0
  gl_pos := 0
  gl_cnt := 0
  gl_buf := []
  gl_killbuf := []
  gl_prompt := []
  gl_search_mode := 0
  gl_in_hook := none
  gl_out_hook := none
  gl_tab_hook := some gl_tab
  gl_strlen := fun p => (p.length : Int)
  gl_shift := 0
  off_right := 0
  off_left := 0
  last_prompt := []
  HIST_SIZE := 512
  hist_pos := 0
  hist_last := 0
  gl_beep := 1
  hist_buf := []
  hist_prev_saved := none
  search_prompt := List.replicate 101 0
  search_string := List.replicate 100 0
  search_pos := 0
  search_forw_flg := 0
  search_last := 0
  tty := true
  inp := keys
  out := []
  err := []

/-- The bytes of a string literal. -/
def bytes (t : String) : List Nat :=
  t.toList.map Char.toNat

/-- The keys that type a string. -/
def keysOf (t : String) : List Int :=
  t.toList.map (fun ch => (ch.toNat : Int))

/-! ## Frames: what the redraw routine leaves alone -/

/-- The state `t` differs from `s` at most in the variables `gl_fixup` assigns. -/
def Frame (s t : State) : Prop :=
  t = { s with
    gl_pos := t.gl_pos
    gl_cnt := t.gl_cnt
    gl_shift := t.gl_shift
    off_right := t.off_right
    off_left := t.off_left
    last_prompt := t.last_prompt
    gl_width := t.gl_width
    out := t.out }

/-- The state `t` differs from `s` at most in the cursor, the scroll state and
the output. -/
def View (s t : State) : Prop :=
  t = { s with
    gl_pos := t.gl_pos
    gl_shift := t.gl_shift
    off_right := t.off_right
    off_left := t.off_left
    out := t.out }

/-! ## The line buffer of the specification -/

/-- The array `gl_buf` holds a line: it has `BUF_SIZE` bytes, `gl_cnt` is the
length of the string in it, whose NUL lies inside the array, and the cursor is
in `[0, gl_cnt]`. -/
def BufOk (s : State) : Prop :=
  (s.gl_buf.length : Int) = s.BUF_SIZE ∧ s.gl_cnt = strlen s.gl_buf ∧ s.gl_cnt < s.BUF_SIZE
    ∧ 0 ≤ s.gl_pos ∧ s.gl_pos ≤ s.gl_cnt

/-- A key that is not a control code: what `getline` hands to `gl_addchar`. -/
def printable (c : Int) : Prop :=
  32 ≤ c ∧ c ≤ 255 ∧ c ≠ 127

/-- The text of the line being edited. -/
def contents (s : State) : List Nat :=
  cstr s.gl_buf

/-- The LineBuffer of the specification. -/
structure LineBuffer where
  /-- the valid characters -/
  contents : List Nat
  /-- the insertion point -/
  cursor : Int
  /-- the mode flag -/
  overwrite : Bool
  /-- the configured max line length -/
  capacity : Int

/-- The LineBuffer a state stands for. -/
def lineOf (s : State) : LineBuffer where
  contents := contents s
  cursor := s.gl_pos
  overwrite := s.gl_overwrite ≠ 0
  capacity := s.BUF_SIZE

/-- The reference insertion, written from the specification: with room left,
if not in overwrite mode, or cursor is at end, it shifts all characters
at/after cursor right by one and writes the new character, else it overwrites
in place; with `length ≥ capacity − 2` it rejects.  The flag is the bell. -/
def insert_at (b : LineBuffer) (c : Nat) : LineBuffer × Bool :=
  if (b.contents.length : Int) ≥ b.capacity - 2 then (b, true)
  else if b.overwrite = false ∨ b.cursor = b.contents.length then
    ({ b with
       contents := b.contents.take b.cursor.toNat ++ c :: b.contents.drop b.cursor.toNat
       cursor := b.cursor + 1 }, false)
  else ({ b with contents := b.contents.set b.cursor.toNat c, cursor := b.cursor + 1 }, false)

/-! ## Sample states -/

/-- A state in the middle of a call of `getline` with an empty prompt: the
buffer array `buf`, of which `cnt` bytes are the line, and the cursor `pos`. -/
def editing (buf : List Nat) (cnt pos : Int) : State :=
  { initial [] with
    BUF_SIZE := buf.length
    gl_init_done := 1
    gl_width := 80
    gl_buf := buf
    gl_cnt := cnt
    gl_pos := pos
    gl_killbuf := List.replicate buf.length 0
    hist_buf := some [] :: List.replicate 511 none }

/-- The line `hi` in an array of 8 bytes, the cursor between `h` and `i`. -/
def sample_hi : State :=
  editing [104, 105, 0, 0, 0, 0, 0, 0] 2 1

/-- The line `hi` in an array of 8 bytes, the cursor between `h` and `i`,
in overwrite mode. -/
def sample_over : State :=
  { sample_hi with gl_overwrite := 1 }

/-- The line `hi` filling an array of 4 bytes, the cursor at the end. -/
def sample_full : State :=
  editing [104, 105, 0, 0] 2 2

/-- The state after `n` turns of the loop of `getline`, when each of them
reads a key and goes on with the loop; `none` otherwise. -/
def turns : Nat → State → Option State
  | 0, s => some s
  | n + 1, s =>
    match turns n s with
    | none => none
    | some t =>
      if (gl_getc t).1 ≥ 0 then
        match key (gl_getc t).1 (gl_getc t).2 with
        | .cont u => some u
        | _ => none
      else none

/-- The state in which `getline` enters its loop, `none` when `gl_init` fails. -/
def entered (prompt : Option (List Nat)) (buf : List Nat) (buflen : Int) (s : State) :
    Option State :=
  match getline_start prompt buf buflen s with
  | .ok t => some t
  | .error _ => none

/-- The length, the cursor and the capacity of the line buffer. -/
def measures (s : State) : Int × Int × Int :=
  (s.gl_cnt, s.gl_pos, s.BUF_SIZE)

/-- The call `getline("> ", buf, 15)` of a fresh program, just before its loop,
with the Tab key waiting twice. -/
def sample_tabs : Option State :=
  entered (some (bytes "> ")) (List.replicate 15 0) 15 (initial [9, 9])

/-! ## Browsing the history -/

/-- The state after `n` calls of `gl_hist_prev`. -/
def prev_n : Nat → State → State
  | 0, s => s
  | n + 1, s => (gl_hist_prev (prev_n n s)).2

/-- The state after `n` calls of `gl_hist_next`. -/
def next_n : Nat → State → State
  | 0, s => s
  | n + 1, s => (gl_hist_next (next_n n s)).2

/-- The history ring is in order: it has `HIST_SIZE ≥ 1` slots, both cursors
point into it, and the slot at `hist_last` holds the empty string. -/
def HistOk (s : State) : Prop :=
  1 ≤ s.HIST_SIZE ∧ (s.hist_buf.length : Int) = s.HIST_SIZE
    ∧ 0 ≤ s.hist_last ∧ s.hist_last < s.HIST_SIZE
    ∧ 0 ≤ s.hist_pos ∧ s.hist_pos < s.HIST_SIZE
    ∧ hslot s s.hist_last = some []

/-- The history ring is full: every slot but the one at `hist_last` holds an entry. -/
def HistFull (s : State) : Prop :=
  ∀ i, 0 ≤ i → i < s.HIST_SIZE → i ≠ s.hist_last → ∃ e, e ≠ [] ∧ hslot s i = some e

/-- The bytes a history routine writes when it returns the empty string for a
`NULL` entry. -/
def beep (s : State) : List Nat :=
  if s.gl_beep ≠ 0 then [7] else []

/-- A full ring of 512 slots, as 512 calls of `gl_histadd("a")` leave it after
`gl_hist_init(512, beep)`: the empty string in slot 0, `a` in the others. -/
def sample_ring (beep : Int) : State :=
  { initial [] with
    gl_init_done := 0
    gl_beep := beep
    hist_buf := some [] :: List.replicate 511 (some [97]) }

/-- The history after `gl_histadd("one\n")` and `gl_histadd("two\n")` in a
fresh program, compiled without `SKIP_DUPLICATES`. -/
def sample_two : State :=
  gl_histadd false (bytes "two\n") (gl_histadd false (bytes "one\n") (initial []))

/-- The state `t` differs from `s` at most in `hist_pos` and the output. -/
def Nav (s t : State) : Prop :=
  t = { s with hist_pos := t.hist_pos, out := t.out }

/-- The call `getline("> ", buf, 16)` with the entries `one` and `two` in the
history, just before its loop, with the key `^P` waiting three times. -/
def sample_prev3 : Option State :=
  entered (some (bytes "> ")) (List.replicate 16 0) 16 { sample_two with inp := [16, 16, 16] }

/-! ## The history across a call of `getline` -/

/-- The state `t` has the history of `s`: the ring, its cursors and the
variables that go with them. -/
def SameHist (s t : State) : Prop :=
  t.hist_buf = s.hist_buf ∧ t.hist_last = s.hist_last ∧ t.hist_pos = s.hist_pos
    ∧ t.HIST_SIZE = s.HIST_SIZE ∧ t.hist_prev_saved = s.hist_prev_saved ∧ t.gl_beep = s.gl_beep

/-- The history holds no entry: it is as `gl_hist_init` leaves it. -/
def HistEmpty (s : State) : Prop :=
  s.hist_last = 0 ∧ s.hist_buf = some [] :: List.replicate (s.HIST_SIZE - 1).toNat none

/-! ## Two calls of `getline` in a row -/

/-- The keys of two calls of `getline`: the first types `abc`, goes to the
start of the line with `^A`, kills the line with `^K` and commits; the second
yanks with `^Y` and commits. -/
def sample_kill_keys : List Int :=
  [97, 98, 99, 1, 11, 10, 25, 10]

/-- The first of two calls `getline("> ", buf, 16)` of a fresh program that
reads `sample_kill_keys`. -/
def sample_call1 : Option State :=
  getline (some (bytes "> ")) (List.replicate 16 0) 16 (initial sample_kill_keys)

/-- The second of the two calls: it goes on from the state the first returned in. -/
def sample_call2 : Option State :=
  sample_call1.bind (getline (some (bytes "> ")) (List.replicate 16 0) 16)

/-! ## Samples for the search keys -/

/-- The call `getline("> ", buf, 16)` of a fresh program, just before its loop,
with the keys `keys` waiting. -/
def sample_keys (keys : List Int) : Option State :=
  entered (some (bytes "> ")) (List.replicate 16 0) 16 (initial keys)

/-- The line `hi` in an array of 8 bytes, the cursor between `h` and `i`, in
search mode. -/
def sample_search : State :=
  { sample_hi with gl_search_mode := 1 }

/-! ## Walking through the history in a search -/

/-- Both history cursors point into the ring. -/
def Cursors (s : State) : Prop :=
  0 ≤ s.hist_last ∧ s.hist_last < s.HIST_SIZE ∧ 0 ≤ s.hist_pos ∧ s.hist_pos < s.HIST_SIZE

/-- The number of slots `gl_hist_prev` can still step onto: those between
`hist_last` and `hist_pos`, going back from `hist_pos`. -/
def prev_room (s : State) : Nat :=
  (if s.hist_pos > s.hist_last then s.hist_pos - s.hist_last - 1
   else s.hist_pos - s.hist_last - 1 + s.HIST_SIZE).toNat

/-- The number of slots `gl_hist_next` can still step onto: those from
`hist_pos` on up to `hist_last`. -/
def next_room (s : State) : Nat :=
  (if s.hist_pos ≤ s.hist_last then s.hist_last - s.hist_pos
   else s.hist_last - s.hist_pos + s.HIST_SIZE).toNat

/-- The state `t` differs from `s` at most in what a walk through the history
changes: the line, the variables `gl_fixup` assigns, `hist_pos`, `search_last`
and the output. -/
def Walk (s t : State) : Prop :=
  t = { s with
    gl_buf := t.gl_buf
    gl_pos := t.gl_pos
    gl_cnt := t.gl_cnt
    gl_shift := t.gl_shift
    off_right := t.off_right
    off_left := t.off_left
    last_prompt := t.last_prompt
    gl_width := t.gl_width
    hist_pos := t.hist_pos
    search_last := t.search_last
    out := t.out }

/-- The state `t` has the output of `s` with bytes added at its end. -/
def Appends (s t : State) : Prop :=
  ∃ o, t.out = s.out ++ o

/-- The call `getline("> ", buf, 16)` with the entries `one` and `two` in the
history, just before its loop, with the keys `keys` waiting. -/
def sample_hist (keys : List Int) : Option State :=
  entered (some (bytes "> ")) (List.replicate 16 0) 16 { sample_two with inp := keys }

/-- The line `hi` in an array of 8 bytes, in search mode with the pattern `hi`. -/
def sample_found : State :=
  { sample_search with search_pos := 2, search_string := 104 :: 105 :: List.replicate 98 0 }

/-! ## The scroll state of the redraw routine -/

/-- The state `t` differs from `s` at most in the cursor on the screen and the
output: what drawing changes. -/
def Drawn (s t : State) : Prop :=
  t = { s with
    gl_pos := t.gl_pos
    out := t.out }

/-- The scroll state is in order: the scroll width is positive, the line
length and the shift are not negative, the flag `off_left` is set only with a
shift, the flag `off_right` only when the line goes beyond the window, and
`gl_width` is the screen width less the width of the prompt drawn last. -/
def ViewOk (s : State) : Prop :=
  0 < s.gl_scroll ∧ 0 ≤ s.gl_cnt ∧ 0 ≤ s.gl_shift ∧ (s.gl_shift = 0 → s.off_left = 0)
    ∧ (s.off_right ≠ 0 → s.gl_cnt > s.gl_shift + s.gl_width - 1)
    ∧ s.gl_width = s.gl_termw - s.gl_strlen s.last_prompt

/-- The state before the scroll decision of `gl_fixup`: the prompt is drawn,
the line counted and the bells rung. -/
def fixup_ready (prompt : List Nat) (change cursor : Int) (s : State) : State :=
  fixup_bell cursor (fixup_count (fixup_change prompt change s) (fixup_prompt prompt change s))

/-- The cursor `gl_fixup` ends on. -/
def fixup_target (prompt : List Nat) (change cursor : Int) (s : State) : Int :=
  fixup_cursor cursor (fixup_count (fixup_change prompt change s) (fixup_prompt prompt change s))

/-- The value of `change` at the scroll decision of `gl_fixup`. -/
def fixup_changed (prompt : List Nat) (change : Int) (s : State) : Int :=
  if fixup_change prompt change s ≥ 0
      ∧ fixup_change prompt change s
          > (fixup_count (fixup_change prompt change s) (fixup_prompt prompt change s)).gl_cnt
  then (fixup_count (fixup_change prompt change s) (fixup_prompt prompt change s)).gl_cnt
  else fixup_change prompt change s

/-- The state after the scroll decision of `gl_fixup`. -/
def fixup_scrolled (prompt : List Nat) (change cursor : Int) (s : State) : State :=
  fixup_scroll (fixup_changed prompt change s)
    (fixup_new_shift (fixup_target prompt change cursor s) (fixup_ready prompt change cursor s))
    (fixup_ready prompt change cursor s)
/-- The state `t` has the scroll state of `s`. -/
def SameView (s t : State) : Prop :=
  t.gl_scroll = s.gl_scroll ∧ t.gl_cnt = s.gl_cnt ∧ t.gl_shift = s.gl_shift
    ∧ t.off_left = s.off_left ∧ t.off_right = s.off_right ∧ t.gl_width = s.gl_width
    ∧ t.gl_termw = s.gl_termw ∧ t.gl_strlen = s.gl_strlen ∧ t.last_prompt = s.last_prompt
/-- The call `getline("> ", buf, 32)` of a fresh program after
`gl_setwidth(21)`, just before its loop, with the keys `keys` waiting: the
usable width is 19 and the scroll width 7. -/
def sample_narrow (keys : List Int) : Option State :=
  match gl_setwidth 21 (initial keys) with
  | .ok s => entered (some (bytes "> ")) (List.replicate 32 0) 32 s
  | .error _ => none

/-! ## What the redraw routine writes -/

/-- The bytes the loop `for (i = lo; i < hi; i++) gl_putc(gl_buf[i])` writes. -/
def shown (buf : List Nat) (lo hi : Int) : List Nat :=
  (List.range (hi - lo).toNat).foldr (fun (k : Nat) o => putcBytes (rd buf (lo + (k : Int))) ++ o) []

/-- The state a reset with the prompt `p` leaves, with the array `buf` then
taken as the line buffer: nothing of the line is on the screen yet. -/
def fresh (p buf : List Nat) (u : State) : State :=
  { u with
    gl_buf := buf
    gl_pos := 0
    gl_cnt := 0
    gl_shift := 0
    off_right := 0
    off_left := 0
    last_prompt := p
    gl_width := u.gl_termw - u.gl_strlen p
    gl_extent := 0 }

/-- A fresh line on a screen of width 21 with the prompt `> `, so that the
usable width is 19 and the scroll width 7, and a line of 20 characters `a` in
an array of 32 bytes. -/
def sample_long : State :=
  fresh (bytes "> ") (List.replicate 20 97 ++ List.replicate 12 0)
    { initial [] with gl_termw := 21, gl_scroll := 7, BUF_SIZE := 32 }

/-! ## Searching the history -/

/-- The slot `k` entries back from `hist_last`. -/
def rslot (s : State) (k : Nat) : Int :=
  (s.hist_last - (k : Int)) % s.HIST_SIZE

/-- The list `es` holds the newest entries of the history, the newest first:
entry `k` of the list is in the slot `k + 1` back from `hist_last`; it is a
C string that is not empty and fits the line buffer. -/
def Recent (s : State) (es : List (List Nat)) : Prop :=
  (es.length : Int) < s.HIST_SIZE
    ∧ ∀ k, k < es.length →
        hslot s (rslot s (k + 1)) = some (es.getD k []) ∧ es.getD k [] ≠ []
          ∧ 0 ∉ es.getD k [] ∧ ((es.getD k []).length : Int) ≤ s.BUF_SIZE - 2

/-- The state `t` is in a backward search of the history of `s` with the
pattern `q`, `j` entries back from `hist_last`: the line holds that entry with
the cursor on the first occurrence of the pattern in it, and no newer entry
holds the pattern.  For `j = 0` the line is empty. -/
def Searching (s : State) (es : List (List Nat)) (q : List Nat) (j : Nat) (t : State) : Prop :=
  t.gl_search_mode ≠ 0 ∧ t.search_forw_flg = 0 ∧ t.search_string.length = 100
    ∧ cstr t.search_string = q ∧ t.search_pos = q.length
    ∧ t.hist_buf = s.hist_buf ∧ t.hist_last = s.hist_last ∧ t.HIST_SIZE = s.HIST_SIZE
    ∧ t.BUF_SIZE = s.BUF_SIZE ∧ (t.gl_buf.length : Int) = t.BUF_SIZE
    ∧ j ≤ es.length ∧ t.hist_pos = rslot s j
    ∧ (∀ i, i + 1 < j → strstr (es.getD i []) q = none)
    ∧ (j = 0 → contents t = [])
    ∧ (0 < j → contents t = es.getD (j - 1) []
        ∧ ∃ loc : Nat, strstr (es.getD (j - 1) []) q = some loc ∧ t.gl_pos = loc)

/-- The history after `gl_histadd("foo bar\n")` and `gl_histadd("baz foo\n")`
in a fresh program. -/
def sample_foo_hist : State :=
  gl_histadd false (bytes "baz foo\n") (gl_histadd false (bytes "foo bar\n") (initial []))

/-- The state in which the call `getline("> ", buf, 16)` with the entries
`foo bar` and `baz foo` in the history enters its loop, with the keys `keys`
waiting. -/
def sample_foo (keys : List Int) : State :=
  (entered (some (bytes "> ")) (List.replicate 16 0) 16
    { sample_foo_hist with inp := keys }).getD (initial [])

/-- The call `getline("> ", buf, 8)` with the entry `abcdefghij` in the
history, just before its loop, with the keys `^R` and `j` waiting. -/
def sample_long_entry : Option State :=
  entered (some (bytes "> ")) (List.replicate 8 0) 8
    { gl_histadd false (bytes "abcdefghij\n") (initial []) with inp := [18, 106] }

/-! ## Samples for the word keys and the history file -/

/-- The line ` a` (a blank, then `a`) in an array of 8 bytes, the cursor at
the start of the line. -/
def sample_blank : State :=
  editing [32, 97, 0, 0, 0, 0, 0, 0] 2 0

/-- A ring that has wrapped around: the full ring `sample_ring` after
`gl_histadd("b\n")` and `gl_histadd("c\n")`.  The slots 0 and 1 hold `b` and
`c`, the newest entries, slot 2 is the empty string at `hist_last`, and the
slots 3 to 511 hold the older entries `a`. -/
def sample_wrapped : State :=
  gl_histadd false (bytes "c\n") (gl_histadd false (bytes "b\n") (sample_ring 1))

/-! ## The terminal cursor as a column counter -/

/-- The columns the terminal cursor moves by when a byte is written: a
backspace takes it back by one, the bell leaves it where it is, any other byte
takes it on by one. -/
def column_step (b : Nat) : Int :=
  if b = 8 then -1 else if b = 7 then 0 else 1

/-- The net movement of the terminal cursor over the bytes written. -/
def columns (o : List Nat) : Int :=
  (o.map column_step).sum

/-- A byte of the line that `gl_putc` writes as one byte and that takes the
terminal cursor on by one column: not a bell, a backspace or a newline. -/
def glyph (b : Nat) : Prop :=
  b ≠ 7 ∧ b ≠ 8 ∧ b ≠ 10

/-- The state `t` has the output of `s` with bytes added at its end that move
the terminal cursor by `d` columns in all. -/
def Moves (s t : State) (d : Int) : Prop :=
  ∃ o, t.out = s.out ++ o ∧ columns o = d

/-! ## Browsing back to the oldest entry -/

/-- The state `t` is `j` entries back from `hist_last` in the history of `s`,
outside search mode and with no input hook: the history is that of `s`, the
cursor `hist_pos` is on the slot `j` back, and for `j > 0` the line holds the
entry there. -/
def Browsing (s : State) (es : List (List Nat)) (j : Nat) (t : State) : Prop :=
  t.gl_search_mode = 0 ∧ t.gl_in_hook = none ∧ t.hist_buf = s.hist_buf
    ∧ t.hist_last = s.hist_last ∧ t.HIST_SIZE = s.HIST_SIZE ∧ t.BUF_SIZE = s.BUF_SIZE
    ∧ (t.gl_buf.length : Int) = t.BUF_SIZE ∧ t.gl_beep = s.gl_beep
    ∧ t.hist_pos = rslot s j ∧ (0 < j → contents t = es.getD (j - 1) [])

/-- The call `getline("> ", buf, 8)` with the entry `abcdefghij` in the
history, just before its loop, with the key `^P` waiting. -/
def sample_long_prev : Option State :=
  entered (some (bytes "> ")) (List.replicate 8 0) 8
    { gl_histadd false (bytes "abcdefghij\n") (initial []) with inp := [16] }

/-- The call `getline("> ", buf, 16)` with the entries `one` and `two` in a
history set up by `gl_hist_init(512, 0)`, so that `gl_beep` is 0, just before
its loop, with the key `^P` waiting three times. -/
def sample_silent_prev3 : Option State :=
  entered (some (bytes "> ")) (List.replicate 16 0) 16
    { gl_histadd false (bytes "two\n")
        (gl_histadd false (bytes "one\n") (gl_hist_init 512 0 (initial []))) with
      inp := [16, 16, 16] }

/-- The state in which the call `getline("> ", buf, 16)` with the entries
`one` and `two` in the history enters its loop, with the key `^P` waiting
three times. -/
def sample_prev_keys : State :=
  sample_prev3.getD (initial [])

/-- The call `getline("> ", buf, 8)` of a fresh program, just before its loop,
with the keys `abcdef` and Tab waiting: the line fills the array up to
`BUF_SIZE - 2` when the Tab key comes. -/
def sample_tab_full : Option State :=
  entered (some (bytes "> ")) (List.replicate 8 0) 8 (initial [97, 98, 99, 100, 101, 102, 9])

/-! # Theorems -/

theorem forUp_inv {σ : Type} (P : σ → Prop) (body : Int → σ → σ) (lo hi : Int) (s : σ)
    (h : ∀ i st, P st → P (body i st)) (h0 : P s) : P (forUp lo hi body s) := by
  unfold forUp
  generalize List.range (hi - lo).toNat = l
  induction l generalizing s with
  | nil => exact h0
  | cons a l ih => exact ih _ (h _ _ h0)

theorem forDown_inv {σ : Type} (P : σ → Prop) (body : Int → σ → σ) (hi lo : Int) (s : σ)
    (h : ∀ i st, P st → P (body i st)) (h0 : P s) : P (forDown hi lo body s) := by
  unfold forDown
  generalize List.range (hi - lo + 1).toNat = l
  induction l generalizing s with
  | nil => exact h0
  | cons a l ih => exact ih _ (h _ _ h0)

theorem View.vrefl (s : State) : View s s := by
  unfold View; rfl

theorem View.vtrans {a b c : State} (h1 : View a b) (h2 : View b c) : View a c := by
  unfold View at *
  rw [h2, h1]

theorem View.vof_eq {s t : State} (p shf r l : Int) (o : List Nat)
    (h : t = { s with
      gl_pos := p
      gl_shift := shf
      off_right := r
      off_left := l
      out := o }) :
    View s t := by
  subst h; unfold View; rfl

theorem View.cnt {s t : State} (h : View s t) : t.gl_cnt = s.gl_cnt :=
  by
  have h2 := congrArg State.gl_cnt (id h : t = _)
  exact h2

theorem View.buf {s t : State} (h : View s t) : t.gl_buf = s.gl_buf :=
  by
  have h2 := congrArg State.gl_buf (id h : t = _)
  exact h2

theorem View.BUF_SIZE {s t : State} (h : View s t) : t.BUF_SIZE = s.BUF_SIZE :=
  by
  have h2 := congrArg State.BUF_SIZE (id h : t = _)
  exact h2

theorem View.width {s t : State} (h : View s t) : t.gl_width = s.gl_width :=
  by
  have h2 := congrArg State.gl_width (id h : t = _)
  exact h2

theorem View.last_prompt {s t : State} (h : View s t) : t.last_prompt = s.last_prompt :=
  by
  have h2 := congrArg State.last_prompt (id h : t = _)
  exact h2

theorem view_putc (c : Nat) (s : State) : View s (gl_putc c s) := by
  unfold View gl_putc; rfl

theorem view_puts (p : List Nat) (s : State) : View s (gl_puts p s) := by
  unfold View gl_puts; rfl

theorem view_forUp (lo hi : Int) (body : Int → State → State) (s : State)
    (h : ∀ i st, View st (body i st)) : View s (forUp lo hi body s) :=
  forUp_inv (fun t => View s t) body lo hi s (fun i st hs => hs.vtrans (h i st)) (View.vrefl s)

theorem Frame.frefl (s : State) : Frame s s := by
  unfold Frame; rfl

theorem Frame.ftrans {a b c : State} (h1 : Frame a b) (h2 : Frame b c) : Frame a c := by
  unfold Frame at *
  rw [h2, h1]

theorem Frame.fof_eq {s t : State} (p c shf r l w : Int) (lp o : List Nat)
    (h : t = { s with
      gl_pos := p
      gl_cnt := c
      gl_shift := shf
      off_right := r
      off_left := l
      last_prompt := lp
      gl_width := w
      out := o }) :
    Frame s t := by
  subst h; unfold Frame; rfl

theorem View.frame {s t : State} (h : View s t) : Frame s t := by
  unfold View at h
  exact Frame.fof_eq _ _ _ _ _ _ _ _ h

theorem frame_prompt (p : List Nat) (ch : Int) (s : State) : Frame s (fixup_prompt p ch s) := by
  unfold fixup_prompt
  split
  · refine Frame.ftrans (View.frame (view_forUp 0 s.gl_pos _ s (fun _ st => view_putc 8 st))) ?_
    exact Frame.fof_eq _ _ _ _ _ _ _ _ rfl
  · split
    · refine Frame.ftrans ?_ (Frame.fof_eq _ _ _ _ _ _ _ _ rfl)
      refine Frame.ftrans ?_ (View.frame (view_puts p _))
      refine Frame.ftrans ?_ (View.frame (view_forUp 0 _ _ _ (fun _ st => view_putc 8 st)))
      exact Frame.fof_eq _ _ _ _ _ _ _ _ rfl
    · exact Frame.frefl s

theorem frame_count (ch : Int) (s : State) : Frame s (fixup_count ch s) := by
  unfold fixup_count
  split
  · exact Frame.fof_eq _ _ _ _ _ _ _ _ rfl
  · exact Frame.frefl s

theorem view_ite {s a b : State} (c : Prop) [Decidable c] (h1 : View s a) (h2 : View s b) :
    View s (if c then a else b) := by
  split
  · exact h1
  · exact h2

theorem view_bell (cu : Int) (s : State) : View s (fixup_bell cu s) := by
  unfold fixup_bell
  exact View.vtrans (view_ite _ (view_ite _ (view_putc 7 s) (View.vrefl s)) (View.vrefl s))
    (view_ite _ (view_putc 7 _) (View.vrefl _))

theorem view_scroll (ch ns : Int) (s : State) : View s (fixup_scroll ch ns s) := by
  unfold fixup_scroll
  split
  · exact View.vof_eq _ _ _ _ _ rfl
  · split
    · exact View.vof_eq _ _ _ _ _ rfl
    · exact View.vrefl s

theorem view_draw_end (b : Bounds) (pad : Int) (s : State) : View s (fixup_draw_end b pad s) := by
  unfold fixup_draw_end
  split
  · exact View.vof_eq _ _ _ _ _ rfl
  · exact (view_forUp 0 pad _ s (fun _ st => view_putc 32 st)).vtrans (View.vof_eq _ _ _ _ _ rfl)

theorem view_draw (b : Bounds) (pad : Int) (s : State) : View s (fixup_draw b pad s) := by
  unfold fixup_draw
  split
  · refine View.vtrans ?_ (view_draw_end b pad _)
    refine View.vtrans ?_ (View.vof_eq _ _ _ _ _ rfl)
    refine View.vtrans ?_ (view_forUp _ _ _ _ (fun i st => view_putc (rd st.gl_buf i) st))
    refine View.vtrans ?_ (view_ite _ (view_putc 36 _) (View.vrefl _))
    exact view_forUp 0 b.backup _ s (fun _ st => view_putc 8 st)
  · exact View.vrefl s

theorem view_move (cu : Int) (s : State) : View s (fixup_move cu s) := by
  unfold fixup_move
  refine View.vtrans ?_ (View.vof_eq _ _ _ _ _ rfl)
  split
  · exact view_forUp 0 _ _ s (fun _ st => view_putc 8 st)
  · exact view_forUp _ _ _ s (fun i st => view_putc (rd st.gl_buf i) st)

/-- After the count is taken, `gl_fixup` touches the cursor, the scroll state
and the output only. -/
theorem view_fixup (p : List Nat) (ch cu : Int) (s : State) :
    View (fixup_count (fixup_change p ch s) (fixup_prompt p ch s)) (gl_fixup p ch cu s) := by
  unfold gl_fixup
  exact (view_bell cu _).vtrans ((view_scroll _ _ _).vtrans ((view_draw _ _ _).vtrans
    (view_move _ _)))

theorem frame_fixup (p : List Nat) (ch cu : Int) (s : State) : Frame s (gl_fixup p ch cu s) :=
  (frame_prompt p ch s).ftrans ((frame_count _ _).ftrans (view_fixup p ch cu s).frame)

@[simp]
theorem fixup_BUF_SIZE (p : List Nat) (ch cu : Int) (s : State) :
    (gl_fixup p ch cu s).BUF_SIZE = s.BUF_SIZE :=
  by
  have h2 := congrArg State.BUF_SIZE (id (frame_fixup p ch cu s) : gl_fixup p ch cu s = _)
  exact h2

@[simp]
theorem fixup_gl_init_done (p : List Nat) (ch cu : Int) (s : State) :
    (gl_fixup p ch cu s).gl_init_done = s.gl_init_done :=
  by
  have h2 := congrArg State.gl_init_done (id (frame_fixup p ch cu s) : gl_fixup p ch cu s = _)
  exact h2

@[simp]
theorem fixup_gl_termw (p : List Nat) (ch cu : Int) (s : State) :
    (gl_fixup p ch cu s).gl_termw = s.gl_termw :=
  by
  have h2 := congrArg State.gl_termw (id (frame_fixup p ch cu s) : gl_fixup p ch cu s = _)
  exact h2

@[simp]
theorem fixup_gl_scroll (p : List Nat) (ch cu : Int) (s : State) :
    (gl_fixup p ch cu s).gl_scroll = s.gl_scroll :=
  by
  have h2 := congrArg State.gl_scroll (id (frame_fixup p ch cu s) : gl_fixup p ch cu s = _)
  exact h2

@[simp]
theorem fixup_gl_extent (p : List Nat) (ch cu : Int) (s : State) :
    (gl_fixup p ch cu s).gl_extent = s.gl_extent :=
  by
  have h2 := congrArg State.gl_extent (id (frame_fixup p ch cu s) : gl_fixup p ch cu s = _)
  exact h2

@[simp]
theorem fixup_gl_overwrite (p : List Nat) (ch cu : Int) (s : State) :
    (gl_fixup p ch cu s).gl_overwrite = s.gl_overwrite :=
  by
  have h2 := congrArg State.gl_overwrite (id (frame_fixup p ch cu s) : gl_fixup p ch cu s = _)
  exact h2

@[simp]
theorem fixup_gl_buf (p : List Nat) (ch cu : Int) (s : State) :
    (gl_fixup p ch cu s).gl_buf = s.gl_buf :=
  by
  have h2 := congrArg State.gl_buf (id (frame_fixup p ch cu s) : gl_fixup p ch cu s = _)
  exact h2

@[simp]
theorem fixup_gl_killbuf (p : List Nat) (ch cu : Int) (s : State) :
    (gl_fixup p ch cu s).gl_killbuf = s.gl_killbuf :=
  by
  have h2 := congrArg State.gl_killbuf (id (frame_fixup p ch cu s) : gl_fixup p ch cu s = _)
  exact h2

@[simp]
theorem fixup_gl_prompt (p : List Nat) (ch cu : Int) (s : State) :
    (gl_fixup p ch cu s).gl_prompt = s.gl_prompt :=
  by
  have h2 := congrArg State.gl_prompt (id (frame_fixup p ch cu s) : gl_fixup p ch cu s = _)
  exact h2

@[simp]
theorem fixup_gl_search_mode (p : List Nat) (ch cu : Int) (s : State) :
    (gl_fixup p ch cu s).gl_search_mode = s.gl_search_mode :=
  by
  have h2 := congrArg State.gl_search_mode (id (frame_fixup p ch cu s) : gl_fixup p ch cu s = _)
  exact h2

@[simp]
theorem fixup_gl_in_hook (p : List Nat) (ch cu : Int) (s : State) :
    (gl_fixup p ch cu s).gl_in_hook = s.gl_in_hook :=
  by
  have h2 := congrArg State.gl_in_hook (id (frame_fixup p ch cu s) : gl_fixup p ch cu s = _)
  exact h2

@[simp]
theorem fixup_gl_out_hook (p : List Nat) (ch cu : Int) (s : State) :
    (gl_fixup p ch cu s).gl_out_hook = s.gl_out_hook :=
  by
  have h2 := congrArg State.gl_out_hook (id (frame_fixup p ch cu s) : gl_fixup p ch cu s = _)
  exact h2

@[simp]
theorem fixup_gl_tab_hook (p : List Nat) (ch cu : Int) (s : State) :
    (gl_fixup p ch cu s).gl_tab_hook = s.gl_tab_hook :=
  by
  have h2 := congrArg State.gl_tab_hook (id (frame_fixup p ch cu s) : gl_fixup p ch cu s = _)
  exact h2

@[simp]
theorem fixup_gl_strlen (p : List Nat) (ch cu : Int) (s : State) :
    (gl_fixup p ch cu s).gl_strlen = s.gl_strlen :=
  by
  have h2 := congrArg State.gl_strlen (id (frame_fixup p ch cu s) : gl_fixup p ch cu s = _)
  exact h2

@[simp]
theorem fixup_HIST_SIZE (p : List Nat) (ch cu : Int) (s : State) :
    (gl_fixup p ch cu s).HIST_SIZE = s.HIST_SIZE :=
  by
  have h2 := congrArg State.HIST_SIZE (id (frame_fixup p ch cu s) : gl_fixup p ch cu s = _)
  exact h2

@[simp]
theorem fixup_hist_pos (p : List Nat) (ch cu : Int) (s : State) :
    (gl_fixup p ch cu s).hist_pos = s.hist_pos :=
  by
  have h2 := congrArg State.hist_pos (id (frame_fixup p ch cu s) : gl_fixup p ch cu s = _)
  exact h2

@[simp]
theorem fixup_hist_last (p : List Nat) (ch cu : Int) (s : State) :
    (gl_fixup p ch cu s).hist_last = s.hist_last :=
  by
  have h2 := congrArg State.hist_last (id (frame_fixup p ch cu s) : gl_fixup p ch cu s = _)
  exact h2

@[simp]
theorem fixup_gl_beep (p : List Nat) (ch cu : Int) (s : State) :
    (gl_fixup p ch cu s).gl_beep = s.gl_beep :=
  by
  have h2 := congrArg State.gl_beep (id (frame_fixup p ch cu s) : gl_fixup p ch cu s = _)
  exact h2

@[simp]
theorem fixup_hist_buf (p : List Nat) (ch cu : Int) (s : State) :
    (gl_fixup p ch cu s).hist_buf = s.hist_buf :=
  by
  have h2 := congrArg State.hist_buf (id (frame_fixup p ch cu s) : gl_fixup p ch cu s = _)
  exact h2

@[simp]
theorem fixup_hist_prev_saved (p : List Nat) (ch cu : Int) (s : State) :
    (gl_fixup p ch cu s).hist_prev_saved = s.hist_prev_saved :=
  by
  have h2 := congrArg State.hist_prev_saved (id (frame_fixup p ch cu s) : gl_fixup p ch cu s = _)
  exact h2

@[simp]
theorem fixup_search_prompt (p : List Nat) (ch cu : Int) (s : State) :
    (gl_fixup p ch cu s).search_prompt = s.search_prompt :=
  by
  have h2 := congrArg State.search_prompt (id (frame_fixup p ch cu s) : gl_fixup p ch cu s = _)
  exact h2

@[simp]
theorem fixup_search_string (p : List Nat) (ch cu : Int) (s : State) :
    (gl_fixup p ch cu s).search_string = s.search_string :=
  by
  have h2 := congrArg State.search_string (id (frame_fixup p ch cu s) : gl_fixup p ch cu s = _)
  exact h2

@[simp]
theorem fixup_search_pos (p : List Nat) (ch cu : Int) (s : State) :
    (gl_fixup p ch cu s).search_pos = s.search_pos :=
  by
  have h2 := congrArg State.search_pos (id (frame_fixup p ch cu s) : gl_fixup p ch cu s = _)
  exact h2

@[simp]
theorem fixup_search_forw_flg (p : List Nat) (ch cu : Int) (s : State) :
    (gl_fixup p ch cu s).search_forw_flg = s.search_forw_flg :=
  by
  have h2 := congrArg State.search_forw_flg (id (frame_fixup p ch cu s) : gl_fixup p ch cu s = _)
  exact h2

@[simp]
theorem fixup_search_last (p : List Nat) (ch cu : Int) (s : State) :
    (gl_fixup p ch cu s).search_last = s.search_last :=
  by
  have h2 := congrArg State.search_last (id (frame_fixup p ch cu s) : gl_fixup p ch cu s = _)
  exact h2

@[simp]
theorem fixup_tty (p : List Nat) (ch cu : Int) (s : State) :
    (gl_fixup p ch cu s).tty = s.tty :=
  by
  have h2 := congrArg State.tty (id (frame_fixup p ch cu s) : gl_fixup p ch cu s = _)
  exact h2

@[simp]
theorem fixup_inp (p : List Nat) (ch cu : Int) (s : State) :
    (gl_fixup p ch cu s).inp = s.inp :=
  by
  have h2 := congrArg State.inp (id (frame_fixup p ch cu s) : gl_fixup p ch cu s = _)
  exact h2

@[simp]
theorem fixup_err (p : List Nat) (ch cu : Int) (s : State) :
    (gl_fixup p ch cu s).err = s.err :=
  by
  have h2 := congrArg State.err (id (frame_fixup p ch cu s) : gl_fixup p ch cu s = _)
  exact h2

/-- The cursor `gl_fixup` ends on: the desired one brought into `[0, gl_cnt]`. -/
theorem fixup_pos (p : List Nat) (ch cu : Int) (s : State) :
    (gl_fixup p ch cu s).gl_pos
      = fixup_cursor cu (fixup_count (fixup_change p ch s) (fixup_prompt p ch s)) := by
  unfold gl_fixup fixup_move
  rfl

theorem fixup_cnt_eq (p : List Nat) (ch cu : Int) (s : State) :
    (gl_fixup p ch cu s).gl_cnt
      = (fixup_count (fixup_change p ch s) (fixup_prompt p ch s)).gl_cnt :=
  (view_fixup p ch cu s).cnt

theorem fixup_prompt_buf (p : List Nat) (ch : Int) (s : State) :
    (fixup_prompt p ch s).gl_buf = s.gl_buf :=
  by
  have h2 := congrArg State.gl_buf (id (frame_prompt p ch s) : fixup_prompt p ch s = _)
  exact h2

/-- With a change index that is not negative, `gl_fixup` recounts the buffer. -/
theorem fixup_cnt (p : List Nat) (ch cu : Int) (s : State) (h : 0 ≤ ch ∨ ch = -2) :
    (gl_fixup p ch cu s).gl_cnt = strlen s.gl_buf := by
  rw [fixup_cnt_eq]
  have hc : fixup_change p ch s ≥ 0 := by
    unfold fixup_change
    split
    · omega
    · split <;> omega
  unfold fixup_count
  rw [if_pos hc]
  exact congrArg strlen (fixup_prompt_buf p ch s)

/-- With a change index that is not negative, `gl_fixup` leaves the cursor on
the desired index brought into `[0, strlen gl_buf]`. -/
theorem fixup_pos_of_change (p : List Nat) (ch cu : Int) (s : State) (h : 0 ≤ ch ∨ ch = -2) :
    (gl_fixup p ch cu s).gl_pos
      = if (if cu > strlen s.gl_buf then strlen s.gl_buf else cu) < 0 then 0
        else (if cu > strlen s.gl_buf then strlen s.gl_buf else cu) := by
  rw [fixup_pos]
  have hc : fixup_change p ch s ≥ 0 := by
    unfold fixup_change
    split
    · omega
    · split <;> omega
  unfold fixup_cursor fixup_count
  rw [if_pos hc]
  simp only [fixup_prompt_buf]

/-! ## Arrays and loops -/

theorem forUp_nil {σ : Type} (lo hi : Int) (body : Int → σ → σ) (s : σ) (h : hi ≤ lo) :
    forUp lo hi body s = s := by
  unfold forUp
  have : (hi - lo).toNat = 0 := by omega
  rw [this]; rfl

theorem forUp_step {σ : Type} (lo hi : Int) (body : Int → σ → σ) (s : σ) (h : lo < hi) :
    forUp lo hi body s = body (hi - 1) (forUp lo (hi - 1) body s) := by
  unfold forUp
  have h1 : (hi - lo).toNat = (hi - 1 - lo).toNat + 1 := by omega
  have h2 : lo + ((hi - 1 - lo).toNat : Int) = hi - 1 := by omega
  rw [h1, List.range_succ, List.foldl_append]
  simp only [List.foldl_cons, List.foldl_nil, h2]

theorem forDown_nil {σ : Type} (hi lo : Int) (body : Int → σ → σ) (s : σ) (h : hi < lo) :
    forDown hi lo body s = s := by
  unfold forDown
  have : (hi - lo + 1).toNat = 0 := by omega
  rw [this]; rfl

theorem forDown_step {σ : Type} (hi lo : Int) (body : Int → σ → σ) (s : σ) (h : lo ≤ hi) :
    forDown hi lo body s = body lo (forDown hi (lo + 1) body s) := by
  unfold forDown
  have h1 : (hi - lo + 1).toNat = (hi - (lo + 1) + 1).toNat + 1 := by omega
  have h2 : hi - ((hi - (lo + 1) + 1).toNat : Int) = lo := by omega
  rw [h1, List.range_succ, List.foldl_append]
  simp only [List.foldl_cons, List.foldl_nil, h2]

theorem length_wr (b : List Nat) (i : Int) (v : Nat) : (wr b i v).length = b.length := by
  unfold wr; split <;> simp

theorem rd_wr (b : List Nat) (i j : Int) (v : Nat) :
    rd (wr b i v) j = if i = j ∧ 0 ≤ i ∧ i < b.length then v else rd b j := by
  unfold rd wr
  by_cases hi : i < 0
  · have : ¬ (i = j ∧ 0 ≤ i ∧ i < b.length) := by omega
    simp [hi, this]
  · by_cases hj : j < 0
    · have : ¬ (i = j ∧ 0 ≤ i ∧ i < b.length) := by omega
      simp [hi, hj, this]
    · simp only [hi, hj, if_false, List.getD_eq_getElem?_getD, List.getElem?_set]
      by_cases hij : i = j
      · subst hij
        by_cases hl : i < b.length
        · have h3 : i.toNat < b.length := by omega
          have h4 : (i = i ∧ 0 ≤ i ∧ i < b.length) := by omega
          rw [if_pos rfl, if_pos h3, if_pos h4]; rfl
        · have h3 : ¬ i.toNat < b.length := by omega
          have h4 : ¬ (i = i ∧ 0 ≤ i ∧ i < b.length) := by omega
          have h5 : b.length ≤ i.toNat := by omega
          rw [if_pos rfl, if_neg h3, if_neg h4, List.getElem?_eq_none h5]
      · have h3 : i.toNat ≠ j.toNat := by omega
        have : ¬ (i = j ∧ 0 ≤ i ∧ i < b.length) := by omega
        rw [if_neg h3, if_neg this]

theorem rd_of_le (b : List Nat) (j : Int) (h : (b.length : Int) ≤ j) : rd b j = 0 := by
  unfold rd
  split
  · rfl
  · have : b.length ≤ j.toNat := by omega
    simp [List.getD_eq_getElem?_getD, List.getElem?_eq_none this]

/-- The loop that moves the bytes at `[lo, hi]` right by `k`. -/
theorem shiftR_spec (k : Int) (hk : 0 < k) (hi : Int) (n : Nat) :
    ∀ (lo : Int) (b : List Nat), lo + n = hi + 1 → 0 ≤ lo → hi + k < b.length →
    (forDown hi lo (fun i b => wr b (i + k) (rd b i)) b).length = b.length ∧
    ∀ j, rd (forDown hi lo (fun i b => wr b (i + k) (rd b i)) b) j
      = if lo + k ≤ j ∧ j ≤ hi + k then rd b (j - k) else rd b j := by
  induction n with
  | zero =>
    intro lo b h1 h2 h3
    rw [forDown_nil _ _ _ _ (by omega)]
    refine ⟨rfl, fun j => ?_⟩
    rw [if_neg (by omega)]
  | succ n ih =>
    intro lo b h1 h2 h3
    rw [forDown_step _ _ _ _ (by omega)]
    obtain ⟨hl, hr⟩ := ih (lo + 1) b (by omega) (by omega) h3
    refine ⟨by rw [length_wr, hl], fun j => ?_⟩
    rw [rd_wr, hr, hr, hl]
    have e1 : ¬ (lo + 1 + k ≤ lo ∧ lo ≤ hi + k) := by omega
    rw [if_neg e1]
    by_cases hj : lo + k = j
    · subst hj
      rw [if_pos (by omega), if_pos (by omega)]
      congr 1; omega
    · rw [if_neg (by omega)]
      by_cases h5 : lo + k ≤ j ∧ j ≤ hi + k
      · rw [if_pos h5, if_pos (by omega)]
      · rw [if_neg h5, if_neg (by omega)]

/-- The loop that moves the bytes at `(lo, hi]` left by one. -/
theorem shiftL_spec (lo : Int) (hlo : 0 ≤ lo) (n : Nat) :
    ∀ (hi : Int) (b : List Nat), lo + n = hi → 
    (forUp lo hi (fun i b => wr b i (rd b (i + 1))) b).length = b.length ∧
    ∀ j, rd (forUp lo hi (fun i b => wr b i (rd b (i + 1))) b) j
      = if lo ≤ j ∧ j < hi then rd b (j + 1) else rd b j := by
  induction n with
  | zero =>
    intro hi b h1
    rw [forUp_nil _ _ _ _ (by omega)]
    refine ⟨rfl, fun j => ?_⟩
    rw [if_neg (by omega)]
  | succ n ih =>
    intro hi b h1
    rw [forUp_step _ _ _ _ (by omega)]
    obtain ⟨hl, hr⟩ := ih (hi - 1) b (by omega)
    refine ⟨by rw [length_wr, hl], fun j => ?_⟩
    rw [rd_wr, hr, hr, hl]
    have e1 : ¬ (lo ≤ hi - 1 + 1 ∧ hi - 1 + 1 < hi - 1) := by omega
    rw [if_neg e1]
    by_cases hj : hi - 1 = j
    · subst hj
      by_cases hb : hi - 1 < b.length
      · rw [if_pos (by omega), if_pos (by omega)]
      · rw [if_neg (by omega), rd_of_le b (hi - 1) (by omega), rd_of_le b (hi - 1 + 1) (by omega)]
        simp
    · rw [if_neg (by omega)]
      by_cases h5 : lo ≤ j ∧ j < hi
      · rw [if_pos h5, if_pos (by omega)]
      · rw [if_neg h5, if_neg (by omega)]

/-- The loop that copies `len` bytes of `src` to the index `pos` of the buffer. -/
theorem copy_spec (src : List Nat) (pos : Int) (hpos : 0 ≤ pos) (n : Nat) :
    ∀ (b : List Nat),
    (forUp 0 n (fun i b => wr b (pos + i) (rd src i)) b).length = b.length ∧
    ∀ j, rd (forUp 0 n (fun i b => wr b (pos + i) (rd src i)) b) j
      = if pos ≤ j ∧ j < pos + n ∧ j < b.length then rd src (j - pos) else rd b j := by
  induction n with
  | zero =>
    intro b
    rw [forUp_nil _ _ _ _ (by simp)]
    refine ⟨rfl, fun j => ?_⟩
    rw [if_neg (by omega)]
  | succ n ih =>
    intro b
    rw [forUp_step _ _ _ _ (by omega)]
    have e : ((n + 1 : Nat) : Int) - 1 = (n : Int) := by omega
    rw [e]
    obtain ⟨hl, hr⟩ := ih b
    refine ⟨by rw [length_wr, hl], fun j => ?_⟩
    rw [rd_wr, hr, hl]
    by_cases hj : pos + n = j ∧ 0 ≤ pos + (n : Int) ∧ pos + n < b.length
    · rw [if_pos hj, if_pos (by omega)]
      congr 1; omega
    · rw [if_neg hj]
      by_cases h5 : pos ≤ j ∧ j < pos + n ∧ j < b.length
      · rw [if_pos h5, if_pos (by omega)]
      · rw [if_neg h5, if_neg (by omega)]

theorem cstr_length_le (b : List Nat) : (cstr b).length ≤ b.length := by
  induction b with
  | nil => simp [cstr]
  | cons a l ih =>
    unfold cstr
    split
    · simp
    · simp only [List.length_cons]; omega

theorem strlen_nonneg (b : List Nat) : 0 ≤ strlen b := by
  unfold strlen; omega

theorem strlen_le (b : List Nat) : strlen b ≤ b.length := by
  unfold strlen
  have := cstr_length_le b
  omega

/-- The bytes of an array up to the index `n` make its string when none of
them is NUL and the byte at `n` is. -/
theorem cstr_eq_take (b : List Nat) (n : Nat) (h1 : ∀ i : Nat, i < n → b.getD i 0 ≠ 0)
    (h2 : b.getD n 0 = 0) : cstr b = b.take n := by
  induction b generalizing n with
  | nil => simp [cstr]
  | cons a l ih =>
    cases n with
    | zero =>
      simp at h2
      simp [cstr, h2]
    | succ n =>
      have ha : a ≠ 0 := by simpa using h1 0 (by omega)
      have := ih n (fun i hi => by simpa using h1 (i + 1) (by omega)) (by simpa using h2)
      simp [cstr, ha, this]

theorem cstr_getD_ne (b : List Nat) (i : Nat) (h : i < (cstr b).length) : b.getD i 0 ≠ 0 := by
  induction b generalizing i with
  | nil => simp [cstr] at h
  | cons a l ih =>
    by_cases ha : a = 0
    · simp [cstr, ha] at h
    · simp only [cstr, ha, if_false, List.length_cons] at h
      cases i with
      | zero => simpa using ha
      | succ i => simpa using ih i (by omega)

theorem cstr_getD_end (b : List Nat) : b.getD (cstr b).length 0 = 0 := by
  induction b with
  | nil => simp [cstr]
  | cons a l ih =>
    by_cases ha : a = 0
    · simp [cstr, ha]
    · simpa [cstr, ha] using ih

theorem cstr_eq_take_self (b : List Nat) : cstr b = b.take (cstr b).length := 
  cstr_eq_take b _ (fun i hi => cstr_getD_ne b i hi) (cstr_getD_end b)

theorem rd_nat (b : List Nat) (i : Nat) : rd b (i : Int) = b.getD i 0 := by
  unfold rd
  simp

/-- The string of an array has length `n` when the bytes before the index `n`
are not NUL and the byte at `n` is. -/
theorem strlen_eq (b : List Nat) (n : Int) (h0 : 0 ≤ n) (hn : n ≤ b.length)
    (h1 : ∀ i, 0 ≤ i → i < n → rd b i ≠ 0) (h2 : rd b n = 0) : strlen b = n := by
  obtain ⟨m, rfl⟩ := Int.eq_ofNat_of_zero_le h0
  have := cstr_eq_take b m (fun i hi => by rw [← rd_nat]; exact h1 i (by omega) (by omega))
    (by rw [← rd_nat]; exact h2)
  unfold strlen
  rw [this, List.length_take]
  omega

theorem rd_ne_of_lt_strlen (b : List Nat) (i : Int) (h0 : 0 ≤ i) (h : i < strlen b) :
    rd b i ≠ 0 := by
  obtain ⟨m, rfl⟩ := Int.eq_ofNat_of_zero_le h0
  rw [rd_nat]
  exact cstr_getD_ne b m (by unfold strlen at h; omega)

theorem rd_strlen (b : List Nat) : rd b (strlen b) = 0 := by
  unfold strlen
  rw [rd_nat]
  exact cstr_getD_end b

/-! ## Character insertion -/

theorem rd_eq_cstr (b : List Nat) (i : Nat) (h : i < (cstr b).length) :
    rd b i = (cstr b).getD i 0 := by
  rw [rd_nat]
  have h1 := cstr_eq_take_self b
  have h2 := cstr_length_le b
  rw [h1, List.getD_eq_getElem?_getD, List.getD_eq_getElem?_getD, List.getElem?_take]
  rw [if_pos h]

/-- The string of an array is `l` when it has the length of `l` and the bytes of `l`. -/
theorem cstr_eq_of_rd (b l : List Nat) (hlen : strlen b = l.length)
    (h : ∀ i : Nat, i < l.length → rd b i = l.getD i 0) : cstr b = l := by
  have hl : (cstr b).length = l.length := by unfold strlen at hlen; omega
  apply List.ext_getElem hl
  intro i h1 h2
  have e1 := rd_eq_cstr b i h1
  have e2 := h i h2
  rw [e1] at e2
  simpa [List.getD_eq_getElem?_getD, List.getElem?_eq_getElem h1, List.getElem?_eq_getElem h2]
    using e2

theorem toByte_printable (c : Int) (h : printable c) : toByte c = c.toNat ∧ toByte c ≠ 0 := by
  unfold printable at h
  unfold toByte
  have : c % 256 = c := by omega
  rw [this]
  exact ⟨rfl, by omega⟩

/-- The array `gl_addchar` leaves when it inserts: pointwise. -/
theorem addchar_insert_rd (b : List Nat) (cnt pos : Int) (v : Nat) (h0 : 0 ≤ pos)
    (h1 : pos ≤ cnt) (h2 : cnt + 1 < b.length) (j : Int) :
    rd (wr (forDown cnt pos (fun i b => wr b (i + 1) (rd b i)) b) pos v) j
      = if j = pos then v else if pos + 1 ≤ j ∧ j ≤ cnt + 1 then rd b (j - 1) else rd b j := by
  obtain ⟨hl, hr⟩ := shiftR_spec 1 (by omega) cnt (cnt + 1 - pos).toNat pos b (by omega) h0 h2
  rw [rd_wr, hl, hr]
  by_cases hj : j = pos
  · subst hj
    rw [if_pos (by omega), if_pos rfl]
  · rw [if_neg (by omega), if_neg hj]

theorem addchar_insert_strlen (b : List Nat) (pos : Int) (v : Nat) (hv : v ≠ 0) (h0 : 0 ≤ pos)
    (h1 : pos ≤ strlen b) (h2 : strlen b + 1 < b.length) :
    strlen (wr (forDown (strlen b) pos (fun i b => wr b (i + 1) (rd b i)) b) pos v)
      = strlen b + 1 := by
  have hn := strlen_nonneg b
  obtain ⟨hl, _⟩ := shiftR_spec 1 (by omega) (strlen b) (strlen b + 1 - pos).toNat pos b
    (by omega) h0 h2
  apply strlen_eq
  · omega
  · rw [length_wr, hl]; omega
  · intro i hi0 hi1
    rw [addchar_insert_rd b (strlen b) pos v h0 h1 h2]
    split
    · exact hv
    · split
      · exact rd_ne_of_lt_strlen b _ (by omega) (by omega)
      · exact rd_ne_of_lt_strlen b _ (by omega) (by omega)
  · rw [addchar_insert_rd b (strlen b) pos v h0 h1 h2, if_neg (by omega), if_pos (by omega)]
    have : strlen b + 1 - 1 = strlen b := by omega
    rw [this]
    exact rd_strlen b

theorem addchar_insert_cstr (b : List Nat) (pos : Int) (v : Nat) (hv : v ≠ 0) (h0 : 0 ≤ pos)
    (h1 : pos ≤ strlen b) (h2 : strlen b + 1 < b.length) :
    cstr (wr (forDown (strlen b) pos (fun i b => wr b (i + 1) (rd b i)) b) pos v)
      = (cstr b).take pos.toNat ++ v :: (cstr b).drop pos.toNat := by
  have hs : strlen b = (cstr b).length := rfl
  apply cstr_eq_of_rd
  · rw [addchar_insert_strlen b pos v hv h0 h1 h2]
    simp only [List.length_append, List.length_take, List.length_cons, List.length_drop]
    omega
  · intro i hi
    simp only [List.length_append, List.length_take, List.length_cons, List.length_drop] at hi
    rw [addchar_insert_rd b (strlen b) pos v h0 h1 h2]
    obtain ⟨p, rfl⟩ := Int.eq_ofNat_of_zero_le h0
    simp only [Int.toNat_ofNat]
    have hp : p ≤ (cstr b).length := by omega
    have hget : ∀ k : Nat, k < (cstr b).length → rd b (k : Int) = (cstr b).getD k 0 :=
      fun k hk => rd_eq_cstr b k hk
    by_cases c1 : (i : Int) = (p : Int)
    · have : i = p := by omega
      subst this
      rw [if_pos rfl, List.getD_eq_getElem?_getD, List.getElem?_append_right (by simp)]
      simp [Nat.min_eq_left hp]
    · rw [if_neg c1]
      by_cases c2 : (p : Int) + 1 ≤ i ∧ (i : Int) ≤ strlen b + 1
      · rw [if_pos c2]
        have e : (i : Int) - 1 = ((i - 1 : Nat) : Int) := by omega
        rw [e, hget (i - 1) (by omega)]
        rw [List.getD_eq_getElem?_getD, List.getD_eq_getElem?_getD,
          List.getElem?_append_right (by simp; omega)]
        simp only [List.length_take, Nat.min_eq_left hp]
        have e2 : i - p = (i - p - 1) + 1 := by omega
        rw [e2, List.getElem?_cons_succ, List.getElem?_drop]
        congr 2; omega
      · rw [if_neg c2]
        have hi2 : i < p := by omega
        rw [hget i (by omega), List.getD_eq_getElem?_getD, List.getD_eq_getElem?_getD,
          List.getElem?_append_left (by simp; omega), List.getElem?_take]
        rw [if_pos hi2]

theorem wr_over_rd (b : List Nat) (pos : Int) (v : Nat) (h0 : 0 ≤ pos) (h1 : pos < strlen b)
    (j : Int) : rd (wr b pos v) j = if j = pos then v else rd b j := by
  have := strlen_le b
  rw [rd_wr]
  by_cases hj : j = pos
  · subst hj
    rw [if_pos (by omega), if_pos rfl]
  · rw [if_neg (by omega), if_neg hj]

theorem wr_over_strlen (b : List Nat) (pos : Int) (v : Nat) (hv : v ≠ 0) (h0 : 0 ≤ pos)
    (h1 : pos < strlen b) : strlen (wr b pos v) = strlen b := by
  have := strlen_le b
  apply strlen_eq
  · omega
  · rw [length_wr]; omega
  · intro i hi0 hi1
    rw [wr_over_rd b pos v h0 h1]
    split
    · exact hv
    · exact rd_ne_of_lt_strlen b _ hi0 hi1
  · rw [wr_over_rd b pos v h0 h1, if_neg (by omega)]
    exact rd_strlen b

theorem wr_over_cstr (b : List Nat) (pos : Int) (v : Nat) (hv : v ≠ 0) (h0 : 0 ≤ pos)
    (h1 : pos < strlen b) : cstr (wr b pos v) = (cstr b).set pos.toNat v := by
  have hs : strlen b = (cstr b).length := rfl
  apply cstr_eq_of_rd
  · rw [wr_over_strlen b pos v hv h0 h1, List.length_set]; rfl
  · intro i hi
    rw [List.length_set] at hi
    rw [wr_over_rd b pos v h0 h1, List.getD_eq_getElem?_getD, List.getElem?_set]
    obtain ⟨p, rfl⟩ := Int.eq_ofNat_of_zero_le h0
    simp only [Int.toNat_ofNat]
    by_cases c1 : (i : Int) = (p : Int)
    · have : p = i := by omega
      subst this
      rw [if_pos rfl, if_pos rfl, if_pos hi]; rfl
    · rw [if_neg c1, if_neg (by omega), rd_eq_cstr b i hi, List.getD_eq_getElem?_getD]

/-- What `gl_addchar` does when it inserts. -/
theorem addchar_ins (s : State) (c : Int) (hok : BufOk s) (hc : printable c)
    (h1 : s.gl_cnt < s.BUF_SIZE - 2) (h2 : s.gl_overwrite = 0 ∨ s.gl_pos = s.gl_cnt) :
    contents (gl_addchar c s)
        = (contents s).take s.gl_pos.toNat ++ c.toNat :: (contents s).drop s.gl_pos.toNat
      ∧ (gl_addchar c s).gl_cnt = s.gl_cnt + 1
      ∧ (gl_addchar c s).gl_pos = s.gl_pos + 1
      ∧ BufOk (gl_addchar c s) := by
  obtain ⟨k1, k2, k3, k4, k5⟩ := hok
  obtain ⟨b1, b2⟩ := toByte_printable c hc
  have hg : gl_addchar c s = gl_fixup s.gl_prompt s.gl_pos (s.gl_pos + 1)
      { s with gl_buf := wr (forDown s.gl_cnt s.gl_pos (fun i b => wr b (i + 1) (rd b i)) s.gl_buf)
                 s.gl_pos (toByte c) } := by
    unfold gl_addchar
    rw [if_neg (by omega), if_pos h2]
  have hlen : strlen (wr (forDown s.gl_cnt s.gl_pos (fun i b => wr b (i + 1) (rd b i)) s.gl_buf)
                 s.gl_pos (toByte c)) = s.gl_cnt + 1 := by
    rw [k2]
    rw [k2] at k5 h1
    exact addchar_insert_strlen s.gl_buf s.gl_pos _ b2 k4 k5 (by omega)
  have hcnt : (gl_addchar c s).gl_cnt = s.gl_cnt + 1 := by
    rw [hg, fixup_cnt _ _ _ _ (Or.inl k4)]
    exact hlen
  have hpos : (gl_addchar c s).gl_pos = s.gl_pos + 1 := by
    rw [hg, fixup_pos_of_change _ _ _ _ (Or.inl k4)]
    simp only [hlen]
    rw [if_neg (by omega), if_neg (by omega)]
  have hbuf : (gl_addchar c s).gl_buf
      = wr (forDown s.gl_cnt s.gl_pos (fun i b => wr b (i + 1) (rd b i)) s.gl_buf)
                 s.gl_pos (toByte c) := by
    rw [hg, fixup_gl_buf]
  refine ⟨?_, hcnt, hpos, ?_⟩
  · unfold contents
    rw [hbuf, k2, b1]
    rw [k2] at k5 h1
    exact addchar_insert_cstr s.gl_buf s.gl_pos _ (b1 ▸ b2) k4 k5 (by omega)
  · refine ⟨?_, ?_, ?_, ?_, ?_⟩
    · rw [hbuf, length_wr, hg, fixup_BUF_SIZE]
      have := (shiftR_spec 1 (by omega) s.gl_cnt (s.gl_cnt + 1 - s.gl_pos).toNat s.gl_pos s.gl_buf
        (by omega) k4 (by omega)).1
      rw [this]; exact k1
    · rw [hcnt, hbuf, hlen]
    · rw [hcnt, hg, fixup_BUF_SIZE]; simp only []; omega
    · rw [hpos]; omega
    · rw [hpos, hcnt]; omega

/-- What `gl_addchar` does when it overwrites. -/
theorem addchar_over (s : State) (c : Int) (hok : BufOk s) (hc : printable c)
    (h1 : s.gl_cnt < s.BUF_SIZE - 2) (h2 : s.gl_overwrite ≠ 0) (h3 : s.gl_pos < s.gl_cnt) :
    contents (gl_addchar c s) = (contents s).set s.gl_pos.toNat c.toNat
      ∧ (gl_addchar c s).gl_cnt = s.gl_cnt
      ∧ (gl_addchar c s).gl_pos = s.gl_pos + 1
      ∧ BufOk (gl_addchar c s) := by
  obtain ⟨k1, k2, k3, k4, k5⟩ := hok
  obtain ⟨b1, b2⟩ := toByte_printable c hc
  have hg : gl_addchar c s = gl_fixup s.gl_prompt s.gl_pos (s.gl_pos + 1)
      { s with gl_buf := wr s.gl_buf s.gl_pos (toByte c), gl_extent := 1 } := by
    unfold gl_addchar
    rw [if_neg (by omega), if_neg (by omega)]
  have hlen : strlen (wr s.gl_buf s.gl_pos (toByte c)) = s.gl_cnt := by
    rw [k2]
    rw [k2] at h3
    exact wr_over_strlen s.gl_buf s.gl_pos _ b2 k4 h3
  have hcnt : (gl_addchar c s).gl_cnt = s.gl_cnt := by
    rw [hg, fixup_cnt _ _ _ _ (Or.inl k4)]
    exact hlen
  have hpos : (gl_addchar c s).gl_pos = s.gl_pos + 1 := by
    rw [hg, fixup_pos_of_change _ _ _ _ (Or.inl k4)]
    simp only [hlen]
    rw [if_neg (by omega), if_neg (by omega)]
  have hbuf : (gl_addchar c s).gl_buf = wr s.gl_buf s.gl_pos (toByte c) := by
    rw [hg, fixup_gl_buf]
  refine ⟨?_, hcnt, hpos, ?_⟩
  · unfold contents
    rw [hbuf, b1]
    rw [k2] at h3
    exact wr_over_cstr s.gl_buf s.gl_pos _ (b1 ▸ b2) k4 h3
  · refine ⟨?_, ?_, ?_, ?_, ?_⟩
    · rw [hbuf, length_wr, hg, fixup_BUF_SIZE]; exact k1
    · rw [hcnt, hbuf, hlen]
    · rw [hcnt, hg, fixup_BUF_SIZE]; simp only []; omega
    · rw [hpos]; omega
    · rw [hpos, hcnt]; omega

/-- What `gl_addchar` does when the buffer is full. -/
theorem addchar_full (s : State) (c : Int) (h1 : s.gl_cnt ≥ s.BUF_SIZE - 2) :
    gl_addchar c s = { s with out := s.out ++ [7] } := by
  unfold gl_addchar
  rw [if_pos h1]
  rfl

theorem contents_length (s : State) (hok : BufOk s) : ((contents s).length : Int) = s.gl_cnt := by
  rw [hok.2.1]; rfl

theorem addchar_BUF_SIZE (s : State) (c : Int) : (gl_addchar c s).BUF_SIZE = s.BUF_SIZE := by
  unfold gl_addchar
  split
  · rfl
  · split <;> rw [fixup_BUF_SIZE]

theorem addchar_overwrite (s : State) (c : Int) :
    (gl_addchar c s).gl_overwrite = s.gl_overwrite := by
  unfold gl_addchar
  split
  · rfl
  · split <;> rw [fixup_gl_overwrite]

theorem lineOf_eq (s : State) (l : List Nat) (p : Int) (o : Bool) (k : Int)
    (h1 : contents s = l) (h2 : s.gl_pos = p) (h3 : decide (s.gl_overwrite ≠ 0) = o)
    (h4 : s.BUF_SIZE = k) :
    lineOf s = { contents := l, cursor := p, overwrite := o, capacity := k } := by
  subst h1 h2 h3 h4
  rfl

/-- C2. `gl_addchar` is the reference insertion of the specification: on a
well-formed buffer and a printable `c`, the line it leaves is the one
`insert_at` computes, `gl_cnt` is its length, and the bell rings when `insert_at`
rejects.  In full: (i) with room and insert mode or the cursor at
the end, `c` goes in at the cursor, what was before it stays and what was
at or after it moves right by one, the length grows by one and the cursor
moves right by one; (ii) with room, overwrite mode and the cursor before the
end, only the character at the cursor is replaced, the length stays and the
cursor moves right by one; (iii) with `gl_cnt ≥ BUF_SIZE - 2` nothing changes
but the output, which gets a bell. -/
theorem C2_addchar_refines_insert_at (s : State) (c : Int) (hok : BufOk s) (hc : printable c) :
    (lineOf (gl_addchar c s) = (insert_at (lineOf s) c.toNat).1
      ∧ (gl_addchar c s).gl_cnt = ((insert_at (lineOf s) c.toNat).1.contents.length : Int)
      ∧ ((insert_at (lineOf s) c.toNat).2 = true → (gl_addchar c s).out = s.out ++ [7]))
    ∧ (s.gl_cnt < s.BUF_SIZE - 2 → (s.gl_overwrite = 0 ∨ s.gl_pos = s.gl_cnt) →
        contents (gl_addchar c s)
            = (contents s).take s.gl_pos.toNat ++ c.toNat :: (contents s).drop s.gl_pos.toNat
          ∧ (gl_addchar c s).gl_cnt = s.gl_cnt + 1
          ∧ (gl_addchar c s).gl_pos = s.gl_pos + 1)
    ∧ (s.gl_cnt < s.BUF_SIZE - 2 → s.gl_overwrite ≠ 0 → s.gl_pos < s.gl_cnt →
        contents (gl_addchar c s) = (contents s).set s.gl_pos.toNat c.toNat
          ∧ (gl_addchar c s).gl_cnt = s.gl_cnt
          ∧ (gl_addchar c s).gl_pos = s.gl_pos + 1)
    ∧ (s.gl_cnt ≥ s.BUF_SIZE - 2 →
        (gl_addchar c s).gl_buf = s.gl_buf ∧ (gl_addchar c s).gl_cnt = s.gl_cnt
          ∧ (gl_addchar c s).gl_pos = s.gl_pos ∧ (gl_addchar c s).out = s.out ++ [7]) := by
  have hcl := contents_length s hok
  refine ⟨?_, ?_, ?_, ?_⟩
  · have ho := addchar_overwrite s c
    have hb := addchar_BUF_SIZE s c
    by_cases h1 : s.gl_cnt ≥ s.BUF_SIZE - 2
    · have hi : insert_at (lineOf s) c.toNat = (lineOf s, true) := by
        unfold insert_at
        rw [if_pos (by show ((contents s).length : Int) ≥ s.BUF_SIZE - 2; omega)]
      rw [hi, addchar_full s c h1]
      exact ⟨rfl, hcl.symm, fun _ => rfl⟩
    · by_cases h2 : s.gl_overwrite = 0 ∨ s.gl_pos = s.gl_cnt
      · obtain ⟨a, b, d, _⟩ := addchar_ins s c hok hc (by omega) h2
        have hi : insert_at (lineOf s) c.toNat
            = ({ lineOf s with
                 contents := (contents s).take s.gl_pos.toNat
                   ++ c.toNat :: (contents s).drop s.gl_pos.toNat
                 cursor := s.gl_pos + 1 }, false) := by
          unfold insert_at
          rw [if_neg (by show ¬ ((contents s).length : Int) ≥ s.BUF_SIZE - 2; omega)]
          rw [if_pos (by
            show decide (s.gl_overwrite ≠ 0) = false ∨ s.gl_pos = ((contents s).length : Int)
            rcases h2 with h2 | h2
            · left; simp [h2]
            · right; omega)]
          rfl
        rw [hi]
        refine ⟨lineOf_eq _ _ _ _ _ a d (by rw [ho]; rfl) hb, ?_, fun h => by simp at h⟩
        rw [b]
        show s.gl_cnt + 1 = ((List.take s.gl_pos.toNat (contents s)
          ++ c.toNat :: List.drop s.gl_pos.toNat (contents s)).length : Int)
        have := hok.2.2.2
        simp only [List.length_append, List.length_take, List.length_cons, List.length_drop]
        omega
      · have h3 : s.gl_overwrite ≠ 0 := fun h => h2 (Or.inl h)
        have h4 : s.gl_pos < s.gl_cnt := by
          have := hok.2.2.2.2
          have : s.gl_pos ≠ s.gl_cnt := fun h => h2 (Or.inr h)
          omega
        obtain ⟨a, b, d, _⟩ := addchar_over s c hok hc (by omega) h3 h4
        have hi : insert_at (lineOf s) c.toNat
            = ({ lineOf s with
                 contents := (contents s).set s.gl_pos.toNat c.toNat
                 cursor := s.gl_pos + 1 }, false) := by
          unfold insert_at
          rw [if_neg (by show ¬ ((contents s).length : Int) ≥ s.BUF_SIZE - 2; omega)]
          rw [if_neg (by
            show ¬ (decide (s.gl_overwrite ≠ 0) = false ∨ s.gl_pos = ((contents s).length : Int))
            simp [h3]; omega)]
          rfl
        rw [hi]
        refine ⟨lineOf_eq _ _ _ _ _ a d (by rw [ho]; rfl) hb, ?_, fun h => by simp at h⟩
        rw [b]
        show s.gl_cnt = (((contents s).set s.gl_pos.toNat c.toNat).length : Int)
        rw [List.length_set]; omega
  · intro h1 h2
    obtain ⟨a, b, d, _⟩ := addchar_ins s c hok hc h1 h2
    exact ⟨a, b, d⟩
  · intro h1 h2 h3
    obtain ⟨a, b, d, _⟩ := addchar_over s c hok hc h1 h2 h3
    exact ⟨a, b, d⟩
  · intro h1
    rw [addchar_full s c h1]
    exact ⟨rfl, rfl, rfl, rfl⟩

theorem sample_hi_ok : BufOk sample_hi := by
  unfold BufOk; decide

theorem C2_addchar_witness :
    BufOk sample_hi ∧ printable 120
      ∧ contents (gl_addchar 120 sample_hi) = [104, 120, 105]
      ∧ (gl_addchar 120 sample_hi).gl_cnt = 3 ∧ (gl_addchar 120 sample_hi).gl_pos = 2 :=
  ⟨sample_hi_ok, by unfold printable; decide,
    ((C2_addchar_refines_insert_at sample_hi 120 sample_hi_ok (by unfold printable; decide)).2.1
      (by decide) (by decide)).1.trans (by decide),
    ((C2_addchar_refines_insert_at sample_hi 120 sample_hi_ok (by unfold printable; decide)).2.1
      (by decide) (by decide)).2.1.trans (by decide),
    ((C2_addchar_refines_insert_at sample_hi 120 sample_hi_ok (by unfold printable; decide)).2.1
      (by decide) (by decide)).2.2.trans (by decide)⟩

/-! ## Deletion -/

/-- The array `gl_del` leaves: pointwise. -/
theorem del_rd (b : List Nat) (d cnt : Int) (h0 : 0 ≤ d) (h1 : d ≤ cnt) (j : Int) :
    rd (forUp d cnt (fun i b => wr b i (rd b (i + 1))) b) j
      = if d ≤ j ∧ j < cnt then rd b (j + 1) else rd b j :=
  (shiftL_spec d h0 (cnt - d).toNat cnt b (by omega)).2 j

theorem del_length (b : List Nat) (d cnt : Int) (h0 : 0 ≤ d) (h1 : d ≤ cnt) :
    (forUp d cnt (fun i b => wr b i (rd b (i + 1))) b).length = b.length :=
  (shiftL_spec d h0 (cnt - d).toNat cnt b (by omega)).1

theorem del_strlen (b : List Nat) (d : Int) (h0 : 0 ≤ d) (h1 : d < strlen b) :
    strlen (forUp d (strlen b) (fun i b => wr b i (rd b (i + 1))) b) = strlen b - 1 := by
  have := strlen_le b
  apply strlen_eq
  · omega
  · rw [del_length b d _ h0 (by omega)]; omega
  · intro i hi0 hi1
    rw [del_rd b d _ h0 (by omega)]
    split
    · exact rd_ne_of_lt_strlen b _ (by omega) (by omega)
    · exact rd_ne_of_lt_strlen b _ (by omega) (by omega)
  · rw [del_rd b d _ h0 (by omega), if_pos (by omega)]
    have : strlen b - 1 + 1 = strlen b := by omega
    rw [this]
    exact rd_strlen b

theorem del_cstr (b : List Nat) (d : Int) (h0 : 0 ≤ d) (h1 : d < strlen b) :
    cstr (forUp d (strlen b) (fun i b => wr b i (rd b (i + 1))) b)
      = (cstr b).eraseIdx d.toNat := by
  have hs : strlen b = (cstr b).length := rfl
  have hget : ∀ k : Nat, k < (cstr b).length → rd b (k : Int) = (cstr b).getD k 0 :=
    fun k hk => rd_eq_cstr b k hk
  obtain ⟨p, rfl⟩ := Int.eq_ofNat_of_zero_le h0
  simp only [Int.toNat_ofNat]
  have hl : ((cstr b).eraseIdx p).length = (cstr b).length - 1 :=
    List.length_eraseIdx_of_lt (by omega)
  apply cstr_eq_of_rd
  · rw [del_strlen b p h0 h1, hl]; omega
  · intro i hi
    rw [hl] at hi
    rw [del_rd b p _ h0 (by omega), List.getD_eq_getElem?_getD, List.getElem?_eraseIdx]
    by_cases c1 : i < p
    · rw [if_neg (by omega), if_pos c1, hget i (by omega), List.getD_eq_getElem?_getD]
    · rw [if_pos (by omega), if_neg c1]
      have e : (i : Int) + 1 = ((i + 1 : Nat) : Int) := by omega
      rw [e, hget (i + 1) (by omega), List.getD_eq_getElem?_getD]

/-- What `gl_del` does when there is a character to delete: `loc` is `-1` or `0`. -/
theorem del_ok (s : State) (loc : Int) (hok : BufOk s)
    (h : (loc = -1 ∧ s.gl_pos > 0) ∨ (loc = 0 ∧ s.gl_pos < s.gl_cnt)) :
    contents (gl_del loc s) = (contents s).eraseIdx (s.gl_pos + loc).toNat
      ∧ (gl_del loc s).gl_cnt = s.gl_cnt - 1
      ∧ (gl_del loc s).gl_pos = s.gl_pos + loc
      ∧ BufOk (gl_del loc s) := by
  obtain ⟨k1, k2, k3, k4, k5⟩ := hok
  have hd0 : 0 ≤ s.gl_pos + loc := by omega
  have hd1 : s.gl_pos + loc < s.gl_cnt := by omega
  have hg : gl_del loc s = gl_fixup s.gl_prompt (s.gl_pos + loc) (s.gl_pos + loc)
      { s with gl_buf := forUp (s.gl_pos + loc) s.gl_cnt (fun i b => wr b i (rd b (i + 1)))
                 s.gl_buf } := by
    unfold gl_del
    rw [if_pos h]
  have hlen : strlen (forUp (s.gl_pos + loc) s.gl_cnt (fun i b => wr b i (rd b (i + 1)))
                 s.gl_buf) = s.gl_cnt - 1 := by
    rw [k2]
    rw [k2] at hd1
    exact del_strlen s.gl_buf _ hd0 hd1
  have hcnt : (gl_del loc s).gl_cnt = s.gl_cnt - 1 := by
    rw [hg, fixup_cnt _ _ _ _ (Or.inl hd0)]
    exact hlen
  have hpos : (gl_del loc s).gl_pos = s.gl_pos + loc := by
    rw [hg, fixup_pos_of_change _ _ _ _ (Or.inl hd0)]
    simp only [hlen]
    rw [if_neg (by omega), if_neg (by omega)]
  have hbuf : (gl_del loc s).gl_buf
      = forUp (s.gl_pos + loc) s.gl_cnt (fun i b => wr b i (rd b (i + 1))) s.gl_buf := by
    rw [hg, fixup_gl_buf]
  refine ⟨?_, hcnt, hpos, ?_⟩
  · unfold contents
    rw [hbuf, k2]
    rw [k2] at hd1
    exact del_cstr s.gl_buf _ hd0 hd1
  · refine ⟨?_, ?_, ?_, ?_, ?_⟩
    · rw [hbuf, del_length _ _ _ hd0 (by omega), hg, fixup_BUF_SIZE]; exact k1
    · rw [hcnt, hbuf, hlen]
    · rw [hcnt, hg, fixup_BUF_SIZE]; simp only []; omega
    · rw [hpos]; omega
    · rw [hpos, hcnt]; omega

theorem eraseIdx_insert (t : List Nat) (p : Nat) (v : Nat) (h : p ≤ t.length) :
    (t.take p ++ v :: t.drop p).eraseIdx p = t := by
  have hl : (t.take p).length = p := by rw [List.length_take]; omega
  rw [List.eraseIdx_append_of_length_le (by omega), hl, Nat.sub_self]
  simp

/-- C3 (amended). With room for one more character and either insert mode or
the cursor at the end of the line, inserting a printable `c` with `gl_addchar`
and then deleting left with `gl_del(-1)` restores the contents of the line,
its length and the cursor. -/
theorem C3_insert_then_delete_left (s : State) (c : Int) (hok : BufOk s) (hc : printable c)
    (h1 : s.gl_cnt < s.BUF_SIZE - 2) (h2 : s.gl_overwrite = 0 ∨ s.gl_pos = s.gl_cnt) :
    contents (gl_del (-1) (gl_addchar c s)) = contents s
      ∧ (gl_del (-1) (gl_addchar c s)).gl_cnt = s.gl_cnt
      ∧ (gl_del (-1) (gl_addchar c s)).gl_pos = s.gl_pos := by
  obtain ⟨a1, a2, a3, a4⟩ := addchar_ins s c hok hc h1 h2
  have hp := hok.2.2.2.1
  have hp2 := hok.2.2.2.2
  have hcl := contents_length s hok
  obtain ⟨d1, d2, d3, _⟩ := del_ok (gl_addchar c s) (-1) a4 (Or.inl ⟨rfl, by omega⟩)
  refine ⟨?_, by omega, by omega⟩
  rw [d1, a1, a3]
  have e : (s.gl_pos + 1 + -1).toNat = s.gl_pos.toNat := by omega
  rw [e]
  exact eraseIdx_insert _ _ _ (by omega)

/-- C3 (counterexample). The round trip fails in overwrite mode with the
cursor before the end (`hi`, cursor 1: `x` replaces `i`, the deletion leaves
`h`), and on a full buffer (`hi` in 4 bytes: the insertion is rejected, the
deletion leaves `h`). -/
theorem C3_round_trip_fails :
    (BufOk sample_over ∧ sample_over.gl_cnt ≤ sample_over.BUF_SIZE - 2 ∧ printable 120
      ∧ contents sample_over = [104, 105]
      ∧ contents (gl_del (-1) (gl_addchar 120 sample_over)) = [104]
      ∧ (gl_del (-1) (gl_addchar 120 sample_over)).gl_cnt ≠ sample_over.gl_cnt)
    ∧ (BufOk sample_full ∧ sample_full.gl_cnt ≤ sample_full.BUF_SIZE - 2 ∧ printable 120
      ∧ sample_full.gl_overwrite = 0
      ∧ contents sample_full = [104, 105]
      ∧ contents (gl_del (-1) (gl_addchar 120 sample_full)) = [104]
      ∧ (gl_del (-1) (gl_addchar 120 sample_full)).gl_pos ≠ sample_full.gl_pos) := by
  unfold BufOk printable
  decide

theorem C3_insert_then_delete_left_witness :
    BufOk sample_hi ∧ printable 120 ∧ sample_hi.gl_cnt < sample_hi.BUF_SIZE - 2
      ∧ contents (gl_del (-1) (gl_addchar 120 sample_hi)) = [104, 105]
      ∧ (gl_del (-1) (gl_addchar 120 sample_hi)).gl_cnt = 2
      ∧ (gl_del (-1) (gl_addchar 120 sample_hi)).gl_pos = 1 :=
  ⟨sample_hi_ok, by unfold printable; decide, by decide,
    (C3_insert_then_delete_left sample_hi 120 sample_hi_ok (by unfold printable; decide)
      (by decide) (by decide)).1.trans (by decide),
    (C3_insert_then_delete_left sample_hi 120 sample_hi_ok (by unfold printable; decide)
      (by decide) (by decide)).2.1.trans (by decide),
    (C3_insert_then_delete_left sample_hi 120 sample_hi_ok (by unfold printable; decide)
      (by decide) (by decide)).2.2.trans (by decide)⟩

/-! ## Kill and yank -/

theorem cstr_ne_zero (b : List Nat) : ∀ x ∈ cstr b, x ≠ 0 := by
  induction b with
  | nil => simp [cstr]
  | cons a l ih =>
    by_cases ha : a = 0
    · simp [cstr, ha]
    · intro x hx
      simp only [cstr, ha, if_false, List.mem_cons] at hx
      rcases hx with hx | hx
      · rw [hx]; exact ha
      · exact ih x hx

theorem cstr_append_zero (t r : List Nat) (h : ∀ x ∈ t, x ≠ 0) : cstr (t ++ 0 :: r) = t := by
  induction t with
  | nil => simp [cstr]
  | cons a l ih =>
    have ha : a ≠ 0 := h a (by simp)
    have e := ih (fun x hx => h x (by simp [hx]))
    simp only [List.cons_append, cstr, ha, if_false]
    exact congrArg (List.cons a) e

/-- An array is its string, a NUL, and a rest, when the NUL lies inside. -/
theorem split_at_nul (b : List Nat) (h : strlen b < b.length) :
    b = cstr b ++ 0 :: b.drop ((cstr b).length + 1) := by
  induction b with
  | nil => simp [strlen, cstr] at h
  | cons a l ih =>
    by_cases ha : a = 0
    · simp [cstr, ha]
    · have h2 : strlen l < l.length := by
        unfold strlen at h ⊢
        simp only [cstr, ha, if_false, List.length_cons] at h
        omega
      have := ih h2
      simp only [cstr, ha, if_false, List.length_cons, List.cons_append, List.drop_succ_cons]
      rw [← this]

theorem cstr_drop (b : List Nat) (p : Nat) (h : p ≤ (cstr b).length) :
    cstr (b.drop p) = (cstr b).drop p := by
  induction b generalizing p with
  | nil => simp [cstr]
  | cons a l ih =>
    cases p with
    | zero => simp
    | succ p =>
      by_cases ha : a = 0
      · simp [cstr, ha] at h
      · simp only [cstr, ha, if_false, List.length_cons] at h
        simp only [List.drop_succ_cons, cstr, ha, if_false]
        exact ih p (by omega)

/-- The string `strcpy` leaves in an array with room for it. -/
theorem cstr_strcpy (dst src : List Nat) (h : (cstr src).length < dst.length) :
    cstr (strcpy dst src) = cstr src ∧ (strcpy dst src).length = dst.length := by
  unfold strcpy
  constructor
  · have e : cstr src ++ [0] ++ List.drop ((cstr src).length + 1) dst
        = cstr src ++ 0 :: List.drop ((cstr src).length + 1) dst := by simp
    rw [e, List.take_append_eq_append_take]
    have e2 : List.take (cstr src).length (cstr src) = cstr src := List.take_length _
    have e3 : dst.length - (cstr src).length = (dst.length - (cstr src).length - 1) + 1 := by
      omega
    rw [List.take_of_length_le (by omega), e3, List.take_succ_cons]
    exact cstr_append_zero _ _ (cstr_ne_zero src)
  · rw [List.length_take]
    simp only [List.length_append, List.length_cons, List.length_nil, List.length_drop]
    omega

theorem wr_zero_rd (b : List Nat) (pos : Int) (h0 : 0 ≤ pos) (h1 : pos < b.length) (j : Int) :
    rd (wr b pos 0) j = if j = pos then 0 else rd b j := by
  rw [rd_wr]
  by_cases hj : j = pos
  · subst hj
    rw [if_pos (by omega), if_pos rfl]
  · rw [if_neg (by omega), if_neg hj]

theorem wr_zero_strlen (b : List Nat) (pos : Int) (h0 : 0 ≤ pos) (h1 : pos ≤ strlen b)
    (h2 : pos < b.length) : strlen (wr b pos 0) = pos := by
  apply strlen_eq
  · exact h0
  · rw [length_wr]; omega
  · intro i hi0 hi1
    rw [wr_zero_rd b pos h0 h2, if_neg (by omega)]
    exact rd_ne_of_lt_strlen b _ hi0 (by omega)
  · rw [wr_zero_rd b pos h0 h2, if_pos rfl]

theorem wr_zero_cstr (b : List Nat) (pos : Int) (h0 : 0 ≤ pos) (h1 : pos ≤ strlen b)
    (h2 : pos < b.length) : cstr (wr b pos 0) = (cstr b).take pos.toNat := by
  have hs : strlen b = (cstr b).length := rfl
  apply cstr_eq_of_rd
  · rw [wr_zero_strlen b pos h0 h1 h2, List.length_take]; omega
  · intro i hi
    rw [List.length_take] at hi
    rw [wr_zero_rd b pos h0 h2, if_neg (by omega), rd_eq_cstr b i (by omega),
      List.getD_eq_getElem?_getD, List.getD_eq_getElem?_getD, List.getElem?_take,
      if_pos (by omega)]

/-- C5. `gl_kill(pos)` with `0 ≤ pos < gl_cnt` on a well-formed buffer, the
kill buffer having the `BUF_SIZE` bytes `gl_init` gives it: the kill slot
becomes exactly the text from `pos` to the end, the line is cut to its first
`pos` characters, unchanged, and the cursor is `pos`.  With `pos ≥ gl_cnt`
nothing changes but the output, which gets a bell. -/
theorem C5_kill (s : State) (pos : Int) (hok : BufOk s)
    (hk : (s.gl_killbuf.length : Int) = s.BUF_SIZE) :
    (0 ≤ pos → pos < s.gl_cnt →
      cstr (gl_kill pos s).gl_killbuf = (contents s).drop pos.toNat
        ∧ contents (gl_kill pos s) = (contents s).take pos.toNat
        ∧ (gl_kill pos s).gl_cnt = pos
        ∧ (gl_kill pos s).gl_pos = pos)
    ∧ (pos ≥ s.gl_cnt →
      (gl_kill pos s).gl_buf = s.gl_buf ∧ (gl_kill pos s).gl_cnt = s.gl_cnt
        ∧ (gl_kill pos s).gl_pos = s.gl_pos ∧ (gl_kill pos s).gl_killbuf = s.gl_killbuf
        ∧ (gl_kill pos s).out = s.out ++ [7]) := by
  obtain ⟨k1, k2, k3, k4, k5⟩ := hok
  have hs : strlen s.gl_buf = (cstr s.gl_buf).length := rfl
  constructor
  · intro h0 h1
    have hg : gl_kill pos s = gl_fixup s.gl_prompt pos pos
        { s with gl_killbuf := strcpy s.gl_killbuf (s.gl_buf.drop pos.toNat),
                 gl_buf := wr s.gl_buf pos 0 } := by
      unfold gl_kill
      rw [if_pos h1]
    have hlen : strlen (wr s.gl_buf pos 0) = pos :=
      wr_zero_strlen s.gl_buf pos h0 (by omega) (by omega)
    have hd : cstr (s.gl_buf.drop pos.toNat) = (cstr s.gl_buf).drop pos.toNat :=
      cstr_drop s.gl_buf pos.toNat (by omega)
    refine ⟨?_, ?_, ?_, ?_⟩
    · rw [hg, fixup_gl_killbuf]
      show cstr (strcpy s.gl_killbuf (s.gl_buf.drop pos.toNat)) = _
      rw [(cstr_strcpy _ _ (by rw [hd, List.length_drop]; omega)).1, hd]
      rfl
    · unfold contents
      rw [hg, fixup_gl_buf]
      exact wr_zero_cstr s.gl_buf pos h0 (by omega) (by omega)
    · rw [hg, fixup_cnt _ _ _ _ (Or.inl h0)]
      exact hlen
    · rw [hg, fixup_pos_of_change _ _ _ _ (Or.inl h0)]
      simp only [hlen]
      rw [if_neg (by omega), if_neg (by omega)]
  · intro h1
    have hg : gl_kill pos s = gl_putc 7 s := by
      unfold gl_kill
      rw [if_neg (by omega)]
    rw [hg]
    exact ⟨rfl, rfl, rfl, rfl, rfl⟩

theorem C5_kill_witness :
    BufOk sample_hi ∧ (sample_hi.gl_killbuf.length : Int) = sample_hi.BUF_SIZE
      ∧ cstr (gl_kill 1 sample_hi).gl_killbuf = [105]
      ∧ contents (gl_kill 1 sample_hi) = [104]
      ∧ (gl_kill 1 sample_hi).gl_cnt = 1 ∧ (gl_kill 1 sample_hi).gl_pos = 1 :=
  ⟨sample_hi_ok, by decide,
    ((C5_kill sample_hi 1 sample_hi_ok (by decide)).1 (by decide) (by decide)).1.trans
      (by decide),
    ((C5_kill sample_hi 1 sample_hi_ok (by decide)).1 (by decide) (by decide)).2.1.trans
      (by decide),
    ((C5_kill sample_hi 1 sample_hi_ok (by decide)).1 (by decide) (by decide)).2.2.1,
    ((C5_kill sample_hi 1 sample_hi_ok (by decide)).1 (by decide) (by decide)).2.2.2⟩

/-- The array `gl_yank` leaves in insert mode: pointwise. -/
theorem yank_insert_rd (s : State) (k : Nat) (h0 : 0 ≤ s.gl_pos)
    (h1 : s.gl_pos ≤ s.gl_cnt) (h2 : s.gl_cnt + k < s.gl_buf.length) (h3 : 0 < k) (j : Int) :
    rd (yank_insert k s) j
      = if s.gl_pos ≤ j ∧ j < s.gl_pos + k then rd s.gl_killbuf (j - s.gl_pos)
        else if s.gl_pos + k ≤ j ∧ j ≤ s.gl_cnt + k then rd s.gl_buf (j - k)
        else rd s.gl_buf j := by
  unfold yank_insert
  obtain ⟨hl, hr⟩ := shiftR_spec k (by omega) s.gl_cnt (s.gl_cnt + 1 - s.gl_pos).toNat s.gl_pos
    s.gl_buf (by omega) h0 h2
  obtain ⟨_, hc⟩ := copy_spec s.gl_killbuf s.gl_pos h0 k
    (forDown s.gl_cnt s.gl_pos (fun i b => wr b (i + k) (rd b i)) s.gl_buf)
  rw [hc, hl, hr]
  by_cases c1 : s.gl_pos ≤ j ∧ j < s.gl_pos + k
  · rw [if_pos (by omega), if_pos c1]
  · rw [if_neg (by omega), if_neg c1]

theorem yank_insert_length (s : State) (k : Nat) (h0 : 0 ≤ s.gl_pos)
    (h1 : s.gl_pos ≤ s.gl_cnt) (h2 : s.gl_cnt + k < s.gl_buf.length) (h3 : 0 < k) :
    (yank_insert k s).length = s.gl_buf.length := by
  unfold yank_insert
  obtain ⟨hl, _⟩ := shiftR_spec k (by omega) s.gl_cnt (s.gl_cnt + 1 - s.gl_pos).toNat s.gl_pos
    s.gl_buf (by omega) h0 h2
  obtain ⟨hc, _⟩ := copy_spec s.gl_killbuf s.gl_pos h0 k
    (forDown s.gl_cnt s.gl_pos (fun i b => wr b (i + k) (rd b i)) s.gl_buf)
  rw [hc, hl]

theorem yank_insert_strlen (s : State) (k : Nat) (hk : strlen s.gl_killbuf = k)
    (hc : s.gl_cnt = strlen s.gl_buf) (h0 : 0 ≤ s.gl_pos)
    (h1 : s.gl_pos ≤ s.gl_cnt) (h2 : s.gl_cnt + k < s.gl_buf.length) (h3 : 0 < k) :
    strlen (yank_insert k s) = s.gl_cnt + k := by
  have hn := strlen_nonneg s.gl_buf
  apply strlen_eq
  · omega
  · rw [yank_insert_length s k h0 h1 h2 h3]; omega
  · intro i hi0 hi1
    rw [yank_insert_rd s k h0 h1 h2 h3]
    split
    · exact rd_ne_of_lt_strlen _ _ (by omega) (by omega)
    · split
      · exact rd_ne_of_lt_strlen _ _ (by omega) (by omega)
      · exact rd_ne_of_lt_strlen _ _ (by omega) (by omega)
  · rw [yank_insert_rd s k h0 h1 h2 h3, if_neg (by omega), if_pos (by omega)]
    have : s.gl_cnt + (k : Int) - k = strlen s.gl_buf := by omega
    rw [this]
    exact rd_strlen _

/-- The array `gl_yank` leaves in overwrite mode: pointwise. -/
theorem yank_over_rd (s : State) (k : Nat) (h0 : 0 ≤ s.gl_pos)
    (h2 : s.gl_pos + k < s.gl_buf.length) (j : Int) :
    rd (yank_over k s) j
      = if s.gl_pos ≤ j ∧ j < s.gl_pos + k then rd s.gl_killbuf (j - s.gl_pos)
        else if j = s.gl_pos + k ∧ s.gl_pos + k > s.gl_cnt then 0
        else rd s.gl_buf j := by
  unfold yank_over
  obtain ⟨_, hc⟩ := copy_spec s.gl_killbuf s.gl_pos h0 k
    (if s.gl_pos + k > s.gl_cnt then wr s.gl_buf (s.gl_pos + k) 0 else s.gl_buf)
  rw [hc]
  have hlen : (if s.gl_pos + k > s.gl_cnt then wr s.gl_buf (s.gl_pos + k) 0
      else s.gl_buf).length = s.gl_buf.length := by
    split
    · rw [length_wr]
    · rfl
  rw [hlen]
  by_cases c1 : s.gl_pos ≤ j ∧ j < s.gl_pos + k
  · rw [if_pos (by omega), if_pos c1]
  · rw [if_neg (by omega), if_neg c1]
    by_cases c2 : s.gl_pos + k > s.gl_cnt
    · rw [if_pos c2, rd_wr]
      by_cases c3 : j = s.gl_pos + k
      · rw [if_pos (by omega), if_pos ⟨c3, c2⟩]
      · rw [if_neg (by omega), if_neg (by omega)]
    · rw [if_neg c2, if_neg (by omega)]

theorem yank_over_length (s : State) (k : Nat) (h0 : 0 ≤ s.gl_pos) :
    (yank_over k s).length = s.gl_buf.length := by
  unfold yank_over
  obtain ⟨hc, _⟩ := copy_spec s.gl_killbuf s.gl_pos h0 k
    (if s.gl_pos + k > s.gl_cnt then wr s.gl_buf (s.gl_pos + k) 0 else s.gl_buf)
  rw [hc]
  split
  · rw [length_wr]
  · rfl

theorem yank_over_strlen (s : State) (k : Nat) (hk : strlen s.gl_killbuf = k)
    (hc : s.gl_cnt = strlen s.gl_buf) (h0 : 0 ≤ s.gl_pos) (h1 : s.gl_pos ≤ s.gl_cnt)
    (h2 : s.gl_pos + k < s.gl_buf.length) (h3 : s.gl_cnt < s.gl_buf.length) :
    strlen (yank_over k s) = max s.gl_cnt (s.gl_pos + k) := by
  have hn := strlen_nonneg s.gl_buf
  apply strlen_eq
  · omega
  · rw [yank_over_length s k h0]; omega
  · intro i hi0 hi1
    rw [yank_over_rd s k h0 h2]
    split
    · exact rd_ne_of_lt_strlen _ _ (by omega) (by omega)
    · split
      · omega
      · exact rd_ne_of_lt_strlen _ _ (by omega) (by omega)
  · rw [yank_over_rd s k h0 h2, if_neg (by omega)]
    by_cases c2 : s.gl_pos + k > s.gl_cnt
    · rw [if_pos ⟨by omega, c2⟩]
    · rw [if_neg (by omega)]
      have : max s.gl_cnt (s.gl_pos + k) = strlen s.gl_buf := by omega
      rw [this]
      exact rd_strlen _

theorem addchar_gl_search_mode (s : State) (c : Int) : (gl_addchar c s).gl_search_mode = s.gl_search_mode := by
  unfold gl_addchar
  split
  · rfl
  · split <;> rw [fixup_gl_search_mode]

theorem addchar_gl_in_hook (s : State) (c : Int) : (gl_addchar c s).gl_in_hook = s.gl_in_hook := by
  unfold gl_addchar
  split
  · rfl
  · split <;> rw [fixup_gl_in_hook]

theorem addchar_gl_out_hook (s : State) (c : Int) : (gl_addchar c s).gl_out_hook = s.gl_out_hook := by
  unfold gl_addchar
  split
  · rfl
  · split <;> rw [fixup_gl_out_hook]

theorem addchar_gl_tab_hook (s : State) (c : Int) : (gl_addchar c s).gl_tab_hook = s.gl_tab_hook := by
  unfold gl_addchar
  split
  · rfl
  · split <;> rw [fixup_gl_tab_hook]

theorem addchar_gl_strlen (s : State) (c : Int) : (gl_addchar c s).gl_strlen = s.gl_strlen := by
  unfold gl_addchar
  split
  · rfl
  · split <;> rw [fixup_gl_strlen]

theorem addchar_inp (s : State) (c : Int) : (gl_addchar c s).inp = s.inp := by
  unfold gl_addchar
  split
  · rfl
  · split <;> rw [fixup_inp]

theorem addchar_tty (s : State) (c : Int) : (gl_addchar c s).tty = s.tty := by
  unfold gl_addchar
  split
  · rfl
  · split <;> rw [fixup_tty]

theorem addchar_gl_killbuf (s : State) (c : Int) : (gl_addchar c s).gl_killbuf = s.gl_killbuf := by
  unfold gl_addchar
  split
  · rfl
  · split <;> rw [fixup_gl_killbuf]

theorem addchar_gl_prompt (s : State) (c : Int) : (gl_addchar c s).gl_prompt = s.gl_prompt := by
  unfold gl_addchar
  split
  · rfl
  · split <;> rw [fixup_gl_prompt]

theorem addchar_HIST_SIZE (s : State) (c : Int) : (gl_addchar c s).HIST_SIZE = s.HIST_SIZE := by
  unfold gl_addchar
  split
  · rfl
  · split <;> rw [fixup_HIST_SIZE]

theorem addchar_hist_pos (s : State) (c : Int) : (gl_addchar c s).hist_pos = s.hist_pos := by
  unfold gl_addchar
  split
  · rfl
  · split <;> rw [fixup_hist_pos]

theorem addchar_hist_last (s : State) (c : Int) : (gl_addchar c s).hist_last = s.hist_last := by
  unfold gl_addchar
  split
  · rfl
  · split <;> rw [fixup_hist_last]

theorem addchar_gl_beep (s : State) (c : Int) : (gl_addchar c s).gl_beep = s.gl_beep := by
  unfold gl_addchar
  split
  · rfl
  · split <;> rw [fixup_gl_beep]

theorem addchar_hist_buf (s : State) (c : Int) : (gl_addchar c s).hist_buf = s.hist_buf := by
  unfold gl_addchar
  split
  · rfl
  · split <;> rw [fixup_hist_buf]

theorem addchar_gl_init_done (s : State) (c : Int) : (gl_addchar c s).gl_init_done = s.gl_init_done := by
  unfold gl_addchar
  split
  · rfl
  · split <;> rw [fixup_gl_init_done]

theorem addchar_err (s : State) (c : Int) : (gl_addchar c s).err = s.err := by
  unfold gl_addchar
  split
  · rfl
  · split <;> rw [fixup_err]


/-- The string `gl_newline` leaves in the array: the line and a newline. -/
theorem newline_cstr (b : List Nat) (n : Int) (hn : strlen b = n) (h : n + 1 < b.length) :
    cstr (wr (wr b n 10) (n + 1) 0) = cstr b ++ [10] := by
  have h0 := strlen_nonneg b
  have hs : strlen b = (cstr b).length := rfl
  have hrd : ∀ j, rd (wr (wr b n 10) (n + 1) 0) j
      = if j = n + 1 then 0 else if j = n then 10 else rd b j := by
    intro j
    rw [rd_wr, rd_wr, length_wr]
    by_cases c1 : j = n + 1
    · rw [if_pos (by omega), if_pos c1]
    · rw [if_neg (by omega), if_neg c1]
      by_cases c2 : j = n
      · rw [if_pos (by omega), if_pos c2]
      · rw [if_neg (by omega), if_neg c2]
  have hlen : strlen (wr (wr b n 10) (n + 1) 0) = n + 1 := by
    apply strlen_eq
    · omega
    · rw [length_wr, length_wr]; omega
    · intro i hi0 hi1
      rw [hrd, if_neg (by omega)]
      split
      · omega
      · exact rd_ne_of_lt_strlen b _ hi0 (by omega)
    · rw [hrd, if_pos rfl]
  apply cstr_eq_of_rd
  · rw [hlen, List.length_append]; simp; omega
  · intro i hi
    rw [List.length_append] at hi
    simp only [List.length_cons, List.length_nil] at hi
    rw [hrd, if_neg (by omega)]
    by_cases c2 : (i : Int) = n
    · rw [if_pos c2, List.getD_eq_getElem?_getD, List.getElem?_append_right (by omega)]
      have : i - (cstr b).length = 0 := by omega
      rw [this]; rfl
    · rw [if_neg c2, rd_eq_cstr b i (by omega), List.getD_eq_getElem?_getD,
        List.getD_eq_getElem?_getD, List.getElem?_append_left (by omega)]

/-- What holds while `getline` reads the keys of a line typed at the end of
the buffer outside search mode, no hook installed. -/
theorem typing_step (st : State) (c : Int) (typed : List Nat) (hok : BufOk st)
    (hend : st.gl_pos = st.gl_cnt) (hty : contents st = typed) (hs : st.gl_search_mode = 0)
    (hc : printable c) (hroom : st.gl_cnt < st.BUF_SIZE - 2) :
    key c st = .cont (gl_addchar c { st with gl_extent := 0 })
      ∧ BufOk (gl_addchar c { st with gl_extent := 0 })
      ∧ (gl_addchar c { st with gl_extent := 0 }).gl_pos
          = (gl_addchar c { st with gl_extent := 0 }).gl_cnt
      ∧ contents (gl_addchar c { st with gl_extent := 0 }) = typed ++ [c.toNat]
      ∧ (gl_addchar c { st with gl_extent := 0 }).gl_cnt = st.gl_cnt + 1 := by
  have hok2 : BufOk { st with gl_extent := 0 } := hok
  obtain ⟨a1, a2, a3, a4⟩ := addchar_ins { st with gl_extent := 0 } c hok2 hc hroom (Or.inr hend)
  have hcl := contents_length st hok
  refine ⟨?_, a4, ?_, ?_, a2⟩
  · unfold key
    have hi : iscntrl c = false := by
      unfold printable at hc
      unfold iscntrl
      simp only [Bool.or_eq_false_iff, decide_eq_false_iff_not, Bool.and_eq_false_iff]
      omega
    simp only [hi, if_true]
    rw [if_neg (by simp [hs])]
  · rw [a3, a2]
    show st.gl_pos + 1 = st.gl_cnt + 1
    omega
  · rw [a1]
    show List.take st.gl_pos.toNat (contents st) ++ c.toNat :: List.drop st.gl_pos.toNat (contents st)
      = typed ++ [c.toNat]
    have e : st.gl_pos.toNat = (contents st).length := by omega
    rw [e, List.take_length, List.drop_length, hty]

theorem enter_step (st : State) (e : Int) (he : e = 10 ∨ e = 13) (hok : BufOk st)
    (hs : st.gl_search_mode = 0) (hout : st.gl_out_hook = none)
    (hroom : st.gl_cnt ≤ st.BUF_SIZE - 2) :
    ∃ t, key e st = .ret t ∧ cstr t.gl_buf = contents st ++ [10] ∧ t.inp = st.inp := by
  obtain ⟨k1, k2, k3, k4, k5⟩ := hok
  have hi : iscntrl e = true := by
    unfold iscntrl
    rcases he with he | he <;> subst he <;> decide
  have hsk : search_key e { st with gl_extent := 0 } = some (e, { st with gl_extent := 0 }) := by
    unfold search_key
    rw [if_neg (by simp [hs])]
  have hnb : newline_buf { st with gl_extent := 0 } = st.gl_buf := by
    unfold newline_buf
    simp only [hout]
  have hnl : newline_len { st with gl_extent := 0 } = st.gl_cnt := by
    unfold newline_len
    simp only [hout]
  have hnc : newline_change { st with gl_extent := 0 } = st.gl_cnt := by
    unfold newline_change
    simp only [hout]
  have hnew : ∃ t, gl_newline { st with gl_extent := 0 } = .ok t
      ∧ t.gl_buf = wr (wr st.gl_buf st.gl_cnt 10) (st.gl_cnt + 1) 0 ∧ t.inp = st.inp := by
    unfold gl_newline
    rw [if_neg (by show ¬ st.gl_cnt ≥ st.BUF_SIZE - 1; omega)]
    refine ⟨_, rfl, ?_, ?_⟩
    · simp only [hnl, hnb, gl_putc, fixup_gl_buf]
    · simp only [gl_putc, fixup_inp]
  obtain ⟨t, ht, hb, hinp⟩ := hnew
  refine ⟨gl_cleanup t, ?_, ?_, ?_⟩
  · unfold key
    simp only [hi, hsk]
    unfold key_switch
    rw [if_pos he, ht]
    simp
  · show cstr t.gl_buf = _
    rw [hb]
    exact newline_cstr st.gl_buf st.gl_cnt k2.symm (by omega)
  · exact hinp

theorem printable_nonneg (c : Int) (h : printable c) : c ≥ 0 := by
  unfold printable at h; omega

theorem typing_loop (line : List Int) :
    ∀ (fuel : Nat) (st : State) (typed : List Nat) (enter : Int) (rest : List Int),
      line.length + 1 ≤ fuel → BufOk st → st.gl_pos = st.gl_cnt → contents st = typed →
      st.gl_search_mode = 0 → st.gl_out_hook = none → (∀ c ∈ line, printable c) →
      st.gl_cnt + line.length ≤ st.BUF_SIZE - 2 → st.inp = line ++ enter :: rest →
      (enter = 10 ∨ enter = 13) →
      ∃ t, getline_loop fuel st = some t
        ∧ cstr t.gl_buf = typed ++ line.map Int.toNat ++ [10] ∧ t.inp = rest := by
  induction line with
  | nil =>
    intro fuel st typed enter rest hf hok hend hty hs hout _ hroom hinp he
    obtain ⟨n, rfl⟩ : ∃ n, fuel = n + 1 := ⟨fuel - 1, by simp at hf; omega⟩
    have hg : gl_getc st = (enter, { st with inp := rest }) := by
      unfold gl_getc
      rw [hinp]; rfl
    obtain ⟨t, ht, hb, hi⟩ := enter_step { st with inp := rest } enter he hok hs hout
      (by simpa using hroom)
    refine ⟨t, ?_, ?_, hi⟩
    · unfold getline_loop
      simp only [hg]
      rw [if_pos (by rcases he with he | he <;> omega), ht]
    · rw [hb]
      show contents st ++ [10] = _
      rw [hty]; simp
  | cons c l ih =>
    intro fuel st typed enter rest hf hok hend hty hs hout hp hroom hinp he
    obtain ⟨n, rfl⟩ : ∃ n, fuel = n + 1 := ⟨fuel - 1, by simp at hf; omega⟩
    have hc : printable c := hp c (by simp)
    have hg : gl_getc st = (c, { st with inp := l ++ enter :: rest }) := by
      unfold gl_getc
      rw [hinp]; rfl
    simp only [List.length_cons, Nat.cast_add, Nat.cast_one] at hroom
    obtain ⟨b1, b2, b3, b4, b5⟩ := typing_step { st with inp := l ++ enter :: rest } c typed hok
      hend hty hs hc (by show st.gl_cnt < st.BUF_SIZE - 2; omega)
    obtain ⟨t, ht, hb, hi⟩ := ih n _ (typed ++ [c.toNat]) enter rest
      (by simp at hf; omega) b2 b3 b4
      (by rw [addchar_gl_search_mode]; exact hs)
      (by rw [addchar_gl_out_hook]; exact hout)
      (fun x hx => hp x (by simp [hx]))
      (by rw [b5, addchar_BUF_SIZE]; show st.gl_cnt + 1 + (l.length : Int) ≤ st.BUF_SIZE - 2; omega)
      (by rw [addchar_inp])
      he
    refine ⟨t, ?_, ?_, hi⟩
    · unfold getline_loop
      simp only [hg]
      rw [if_pos (printable_nonneg c hc), b1]
      exact ht
    · rw [hb]; simp

theorem init_ok (s : State) (htty : s.tty = true) :
    ∃ s1, gl_init s = .ok s1 ∧ s1.gl_buf = s.gl_buf ∧ s1.BUF_SIZE = s.BUF_SIZE
      ∧ s1.gl_search_mode = s.gl_search_mode ∧ s1.gl_in_hook = s.gl_in_hook
      ∧ s1.gl_out_hook = s.gl_out_hook ∧ s1.inp = s.inp := by
  unfold gl_init
  by_cases h : s.gl_init_done < 0
  · simp only [if_pos h]
    rw [if_neg (by simp [gl_hist_init, htty])]
    exact ⟨_, rfl, rfl, rfl, rfl, rfl, rfl, rfl⟩
  · simp only [if_neg h]
    rw [if_neg (by simp [htty])]
    exact ⟨_, rfl, rfl, rfl, rfl, rfl, rfl, rfl⟩

theorem start_ok (s0 : State) (prompt : Option (List Nat)) (buf : List Nat) (buflen : Int)
    (hbuf : (buf.length : Int) = buflen) (hlen : 1 ≤ buflen) (htty : s0.tty = true)
    (hin : s0.gl_in_hook = none) :
    ∃ s1, getline_start prompt buf buflen s0 = .ok s1 ∧ BufOk s1 ∧ s1.gl_pos = s1.gl_cnt
      ∧ s1.gl_cnt = 0 ∧ contents s1 = [] ∧ s1.gl_search_mode = s0.gl_search_mode
      ∧ s1.gl_out_hook = s0.gl_out_hook ∧ s1.BUF_SIZE = buflen ∧ s1.inp = s0.inp := by
  have hb0 : cstr (wr buf 0 0) = [] := by
    cases buf with
    | nil => simp [wr, cstr]
    | cons a l => simp [wr, cstr]
  have hs0 : strlen (wr buf 0 0) = 0 := by
    unfold strlen; rw [hb0]; rfl
  obtain ⟨s1, h1, e1, e2, e3, e4, e5, e6⟩ :=
    init_ok { s0 with BUF_SIZE := buflen, gl_buf := wr buf 0 0 } htty
  have hh : in_hook { s1 with gl_pos := 0, gl_prompt := prompt.getD [] }
      = { s1 with gl_pos := 0, gl_prompt := prompt.getD [] } := by
    unfold in_hook
    have : s1.gl_in_hook = none := by rw [e4]; exact hin
    simp only [this]
  unfold getline_start
  rw [h1]
  simp only [hh]
  have hcnt : (gl_fixup (prompt.getD []) (-2) s1.BUF_SIZE
      { s1 with gl_pos := 0, gl_prompt := prompt.getD [] }).gl_cnt = 0 := by
    rw [fixup_cnt _ _ _ _ (Or.inr rfl)]
    show strlen s1.gl_buf = 0
    rw [e1]; exact hs0
  have hpos : (gl_fixup (prompt.getD []) (-2) s1.BUF_SIZE
      { s1 with gl_pos := 0, gl_prompt := prompt.getD [] }).gl_pos = 0 := by
    rw [fixup_pos_of_change _ _ _ _ (Or.inr rfl)]
    have : strlen s1.gl_buf = 0 := by rw [e1]; exact hs0
    simp only [this]
    split <;> split <;> omega
  refine ⟨_, rfl, ⟨?_, ?_, ?_, ?_, ?_⟩, ?_, hcnt, ?_, ?_, ?_, ?_, ?_⟩
  · rw [fixup_gl_buf, fixup_BUF_SIZE]
    show (s1.gl_buf.length : Int) = s1.BUF_SIZE
    rw [e1, e2, length_wr]; exact hbuf
  · rw [hcnt, fixup_gl_buf]
    show 0 = strlen s1.gl_buf
    rw [e1, hs0]
  · rw [hcnt, fixup_BUF_SIZE]
    show 0 < s1.BUF_SIZE
    rw [e2]; show 0 < buflen; omega
  · rw [hpos]
  · rw [hpos, hcnt]
  · rw [hpos, hcnt]
  · unfold contents
    rw [fixup_gl_buf]
    show cstr s1.gl_buf = []
    rw [e1]; exact hb0
  · rw [fixup_gl_search_mode]; exact e3
  · rw [fixup_gl_out_hook]; exact e5
  · rw [fixup_BUF_SIZE]; exact e2
  · rw [fixup_inp]; exact e6

/-- C1. A call of `getline` outside search mode, on a terminal and with no in
or out hook installed, that receives the keys of a line `line` of printable
characters with `|line| ≤ buflen - 2`, followed by Enter, returns, and the
string in the returned array is exactly `line` followed by a single newline.
The keys after Enter stay unread. -/
theorem C1_getline_returns_line (s0 : State) (prompt : Option (List Nat)) (buf : List Nat)
    (buflen : Int) (line : List Int) (enter : Int) (rest : List Int)
    (hbuf : (buf.length : Int) = buflen) (hline : ∀ c ∈ line, printable c)
    (hcap : (line.length : Int) ≤ buflen - 2) (henter : enter = 10 ∨ enter = 13)
    (hinp : s0.inp = line ++ enter :: rest) (hs : s0.gl_search_mode = 0)
    (hin : s0.gl_in_hook = none) (hout : s0.gl_out_hook = none) (htty : s0.tty = true) :
    ∃ t, getline prompt buf buflen s0 = some t
      ∧ cstr t.gl_buf = line.map Int.toNat ++ [10] ∧ t.inp = rest := by
  obtain ⟨s1, h1, a1, a2, a3, a4, a5, a6, a7, a8⟩ :=
    start_ok s0 prompt buf buflen hbuf (by omega) htty hin
  obtain ⟨t, ht, hb, hi⟩ := typing_loop line (s1.inp.length + 1) s1 [] enter rest
    (by rw [a8, hinp]; simp) a1 a2 a4 (by rw [a5]; exact hs) (by rw [a6]; exact hout) hline
    (by rw [a3, a7]; omega) (by rw [a8]; exact hinp) henter
  refine ⟨t, ?_, by simpa using hb, hi⟩
  unfold getline
  rw [h1]
  exact ht

theorem C1_getline_returns_line_witness :
    (∀ c ∈ ([104, 105] : List Int), printable c)
      ∧ ∃ t, getline (some (bytes "> ")) (List.replicate 10 65) 10 (initial (keysOf "hi\n"))
          = some t
        ∧ cstr t.gl_buf = [104, 105, 10] ∧ t.inp = [] :=
  ⟨by intro c hc; simp at hc; rcases hc with rfl | rfl <;> (unfold printable; decide),
    C1_getline_returns_line (initial (keysOf "hi\n")) (some (bytes "> ")) (List.replicate 10 65)
      10 [104, 105] 10 [] (by decide)
      (by intro c hc; simp at hc; rcases hc with rfl | rfl <;> (unfold printable; decide))
      (by decide) (by decide) (by decide) (by decide) rfl rfl rfl⟩

/-! ## The Tab key -/

/-- C4 (failing input). In the call `getline("> ", buf, 15)` the Tab key
pressed twice on the empty line leaves a line of 14 blanks: the first Tab
gives 6 blanks (within the invariant, `6 ≤ 13`), the second 8 more, and
`gl_cnt = 14 > BUF_SIZE - 2 = 13`.  The default handler `gl_tab` moves the
tail and fills in blanks without any test against `BUF_SIZE`, where
`gl_addchar` and `gl_yank` test before they write.  Enter then makes
`gl_newline` call `gl_error` over and over: that call never returns. -/
theorem C4_tab_exceeds_capacity :
    (sample_tabs.bind (turns 1)).map measures = some (6, 6, 15)
      ∧ (sample_tabs.bind (turns 2)).map measures = some (14, 14, 15)
      ∧ (sample_tabs.bind (turns 2)).map contents = some (List.replicate 14 32)
      ∧ (getline (some (bytes "> ")) (List.replicate 15 0) 15 (initial [9, 9, 10])).isNone
          = true := by
  decide

/-! ## History navigation -/

theorem tmod_in (x h : Int) (h0 : 0 ≤ x) (h1 : x < h) : Int.tmod x h = x :=
  Int.tmod_eq_of_lt h0 h1

theorem tmod_wrap (x h : Int) (h0 : 0 ≤ x) (h1 : x < h) : Int.tmod (x + h) h = x := by
  rw [Int.tmod_eq_emod (by omega) (by omega), Int.add_emod_self, Int.emod_eq_of_lt h0 h1]

/-- The slot before `p` in the ring, as `gl_hist_prev` computes it. -/
theorem ring_pred (p h : Int) (h0 : 0 ≤ p) (h1 : p < h) :
    Int.tmod (p - 1 + h) h = if p = 0 then h - 1 else p - 1 := by
  split
  · next e =>
    subst e
    have : (0 : Int) - 1 + h = h - 1 := by omega
    rw [this]
    exact tmod_in _ _ (by omega) (by omega)
  · exact tmod_wrap _ _ (by omega) (by omega)

/-- The slot after `p` in the ring, as `gl_hist_next` computes it. -/
theorem ring_succ (p h : Int) (h0 : 0 ≤ p) (h1 : p < h) :
    Int.tmod (p + 1) h = if p + 1 = h then 0 else p + 1 := by
  split
  · next e =>
    rw [e]
    simp
  · exact tmod_in _ _ (by omega) (by omega)

/-- The slot `k` steps before `l`, for `0 ≤ k ≤ h`. -/
theorem emod_back (l k h : Int) (h0 : 0 ≤ l) (h1 : l < h) (k0 : 0 ≤ k) (k1 : k ≤ h) :
    (l - k) % h = if k ≤ l then l - k else l - k + h := by
  split
  · exact Int.emod_eq_of_lt (by omega) (by omega)
  · rw [← Int.add_emod_self]
    exact Int.emod_eq_of_lt (by omega) (by omega)

/-- The slot `k` steps after `p`, for `0 ≤ k ≤ h`. -/
theorem emod_fwd (p k h : Int) (h0 : 0 ≤ p) (h1 : p < h) (k0 : 0 ≤ k) (k1 : k ≤ h) :
    (p + k) % h = if p + k < h then p + k else p + k - h := by
  split
  · exact Int.emod_eq_of_lt (by omega) (by omega)
  · have : p + k = (p + k - h) + h := by omega
    rw [this, Int.add_emod_self]
    have e : p + k - h + h - h = p + k - h := by omega
    rw [e]
    exact Int.emod_eq_of_lt (by omega) (by omega)

theorem prev_move (s : State) (e : List Nat) (nx : Int)
    (hnx : Int.tmod (s.hist_pos - 1 + s.HIST_SIZE) s.HIST_SIZE = nx)
    (h1 : hslot s s.hist_pos ≠ none) (h2 : nx ≠ s.hist_last) (h3 : hslot s nx = some e) :
    gl_hist_prev s = (e, { s with hist_pos := nx }) := by
  subst hnx
  unfold gl_hist_prev
  simp only [h3]
  rw [if_pos ⟨h1, h2⟩]

theorem prev_stay (s : State)
    (h2 : Int.tmod (s.hist_pos - 1 + s.HIST_SIZE) s.HIST_SIZE = s.hist_last) :
    gl_hist_prev s = ([], { s with out := s.out ++ beep s }) := by
  unfold gl_hist_prev
  simp only []
  rw [if_neg (fun h => h.2 h2)]
  unfold hist_bell beep gl_putc
  split
  · rfl
  · simp

theorem next_stay (s : State) (h : s.hist_pos = s.hist_last) :
    gl_hist_next s = ([], { s with out := s.out ++ beep s }) := by
  unfold gl_hist_next
  rw [if_neg (by simp [h])]
  unfold hist_bell beep gl_putc
  split
  · rfl
  · simp

theorem next_move (s : State) (h : s.hist_pos ≠ s.hist_last) :
    gl_hist_next s
      = ((hslot s (Int.tmod (s.hist_pos + 1) s.HIST_SIZE)).getD [],
          { s with
            hist_pos := Int.tmod (s.hist_pos + 1) s.HIST_SIZE
            out := s.out ++ (if hslot s (Int.tmod (s.hist_pos + 1) s.HIST_SIZE) = none
                      then beep s else []) }) := by
  unfold gl_hist_next
  rw [if_pos h]
  simp only []
  cases hh : hslot s (Int.tmod (s.hist_pos + 1) s.HIST_SIZE) with
  | none =>
    simp only [Option.getD_none, if_true]
    unfold hist_bell beep gl_putc
    split
    · rfl
    · simp
  | some e => simp
theorem hslot_pos (s : State) (p i : Int) : hslot { s with hist_pos := p } i = hslot s i := rfl

/-- One call of `gl_hist_prev` in a full ring, `k` steps behind `hist_last`
with `k + 1 < HIST_SIZE`: it steps back and returns the entry there. -/
theorem prev_full_step (s : State) (n k : Nat) (hok : HistOk s) (hn : s.HIST_SIZE = n)
    (hfull : HistFull s) (hk : k + 1 ≤ n - 1) :
    ∃ e, e ≠ [] ∧ hslot s ((s.hist_last - (k + 1 : Nat)) % s.HIST_SIZE) = some e
      ∧ gl_hist_prev { s with hist_pos := (s.hist_last - k) % s.HIST_SIZE }
          = (e, { s with hist_pos := (s.hist_last - (k + 1 : Nat)) % s.HIST_SIZE }) := by
  obtain ⟨k1, k2, k3, k4, k5, k6, k7⟩ := hok
  have ea := emod_back s.hist_last k s.HIST_SIZE k3 k4 (by omega) (by omega)
  have eb := emod_back s.hist_last (k + 1 : Nat) s.HIST_SIZE k3 k4 (by omega) (by omega)
  have hp0 : 0 ≤ (s.hist_last - k) % s.HIST_SIZE := by rw [ea]; split <;> omega
  have hp1 : (s.hist_last - k) % s.HIST_SIZE < s.HIST_SIZE := by rw [ea]; split <;> omega
  have hnext : Int.tmod ((s.hist_last - k) % s.HIST_SIZE - 1 + s.HIST_SIZE) s.HIST_SIZE
      = (s.hist_last - (k + 1 : Nat)) % s.HIST_SIZE := by
    rw [ring_pred _ _ hp0 hp1, ea, eb]
    split <;> split <;> split <;> omega
  have hne : (s.hist_last - (k + 1 : Nat)) % s.HIST_SIZE ≠ s.hist_last := by
    rw [eb]; split <;> omega
  have hq0 : 0 ≤ (s.hist_last - (k + 1 : Nat)) % s.HIST_SIZE := by rw [eb]; split <;> omega
  have hq1 : (s.hist_last - (k + 1 : Nat)) % s.HIST_SIZE < s.HIST_SIZE := by
    rw [eb]; split <;> omega
  obtain ⟨e, he0, he⟩ := hfull _ hq0 hq1 hne
  refine ⟨e, he0, he, ?_⟩
  have hcur : hslot s ((s.hist_last - k) % s.HIST_SIZE) ≠ none := by
    by_cases c : (s.hist_last - k) % s.HIST_SIZE = s.hist_last
    · rw [c, k7]; simp
    · obtain ⟨e2, _, he2⟩ := hfull _ hp0 hp1 c
      rw [he2]; simp
  exact prev_move { s with hist_pos := (s.hist_last - k) % s.HIST_SIZE } e _ hnext
    (by rw [hslot_pos]; exact hcur) hne he

/-- The state after `k ≤ HIST_SIZE - 1` calls of `gl_hist_prev` in a full ring
entered at `hist_last`: only `hist_pos` has changed. -/
theorem prev_n_full (s : State) (n : Nat) (hok : HistOk s) (hn : s.HIST_SIZE = n)
    (hfull : HistFull s) (hpos : s.hist_pos = s.hist_last) :
    ∀ k : Nat, k ≤ n - 1 →
      prev_n k s = { s with hist_pos := (s.hist_last - k) % s.HIST_SIZE } := by
  intro k
  induction k with
  | zero =>
    intro _
    have : (s.hist_last - (0 : Nat)) % s.HIST_SIZE = s.hist_pos := by
      rw [hpos]
      simp only [Nat.cast_zero, Int.sub_zero]
      exact Int.emod_eq_of_lt hok.2.2.1 hok.2.2.2.1
    rw [this]
    rfl
  | succ k ih =>
    intro hk
    obtain ⟨e, _, _, h3⟩ := prev_full_step s n k hok hn hfull (by omega)
    show (gl_hist_prev (prev_n k s)).2 = _
    rw [ih (by omega), h3]

/-- A call of `gl_hist_prev` on the oldest entry of a full ring: it stays
there and returns the empty string, with the bell when `gl_beep` is set. -/
theorem prev_oldest (t : State) (h1 : 2 ≤ t.HIST_SIZE) (h2 : 0 ≤ t.hist_last)
    (h3 : t.hist_last < t.HIST_SIZE) (hp : t.hist_pos = (t.hist_last + 1) % t.HIST_SIZE) :
    gl_hist_prev t = ([], { t with out := t.out ++ beep t }) := by
  apply prev_stay
  have e := emod_fwd t.hist_last 1 t.HIST_SIZE h2 h3 (by omega) (by omega)
  rw [hp, e]
  have h0 : 0 ≤ (if t.hist_last + 1 < t.HIST_SIZE then t.hist_last + 1
      else t.hist_last + 1 - t.HIST_SIZE) := by split <;> omega
  have h4 : (if t.hist_last + 1 < t.HIST_SIZE then t.hist_last + 1
      else t.hist_last + 1 - t.HIST_SIZE) < t.HIST_SIZE := by split <;> omega
  rw [ring_pred _ _ h0 h4]
  split <;> split <;> omega

theorem prev_n_stuck (s : State) (n : Nat) (hok : HistOk s) (hn : s.HIST_SIZE = n)
    (h2 : 2 ≤ n) (hfull : HistFull s) (hpos : s.hist_pos = s.hist_last) :
    ∀ j : Nat,
      (prev_n (n - 1 + j) s).hist_pos = (s.hist_last + 1) % s.HIST_SIZE
        ∧ (prev_n (n - 1 + j) s).hist_last = s.hist_last
        ∧ (prev_n (n - 1 + j) s).HIST_SIZE = s.HIST_SIZE
        ∧ (prev_n (n - 1 + j) s).gl_beep = s.gl_beep := by
  intro j
  induction j with
  | zero =>
    rw [Nat.add_zero, prev_n_full s n hok hn hfull hpos (n - 1) (by omega)]
    refine ⟨?_, rfl, rfl, rfl⟩
    show (s.hist_last - ((n - 1 : Nat) : Int)) % s.HIST_SIZE = _
    have : s.hist_last - ((n - 1 : Nat) : Int) = (s.hist_last + 1) - s.HIST_SIZE := by omega
    rw [this, ← Int.add_emod_self]
    congr 1; omega
  | succ j ih =>
    obtain ⟨a, b, c, d⟩ := ih
    have := prev_oldest (prev_n (n - 1 + j) s) (by rw [c]; omega) (by rw [b]; exact hok.2.2.1)
      (by rw [b, c]; exact hok.2.2.2.1) (by rw [a, b, c])
    have e : prev_n (n - 1 + (j + 1)) s = (gl_hist_prev (prev_n (n - 1 + j) s)).2 := rfl
    rw [e, this]
    exact ⟨a, b, c, d⟩

/-- The calls of `gl_hist_prev` after the first `HIST_SIZE - 1` in a full ring:
each returns the empty string, stays on the oldest entry, and writes the bell
when `gl_beep` is set. -/
theorem prev_n_late (s : State) (n : Nat) (hok : HistOk s) (hn : s.HIST_SIZE = n)
    (h2 : 2 ≤ n) (hfull : HistFull s) (hpos : s.hist_pos = s.hist_last) (j : Nat) :
    gl_hist_prev (prev_n (n - 1 + j) s)
        = ([], { prev_n (n - 1 + j) s with out := (prev_n (n - 1 + j) s).out ++ beep s })
      ∧ (prev_n (n - 1 + j) s).hist_pos = (s.hist_last + 1) % s.HIST_SIZE := by
  obtain ⟨a, b, c, d⟩ := prev_n_stuck s n hok hn h2 hfull hpos j
  have := prev_oldest (prev_n (n - 1 + j) s) (by rw [c]; omega) (by rw [b]; exact hok.2.2.1)
    (by rw [b, c]; exact hok.2.2.2.1) (by rw [a, b, c])
  refine ⟨?_, a⟩
  rw [this]
  have e : beep (prev_n (n - 1 + j) s) = beep s := by
    unfold beep; rw [d]
  rw [e]

theorem sample_ring_slot (b : Int) (i : Int) (h0 : 0 < i) (h1 : i < 512) :
    hslot (sample_ring b) i = some [97] := by
  unfold hslot
  rw [if_neg (by omega)]
  obtain ⟨m, hm⟩ : ∃ m : Nat, i.toNat = m + 1 := ⟨i.toNat - 1, by omega⟩
  rw [hm]
  show (List.replicate 511 (some [97])).getD m none = some [97]
  rw [List.getD_eq_getElem?_getD, List.getElem?_replicate, if_pos (by omega)]
  rfl

theorem sample_ring_ok (b : Int) : HistOk (sample_ring b) := by
  unfold HistOk
  refine ⟨?_, ?_, ?_, ?_, ?_, ?_, rfl⟩
  · show (1 : Int) ≤ 512
    omega
  · show ((some [] :: List.replicate 511 (some [97])).length : Int) = 512
    rw [List.length_cons, List.length_replicate]
    rfl
  · show (0 : Int) ≤ 0
    omega
  · show (0 : Int) < 512
    omega
  · show (0 : Int) ≤ 0
    omega
  · show (0 : Int) < 512
    omega

theorem sample_ring_full (b : Int) : HistFull (sample_ring b) := by
  intro i h0 h1 h2
  refine ⟨[97], by decide, sample_ring_slot b i ?_ h1⟩
  have : (sample_ring b).hist_last = 0 := rfl
  omega

/-- C8 (amended). In a full ring of `n ≥ 2` slots entered at `hist_last`, the
`k`-th call of `gl_hist_prev`, `1 ≤ k ≤ n - 1`, returns the entry `k` slots
before `hist_last` (newest first), leaves `hist_pos` on it and writes nothing;
every later call returns the empty string, leaves `hist_pos` on the oldest
entry, the slot after `hist_last`, and writes the bell when `gl_beep` is not
zero, nothing otherwise.  No call leaves `hist_pos` on `hist_last`. -/
theorem C8_prev_full_ring (s : State) (n : Nat) (hok : HistOk s) (hn : s.HIST_SIZE = n)
    (h2 : 2 ≤ n) (hfull : HistFull s) (hpos : s.hist_pos = s.hist_last) :
    (∀ k : Nat, 1 ≤ k → k ≤ n - 1 →
        hslot s ((s.hist_last - k) % s.HIST_SIZE) = some (gl_hist_prev (prev_n (k - 1) s)).1
          ∧ (gl_hist_prev (prev_n (k - 1) s)).1 ≠ []
          ∧ (prev_n k s).hist_pos = (s.hist_last - k) % s.HIST_SIZE
          ∧ (prev_n k s).out = s.out)
      ∧ (∀ k : Nat, n ≤ k →
        (gl_hist_prev (prev_n (k - 1) s)).1 = []
          ∧ (prev_n k s).hist_pos = (s.hist_last + 1) % s.HIST_SIZE
          ∧ (prev_n (k - 1) s).hist_pos = (s.hist_last + 1) % s.HIST_SIZE
          ∧ (prev_n k s).out = (prev_n (k - 1) s).out ++ (if s.gl_beep ≠ 0 then [7] else []))
      ∧ (∀ k : Nat, 1 ≤ k → (prev_n k s).hist_pos ≠ s.hist_last) := by
  obtain ⟨k1, k2, k3, k4, k5, k6, k7⟩ := hok
  have hok : HistOk s := ⟨k1, k2, k3, k4, k5, k6, k7⟩
  have part1 : ∀ k : Nat, 1 ≤ k → k ≤ n - 1 →
        hslot s ((s.hist_last - k) % s.HIST_SIZE) = some (gl_hist_prev (prev_n (k - 1) s)).1
          ∧ (gl_hist_prev (prev_n (k - 1) s)).1 ≠ []
          ∧ (prev_n k s).hist_pos = (s.hist_last - k) % s.HIST_SIZE
          ∧ (prev_n k s).out = s.out := by
    intro k hk1 hk2
    obtain ⟨m, rfl⟩ : ∃ m, k = m + 1 := ⟨k - 1, by omega⟩
    obtain ⟨e, he0, he, hstep⟩ := prev_full_step s n m hok hn hfull hk2
    have hs := prev_n_full s n hok hn hfull hpos m (by omega)
    have hs2 := prev_n_full s n hok hn hfull hpos (m + 1) hk2
    simp only [Nat.add_sub_cancel]
    rw [hs, hstep, hs2]
    exact ⟨he, he0, rfl, rfl⟩
  have part2 : ∀ j : Nat,
        (gl_hist_prev (prev_n (n - 1 + j) s)).1 = []
          ∧ (prev_n (n - 1 + j + 1) s).hist_pos = (s.hist_last + 1) % s.HIST_SIZE
          ∧ (prev_n (n - 1 + j) s).hist_pos = (s.hist_last + 1) % s.HIST_SIZE
          ∧ (prev_n (n - 1 + j + 1) s).out = (prev_n (n - 1 + j) s).out
              ++ (if s.gl_beep ≠ 0 then [7] else []) := by
    intro j
    obtain ⟨a, b⟩ := prev_n_late s n hok hn h2 hfull hpos j
    have e : prev_n (n - 1 + j + 1) s = (gl_hist_prev (prev_n (n - 1 + j) s)).2 := rfl
    rw [e, a]
    exact ⟨rfl, b, b, rfl⟩
  have hold : (s.hist_last + 1) % s.HIST_SIZE ≠ s.hist_last := by
    rw [emod_fwd s.hist_last 1 s.HIST_SIZE k3 k4 (by omega) (by omega)]
    split <;> omega
  refine ⟨part1, ?_, ?_⟩
  · intro k hk
    obtain ⟨j, rfl⟩ : ∃ j, k = n - 1 + j + 1 := ⟨k - n, by omega⟩
    simpa using part2 j
  · intro k hk
    by_cases c : k ≤ n - 1
    · rw [(part1 k hk c).2.2.1, emod_back s.hist_last k s.HIST_SIZE k3 k4 (by omega) (by omega)]
      split <;> omega
    · obtain ⟨j, rfl⟩ : ∃ j, k = n - 1 + j + 1 := ⟨k - n, by omega⟩
      rw [(part2 j).2.1]
      exact hold

theorem prev_n_succ (k : Nat) (s : State) :
    prev_n (k + 1) s = (gl_hist_prev (prev_n k s)).2 := rfl

/-- C8 (counterexample). After `gl_hist_init(512, 0)` and 512 entries the ring
is full; 511 calls of `gl_hist_prev` from `hist_last` lead to the oldest entry,
and the next call returns the empty string and writes no bell. -/
theorem C8_silent_at_oldest :
    HistOk (sample_ring 0) ∧ HistFull (sample_ring 0)
      ∧ (sample_ring 0).hist_pos = (sample_ring 0).hist_last
      ∧ (gl_hist_prev (prev_n 511 (sample_ring 0))).1 = []
      ∧ (prev_n 512 (sample_ring 0)).out = (prev_n 511 (sample_ring 0)).out := by
  have h := (prev_n_late (sample_ring 0) 512 (sample_ring_ok 0) rfl (by omega)
      (sample_ring_full 0) rfl 0).1
  have e1 : 512 - 1 + 0 = 511 := by decide
  rw [e1] at h
  refine ⟨sample_ring_ok 0, sample_ring_full 0, rfl, ?_, ?_⟩
  · rw [h]
  · rw [prev_n_succ 511 (sample_ring 0), h]
    show (prev_n 511 (sample_ring 0)).out ++ beep (sample_ring 0) = _
    have : beep (sample_ring 0) = [] := rfl
    rw [this, List.append_nil]

theorem C8_prev_full_ring_witness :
    HistOk (sample_ring 1) ∧ HistFull (sample_ring 1)
      ∧ (sample_ring 1).hist_pos = (sample_ring 1).hist_last
      ∧ (prev_n 512 (sample_ring 1)).hist_pos ≠ (sample_ring 1).hist_last
      ∧ (prev_n 512 (sample_ring 1)).out = (prev_n 511 (sample_ring 1)).out ++ [7] :=
  ⟨sample_ring_ok 1, sample_ring_full 1, rfl,
    (C8_prev_full_ring (sample_ring 1) 512 (sample_ring_ok 1) rfl (by omega) (sample_ring_full 1)
      rfl).2.2 512 (by omega),
    ((C8_prev_full_ring (sample_ring 1) 512 (sample_ring_ok 1) rfl (by omega)
      (sample_ring_full 1) rfl).2.1 512 (by omega)).2.2.2⟩

theorem nav_refl (s : State) : Nav s s := by
  unfold Nav; rfl

theorem nav_next (s t : State) (h : Nav s t) : Nav s (gl_hist_next t).2 := by
  unfold Nav at h ⊢
  by_cases c : t.hist_pos = t.hist_last
  · rw [next_stay t c]
    simp only []
    rw [h]
  · rw [next_move t c]
    simp only []
    rw [h]

theorem nav_slot (s t : State) (h : Nav s t) (i : Int) : hslot t i = hslot s i := by
  unfold Nav at h
  rw [h]; rfl

theorem nav_fields (s t : State) (h : Nav s t) :
    t.hist_last = s.hist_last ∧ t.HIST_SIZE = s.HIST_SIZE ∧ t.gl_beep = s.gl_beep := by
  unfold Nav at h
  rw [h]; exact ⟨rfl, rfl, rfl⟩

theorem next_n_nav (s : State) (k : Nat) : Nav s (next_n k s) := by
  induction k with
  | zero => exact nav_refl s
  | succ k ih => exact nav_next s _ ih

theorem next_n_succ (k : Nat) (s : State) :
    next_n (k + 1) s = (gl_hist_next (next_n k s)).2 := rfl

/-- The number of slots from `hist_pos` forward to `hist_last`. -/
theorem dist_eq (s : State) (hok : HistOk s) :
    (s.hist_last - s.hist_pos) % s.HIST_SIZE
      = if s.hist_pos ≤ s.hist_last then s.hist_last - s.hist_pos
        else s.hist_last - s.hist_pos + s.HIST_SIZE := by
  obtain ⟨k1, k2, k3, k4, k5, k6, k7⟩ := hok
  exact emod_back s.hist_last s.hist_pos s.HIST_SIZE k3 k4 k5 (by omega)

/-- The cursor after `k` calls of `gl_hist_next`, `k` at most the distance to
`hist_last`. -/
theorem next_n_pos (s : State) (hok : HistOk s) :
    ∀ k : Nat, (k : Int) ≤ (s.hist_last - s.hist_pos) % s.HIST_SIZE →
      (next_n k s).hist_pos = (s.hist_pos + k) % s.HIST_SIZE := by
  have hd := dist_eq s hok
  obtain ⟨k1, k2, k3, k4, k5, k6, k7⟩ := hok
  intro k
  induction k with
  | zero =>
    intro _
    simp only [Nat.cast_zero, Int.add_zero]
    exact (Int.emod_eq_of_lt k5 k6).symm
  | succ k ih =>
    intro hk
    have hp := ih (by omega)
    obtain ⟨f1, f2, f3⟩ := nav_fields s _ (next_n_nav s k)
    have ea := emod_fwd s.hist_pos k s.HIST_SIZE k5 k6 (by omega)
      (by rw [hd] at hk; split at hk <;> omega)
    have eb := emod_fwd s.hist_pos (k + 1 : Nat) s.HIST_SIZE k5 k6 (by omega)
      (by rw [hd] at hk; split at hk <;> omega)
    have hne : (next_n k s).hist_pos ≠ (next_n k s).hist_last := by
      rw [hp, f1, ea]
      rw [hd] at hk
      split at hk <;> split <;> omega
    rw [next_n_succ, next_move _ hne]
    simp only []
    rw [f2, hp]
    have h0 : 0 ≤ (s.hist_pos + k) % s.HIST_SIZE := by rw [ea]; split <;> omega
    have h1 : (s.hist_pos + k) % s.HIST_SIZE < s.HIST_SIZE := by rw [ea]; split <;> omega
    rw [ring_succ _ _ h0 h1, ea, eb]
    rw [hd] at hk
    split at hk <;> split <;> split <;> split <;> omega

theorem next_n_before (s : State) (hok : HistOk s) (k : Nat)
    (hk : (k : Int) < (s.hist_last - s.hist_pos) % s.HIST_SIZE) :
    (next_n k s).hist_pos ≠ s.hist_last := by
  have hd := dist_eq s hok
  rw [next_n_pos s hok k (by omega)]
  obtain ⟨k1, k2, k3, k4, k5, k6, k7⟩ := hok
  rw [emod_fwd s.hist_pos k s.HIST_SIZE k5 k6 (by omega)
      (by rw [hd] at hk; split at hk <;> omega)]
  rw [hd] at hk
  split at hk <;> split <;> omega

theorem next_n_arrive (s : State) (hok : HistOk s) (d : Nat)
    (hdd : (d : Int) = (s.hist_last - s.hist_pos) % s.HIST_SIZE) :
    (next_n d s).hist_pos = s.hist_last := by
  have hd := dist_eq s hok
  rw [next_n_pos s hok d (by omega)]
  obtain ⟨k1, k2, k3, k4, k5, k6, k7⟩ := hok
  rw [emod_fwd s.hist_pos d s.HIST_SIZE k5 k6 (by omega)
      (by rw [hd] at hdd; split at hdd <;> omega)]
  rw [hd] at hdd
  split at hdd <;> split <;> omega

theorem next_n_after (s : State) (hok : HistOk s) (d : Nat)
    (hdd : (d : Int) = (s.hist_last - s.hist_pos) % s.HIST_SIZE) (j : Nat) :
    (next_n (d + j) s).hist_pos = s.hist_last
      ∧ gl_hist_next (next_n (d + j) s)
          = ([], { next_n (d + j) s with out := (next_n (d + j) s).out ++ beep s }) := by
  have key : ∀ j : Nat, (next_n (d + j) s).hist_pos = s.hist_last := by
    intro j
    induction j with
    | zero => exact next_n_arrive s hok d hdd
    | succ j ih =>
      obtain ⟨f1, _, _⟩ := nav_fields s _ (next_n_nav s (d + j))
      have e : next_n (d + (j + 1)) s = (gl_hist_next (next_n (d + j) s)).2 := rfl
      rw [e, next_stay _ (by rw [ih, f1])]
      exact ih
  obtain ⟨f1, _, f3⟩ := nav_fields s _ (next_n_nav s (d + j))
  refine ⟨key j, ?_⟩
  rw [next_stay _ (by rw [key j, f1])]
  have e : beep (next_n (d + j) s) = beep s := by unfold beep; rw [f3]
  rw [e]
/-- The call of `gl_hist_next` that arrives on `hist_last` returns the empty
string stored there and writes nothing. -/
theorem next_n_arrival (s : State) (hok : HistOk s) (d : Nat)
    (hdd : ((d + 1 : Nat) : Int) = (s.hist_last - s.hist_pos) % s.HIST_SIZE) :
    (gl_hist_next (next_n d s)).1 = [] ∧ (next_n (d + 1) s).out = (next_n d s).out := by
  have hne : (next_n d s).hist_pos ≠ (next_n d s).hist_last := by
    rw [(nav_fields s _ (next_n_nav s d)).1]
    exact next_n_before s hok d (by omega)
  have harr := next_n_arrive s hok (d + 1) hdd
  have hm := next_move _ hne
  have hp : Int.tmod ((next_n d s).hist_pos + 1) (next_n d s).HIST_SIZE = s.hist_last := by
    have e : (next_n (d + 1) s).hist_pos
        = Int.tmod ((next_n d s).hist_pos + 1) (next_n d s).HIST_SIZE := by
      rw [next_n_succ, hm]
    rw [← e]; exact harr
  have hs : hslot (next_n d s) (Int.tmod ((next_n d s).hist_pos + 1) (next_n d s).HIST_SIZE)
      = some [] := by
    rw [hp, nav_slot s _ (next_n_nav s d)]
    exact hok.2.2.2.2.2.2
  rw [next_n_succ, hm]
  simp only [hs]
  simp

/-- C10 (amended). From any cursor position in a ring in order, with `d` the
number of slots from `hist_pos` forward to `hist_last` (`d ≤ HIST_SIZE - 1`),
`gl_hist_next` reaches `hist_last` after exactly `d` calls and not before; the
call that arrives there returns the empty string stored at `hist_last` and
writes nothing; every further call returns the empty string, leaves `hist_pos`
on `hist_last`, and writes the bell when `gl_beep` is not zero, nothing
otherwise. -/
theorem C10_next_reaches_sentinel (s : State) (d : Nat) (hok : HistOk s)
    (hd : (d : Int) = (s.hist_last - s.hist_pos) % s.HIST_SIZE) :
    (d : Int) ≤ s.HIST_SIZE - 1
      ∧ (∀ k : Nat, k ≤ d → (next_n k s).hist_pos = (s.hist_pos + k) % s.HIST_SIZE)
      ∧ (∀ k : Nat, k < d → (next_n k s).hist_pos ≠ s.hist_last)
      ∧ (next_n d s).hist_pos = s.hist_last
      ∧ (1 ≤ d → (gl_hist_next (next_n (d - 1) s)).1 = []
          ∧ (next_n d s).out = (next_n (d - 1) s).out)
      ∧ (∀ j : Nat, (gl_hist_next (next_n (d + j) s)).1 = []
          ∧ (next_n (d + j + 1) s).hist_pos = s.hist_last
          ∧ (next_n (d + j + 1) s).out
              = (next_n (d + j) s).out ++ (if s.gl_beep ≠ 0 then [7] else [])) := by
  have hlt : (s.hist_last - s.hist_pos) % s.HIST_SIZE < s.HIST_SIZE :=
    Int.emod_lt_of_pos _ (by have := hok.1; omega)
  refine ⟨by omega, ?_, ?_, next_n_arrive s hok d hd, ?_, ?_⟩
  · intro k hk
    exact next_n_pos s hok k (by omega)
  · intro k hk
    exact next_n_before s hok k (by omega)
  · intro h1
    obtain ⟨m, rfl⟩ : ∃ m, d = m + 1 := ⟨d - 1, by omega⟩
    simp only [Nat.add_sub_cancel]
    exact next_n_arrival s hok m hd
  · intro j
    obtain ⟨a, b⟩ := next_n_after s hok d hd j
    have c := (next_n_after s hok d hd (j + 1)).1
    refine ⟨by rw [b], c, ?_⟩
    rw [next_n_succ, b]
    rfl

/-- C10 (counterexample). After `gl_hist_init(512, 0)`, a call of
`gl_hist_next` with `hist_pos` on `hist_last` returns the empty string and
writes no bell. -/
theorem C10_silent_at_sentinel :
    HistOk (sample_ring 0) ∧ (sample_ring 0).hist_pos = (sample_ring 0).hist_last
      ∧ (gl_hist_next (sample_ring 0)).1 = []
      ∧ (gl_hist_next (sample_ring 0)).2.hist_pos = (sample_ring 0).hist_last
      ∧ (gl_hist_next (sample_ring 0)).2.out = (sample_ring 0).out := by
  have h := next_stay (sample_ring 0) rfl
  refine ⟨sample_ring_ok 0, rfl, by rw [h], by rw [h]; rfl, ?_⟩
  rw [h]
  show (sample_ring 0).out ++ beep (sample_ring 0) = _
  have : beep (sample_ring 0) = [] := rfl
  rw [this, List.append_nil]

set_option maxRecDepth 100000 in
theorem sample_two_ok : HistOk (prev_n 2 sample_two) := by
  unfold HistOk
  decide

set_option maxRecDepth 100000 in
theorem C10_next_reaches_sentinel_witness :
    HistOk (prev_n 2 sample_two)
      ∧ ((2 : Nat) : Int) = ((prev_n 2 sample_two).hist_last - (prev_n 2 sample_two).hist_pos)
          % (prev_n 2 sample_two).HIST_SIZE
      ∧ (next_n 2 (prev_n 2 sample_two)).hist_pos = (prev_n 2 sample_two).hist_last
      ∧ (gl_hist_next (next_n (2 - 1) (prev_n 2 sample_two))).1 = [] :=
  ⟨sample_two_ok, by decide,
    (C10_next_reaches_sentinel (prev_n 2 sample_two) 2 sample_two_ok (by decide)).2.2.2.1,
    ((C10_next_reaches_sentinel (prev_n 2 sample_two) 2 sample_two_ok (by decide)).2.2.2.2.1
      (by decide)).1⟩

set_option maxRecDepth 100000 in
/-- C9 (failing input). With the entries `one` and `two` in a ring of 512
slots, two calls of `gl_hist_prev` lead to the oldest entry, slot 0.  A third
call returns the empty string with a bell and moves `hist_pos` from 0 to the
unused slot 511; the comment of `gl_hist_prev` says it sticks on first.  The
call of `gl_hist_next` after it comes back to `one`. -/
theorem C9_prev_leaves_oldest :
    (gl_hist_prev (prev_n 1 sample_two)).1 = bytes "one"
      ∧ (prev_n 2 sample_two).hist_pos = 0
      ∧ (prev_n 2 sample_two).hist_last = 2
      ∧ (prev_n 2 sample_two).out = []
      ∧ (gl_hist_prev (prev_n 2 sample_two)).1 = []
      ∧ (prev_n 3 sample_two).out = [7]
      ∧ (prev_n 3 sample_two).hist_pos = 511
      ∧ hslot sample_two 511 = none
      ∧ (gl_hist_next (prev_n 3 sample_two)).1 = bytes "one" := by
  decide

/-! ## Adding to the history -/

theorem hist_save_line (l : List Nat) (h : 10 ∉ l) :
    hist_save (l ++ [10]) = l ∧ hist_save l = l := by
  unfold hist_save strchr
  constructor
  · rw [if_pos (by simp)]
    simp
  · rw [if_neg (by simpa using h)]

theorem hget_hset (b : List (Option (List Nat))) (i j : Int) (e : Option (List Nat))
    (hj : 0 ≤ j) :
    (hset b i e).getD j.toNat none
      = if i = j ∧ 0 ≤ i ∧ i < b.length then e else b.getD j.toNat none := by
  unfold hset
  by_cases hi : i < 0
  · rw [if_pos hi, if_neg (by omega)]
  · rw [if_neg hi, List.getD_eq_getElem?_getD, List.getElem?_set, List.getD_eq_getElem?_getD]
    by_cases hij : i = j
    · subst hij
      by_cases hl : i < b.length
      · rw [if_pos rfl, if_pos (by omega), if_pos (by omega)]; rfl
      · rw [if_pos rfl, if_neg (by omega), if_neg (by omega),
          List.getElem?_eq_none (by omega)]
    · rw [if_neg (by omega), if_neg (by omega)]

theorem hslot_eq (s : State) (j : Int) (hj : 0 ≤ j) :
    hslot s j = s.hist_buf.getD j.toNat none := by
  unfold hslot
  rw [if_neg (by omega)]

theorem length_hset (b : List (Option (List Nat))) (i : Int) (e : Option (List Nat)) :
    (hset b i e).length = b.length := by
  unfold hset; split <;> simp

/-- What `gl_histadd` does, compiled without `SKIP_DUPLICATES`, in a ring of at
least two slots that has been initialised: a line that is not blank is saved
by `hist_save` in the slot at `hist_last`, `hist_last` moves on by one slot,
the slot there becomes the empty string, the other slots stay, and `hist_pos`
is the new `hist_last`; a blank line only sets `hist_pos` to `hist_last`. -/
theorem histadd_spec (s : State) (buf : List Nat) (hinit : 0 ≤ s.gl_init_done)
    (h2 : 2 ≤ s.HIST_SIZE) (hlen : (s.hist_buf.length : Int) = s.HIST_SIZE)
    (hl0 : 0 ≤ s.hist_last) (hl1 : s.hist_last < s.HIST_SIZE) :
    (buf.dropWhile (fun c => c = 32 ∨ c = 9 ∨ c = 10) ≠ [] →
      hslot (gl_histadd false buf s) s.hist_last = some (hist_save buf)
        ∧ (gl_histadd false buf s).hist_last = (s.hist_last + 1) % s.HIST_SIZE
        ∧ hslot (gl_histadd false buf s) (gl_histadd false buf s).hist_last = some []
        ∧ (gl_histadd false buf s).hist_pos = (gl_histadd false buf s).hist_last
        ∧ (∀ j, j ≠ s.hist_last → j ≠ (s.hist_last + 1) % s.HIST_SIZE →
            hslot (gl_histadd false buf s) j = hslot s j))
    ∧ (buf.dropWhile (fun c => c = 32 ∨ c = 9 ∨ c = 10) = [] →
      gl_histadd false buf s = { s with hist_pos := s.hist_last }) := by
  have hi : histadd_init s = s := by
    unfold histadd_init
    rw [if_neg (by omega)]
  have hm : Int.tmod (s.hist_last + 1) s.HIST_SIZE = (s.hist_last + 1) % s.HIST_SIZE :=
    Int.tmod_eq_emod (by omega) (by omega)
  have hf := emod_fwd s.hist_last 1 s.HIST_SIZE hl0 hl1 (by omega) (by omega)
  constructor
  · intro hnb
    have hg : gl_histadd false buf s
        = { hist_store buf s with hist_pos := (hist_store buf s).hist_last } := by
      unfold gl_histadd
      simp only [hi]
      rw [if_pos hnb]
      simp
    have hb : (hist_store buf s).hist_buf
        = hset (hset s.hist_buf s.hist_last (some (hist_save buf)))
            ((s.hist_last + 1) % s.HIST_SIZE) (some []) := by
      unfold hist_store
      simp only [hm]
    have hlast : (hist_store buf s).hist_last = (s.hist_last + 1) % s.HIST_SIZE := by
      unfold hist_store
      simp only [hm]
    have hn0 : 0 ≤ (s.hist_last + 1) % s.HIST_SIZE := by rw [hf]; split <;> omega
    have hn1 : (s.hist_last + 1) % s.HIST_SIZE < s.HIST_SIZE := by rw [hf]; split <;> omega
    have hne : (s.hist_last + 1) % s.HIST_SIZE ≠ s.hist_last := by rw [hf]; split <;> omega
    have hsl : ∀ j, 0 ≤ j → hslot (gl_histadd false buf s) j
        = if (s.hist_last + 1) % s.HIST_SIZE = j then some []
          else if s.hist_last = j then some (hist_save buf) else hslot s j := by
      intro j hj
      rw [hg, hslot_eq _ j hj, hslot_eq s j hj]
      show (hist_store buf s).hist_buf.getD j.toNat none = _
      rw [hb, hget_hset _ _ _ _ hj, length_hset, hget_hset _ _ _ _ hj]
      by_cases c1 : (s.hist_last + 1) % s.HIST_SIZE = j
      · rw [if_pos ⟨c1, hn0, by omega⟩, if_pos c1]
      · rw [if_neg (fun h => c1 h.1), if_neg c1]
        by_cases c2 : s.hist_last = j
        · rw [if_pos ⟨c2, hl0, by omega⟩, if_pos c2]
        · rw [if_neg (fun h => c2 h.1), if_neg c2]
    have hl2 : (gl_histadd false buf s).hist_last = (s.hist_last + 1) % s.HIST_SIZE := by
      rw [hg]; exact hlast
    refine ⟨?_, hl2, ?_, ?_, ?_⟩
    · rw [hsl _ hl0, if_neg hne, if_pos rfl]
    · rw [hl2, hsl _ hn0, if_pos rfl]
    · rw [hg]
    · intro j hj1 hj2
      by_cases hj : 0 ≤ j
      · rw [hsl j hj, if_neg (fun h => hj2 h.symm), if_neg (fun h => hj1 h.symm)]
      · unfold hslot
        rw [if_pos (by omega), if_pos (by omega)]
  · intro hb
    unfold gl_histadd
    simp only [hi]
    rw [if_neg (fun h => h hb)]

set_option maxRecDepth 100000 in
/-- C7 (failing input). `gl_histadd("\nls")` in a fresh program: the line is
not blank, since the test skips the leading newline, and it has no trailing
newline, but `hist_save` finds a newline in it and copies all but the last
byte: slot 0 holds `\nl`, not `\nls`.  The rest is as the claim says:
`hist_last` is 1, slot 1 the empty string, `hist_pos` is `hist_last`.  For
`gl_histadd("ls\n")` slot 0 holds `ls`, and for the blank line `" \t\n"`
nothing is stored. -/
theorem C7_histadd_drops_last_byte :
    hslot (gl_histadd false (bytes "\nls") (initial [])) 0 = some (bytes "\nl")
      ∧ (gl_histadd false (bytes "\nls") (initial [])).hist_last = 1
      ∧ hslot (gl_histadd false (bytes "\nls") (initial [])) 1 = some []
      ∧ (gl_histadd false (bytes "\nls") (initial [])).hist_pos = 1
      ∧ hslot (gl_histadd false (bytes "ls\n") (initial [])) 0 = some (bytes "ls")
      ∧ hslot (gl_histadd false (bytes " \t\n") (initial [])) 0 = some []
      ∧ (gl_histadd false (bytes " \t\n") (initial [])).hist_last = 0 := by
  decide

/-! ## The history across a call of `getline` -/

theorem same_hist_refl (s : State) : SameHist s s :=
  ⟨rfl, rfl, rfl, rfl, rfl, rfl⟩

theorem same_hist_trans {a b c : State} (h1 : SameHist a b) (h2 : SameHist b c) :
    SameHist a c := by
  obtain ⟨hbuf, hlast, hpos, hsize, hsaved, hbeep⟩ := h1
  obtain ⟨kbuf, klast, kpos, ksize, ksaved, kbeep⟩ := h2
  exact ⟨kbuf.trans hbuf, klast.trans hlast, kpos.trans hpos, ksize.trans hsize,
    ksaved.trans hsaved, kbeep.trans hbeep⟩

theorem same_hist_fixup (p : List Nat) (ch cu : Int) (s : State) :
    SameHist s (gl_fixup p ch cu s) :=
  ⟨fixup_hist_buf p ch cu s, fixup_hist_last p ch cu s, fixup_hist_pos p ch cu s,
    fixup_HIST_SIZE p ch cu s, fixup_hist_prev_saved p ch cu s, fixup_gl_beep p ch cu s⟩

theorem addchar_hist_prev_saved (s : State) (c : Int) :
    (gl_addchar c s).hist_prev_saved = s.hist_prev_saved := by
  unfold gl_addchar
  split
  · rfl
  · split <;> rw [fixup_hist_prev_saved]

theorem same_hist_addchar (c : Int) (s : State) : SameHist s (gl_addchar c s) :=
  ⟨addchar_hist_buf s c, addchar_hist_last s c, addchar_hist_pos s c, addchar_HIST_SIZE s c,
    addchar_hist_prev_saved s c, addchar_gl_beep s c⟩

/-- What `gl_newline` returns when it does not call `gl_error`. -/
theorem newline_ok (s : State) (h : s.gl_cnt < s.BUF_SIZE - 1) :
    gl_newline s = .ok (gl_putc 10
      { gl_fixup s.gl_prompt (newline_change s)
          (if s.gl_width - 5 > newline_len s then newline_len s else s.gl_width - 5)
          { s with gl_buf := newline_buf s } with
        gl_buf := wr (wr (newline_buf s) (newline_len s) 10) (newline_len s + 1) 0 }) := by
  unfold gl_newline
  rw [if_neg (by omega)]
  simp only [fixup_gl_buf]

theorem same_hist_newline (s t : State) (h : gl_newline s = .ok t) : SameHist s t := by
  by_cases hc : s.gl_cnt < s.BUF_SIZE - 1
  · rw [newline_ok s hc] at h
    cases h
    exact ⟨fixup_hist_buf _ _ _ _, fixup_hist_last _ _ _ _, fixup_hist_pos _ _ _ _,
      fixup_HIST_SIZE _ _ _ _, fixup_hist_prev_saved _ _ _ _, fixup_gl_beep _ _ _ _⟩
  · unfold gl_newline at h
    rw [if_pos (by omega)] at h
    cases h
theorem enter_ret (st : State) (e : Int) (he : e = 10 ∨ e = 13)
    (hs : st.gl_search_mode = 0) (hroom : st.gl_cnt < st.BUF_SIZE - 1) :
    ∃ t0, gl_newline { st with gl_extent := 0 } = .ok t0 ∧ key e st = .ret (gl_cleanup t0) := by
  have hi : iscntrl e = true := by
    unfold iscntrl
    rcases he with he | he <;> subst he <;> decide
  have hsk : search_key e { st with gl_extent := 0 } = some (e, { st with gl_extent := 0 }) := by
    unfold search_key
    rw [if_neg (by simp [hs])]
  have hn := newline_ok { st with gl_extent := 0 } hroom
  refine ⟨_, hn, ?_⟩
  unfold key
  simp only [hi, hsk]
  unfold key_switch
  rw [if_pos he, hn]
  simp

theorem same_hist_enter (st t : State) (e : Int) (he : e = 10 ∨ e = 13)
    (hs : st.gl_search_mode = 0) (hroom : st.gl_cnt < st.BUF_SIZE - 1)
    (h : key e st = .ret t) : SameHist st t ∧ t.gl_init_done = 0 := by
  obtain ⟨t0, h0, h1⟩ := enter_ret st e he hs hroom
  rw [h1] at h
  have ht : t = gl_cleanup t0 := by
    injection h with h; exact h.symm
  obtain ⟨a1, a2, a3, a4, a5, a6⟩ := same_hist_newline _ _ h0
  rw [ht]
  exact ⟨⟨a1, a2, a3, a4, a5, a6⟩, rfl⟩

theorem typing_loop_hist (line : List Int) :
    ∀ (fuel : Nat) (st : State) (enter : Int) (rest : List Int) (t : State),
      BufOk st → st.gl_pos = st.gl_cnt →
      st.gl_search_mode = 0 → (∀ c ∈ line, printable c) →
      st.gl_cnt + line.length ≤ st.BUF_SIZE - 2 → st.inp = line ++ enter :: rest →
      (enter = 10 ∨ enter = 13) → getline_loop fuel st = some t →
      SameHist st t ∧ t.gl_init_done = 0 := by
  induction line with
  | nil =>
    intro fuel st enter rest t hok hend hs _ hroom hinp he hrun
    cases fuel with
    | zero => simp [getline_loop] at hrun
    | succ n =>
      have hg : gl_getc st = (enter, { st with inp := rest }) := by
        unfold gl_getc
        rw [hinp]; rfl
      obtain ⟨t0, h0, h1⟩ := enter_ret { st with inp := rest } enter he hs
        (by show st.gl_cnt < st.BUF_SIZE - 1; simp at hroom; omega)
      unfold getline_loop at hrun
      simp only [hg] at hrun
      rw [if_pos (by rcases he with he | he <;> omega), h1] at hrun
      have ht : t = gl_cleanup t0 := by
        injection hrun with h; exact h.symm
      obtain ⟨a1, a2, a3, a4, a5, a6⟩ := same_hist_newline _ _ h0
      rw [ht]
      exact ⟨⟨a1, a2, a3, a4, a5, a6⟩, rfl⟩
  | cons c l ih =>
    intro fuel st enter rest t hok hend hs hp hroom hinp he hrun
    cases fuel with
    | zero => simp [getline_loop] at hrun
    | succ n =>
      have hc : printable c := hp c (by simp)
      have hg : gl_getc st = (c, { st with inp := l ++ enter :: rest }) := by
        unfold gl_getc
        rw [hinp]; rfl
      simp only [List.length_cons, Nat.cast_add, Nat.cast_one] at hroom
      obtain ⟨b1, b2, b3, b4, b5⟩ := typing_step { st with inp := l ++ enter :: rest } c
        (contents st) hok hend rfl hs hc (by show st.gl_cnt < st.BUF_SIZE - 2; omega)
      unfold getline_loop at hrun
      simp only [hg] at hrun
      rw [if_pos (printable_nonneg c hc), b1] at hrun
      have := ih n _ enter rest t b2 b3
        (by rw [addchar_gl_search_mode]; exact hs)
        (fun x hx => hp x (by simp [hx]))
        (by rw [b5, addchar_BUF_SIZE]; show st.gl_cnt + 1 + (l.length : Int) ≤ st.BUF_SIZE - 2
            omega)
        (by rw [addchar_inp])
        he hrun
      obtain ⟨a1, a2, a3, a4, a5, a6⟩ :=
        same_hist_addchar c { st with inp := l ++ enter :: rest, gl_extent := 0 }
      obtain ⟨⟨c1, c2, c3, c4, c5, c6⟩, d⟩ := this
      exact ⟨⟨c1.trans a1, c2.trans a2, c3.trans a3, c4.trans a4, c5.trans a5, c6.trans a6⟩, d⟩
theorem hist_empty_slot (s : State) (h : HistEmpty s) (j : Int) (hj : j ≠ 0) :
    hslot s j = none := by
  unfold hslot
  split
  · rfl
  · rw [h.2]
    obtain ⟨k, hk⟩ : ∃ k : Nat, j.toNat = k + 1 := ⟨j.toNat - 1, by omega⟩
    rw [hk, List.getD_cons_succ, List.getD_eq_getElem?_getD, List.getElem?_replicate]
    split <;> rfl

theorem in_hook_hist (s : State) : SameHist s (in_hook s) := by
  unfold in_hook
  split
  · exact ⟨rfl, rfl, rfl, rfl, rfl, rfl⟩
  · exact ⟨rfl, rfl, rfl, rfl, rfl, rfl⟩

/-- The history `getline` starts its loop with: the one `gl_init` finds, or
the empty one it makes when the program has just started. -/
theorem start_hist (s0 s1 : State) (prompt : Option (List Nat)) (buf : List Nat) (buflen : Int)
    (h : getline_start prompt buf buflen s0 = .ok s1)
    (he : s0.gl_init_done < 0 ∨ HistEmpty s0) :
    HistEmpty s1 ∧ s1.HIST_SIZE = s0.HIST_SIZE ∧ s1.hist_prev_saved = s0.hist_prev_saved := by
  unfold getline_start at h
  have key : ∀ a : State, gl_init { s0 with BUF_SIZE := buflen, gl_buf := wr buf 0 0 } = .ok a →
      HistEmpty a ∧ a.HIST_SIZE = s0.HIST_SIZE ∧ a.hist_prev_saved = s0.hist_prev_saved := by
    intro a ha
    unfold gl_init at ha
    by_cases c : s0.gl_init_done < 0
    · simp only [if_pos c] at ha
      split at ha
      · cases ha
      · cases ha
        exact ⟨⟨rfl, rfl⟩, rfl, rfl⟩
    · simp only [if_neg c] at ha
      split at ha
      · cases ha
      · cases ha
        rcases he with he | he
        · exact absurd he c
        · exact ⟨he, rfl, rfl⟩
  cases hi : gl_init { s0 with BUF_SIZE := buflen, gl_buf := wr buf 0 0 } with
  | error e => rw [hi] at h; cases h
  | ok a =>
    rw [hi] at h
    obtain ⟨⟨k1, k2⟩, k3, k4⟩ := key a hi
    obtain ⟨a1, a2, a3, a4, a5, a6⟩ := in_hook_hist { a with gl_pos := 0, gl_prompt := prompt.getD [] }
    have hs1 : s1 = gl_fixup (in_hook { a with gl_pos := 0, gl_prompt := prompt.getD [] }).gl_prompt
        (-2) (in_hook { a with gl_pos := 0, gl_prompt := prompt.getD [] }).BUF_SIZE
        (in_hook { a with gl_pos := 0, gl_prompt := prompt.getD [] }) := by
      injection h with h; exact h.symm
    rw [hs1]
    refine ⟨⟨?_, ?_⟩, ?_, ?_⟩
    · rw [fixup_hist_last, a2]; exact k1
    · rw [fixup_hist_buf, fixup_HIST_SIZE, a1, a4]; exact k2
    · rw [fixup_HIST_SIZE, a4]; exact k3
    · rw [fixup_hist_prev_saved, a5]; exact k4
theorem histadd_init_done (s : State) (h : 0 ≤ s.gl_init_done) : histadd_init s = s := by
  unfold histadd_init
  rw [if_neg (by omega)]

/-- With `SKIP_DUPLICATES`, `gl_histadd` does what it does without when the
line differs from the entry saved last. -/
theorem histadd_keep (dup : Bool) (s : State) (buf : List Nat) (hinit : 0 ≤ s.gl_init_done)
    (hd : hist_differs buf (buf.dropWhile (fun c => c = 32 ∨ c = 9 ∨ c = 10)) s = true) :
    gl_histadd dup buf s = gl_histadd false buf s := by
  cases dup with
  | false => rfl
  | true =>
    unfold gl_histadd
    simp only [histadd_init_done s hinit, hd, if_true]
    rfl

/-- With `SKIP_DUPLICATES`, `gl_histadd` stores nothing when the line equals
the entry saved last. -/
theorem histadd_skip (s : State) (buf : List Nat) (hinit : 0 ≤ s.gl_init_done)
    (hd : hist_differs buf (buf.dropWhile (fun c => c = 32 ∨ c = 9 ∨ c = 10)) s = false) :
    gl_histadd true buf s = { s with hist_pos := s.hist_last } := by
  unfold gl_histadd
  simp only [histadd_init_done s hinit, hd, if_true]
  split <;> rfl

theorem differs_of_none (s : State) (buf p : List Nat) (h : s.hist_prev_saved = none) :
    hist_differs buf p s = true := by
  unfold hist_differs
  rw [h]

theorem hist_empty_length (s : State) (h : HistEmpty s) (h1 : 1 ≤ s.HIST_SIZE) :
    (s.hist_buf.length : Int) = s.HIST_SIZE := by
  rw [h.2]
  simp only [List.length_cons, List.length_replicate]
  omega

/-- C13 (amended). A call of `getline` that starts from an empty history and
receives the keys `h`, `i`, Enter returns the line `hi` with its newline and
leaves the history empty: `getline` stores no entry.  The entry exists once
the caller hands the returned line to `gl_histadd` (with or without
`SKIP_DUPLICATES`): then slot 0 holds `hi`, slot 1 is the empty string at
`hist_last = 1`, and every other slot is unused. -/
theorem C13_commit_leaves_history_to_caller (dup : Bool) (s0 : State)
    (prompt : Option (List Nat)) (buf : List Nat) (buflen : Int) (enter : Int)
    (rest : List Int) (hbuf : (buf.length : Int) = buflen) (hcap : 4 ≤ buflen)
    (henter : enter = 10 ∨ enter = 13) (hinp : s0.inp = 104 :: 105 :: enter :: rest)
    (hs : s0.gl_search_mode = 0) (hin : s0.gl_in_hook = none) (hout : s0.gl_out_hook = none)
    (htty : s0.tty = true) (hsize : 2 ≤ s0.HIST_SIZE)
    (hempty : s0.gl_init_done < 0 ∨ HistEmpty s0) (hprev : s0.hist_prev_saved = none) :
    ∃ t, getline prompt buf buflen s0 = some t ∧ cstr t.gl_buf = bytes "hi\n"
      ∧ HistEmpty t
      ∧ hslot (gl_histadd dup (cstr t.gl_buf) t) 0 = some (bytes "hi")
      ∧ (gl_histadd dup (cstr t.gl_buf) t).hist_last = 1
      ∧ hslot (gl_histadd dup (cstr t.gl_buf) t) 1 = some []
      ∧ ∀ j, j ≠ 0 → j ≠ 1 → hslot (gl_histadd dup (cstr t.gl_buf) t) j = none := by
  have hpr : ∀ c ∈ ([104, 105] : List Int), printable c := by
    intro c hc
    simp at hc
    rcases hc with rfl | rfl <;> (unfold printable; decide)
  obtain ⟨s1, h1, a1, a2, a3, a4, a5, a6, a7, a8⟩ :=
    start_ok s0 prompt buf buflen hbuf (by omega) htty hin
  obtain ⟨e1, e2, e3⟩ := start_hist s0 s1 prompt buf buflen h1 hempty
  obtain ⟨t, ht, hb, _⟩ := typing_loop [104, 105] (s1.inp.length + 1) s1 [] enter rest
    (by rw [a8, hinp]; simp) a1 a2 a4 (by rw [a5]; exact hs) (by rw [a6]; exact hout) hpr
    (by rw [a3, a7]; show (0 : Int) + 2 ≤ buflen - 2; omega) (by rw [a8]; exact hinp) henter
  obtain ⟨⟨b1, b2, b3, b4, b5, b6⟩, hd⟩ := typing_loop_hist [104, 105] (s1.inp.length + 1) s1
    enter rest t a1 a2 (by rw [a5]; exact hs) hpr
    (by rw [a3, a7]; show (0 : Int) + 2 ≤ buflen - 2; omega) (by rw [a8]; exact hinp) henter ht
  have hline : cstr t.gl_buf = [104, 105] ++ [10] := hb
  have hemp : HistEmpty t := ⟨by rw [b2]; exact e1.1, by rw [b1, b4]; exact e1.2⟩
  have hsz : t.HIST_SIZE = s0.HIST_SIZE := by rw [b4, e2]
  have hnb : ([104, 105] ++ [10] : List Nat).dropWhile (fun c => c = 32 ∨ c = 9 ∨ c = 10) ≠ [] := by
    decide
  have hk := histadd_keep dup t ([104, 105] ++ [10]) (by omega)
    (differs_of_none t _ _ (by rw [b5, e3]; exact hprev))
  obtain ⟨c1, c2, c3, _, c5⟩ := (histadd_spec t ([104, 105] ++ [10]) (by omega) (by omega)
    (hist_empty_length t hemp (by omega)) (by rw [hemp.1]) (by rw [hemp.1]; omega)).1 hnb
  have hmod : (t.hist_last + 1) % t.HIST_SIZE = 1 := by
    rw [hemp.1]
    exact Int.emod_eq_of_lt (by omega) (by omega)
  rw [hmod] at c2 c5
  rw [c2] at c3
  rw [hemp.1, (hist_save_line [104, 105] (by decide)).1] at c1
  refine ⟨t, ?_, hline, hemp, ?_, ?_, ?_, ?_⟩
  · unfold getline
    rw [h1]
    exact ht
  · rw [hline, hk]; exact c1
  · rw [hline, hk]; exact c2
  · rw [hline, hk]; exact c3
  · intro j j0 j1
    rw [hline, hk, c5 j (by rw [hemp.1]; exact j0) j1]
    exact hist_empty_slot t hemp j j0

set_option maxRecDepth 100000 in
/-- C13 (counterexample). The call `getline("> ", buf, 10)` of a fresh program
with the keys `h`, `i`, Enter returns `hi` with its newline, and the history
holds no entry afterwards: `hist_last` is still 0 and slot 0 is the empty
string that `gl_hist_init` put there. -/
theorem C13_no_entry_after_commit :
    (getline (some (bytes "> ")) (List.replicate 10 0) 10 (initial (keysOf "hi\n"))).map contents
        = some (bytes "hi\n")
      ∧ (getline (some (bytes "> ")) (List.replicate 10 0) 10 (initial (keysOf "hi\n"))).map
          (fun t => (t.hist_last, hslot t 0, hslot t 1)) = some (0, some [], none) := by
  decide

theorem C13_commit_leaves_history_to_caller_witness :
    ∃ t, getline (some (bytes "> ")) (List.replicate 10 0) 10 (initial (keysOf "hi\n")) = some t
      ∧ cstr t.gl_buf = bytes "hi\n"
      ∧ HistEmpty t
      ∧ hslot (gl_histadd true (cstr t.gl_buf) t) 0 = some (bytes "hi")
      ∧ (gl_histadd true (cstr t.gl_buf) t).hist_last = 1
      ∧ hslot (gl_histadd true (cstr t.gl_buf) t) 1 = some []
      ∧ ∀ j, j ≠ 0 → j ≠ 1 → hslot (gl_histadd true (cstr t.gl_buf) t) j = none :=
  C13_commit_leaves_history_to_caller true (initial (keysOf "hi\n")) (some (bytes "> "))
    (List.replicate 10 0) 10 10 [] (by decide) (by decide) (by decide) rfl rfl rfl rfl rfl
    (by decide) (Or.inl (by decide)) rfl

/-! ## The kill buffer across calls of `getline` -/

theorem cstr_replicate_zero (n : Nat) : cstr (List.replicate n 0) = [] := by
  cases n with
  | zero => rfl
  | succ k => simp [List.replicate_succ, cstr]

theorem in_hook_fields (s : State) :
    (in_hook s).gl_killbuf = s.gl_killbuf ∧ (in_hook s).gl_search_mode = s.gl_search_mode
      ∧ (in_hook s).inp = s.inp ∧ (in_hook s).BUF_SIZE = s.BUF_SIZE
      ∧ (in_hook s).gl_prompt = s.gl_prompt := by
  unfold in_hook
  split
  · exact ⟨rfl, rfl, rfl, rfl, rfl⟩
  · exact ⟨rfl, rfl, rfl, rfl, rfl⟩

/-- The kill buffer `getline` starts its loop with: the zeroed array of
`buflen` bytes that `gl_init` has just allocated. -/
theorem start_killbuf (s0 : State) (prompt : Option (List Nat)) (buf : List Nat) (buflen : Int)
    (htty : s0.tty = true) :
    ∃ s1, getline_start prompt buf buflen s0 = .ok s1
      ∧ s1.gl_killbuf = List.replicate buflen.toNat 0
      ∧ s1.gl_search_mode = s0.gl_search_mode ∧ s1.inp = s0.inp := by
  have hi : ∃ a, gl_init { s0 with BUF_SIZE := buflen, gl_buf := wr buf 0 0 } = .ok a
      ∧ a.gl_killbuf = List.replicate buflen.toNat 0
      ∧ a.gl_search_mode = s0.gl_search_mode ∧ a.inp = s0.inp := by
    unfold gl_init
    by_cases c : s0.gl_init_done < 0
    · simp only [if_pos c]
      rw [if_neg (by simp [gl_hist_init, htty])]
      exact ⟨_, rfl, rfl, rfl, rfl⟩
    · simp only [if_neg c]
      rw [if_neg (by simp [htty])]
      exact ⟨_, rfl, rfl, rfl, rfl⟩
  obtain ⟨a, h1, h2, h3, h4⟩ := hi
  obtain ⟨k1, k2, k3, _, _⟩ := in_hook_fields { a with gl_pos := 0, gl_prompt := prompt.getD [] }
  unfold getline_start
  rw [h1]
  refine ⟨_, rfl, ?_, ?_, ?_⟩
  · rw [fixup_gl_killbuf, k1]; exact h2
  · rw [fixup_gl_search_mode, k2]; exact h3
  · rw [fixup_inp, k3]; exact h4

/-- C15 (amended). The kill buffer belongs to one call of `getline`: whatever
the state before the call, and so whatever was killed in an earlier call, the
loop starts with the zeroed kill buffer that `gl_init` has just allocated, and
the key `^Y` read first rings the bell and leaves the line buffer and
everything else as it was. -/
theorem C15_kill_buffer_is_per_call (s0 : State) (prompt : Option (List Nat))
    (buf : List Nat) (buflen : Int) (rest : List Int) (htty : s0.tty = true)
    (hs : s0.gl_search_mode = 0) (hinp : s0.inp = 25 :: rest) :
    ∃ s1, getline_start prompt buf buflen s0 = .ok s1
      ∧ cstr s1.gl_killbuf = []
      ∧ turns 1 s1 = some (gl_putc 7 { s1 with inp := rest, gl_extent := 0 }) := by
  obtain ⟨s1, h1, h2, h3, h4⟩ := start_killbuf s0 prompt buf buflen htty
  have hk : cstr s1.gl_killbuf = [] := by rw [h2]; exact cstr_replicate_zero _
  refine ⟨s1, h1, hk, ?_⟩
  have hg : gl_getc s1 = (25, { s1 with inp := rest }) := by
    unfold gl_getc
    rw [h4, hinp]
  have hsk : search_key 25 { s1 with inp := rest, gl_extent := 0 }
      = some (25, { s1 with inp := rest, gl_extent := 0 }) := by
    unfold search_key
    rw [if_neg (by show ¬ s1.gl_search_mode ≠ 0; rw [h3, hs]; simp)]
  have hy : gl_yank { s1 with inp := rest, gl_extent := 0 }
      = .ok (gl_putc 7 { s1 with inp := rest, gl_extent := 0 }) := by
    unfold gl_yank
    have : strlen s1.gl_killbuf = 0 := by unfold strlen; rw [hk]; rfl
    simp only [this]
    rfl
  have hkey : key 25 { s1 with inp := rest }
      = .cont (gl_putc 7 { s1 with inp := rest, gl_extent := 0 }) := by
    unfold key
    have hi : iscntrl 25 = true := by decide
    simp only [hi, hsk]
    unfold key_switch
    rw [if_neg (by decide), if_neg (by decide), if_neg (by decide), if_neg (by decide),
      if_neg (by decide)]
    unfold key_edit
    rw [if_neg (by decide), if_neg (by decide), if_neg (by decide), if_neg (by decide),
      if_neg (by decide), if_neg (by decide), if_neg (by decide), if_neg (by decide),
      if_neg (by decide), if_neg (by decide), if_neg (by decide), if_neg (by decide),
      if_neg (by decide), if_pos rfl, hy]
    rfl
  show (match turns 0 s1 with
    | none => none
    | some t =>
      if (gl_getc t).1 ≥ 0 then
        match key (gl_getc t).1 (gl_getc t).2 with
        | .cont u => some u
        | _ => none
      else none) = _
  simp only [turns, hg, hkey]
  rfl

set_option maxRecDepth 100000 in
/-- C15 (counterexample). Two calls `getline("> ", buf, 16)` in a row: in the
first the keys `a b c ^A ^K` leave `abc` in the kill buffer and Enter returns
the empty line; at the return the kill buffer has been freed.  In the second
call `^Y` inserts nothing: the key rings the bell and Enter returns the empty
line again, not `abc`. -/
theorem C15_yank_after_return_is_empty :
    ((entered (some (bytes "> ")) (List.replicate 16 0) 16 (initial sample_kill_keys)).bind
        (turns 5)).map (fun t => (contents t, cstr t.gl_killbuf)) = some ([], bytes "abc")
      ∧ sample_call1.map (fun t => (contents t, t.gl_killbuf, t.inp))
          = some (bytes "\n", [], [25, 10])
      ∧ sample_call2.map (fun t => (contents t, t.inp)) = some (bytes "\n", []) := by
  decide

theorem C15_kill_buffer_is_per_call_witness :
    ∃ s1, getline_start (some (bytes "> ")) (List.replicate 16 0) 16
          { initial [25, 10] with gl_killbuf := bytes "abc" ++ [0] } = .ok s1
      ∧ cstr s1.gl_killbuf = []
      ∧ turns 1 s1 = some (gl_putc 7 { s1 with inp := [10], gl_extent := 0 }) :=
  C15_kill_buffer_is_per_call { initial [25, 10] with gl_killbuf := bytes "abc" ++ [0] }
    (some (bytes "> ")) (List.replicate 16 0) 16 [10] rfl rfl rfl

/-! ## Leaving search mode -/

theorem extent_idem (u : State) (h : u.gl_extent = 0) : { u with gl_extent := 0 } = u := by
  cases u
  simp only at h
  subst h
  rfl

/-- What `search_term` leaves: search mode is off, the history cursor is back
on `hist_last` when the buffer is empty, and with no in hook the buffer is
the one found last. -/
theorem search_term_spec (s : State) :
    (search_term s).gl_search_mode = 0
      ∧ (search_term s).gl_buf = (in_hook s).gl_buf
      ∧ (search_term s).hist_pos = (if rd s.gl_buf 0 = 0 then s.hist_last else s.hist_pos)
      ∧ (search_term s).inp = s.inp
      ∧ (search_term s).gl_extent = s.gl_extent
      ∧ (search_term s).BUF_SIZE = s.BUF_SIZE
      ∧ (search_term s).gl_out_hook = s.gl_out_hook
      ∧ (search_term s).gl_cnt = strlen (in_hook s).gl_buf
      ∧ 0 ≤ (search_term s).gl_pos ∧ (search_term s).gl_pos ≤ strlen (in_hook s).gl_buf := by
  have hb : ∀ a : State, (in_hook a).gl_search_mode = a.gl_search_mode
      ∧ (in_hook a).hist_pos = a.hist_pos ∧ (in_hook a).inp = a.inp
      ∧ (in_hook a).gl_extent = a.gl_extent ∧ (in_hook a).BUF_SIZE = a.BUF_SIZE
      ∧ (in_hook a).gl_out_hook = a.gl_out_hook := by
    intro a
    unfold in_hook
    split
    · exact ⟨rfl, rfl, rfl, rfl, rfl, rfl⟩
    · exact ⟨rfl, rfl, rfl, rfl, rfl, rfl⟩
  have hbuf : ∀ a b : State, a.gl_in_hook = b.gl_in_hook → a.gl_buf = b.gl_buf →
      (in_hook a).gl_buf = (in_hook b).gl_buf := by
    intro a b h1 h2
    unfold in_hook
    rw [h1]
    cases b.gl_in_hook with
    | none => exact h2
    | some f => exact congrArg f h2
  unfold search_term
  by_cases c : rd s.gl_buf 0 = 0
  · have c1 : rd ({ s with gl_search_mode := 0 } : State).gl_buf 0 = 0 := c
    simp only [if_pos c1, if_pos c]
    obtain ⟨b1, b2, b3, b4, b5, b6⟩ :=
      hb { s with gl_search_mode := 0, hist_pos := s.hist_last }
    have b0 : (in_hook { s with gl_search_mode := 0, hist_pos := s.hist_last }).gl_buf
        = (in_hook s).gl_buf :=
      hbuf _ _ rfl rfl
    refine ⟨?_, ?_, ?_, ?_, ?_, ?_, ?_, ?_, ?_, ?_⟩
    · rw [fixup_gl_search_mode, b1]
    · rw [fixup_gl_buf, b0]
    · rw [fixup_hist_pos, b2]
    · rw [fixup_inp, b3]
    · rw [fixup_gl_extent, b4]
    · rw [fixup_BUF_SIZE, b5]
    · rw [fixup_gl_out_hook, b6]
    · rw [fixup_cnt _ _ _ _ (Or.inl (le_refl 0)), b0]
    · rw [fixup_pos_of_change _ _ _ _ (Or.inl (le_refl 0))]
      have := strlen_nonneg (in_hook { s with gl_search_mode := 0, hist_pos := s.hist_last }).gl_buf
      split <;> split <;> omega
    · rw [fixup_pos_of_change _ _ _ _ (Or.inl (le_refl 0)), b0]
      have := strlen_nonneg (in_hook s).gl_buf
      split <;> split <;> omega
  · have c1 : ¬ rd ({ s with gl_search_mode := 0 } : State).gl_buf 0 = 0 := c
    simp only [if_neg c1, if_neg c]
    obtain ⟨b1, b2, b3, b4, b5, b6⟩ := hb { s with gl_search_mode := 0 }
    have b0 : (in_hook { s with gl_search_mode := 0 }).gl_buf = (in_hook s).gl_buf :=
      hbuf _ _ rfl rfl
    refine ⟨?_, ?_, ?_, ?_, ?_, ?_, ?_, ?_, ?_, ?_⟩
    · rw [fixup_gl_search_mode, b1]
    · rw [fixup_gl_buf, b0]
    · rw [fixup_hist_pos, b2]
    · rw [fixup_inp, b3]
    · rw [fixup_gl_extent, b4]
    · rw [fixup_BUF_SIZE, b5]
    · rw [fixup_gl_out_hook, b6]
    · rw [fixup_cnt _ _ _ _ (Or.inl (le_refl 0)), b0]
    · rw [fixup_pos_of_change _ _ _ _ (Or.inl (le_refl 0))]
      have := strlen_nonneg (in_hook { s with gl_search_mode := 0 }).gl_buf
      split <;> split <;> omega
    · rw [fixup_pos_of_change _ _ _ _ (Or.inl (le_refl 0)), b0]
      have := strlen_nonneg (in_hook s).gl_buf
      split <;> split <;> omega
theorem in_hook_none (s : State) (h : s.gl_in_hook = none) : in_hook s = s := by
  unfold in_hook
  rw [h]

/-- C19 (amended). In search mode, with no in or out hook and a line that
leaves room for the newline, the keys Enter and Escape end the search: search
mode is off, the buffer is the one found last, and the history cursor is back
on `hist_last` when the buffer is empty and stays where it is otherwise.
Enter is then handled as it is outside search mode, in the same turn of the
loop: `getline` returns the found line with its newline.  Escape is not
handled any further: the turn ends in the state `search_term` leaves, with the
keys after Escape unread. -/
theorem C19_enter_commits_escape_is_consumed (s : State) (hs : s.gl_search_mode ≠ 0)
    (hlen : (s.gl_buf.length : Int) = s.BUF_SIZE) (hroom : strlen s.gl_buf ≤ s.BUF_SIZE - 2)
    (hin : s.gl_in_hook = none) (hout : s.gl_out_hook = none) :
    (search_term { s with gl_extent := 0 }).gl_search_mode = 0
      ∧ (search_term { s with gl_extent := 0 }).gl_buf = s.gl_buf
      ∧ (search_term { s with gl_extent := 0 }).hist_pos
          = (if rd s.gl_buf 0 = 0 then s.hist_last else s.hist_pos)
      ∧ (search_term { s with gl_extent := 0 }).inp = s.inp
      ∧ key 27 s = .cont (search_term { s with gl_extent := 0 })
      ∧ ∀ e, e = 10 ∨ e = 13 →
          key e s = key e (search_term { s with gl_extent := 0 })
            ∧ ∃ t, key e s = .ret t ∧ cstr t.gl_buf = cstr s.gl_buf ++ [10] ∧ t.inp = s.inp := by
  obtain ⟨a1, a2, a3, a4, a5, a6, a7, a8, a9, a10⟩ := search_term_spec { s with gl_extent := 0 }
  have hh : in_hook { s with gl_extent := 0 } = { s with gl_extent := 0 } := in_hook_none _ hin
  rw [hh] at a2 a8 a10
  have hm : ({ s with gl_extent := 0 } : State).gl_search_mode ≠ 0 := hs
  refine ⟨a1, a2, a3, a4, ?_, ?_⟩
  · unfold key
    have hi : iscntrl 27 = true := by decide
    have hsk : search_key 27 { s with gl_extent := 0 }
        = some (0, search_term { s with gl_extent := 0 }) := by
      unfold search_key
      rw [if_pos hm, if_pos (Or.inl rfl)]
    simp only [hi, hsk, Bool.true_eq_false, if_false]
    unfold key_switch
    rw [if_neg (by decide), if_neg (by decide), if_neg (by decide), if_neg (by decide),
      if_neg (by decide)]
    unfold key_edit
    rw [if_neg (by decide), if_neg (by decide), if_neg (by decide), if_neg (by decide),
      if_neg (by decide), if_neg (by decide), if_neg (by decide), if_neg (by decide),
      if_neg (by decide), if_neg (by decide), if_neg (by decide), if_neg (by decide),
      if_neg (by decide), if_neg (by decide), if_neg (by decide), if_neg (by decide)]
  · intro e he
    have hi : iscntrl e = true := by
      unfold iscntrl
      rcases he with he | he <;> subst he <;> decide
    have hid := extent_idem (search_term { s with gl_extent := 0 }) a5
    have h1 : key e s = key_switch e (search_term { s with gl_extent := 0 }) := by
      have hsk : search_key e { s with gl_extent := 0 }
          = some (e, search_term { s with gl_extent := 0 }) := by
        unfold search_key
        rw [if_pos hm, if_neg (by rcases he with he | he <;> omega),
          if_neg (by rcases he with he | he <;> omega),
          if_pos (by rcases he with he | he <;> omega)]
      unfold key
      simp only [hi, hsk, Bool.true_eq_false, if_false]
    have h2 : key e (search_term { s with gl_extent := 0 })
        = key_switch e (search_term { s with gl_extent := 0 }) := by
      have hsk : search_key e (search_term { s with gl_extent := 0 })
          = some (e, search_term { s with gl_extent := 0 }) := by
        unfold search_key
        rw [if_neg (by rw [a1]; simp)]
      unfold key
      simp only [hi, hid, hsk, Bool.true_eq_false, if_false]
    have hok : BufOk (search_term { s with gl_extent := 0 }) := by
      refine ⟨?_, ?_, ?_, a9, ?_⟩
      · rw [a2, a6]; exact hlen
      · rw [a8, a2]
      · rw [a8, a6]
        show strlen s.gl_buf < s.BUF_SIZE
        omega
      · rw [a8]; exact a10
    obtain ⟨t, ht, hb, hinp⟩ := enter_step (search_term { s with gl_extent := 0 }) e he hok a1
      (by rw [a7]; exact hout)
      (by rw [a8, a6]; exact hroom)
    refine ⟨by rw [h1, h2], t, by rw [h1, ← h2]; exact ht, ?_, by rw [hinp, a4]⟩
    rw [hb]
    unfold contents
    rw [a2]

set_option maxRecDepth 100000 in
/-- C19 (counterexample). In the call `getline("> ", buf, 16)` of a fresh
program the keys `^R`, Escape, `f` leave search mode at the Escape and then
insert `f` in the line: the key after Escape is read as a key of its own.
Outside search mode the keys Escape, `f` are the word-forward command, which
reads both keys and leaves the line empty. -/
theorem C19_escape_not_dispatched :
    ((sample_keys [18, 27, 102]).bind (turns 1)).map (fun t => t.gl_search_mode) = some 1
      ∧ ((sample_keys [18, 27, 102]).bind (turns 2)).map (fun t => (t.gl_search_mode, t.inp))
          = some (0, [102])
      ∧ ((sample_keys [18, 27, 102]).bind (turns 3)).map (fun t => (contents t, t.inp))
          = some (bytes "f", [])
      ∧ ((sample_keys [27, 102]).bind (turns 1)).map (fun t => (contents t, t.inp))
          = some ([], []) := by
  decide

theorem C19_enter_commits_escape_is_consumed_witness :
    (search_term { sample_search with gl_extent := 0 }).gl_search_mode = 0
      ∧ (search_term { sample_search with gl_extent := 0 }).gl_buf = sample_search.gl_buf
      ∧ (search_term { sample_search with gl_extent := 0 }).hist_pos
          = (if rd sample_search.gl_buf 0 = 0 then sample_search.hist_last
             else sample_search.hist_pos)
      ∧ (search_term { sample_search with gl_extent := 0 }).inp = sample_search.inp
      ∧ key 27 sample_search = .cont (search_term { sample_search with gl_extent := 0 })
      ∧ ∀ e, e = 10 ∨ e = 13 →
          key e sample_search = key e (search_term { sample_search with gl_extent := 0 })
            ∧ ∃ t, key e sample_search = .ret t
              ∧ cstr t.gl_buf = cstr sample_search.gl_buf ++ [10] ∧ t.inp = sample_search.inp :=
  C19_enter_commits_escape_is_consumed sample_search (by decide) (by decide) (by decide) rfl rfl

/-! ## Walks through the history -/

theorem Walk.wrefl (s : State) : Walk s s := by
  unfold Walk; rfl

theorem Walk.wtrans {a b c : State} (h1 : Walk a b) (h2 : Walk b c) : Walk a c := by
  unfold Walk at *
  rw [h2, h1]

theorem Walk.wof_eq {s t : State} (b : List Nat) (p c shf r l w : Int) (lp : List Nat)
    (hp sl : Int) (o : List Nat)
    (h : t = { s with
      gl_buf := b
      gl_pos := p
      gl_cnt := c
      gl_shift := shf
      off_right := r
      off_left := l
      last_prompt := lp
      gl_width := w
      hist_pos := hp
      search_last := sl
      out := o }) :
    Walk s t := by
  subst h; unfold Walk; rfl

theorem Frame.walk {s t : State} (h : Frame s t) : Walk s t := by
  unfold Frame at h
  exact Walk.wof_eq _ _ _ _ _ _ _ _ _ _ _ h

theorem walk_fixup (p : List Nat) (ch cu : Int) (s : State) : Walk s (gl_fixup p ch cu s) :=
  (frame_fixup p ch cu s).walk

/-- What a walk through the history leaves alone. -/
theorem Walk.fields {s t : State} (h : Walk s t) :
    t.gl_search_mode = s.gl_search_mode ∧ t.search_string = s.search_string
      ∧ t.search_pos = s.search_pos ∧ t.search_forw_flg = s.search_forw_flg
      ∧ t.search_prompt = s.search_prompt ∧ t.hist_buf = s.hist_buf
      ∧ t.hist_last = s.hist_last ∧ t.HIST_SIZE = s.HIST_SIZE ∧ t.BUF_SIZE = s.BUF_SIZE
      ∧ t.inp = s.inp ∧ t.gl_beep = s.gl_beep := by
  have a0 := congrArg State.gl_search_mode (id h : t = _)
  have a1 := congrArg State.search_string (id h : t = _)
  have a2 := congrArg State.search_pos (id h : t = _)
  have a3 := congrArg State.search_forw_flg (id h : t = _)
  have a4 := congrArg State.search_prompt (id h : t = _)
  have a5 := congrArg State.hist_buf (id h : t = _)
  have a6 := congrArg State.hist_last (id h : t = _)
  have a7 := congrArg State.HIST_SIZE (id h : t = _)
  have a8 := congrArg State.BUF_SIZE (id h : t = _)
  have a9 := congrArg State.inp (id h : t = _)
  have a10 := congrArg State.gl_beep (id h : t = _)
  exact ⟨a0, a1, a2, a3, a4, a5, a6, a7, a8, a9, a10⟩

theorem walk_bell (s : State) : Walk s (hist_bell s) := by
  unfold hist_bell
  split
  · exact Walk.wof_eq _ _ _ _ _ _ _ _ _ _ _ rfl
  · exact Walk.wrefl s

theorem walk_prev (s : State) : Walk s (gl_hist_prev s).2 := by
  unfold gl_hist_prev
  simp only []
  split
  · split
    · exact Walk.wof_eq _ _ _ _ _ _ _ _ _ _ _ rfl
    · exact Walk.wtrans (Walk.wof_eq _ _ _ _ _ _ _ _ _ _ _ rfl) (walk_bell _)
  · exact walk_bell s

theorem walk_next (s : State) : Walk s (gl_hist_next s).2 := by
  unfold gl_hist_next
  split
  · simp only []
    split
    · exact Walk.wof_eq _ _ _ _ _ _ _ _ _ _ _ rfl
    · exact Walk.wtrans (Walk.wof_eq _ _ _ _ _ _ _ _ _ _ _ rfl) (walk_bell _)
  · exact walk_bell s

theorem bell_hist_pos (s : State) : (hist_bell s).hist_pos = s.hist_pos := by
  unfold hist_bell
  split <;> rfl

theorem bell_search_last (s : State) : (hist_bell s).search_last = s.search_last := by
  unfold hist_bell
  split <;> rfl

/-- A call of `gl_hist_prev` that returns an entry: it has stepped back by one
slot, which is not the one at `hist_last`, and returns the entry there. -/
theorem prev_hit (s : State) (h : (gl_hist_prev s).1 ≠ []) :
    Int.tmod (s.hist_pos - 1 + s.HIST_SIZE) s.HIST_SIZE ≠ s.hist_last
      ∧ hslot s (Int.tmod (s.hist_pos - 1 + s.HIST_SIZE) s.HIST_SIZE) = some (gl_hist_prev s).1
      ∧ (gl_hist_prev s).2
          = { s with hist_pos := Int.tmod (s.hist_pos - 1 + s.HIST_SIZE) s.HIST_SIZE } := by
  unfold gl_hist_prev at h ⊢
  simp only [] at h ⊢
  by_cases c : hslot s s.hist_pos ≠ none
      ∧ Int.tmod (s.hist_pos - 1 + s.HIST_SIZE) s.HIST_SIZE ≠ s.hist_last
  · rw [if_pos c] at h ⊢
    cases hh : hslot s (Int.tmod (s.hist_pos - 1 + s.HIST_SIZE) s.HIST_SIZE) with
    | none => rw [hh] at h; exact absurd rfl h
    | some e => exact ⟨c.2, rfl, rfl⟩
  · rw [if_neg c] at h
    exact absurd rfl h

/-- A call of `gl_hist_next` that returns an entry: it has stepped on by one
slot from a slot other than `hist_last`, and returns the entry there. -/
theorem next_hit (s : State) (h : (gl_hist_next s).1 ≠ []) :
    s.hist_pos ≠ s.hist_last
      ∧ hslot s (Int.tmod (s.hist_pos + 1) s.HIST_SIZE) = some (gl_hist_next s).1
      ∧ (gl_hist_next s).2 = { s with hist_pos := Int.tmod (s.hist_pos + 1) s.HIST_SIZE } := by
  unfold gl_hist_next at h ⊢
  by_cases c : s.hist_pos ≠ s.hist_last
  · rw [if_pos c] at h ⊢
    simp only [] at h ⊢
    cases hh : hslot s (Int.tmod (s.hist_pos + 1) s.HIST_SIZE) with
    | none => rw [hh] at h; exact absurd rfl h
    | some e => exact ⟨c, rfl, rfl⟩
  · rw [if_neg c] at h
    exact absurd rfl h

theorem prev_search_last (s : State) : (gl_hist_prev s).2.search_last = s.search_last := by
  unfold gl_hist_prev
  simp only []
  split
  · split
    · rfl
    · rw [bell_search_last]
  · rw [bell_search_last]

theorem next_search_last (s : State) : (gl_hist_next s).2.search_last = s.search_last := by
  unfold gl_hist_next
  split
  · simp only []
    split
    · rfl
    · rw [bell_search_last]
  · rw [bell_search_last]

theorem prev_cursors (s : State) (h : Cursors s) : Cursors (gl_hist_prev s).2 := by
  obtain ⟨h1, h2, h3, h4⟩ := h
  have hp := ring_pred s.hist_pos s.HIST_SIZE h3 h4
  have key : Cursors { s with hist_pos := Int.tmod (s.hist_pos - 1 + s.HIST_SIZE) s.HIST_SIZE } := by
    refine ⟨h1, h2, ?_, ?_⟩
    · show 0 ≤ Int.tmod (s.hist_pos - 1 + s.HIST_SIZE) s.HIST_SIZE
      rw [hp]; split <;> omega
    · show Int.tmod (s.hist_pos - 1 + s.HIST_SIZE) s.HIST_SIZE < s.HIST_SIZE
      rw [hp]; split <;> omega
  have hb : ∀ a : State, Cursors a → Cursors (hist_bell a) := by
    intro a ha
    unfold hist_bell
    split
    · exact ha
    · exact ha
  unfold gl_hist_prev
  simp only []
  split
  · split
    · exact key
    · exact hb _ key
  · exact hb _ ⟨h1, h2, h3, h4⟩

theorem next_cursors (s : State) (h : Cursors s) : Cursors (gl_hist_next s).2 := by
  obtain ⟨h1, h2, h3, h4⟩ := h
  have hp := ring_succ s.hist_pos s.HIST_SIZE h3 h4
  have key : Cursors { s with hist_pos := Int.tmod (s.hist_pos + 1) s.HIST_SIZE } := by
    refine ⟨h1, h2, ?_, ?_⟩
    · show 0 ≤ Int.tmod (s.hist_pos + 1) s.HIST_SIZE
      rw [hp]; split <;> omega
    · show Int.tmod (s.hist_pos + 1) s.HIST_SIZE < s.HIST_SIZE
      rw [hp]; split <;> omega
  have hb : ∀ a : State, Cursors a → Cursors (hist_bell a) := by
    intro a ha
    unfold hist_bell
    split
    · exact ha
    · exact ha
  unfold gl_hist_next
  split
  · simp only []
    split
    · exact key
    · exact hb _ key
  · exact hb _ ⟨h1, h2, h3, h4⟩

theorem prev_room_lt (s : State) (h : Cursors s) (hr : (gl_hist_prev s).1 ≠ []) :
    prev_room (gl_hist_prev s).2 < prev_room s := by
  obtain ⟨h1, h2, h3, h4⟩ := h
  obtain ⟨a1, _, a3⟩ := prev_hit s hr
  have hp := ring_pred s.hist_pos s.HIST_SIZE h3 h4
  rw [a3]
  unfold prev_room
  show (if Int.tmod (s.hist_pos - 1 + s.HIST_SIZE) s.HIST_SIZE > s.hist_last
      then Int.tmod (s.hist_pos - 1 + s.HIST_SIZE) s.HIST_SIZE - s.hist_last - 1
      else Int.tmod (s.hist_pos - 1 + s.HIST_SIZE) s.HIST_SIZE - s.hist_last - 1
        + s.HIST_SIZE).toNat < _
  rw [hp] at a1 ⊢
  split at a1 <;> split <;> split <;> omega

theorem next_room_lt (s : State) (h : Cursors s) (hr : (gl_hist_next s).1 ≠ []) :
    next_room (gl_hist_next s).2 < next_room s := by
  obtain ⟨h1, h2, h3, h4⟩ := h
  obtain ⟨a1, _, a3⟩ := next_hit s hr
  have hp := ring_succ s.hist_pos s.HIST_SIZE h3 h4
  rw [a3]
  unfold next_room
  show (if Int.tmod (s.hist_pos + 1) s.HIST_SIZE ≤ s.hist_last
      then s.hist_last - Int.tmod (s.hist_pos + 1) s.HIST_SIZE
      else s.hist_last - Int.tmod (s.hist_pos + 1) s.HIST_SIZE + s.HIST_SIZE).toNat < _
  rw [hp]
  split_ifs <;> omega

theorem room_lt_size (s : State) (h : Cursors s) :
    prev_room s < s.HIST_SIZE.toNat + 1 ∧ next_room s < s.HIST_SIZE.toNat + 1 := by
  obtain ⟨h1, h2, h3, h4⟩ := h
  unfold prev_room next_room
  constructor
  · split <;> omega
  · split <;> omega

/-- The loop of `search_back` and `search_forw` ends when every call of the
history routine that returns an entry uses up some of the room left. -/
theorem search_loop_total (step : State → List Nat × State) (ns : Int) (I : State → Prop)
    (μ : State → Nat) (hI : ∀ s, I s → I (step s).2)
    (hstep : ∀ s, I s → (step s).1 ≠ [] → μ (step s).2 < μ s) :
    ∀ (n : Nat) (s : State), I s → μ s < n → ∃ t, search_loop step ns n s = some t := by
  intro n
  induction n with
  | zero => intro s _ h; omega
  | succ n ih =>
    intro s hs hn
    unfold search_loop
    simp only []
    by_cases c : (step s).1 = []
    · rw [if_pos c]; exact ⟨_, rfl⟩
    · rw [if_neg c]
      cases hh : strstr (step s).1 (cstr (step s).2.search_string) with
      | some loc => exact ⟨_, rfl⟩
      | none =>
        have := hstep s hs c
        exact ih _ (hI s hs) (by omega)

/-- A property of the state the loop of `search_back` and `search_forw`
leaves, from an invariant of the history routine. -/
theorem search_loop_inv (step : State → List Nat × State) (ns : Int) (Q P : State → Prop)
    (hQ : ∀ s, Q s → Q (step s).2) (hmiss : ∀ s, Q s → P (search_miss s))
    (hhit : ∀ s e loc, Q s → P (search_hit ns e loc s)) :
    ∀ (n : Nat) (s t : State), Q s → search_loop step ns n s = some t → P t := by
  intro n
  induction n with
  | zero => intro s t _ h; cases h
  | succ n ih =>
    intro s t hs h
    unfold search_loop at h
    simp only [] at h
    by_cases c : (step s).1 = []
    · rw [if_pos c] at h
      cases h
      exact hmiss _ (hQ s hs)
    · rw [if_neg c] at h
      cases hh : strstr (step s).1 (cstr (step s).2.search_string) with
      | some loc =>
        rw [hh] at h
        cases h
        exact hhit _ _ _ (hQ s hs)
      | none =>
        rw [hh] at h
        exact ih _ _ (hQ s hs) h

/-! ## The output of the redraw routine -/

theorem Appends.arefl (s : State) : Appends s s :=
  ⟨[], by simp⟩

theorem Appends.atrans {a b c : State} (h1 : Appends a b) (h2 : Appends b c) : Appends a c := by
  obtain ⟨o1, e1⟩ := h1
  obtain ⟨o2, e2⟩ := h2
  exact ⟨o1 ++ o2, by rw [e2, e1, List.append_assoc]⟩

theorem Appends.of_out {s t : State} (h : t.out = s.out) : Appends s t :=
  ⟨[], by simp [h]⟩

theorem appends_putc (c : Nat) (s : State) : Appends s (gl_putc c s) :=
  ⟨putcBytes c, rfl⟩

theorem appends_puts (p : List Nat) (s : State) : Appends s (gl_puts p s) :=
  ⟨p, rfl⟩

theorem appends_forUp (lo hi : Int) (body : Int → State → State) (s : State)
    (h : ∀ i st, Appends st (body i st)) : Appends s (forUp lo hi body s) :=
  forUp_inv (fun t => Appends s t) body lo hi s (fun i st hs => hs.atrans (h i st))
    (Appends.arefl s)

theorem appends_ite {s a b : State} (c : Prop) [Decidable c] (h1 : Appends s a)
    (h2 : Appends s b) : Appends s (if c then a else b) := by
  split
  · exact h1
  · exact h2

theorem appends_prompt (p : List Nat) (ch : Int) (s : State) :
    Appends s (fixup_prompt p ch s) := by
  unfold fixup_prompt
  split
  · refine Appends.atrans (appends_forUp 0 s.gl_pos _ s (fun _ st => appends_putc 8 st)) ?_
    exact ⟨p, rfl⟩
  · split
    · refine Appends.atrans ?_ (Appends.of_out rfl)
      refine Appends.atrans ?_ (appends_puts p _)
      refine Appends.atrans ?_ (appends_forUp 0 _ _ _ (fun _ st => appends_putc 8 st))
      exact Appends.of_out rfl
    · exact Appends.arefl s

theorem appends_count (ch : Int) (s : State) : Appends s (fixup_count ch s) := by
  unfold fixup_count
  split
  · exact Appends.of_out rfl
  · exact Appends.arefl s

theorem appends_bell (cu : Int) (s : State) : Appends s (fixup_bell cu s) := by
  unfold fixup_bell
  exact Appends.atrans
    (appends_ite _ (appends_ite _ (appends_putc 7 s) (Appends.arefl s)) (Appends.arefl s))
    (appends_ite _ (appends_putc 7 _) (Appends.arefl _))

theorem appends_scroll (ch ns : Int) (s : State) : Appends s (fixup_scroll ch ns s) := by
  unfold fixup_scroll
  split
  · exact Appends.of_out rfl
  · split
    · exact Appends.of_out rfl
    · exact Appends.arefl s

theorem appends_draw_end (b : Bounds) (pad : Int) (s : State) :
    Appends s (fixup_draw_end b pad s) := by
  unfold fixup_draw_end
  split
  · exact ⟨putcBytes 36, rfl⟩
  · exact (appends_forUp 0 pad _ s (fun _ st => appends_putc 32 st)).atrans (Appends.of_out rfl)

theorem appends_draw (b : Bounds) (pad : Int) (s : State) : Appends s (fixup_draw b pad s) := by
  unfold fixup_draw
  split
  · refine Appends.atrans ?_ (appends_draw_end b pad _)
    refine Appends.atrans ?_ (Appends.of_out rfl)
    refine Appends.atrans ?_ (appends_forUp _ _ _ _ (fun _ st => appends_putc _ st))
    exact Appends.atrans (appends_forUp 0 _ _ s (fun _ st => appends_putc 8 st))
      (appends_ite _ (appends_putc 36 _) (Appends.arefl _))
  · exact Appends.arefl s

theorem appends_move (cu : Int) (s : State) : Appends s (fixup_move cu s) := by
  unfold fixup_move
  refine Appends.atrans ?_ (Appends.of_out rfl)
  exact appends_ite _ (appends_forUp 0 _ _ s (fun _ st => appends_putc 8 st))
    (appends_forUp _ _ _ s (fun _ st => appends_putc _ st))

/-- The redraw routine only adds to the output. -/
theorem appends_fixup (p : List Nat) (ch cu : Int) (s : State) :
    Appends s (gl_fixup p ch cu s) := by
  unfold gl_fixup
  refine Appends.atrans ?_ (appends_move _ _)
  refine Appends.atrans ?_ (appends_draw _ _ _)
  refine Appends.atrans ?_ (appends_scroll _ _ _)
  refine Appends.atrans ?_ (appends_bell _ _)
  exact Appends.atrans (appends_prompt p ch s) (appends_count _ _)

/-! ## The search keys -/

theorem walk_load (p : List Nat) (s : State) : Walk s (load_buf p s) :=
  Walk.wof_eq _ _ _ _ _ _ _ _ _ _ _ rfl

theorem walk_hit (ns : Int) (e : List Nat) (loc : Nat) (s : State) :
    Walk s (search_hit ns e loc s) := by
  unfold search_hit
  simp only []
  split
  · exact Walk.wtrans (Walk.wtrans (walk_load e s) (walk_fixup _ _ _ _))
      (Walk.wof_eq _ _ _ _ _ _ _ _ _ _ _ rfl)
  · exact Walk.wtrans (walk_load e s) (walk_fixup _ _ _ _)

theorem walk_miss (s : State) : Walk s (search_miss s) := by
  unfold search_miss
  exact Walk.wtrans (Walk.wof_eq _ _ _ _ _ _ _ _ _ _ _ rfl) (walk_fixup _ _ _ _)

theorem hit_search_last (e : List Nat) (loc : Nat) (s : State) :
    (search_hit 0 e loc s).search_last = s.search_last := by
  unfold search_hit
  simp only []
  rw [if_neg (by simp), fixup_search_last]
  rfl

theorem miss_search_last (s : State) : (search_miss s).search_last = s.search_last := by
  unfold search_miss
  rw [fixup_search_last]

theorem walk_loop (step : State → List Nat × State) (hstep : ∀ s, Walk s (step s).2)
    (ns : Int) (n : Nat) (s t : State) (h : search_loop step ns n s = some t) : Walk s t :=
  search_loop_inv step ns (fun u => Walk s u) (fun u => Walk s u)
    (fun u hu => Walk.wtrans hu (hstep u)) (fun u hu => Walk.wtrans hu (walk_miss u))
    (fun u e loc hu => Walk.wtrans hu (walk_hit ns e loc u)) n s t (Walk.wrefl s) h

theorem loop_search_last (step : State → List Nat × State)
    (hstep : ∀ s, (step s).2.search_last = s.search_last) (n : Nat) (s t : State)
    (h : search_loop step 0 n s = some t) : t.search_last = s.search_last :=
  search_loop_inv step 0 (fun u => u.search_last = s.search_last)
    (fun u => u.search_last = s.search_last)
    (fun u hu => (hstep u).trans hu) (fun u hu => (miss_search_last u).trans hu)
    (fun u e loc hu => (hit_search_last e loc u).trans hu) n s t rfl h

/-- A walk back through the history, in search mode with a pattern: it ends,
and changes only what a walk may change. -/
theorem search_back_walk (ns : Int) (s : State) (hm : s.gl_search_mode ≠ 0)
    (hp : 0 < s.search_pos) (hc : Cursors s) :
    ∃ t, search_back ns s = some t ∧ Walk { s with search_forw_flg := 0 } t
      ∧ (ns = 0 → t.search_last = s.search_last) := by
  have hc2 : Cursors { s with search_forw_flg := 0 } := hc
  obtain ⟨t, ht⟩ := search_loop_total gl_hist_prev ns Cursors prev_room prev_cursors prev_room_lt
    (s.HIST_SIZE.toNat + 1) { s with search_forw_flg := 0 } hc2 (room_lt_size _ hc2).1
  refine ⟨t, ?_, walk_loop _ walk_prev ns _ _ _ ht, ?_⟩
  · unfold search_back
    simp only []
    rw [if_neg (fun h => hm h), if_pos hp]
    exact ht
  · intro h0
    subst h0
    exact loop_search_last _ prev_search_last _ { s with search_forw_flg := 0 } _ ht

/-- A walk forward through the history, in search mode with a pattern: it
ends, and changes only what a walk may change. -/
theorem search_forw_walk (ns : Int) (s : State) (hm : s.gl_search_mode ≠ 0)
    (hp : 0 < s.search_pos) (hc : Cursors s) :
    ∃ t, search_forw ns s = some t ∧ Walk { s with search_forw_flg := 1 } t
      ∧ (ns = 0 → t.search_last = s.search_last) := by
  have hc2 : Cursors { s with search_forw_flg := 1 } := hc
  obtain ⟨t, ht⟩ := search_loop_total gl_hist_next ns Cursors next_room next_cursors next_room_lt
    (s.HIST_SIZE.toNat + 1) { s with search_forw_flg := 1 } hc2 (room_lt_size _ hc2).2
  refine ⟨t, ?_, walk_loop _ walk_next ns _ _ _ ht, ?_⟩
  · unfold search_forw
    simp only []
    rw [if_neg (fun h => hm h), if_pos hp]
    exact ht
  · intro h0
    subst h0
    exact loop_search_last _ next_search_last _ { s with search_forw_flg := 1 } _ ht

/-- What the walk that `search_addchar` starts leaves: the state `u` it starts
from, but for the line, the redraw variables, `hist_pos`, the output and the
direction flag. -/
theorem search_resume (u : State) (hm : u.gl_search_mode ≠ 0) (hp : 0 < u.search_pos)
    (hc : Cursors u) :
    ∃ t, (if u.search_forw_flg ≠ 0 then search_forw 0 u else search_back 0 u) = some t
      ∧ t.gl_search_mode = u.gl_search_mode ∧ t.search_string = u.search_string
      ∧ t.search_pos = u.search_pos ∧ t.search_last = u.search_last
      ∧ t.hist_buf = u.hist_buf ∧ t.hist_last = u.hist_last ∧ t.HIST_SIZE = u.HIST_SIZE
      ∧ t.inp = u.inp := by
  by_cases c : u.search_forw_flg ≠ 0
  · rw [if_pos c]
    obtain ⟨t, h1, h2, h3⟩ := search_forw_walk 0 u hm hp hc
    obtain ⟨a0, a1, a2, _, _, a5, a6, a7, _, a9, _⟩ := h2.fields
    exact ⟨t, h1, a0, a1, a2, h3 rfl, a5, a6, a7, a9⟩
  · rw [if_neg c]
    obtain ⟨t, h1, h2, h3⟩ := search_back_walk 0 u hm hp hc
    obtain ⟨a0, a1, a2, _, _, a5, a6, a7, _, a9, _⟩ := h2.fields
    exact ⟨t, h1, a0, a1, a2, h3 rfl, a5, a6, a7, a9⟩

theorem search_update_grow (c : Int) (s : State) (hc : 0 < c) :
    search_update c s = { s with
      search_string := wr (wr s.search_string s.search_pos (toByte c)) (s.search_pos + 1) 0
      search_prompt :=
        wr (wr (wr (wr s.search_prompt s.search_pos (toByte c)) (s.search_pos + 1) 63)
          (s.search_pos + 2) 32) (s.search_pos + 3) 0
      search_pos := s.search_pos + 1 } := by
  unfold search_update
  rw [if_neg (by omega), if_pos hc]

/-- A call of `search_addchar` that does not unwind, in terms of the state
`search_update` leaves: it returns, in a state that differs from that one at
most in the line, the redraw variables, `hist_pos`, the output and the
direction flag. -/
theorem search_addchar_walk (c : Int) (s : State) (hc : ¬ c < 0)
    (hm : (search_update c s).gl_search_mode ≠ 0) (hcur : Cursors (search_update c s)) :
    ∃ t, search_addchar c s = some t
      ∧ t.gl_search_mode = (search_update c s).gl_search_mode
      ∧ t.search_string = (search_update c s).search_string
      ∧ t.search_pos = (search_update c s).search_pos
      ∧ t.search_last = (search_update c s).search_last
      ∧ t.hist_buf = (search_update c s).hist_buf
      ∧ t.hist_last = (search_update c s).hist_last
      ∧ t.HIST_SIZE = (search_update c s).HIST_SIZE
      ∧ t.inp = (search_update c s).inp := by
  unfold search_addchar
  simp only []
  rw [if_neg hc]
  generalize search_update c s = u at hm hcur ⊢
  cases hh : strstr (cstr u.gl_buf) (cstr u.search_string) with
  | some loc =>
    refine ⟨_, rfl, ?_, ?_, ?_, ?_, ?_, ?_, ?_, ?_⟩
    · rw [fixup_gl_search_mode]
    · rw [fixup_search_string]
    · rw [fixup_search_pos]
    · rw [fixup_search_last]
    · rw [fixup_hist_buf]
    · rw [fixup_hist_last]
    · rw [fixup_HIST_SIZE]
    · rw [fixup_inp]
  | none =>
    by_cases hp : u.search_pos > 0
    · simp only [if_pos hp]
      exact search_resume u hm hp hcur
    · simp only [if_neg hp]
      refine ⟨_, rfl, ?_, ?_, ?_, ?_, ?_, ?_, ?_, ?_⟩
      · rw [fixup_gl_search_mode]
      · rw [fixup_search_string]
      · rw [fixup_search_pos]
      · rw [fixup_search_last]
      · rw [fixup_hist_buf]
      · rw [fixup_hist_last]
      · rw [fixup_HIST_SIZE]
      · rw [fixup_inp]

/-- A key that extends the pattern, in search mode: `search_addchar` returns,
the pattern has grown by the key, and `search_last` is what it was. -/
theorem search_grow (c : Int) (s : State) (hc : 0 < c) (hm : s.gl_search_mode ≠ 0)
    (hcur : Cursors s) :
    ∃ t, search_addchar c s = some t ∧ t.search_last = s.search_last
      ∧ t.gl_search_mode = s.gl_search_mode ∧ t.search_pos = s.search_pos + 1
      ∧ t.search_string = wr (wr s.search_string s.search_pos (toByte c)) (s.search_pos + 1) 0
      ∧ t.hist_buf = s.hist_buf ∧ t.hist_last = s.hist_last ∧ t.HIST_SIZE = s.HIST_SIZE
      ∧ t.inp = s.inp := by
  have e := search_update_grow c s hc
  obtain ⟨t, h, a1, a2, a3, a4, a5, a6, a7, a8⟩ := search_addchar_walk c s (by omega)
    (by rw [e]; exact hm) (by rw [e]; exact hcur)
  rw [e] at a1 a2 a3 a4 a5 a6 a7 a8
  exact ⟨t, h, a4, a1, a3, a2, a5, a6, a7, a8⟩
theorem reload_fields (s : State) :
    (search_reload s).gl_search_mode = s.gl_search_mode
      ∧ (search_reload s).search_string = s.search_string
      ∧ (search_reload s).search_pos = s.search_pos
      ∧ (search_reload s).search_last = s.search_last
      ∧ (search_reload s).hist_buf = s.hist_buf
      ∧ (search_reload s).hist_last = s.hist_last
      ∧ (search_reload s).HIST_SIZE = s.HIST_SIZE
      ∧ (search_reload s).inp = s.inp
      ∧ (search_reload s).out = s.out
      ∧ (search_reload s).hist_pos = (if s.search_pos > 0 then s.search_last else s.hist_last) := by
  unfold search_reload load_buf
  simp only []
  split
  · exact ⟨rfl, rfl, rfl, rfl, rfl, rfl, rfl, rfl, rfl, rfl⟩
  · exact ⟨rfl, rfl, rfl, rfl, rfl, rfl, rfl, rfl, rfl, rfl⟩

theorem search_update_shrink (c : Int) (s : State) (hc : c < 0) (hp : 0 < s.search_pos) :
    search_update c s = { s with
      search_pos := s.search_pos - 1
      search_string := wr s.search_string (s.search_pos - 1) 0
      search_prompt :=
        wr (wr (wr s.search_prompt (s.search_pos - 1) 63) s.search_pos 32)
          (s.search_pos + 1) 0 } := by
  unfold search_update
  rw [if_neg (by omega), if_neg (by omega), if_pos hp]

theorem search_update_empty (c : Int) (s : State) (hc : c < 0) (hp : s.search_pos ≤ 0) :
    search_update c s = { gl_putc 7 s with hist_pos := s.hist_last } := by
  unfold search_update
  rw [if_neg (by omega), if_neg (by omega), if_neg (by omega)]

/-- A call of `search_addchar` that unwinds, in terms of the state `u` that
`search_update` and the reload of the entry leave: it returns, in a state that
differs from `u` at most in the line, the redraw variables, `hist_pos`, the
output and the direction flag; when the reloaded line holds the pattern, or
the pattern is empty, the line and `hist_pos` are those of `u` and the output
is that of `u` with bytes added. -/
theorem search_addchar_back (c : Int) (s : State) (hc : c < 0)
    (hm : (search_reload (search_update c s)).gl_search_mode ≠ 0)
    (hcur : Cursors (search_reload (search_update c s))) :
    ∃ t, search_addchar c s = some t
      ∧ t.gl_search_mode = (search_reload (search_update c s)).gl_search_mode
      ∧ t.search_string = (search_reload (search_update c s)).search_string
      ∧ t.search_pos = (search_reload (search_update c s)).search_pos
      ∧ t.search_last = (search_reload (search_update c s)).search_last
      ∧ t.hist_buf = (search_reload (search_update c s)).hist_buf
      ∧ t.hist_last = (search_reload (search_update c s)).hist_last
      ∧ t.HIST_SIZE = (search_reload (search_update c s)).HIST_SIZE
      ∧ t.inp = (search_reload (search_update c s)).inp
      ∧ ((strstr (cstr (search_reload (search_update c s)).gl_buf)
              (cstr (search_reload (search_update c s)).search_string)).isSome
            ∨ (search_reload (search_update c s)).search_pos ≤ 0 →
          t.hist_pos = (search_reload (search_update c s)).hist_pos
            ∧ t.gl_buf = (search_reload (search_update c s)).gl_buf
            ∧ Appends (search_reload (search_update c s)) t) := by
  unfold search_addchar
  simp only []
  rw [if_pos hc]
  generalize search_reload (search_update c s) = u at hm hcur ⊢
  cases hh : strstr (cstr u.gl_buf) (cstr u.search_string) with
  | some loc =>
    refine ⟨_, rfl, ?_, ?_, ?_, ?_, ?_, ?_, ?_, ?_, ?_⟩
    · rw [fixup_gl_search_mode]
    · rw [fixup_search_string]
    · rw [fixup_search_pos]
    · rw [fixup_search_last]
    · rw [fixup_hist_buf]
    · rw [fixup_hist_last]
    · rw [fixup_HIST_SIZE]
    · rw [fixup_inp]
    · intro _
      exact ⟨fixup_hist_pos _ _ _ _, fixup_gl_buf _ _ _ _, appends_fixup _ _ _ _⟩
  | none =>
    by_cases hp : u.search_pos > 0
    · simp only [if_pos hp]
      obtain ⟨t, h, a1, a2, a3, a4, a5, a6, a7, a8⟩ := search_resume u hm hp hcur
      refine ⟨t, h, a1, a2, a3, a4, a5, a6, a7, a8, ?_⟩
      intro h2
      rcases h2 with h2 | h2
      · simp at h2
      · omega
    · simp only [if_neg hp]
      refine ⟨_, rfl, ?_, ?_, ?_, ?_, ?_, ?_, ?_, ?_, ?_⟩
      · rw [fixup_gl_search_mode]
      · rw [fixup_search_string]
      · rw [fixup_search_pos]
      · rw [fixup_search_last]
      · rw [fixup_hist_buf]
      · rw [fixup_hist_last]
      · rw [fixup_HIST_SIZE]
      · rw [fixup_inp]
      · intro _
        exact ⟨fixup_hist_pos _ _ _ _, fixup_gl_buf _ _ _ _, appends_fixup _ _ _ _⟩

theorem key_switch_zero (t : State) : key_switch 0 t = .cont t := by
  unfold key_switch
  rw [if_neg (by decide), if_neg (by decide), if_neg (by decide), if_neg (by decide),
    if_neg (by decide)]
  unfold key_edit
  rw [if_neg (by decide), if_neg (by decide), if_neg (by decide), if_neg (by decide),
    if_neg (by decide), if_neg (by decide), if_neg (by decide), if_neg (by decide),
    if_neg (by decide), if_neg (by decide), if_neg (by decide), if_neg (by decide),
    if_neg (by decide), if_neg (by decide), if_neg (by decide), if_neg (by decide)]

/-- The backspace key in search mode is `search_addchar(-1)`, and nothing more. -/
theorem key_backspace (c : Int) (s t : State) (hc : c = 8 ∨ c = 127)
    (hm : s.gl_search_mode ≠ 0)
    (h : search_addchar (-1) { s with gl_extent := 0 } = some t) : key c s = .cont t := by
  have hi : iscntrl c = true := by
    unfold iscntrl
    rcases hc with hc | hc <;> subst hc <;> decide
  have hm2 : ({ s with gl_extent := 0 } : State).gl_search_mode ≠ 0 := hm
  have hsk : search_key c { s with gl_extent := 0 } = some (0, t) := by
    unfold search_key
    rw [if_pos hm2, if_neg (by rcases hc with hc | hc <;> omega), if_pos hc, h]
    rfl
  unfold key
  simp only [hi, hsk, Bool.true_eq_false, if_false]
  exact key_switch_zero t

/-- A printable key in search mode is `search_addchar`. -/
theorem key_pattern (c : Int) (s t : State) (hc : printable c) (hm : s.gl_search_mode ≠ 0)
    (h : search_addchar c { s with gl_extent := 0 } = some t) : key c s = .cont t := by
  have hi : iscntrl c = false := by
    unfold printable at hc
    unfold iscntrl
    simp only [Bool.or_eq_false_iff, decide_eq_false_iff_not, Bool.and_eq_false_iff]
    omega
  have hm2 : ({ s with gl_extent := 0 } : State).gl_search_mode ≠ 0 := hm
  unfold key
  simp only [hi, if_true]
  rw [if_pos hm2, h]
  rfl
/-- The state `search_addchar(-1)` reloads an entry in, with an empty pattern. -/
theorem unwind_empty_state (s : State) (hp : s.search_pos ≤ 0) :
    (search_reload (search_update (-1) s)).gl_search_mode = s.gl_search_mode
      ∧ (search_reload (search_update (-1) s)).search_string = s.search_string
      ∧ (search_reload (search_update (-1) s)).search_pos = s.search_pos
      ∧ (search_reload (search_update (-1) s)).search_last = s.search_last
      ∧ (search_reload (search_update (-1) s)).hist_last = s.hist_last
      ∧ (search_reload (search_update (-1) s)).HIST_SIZE = s.HIST_SIZE
      ∧ (search_reload (search_update (-1) s)).out = s.out ++ [7]
      ∧ (search_reload (search_update (-1) s)).hist_pos = s.hist_last := by
  obtain ⟨a1, a2, a3, a4, _, a6, a7, _, a9, a10⟩ := reload_fields (search_update (-1) s)
  have e := search_update_empty (-1) s (by omega) hp
  have f1 : (search_update (-1) s).gl_search_mode = s.gl_search_mode := by rw [e]; rfl
  have f2 : (search_update (-1) s).search_string = s.search_string := by rw [e]; rfl
  have f3 : (search_update (-1) s).search_pos = s.search_pos := by rw [e]; rfl
  have f4 : (search_update (-1) s).search_last = s.search_last := by rw [e]; rfl
  have f6 : (search_update (-1) s).hist_last = s.hist_last := by rw [e]; rfl
  have f7 : (search_update (-1) s).HIST_SIZE = s.HIST_SIZE := by rw [e]; rfl
  have f9 : (search_update (-1) s).out = s.out ++ [7] := by rw [e]; rfl
  rw [f3, f4, f6, if_neg (by omega)] at a10
  exact ⟨a1.trans f1, a2.trans f2, a3.trans f3, a4.trans f4, a6.trans f6, a7.trans f7,
    a9.trans f9, a10⟩

/-- The state `search_addchar(-1)` reloads an entry in, with a pattern. -/
theorem unwind_state (s : State) (hp : 0 < s.search_pos) :
    (search_reload (search_update (-1) s)).gl_search_mode = s.gl_search_mode
      ∧ (search_reload (search_update (-1) s)).search_string
          = wr s.search_string (s.search_pos - 1) 0
      ∧ (search_reload (search_update (-1) s)).search_pos = s.search_pos - 1
      ∧ (search_reload (search_update (-1) s)).search_last = s.search_last
      ∧ (search_reload (search_update (-1) s)).hist_last = s.hist_last
      ∧ (search_reload (search_update (-1) s)).HIST_SIZE = s.HIST_SIZE
      ∧ (search_reload (search_update (-1) s)).hist_pos
          = (if s.search_pos - 1 > 0 then s.search_last else s.hist_last)
      ∧ (s.search_pos - 1 > 0 → (search_reload (search_update (-1) s)).gl_buf
          = (load_buf ((hslot s s.search_last).getD []) s).gl_buf) := by
  obtain ⟨a1, a2, a3, a4, _, a6, a7, _, _, a10⟩ := reload_fields (search_update (-1) s)
  have e := search_update_shrink (-1) s (by omega) hp
  have f1 : (search_update (-1) s).gl_search_mode = s.gl_search_mode := by rw [e]
  have f2 : (search_update (-1) s).search_string = wr s.search_string (s.search_pos - 1) 0 := by
    rw [e]
  have f3 : (search_update (-1) s).search_pos = s.search_pos - 1 := by rw [e]
  have f4 : (search_update (-1) s).search_last = s.search_last := by rw [e]
  have f6 : (search_update (-1) s).hist_last = s.hist_last := by rw [e]
  have f7 : (search_update (-1) s).HIST_SIZE = s.HIST_SIZE := by rw [e]
  rw [f3, f4, f6] at a10
  refine ⟨a1.trans f1, a2.trans f2, a3.trans f3, a4.trans f4, a6.trans f6, a7.trans f7,
    a10, ?_⟩
  intro h
  rw [e]
  unfold search_reload
  simp only []
  rw [if_pos h]
  rfl

/-- C18 (amended). The backspace key in search mode.  With an empty pattern
the turn of the loop goes on in search mode: `gl_search_mode` is as it was,
`hist_pos` is back on `hist_last`, the bell has been written first, and the
pattern is still empty.  With a pattern the turn goes on in search mode with
the pattern shortened by its last character. -/
theorem C18_backspace_in_search (s : State) (c : Int) (hc : c = 8 ∨ c = 127)
    (hm : s.gl_search_mode ≠ 0) (hcur : Cursors s) (hl0 : 0 ≤ s.search_last)
    (hl1 : s.search_last < s.HIST_SIZE) (hlen : (s.search_string.length : Int) = 100)
    (hpos : s.search_pos < 100) (hpat : strlen s.search_string = s.search_pos) :
    (s.search_pos = 0 → ∃ t o, key c s = .cont t ∧ t.gl_search_mode = s.gl_search_mode
        ∧ t.hist_pos = s.hist_last ∧ t.out = s.out ++ 7 :: o ∧ t.search_pos = 0
        ∧ cstr t.search_string = [])
      ∧ (0 < s.search_pos → ∃ t, key c s = .cont t ∧ t.gl_search_mode = s.gl_search_mode
        ∧ t.search_pos = s.search_pos - 1
        ∧ cstr t.search_string = (cstr s.search_string).dropLast) := by
  obtain ⟨c1, c2, c3, c4⟩ := hcur
  constructor
  · intro hp
    obtain ⟨b1, b2, b3, b4, b5, b6, b7, b8⟩ :=
      unwind_empty_state { s with gl_extent := 0 } (by show s.search_pos ≤ 0; omega)
    obtain ⟨t, h, a1, a2, a3, _, _, _, _, _, a9⟩ :=
      search_addchar_back (-1) { s with gl_extent := 0 } (by omega)
        (by rw [b1]; exact hm)
        ⟨by rw [b5]; exact c1, by rw [b5, b6]; exact c2, by rw [b8]; exact c1,
          by rw [b8, b6]; exact c2⟩
    obtain ⟨d1, _, o, d3⟩ := a9 (Or.inr (by rw [b3]; show s.search_pos ≤ 0; omega))
    refine ⟨t, o, key_backspace c s t hc hm h, by rw [a1, b1], by rw [d1, b8], ?_,
      by rw [a3, b3]; exact hp, ?_⟩
    · rw [d3, b7]
      show s.out ++ [7] ++ o = s.out ++ 7 :: o
      simp
    · rw [a2, b2]
      have : strlen s.search_string = 0 := by rw [hpat, hp]
      unfold strlen at this
      exact List.length_eq_zero.mp (by exact_mod_cast this)
  · intro hp
    obtain ⟨b1, b2, b3, b4, b5, b6, b7, _⟩ :=
      unwind_state { s with gl_extent := 0 } (by show 0 < s.search_pos; exact hp)
    obtain ⟨t, h, a1, a2, a3, _, _, _, _, _, _⟩ :=
      search_addchar_back (-1) { s with gl_extent := 0 } (by omega)
        (by rw [b1]; exact hm)
        ⟨by rw [b5]; exact c1, by rw [b5, b6]; exact c2,
          by rw [b7]; show 0 ≤ (if s.search_pos - 1 > 0 then s.search_last else s.hist_last)
             split <;> assumption,
          by rw [b7, b6]
             show (if s.search_pos - 1 > 0 then s.search_last else s.hist_last) < s.HIST_SIZE
             split <;> assumption⟩
    refine ⟨t, key_backspace c s t hc hm h, by rw [a1, b1], by rw [a3, b3], ?_⟩
    rw [a2, b2]
    show cstr (wr s.search_string (s.search_pos - 1) 0) = _
    rw [wr_zero_cstr s.search_string (s.search_pos - 1) (by omega) (by omega) (by omega),
      List.dropLast_eq_take]
    have : ((cstr s.search_string).length : Int) = s.search_pos := hpat
    congr 1
    omega

set_option maxRecDepth 100000 in
/-- C18 (counterexample). With the entries `one` and `two` in the history, the
keys `^R`, backspace, `o`: after the backspace on the empty pattern
`gl_search_mode` is still 1, `hist_pos` is `hist_last` and the bell has been
written; the key `o` then extends the pattern and the search loads `two`. -/
theorem C18_backspace_stays_in_search :
    ((sample_hist [18, 8, 111]).bind (turns 1)).map
        (fun t => (t.gl_search_mode, t.search_pos)) = some (1, 0)
      ∧ ((sample_hist [18, 8, 111]).bind (turns 2)).map
          (fun t => (t.gl_search_mode, t.search_pos, t.hist_pos, t.hist_last))
          = some (1, 0, 2, 2)
      ∧ ((sample_hist [18, 8, 111]).bind (turns 2)).map (fun t => t.out.contains 7) = some true
      ∧ ((sample_hist [18, 8, 111]).bind (turns 3)).map
          (fun t => (t.gl_search_mode, contents t, cstr t.search_string))
          = some (1, bytes "two", bytes "o") := by
  decide

theorem C18_backspace_in_search_witness :
    (sample_search.search_pos = 0 → ∃ t o, key 8 sample_search = .cont t
        ∧ t.gl_search_mode = sample_search.gl_search_mode
        ∧ t.hist_pos = sample_search.hist_last ∧ t.out = sample_search.out ++ 7 :: o
        ∧ t.search_pos = 0 ∧ cstr t.search_string = [])
      ∧ (0 < sample_search.search_pos → ∃ t, key 8 sample_search = .cont t
        ∧ t.gl_search_mode = sample_search.gl_search_mode
        ∧ t.search_pos = sample_search.search_pos - 1
        ∧ cstr t.search_string = (cstr sample_search.search_string).dropLast) :=
  C18_backspace_in_search sample_search 8 (Or.inl rfl) (by decide)
    ⟨by decide, by decide, by decide, by decide⟩ (by decide) (by decide) (by decide)
    (by decide) (by decide)

/-- C20 (amended). In search mode a printable key that extends the pattern
leaves `search_last` as it is, whether the walk it starts finds an entry or
not; the turn goes on in search mode with the pattern one character longer.
A backspace that leaves the pattern non-empty leaves `search_last` as it is
as well, and goes back to the entry at `search_last`: when that entry, as
loaded into the line buffer, holds the shortened pattern, it is the line and
`hist_pos` is `search_last`. -/
theorem C20_typed_key_keeps_anchor (s : State) (hm : s.gl_search_mode ≠ 0) (hcur : Cursors s)
    (hl0 : 0 ≤ s.search_last) (hl1 : s.search_last < s.HIST_SIZE) :
    (∀ c, printable c → ∃ t, key c s = .cont t ∧ t.search_last = s.search_last
        ∧ t.gl_search_mode = s.gl_search_mode ∧ t.search_pos = s.search_pos + 1)
      ∧ (∀ c, c = 8 ∨ c = 127 → 1 < s.search_pos →
          ∃ t, key c s = .cont t ∧ t.search_last = s.search_last
            ∧ t.search_pos = s.search_pos - 1
            ∧ ((strstr (cstr (load_buf ((hslot s s.search_last).getD []) s).gl_buf)
                  (cstr (wr s.search_string (s.search_pos - 1) 0))).isSome →
                t.hist_pos = s.search_last
                  ∧ t.gl_buf = (load_buf ((hslot s s.search_last).getD []) s).gl_buf)) := by
  obtain ⟨c1, c2, c3, c4⟩ := hcur
  constructor
  · intro c hc
    obtain ⟨t, h, a1, a2, a3, _⟩ := search_grow c { s with gl_extent := 0 }
      (by unfold printable at hc; omega) hm ⟨c1, c2, c3, c4⟩
    exact ⟨t, key_pattern c s t hc hm h, a1, a2, a3⟩
  · intro c hc hp
    obtain ⟨b1, b2, b3, b4, b5, b6, b7, b8⟩ :=
      unwind_state { s with gl_extent := 0 } (by show 0 < s.search_pos; omega)
    have hpos : (search_reload (search_update (-1) { s with gl_extent := 0 })).hist_pos
        = s.search_last := by
      rw [b7]
      show (if s.search_pos - 1 > 0 then s.search_last else s.hist_last) = s.search_last
      rw [if_pos (by omega)]
    obtain ⟨t, h, _, _, a3, a4, _, _, _, _, a9⟩ :=
      search_addchar_back (-1) { s with gl_extent := 0 } (by omega)
        (by rw [b1]; exact hm)
        ⟨by rw [b5]; exact c1, by rw [b5, b6]; exact c2, by rw [hpos]; exact hl0,
          by rw [hpos, b6]; exact hl1⟩
    have hbuf := b8 (by show s.search_pos - 1 > 0; omega)
    refine ⟨t, key_backspace c s t hc hm h, by rw [a4, b4], by rw [a3, b3], ?_⟩
    intro hf
    rw [hbuf, b2] at a9
    obtain ⟨d1, d2, _⟩ := a9 (Or.inl hf)
    exact ⟨by rw [d1, hpos], d2⟩

set_option maxRecDepth 100000 in
/-- C20 (counterexample). With the entries `one` and `two` in the history, the
keys `^R`, `o`, `n`: the key `n` extends the pattern to `on` and the walk
finds `one` in slot 0, but `search_last` is still 2, the value `^R` gave it on
entering search mode.  The backspace that follows does not return to `one`:
it starts again from slot 2 with the pattern `o` and loads `two`. -/
theorem C20_anchor_not_recorded :
    ((sample_hist [18, 111, 110, 8]).bind (turns 2)).map
        (fun t => (contents t, t.hist_pos, t.search_last)) = some (bytes "two", 1, 2)
      ∧ ((sample_hist [18, 111, 110, 8]).bind (turns 3)).map
          (fun t => (contents t, t.hist_pos, t.search_last)) = some (bytes "one", 0, 2)
      ∧ ((sample_hist [18, 111, 110, 8]).bind (turns 4)).map
          (fun t => (contents t, t.hist_pos, t.search_last, cstr t.search_string))
          = some (bytes "two", 1, 2, bytes "o") := by
  decide

theorem C20_typed_key_keeps_anchor_witness :
    (∀ c, printable c → ∃ t, key c sample_found = .cont t
        ∧ t.search_last = sample_found.search_last
        ∧ t.gl_search_mode = sample_found.gl_search_mode
        ∧ t.search_pos = sample_found.search_pos + 1)
      ∧ (∀ c, c = 8 ∨ c = 127 → 1 < sample_found.search_pos →
          ∃ t, key c sample_found = .cont t ∧ t.search_last = sample_found.search_last
            ∧ t.search_pos = sample_found.search_pos - 1
            ∧ ((strstr (cstr (load_buf ((hslot sample_found sample_found.search_last).getD [])
                    sample_found).gl_buf)
                  (cstr (wr sample_found.search_string (sample_found.search_pos - 1) 0))).isSome →
                t.hist_pos = sample_found.search_last
                  ∧ t.gl_buf = (load_buf ((hslot sample_found sample_found.search_last).getD [])
                      sample_found).gl_buf)) :=
  C20_typed_key_keeps_anchor sample_found (by decide)
    ⟨by decide, by decide, by decide, by decide⟩ (by decide) (by decide)

/-! ## Committing a line twice -/

theorem dropWhile_append_ne (p : Nat → Bool) (t r : List Nat) (h : t.dropWhile p ≠ []) :
    (t ++ r).dropWhile p = t.dropWhile p ++ r := by
  induction t with
  | nil => exact absurd rfl h
  | cons a l ih =>
    by_cases c : p a = true
    · simp only [List.cons_append, List.dropWhile_cons, c, if_true] at h ⊢
      exact ih h
    · simp only [List.cons_append, List.dropWhile_cons, c, if_false, Bool.false_eq_true]

theorem not_mem_dropWhile (p : Nat → Bool) (t : List Nat) (x : Nat) (h : x ∉ t) :
    x ∉ t.dropWhile p := fun hx => h ((List.dropWhile_sublist p).subset hx)

/-- The test of `gl_histadd` under `SKIP_DUPLICATES`, for a line `t` without a
newline that is committed as `t` or as `t` and a newline: the line differs
exactly when the entry saved last is not `t`. -/
theorem differs_iff (s : State) (t b : List Nat) (hb : b = t ∨ b = t ++ [10]) (ht : 10 ∉ t)
    (hnb : t.dropWhile (fun c => c = 32 ∨ c = 9 ∨ c = 10) ≠ []) :
    hist_differs b (b.dropWhile (fun c => c = 32 ∨ c = 9 ∨ c = 10)) s
      = decide (s.hist_prev_saved ≠ some t) := by
  have hlen : ((b.length : Int) - (if strchr (b.dropWhile (fun c => c = 32 ∨ c = 9 ∨ c = 10)) 10
      then 1 else 0)) = t.length ∧ b.take t.length = t := by
    rcases hb with hb | hb
    · subst hb
      have : strchr (b.dropWhile (fun c => c = 32 ∨ c = 9 ∨ c = 10)) 10 = false := by
        unfold strchr
        simpa using not_mem_dropWhile _ b 10 ht
      rw [this]
      simp
    · subst hb
      have : strchr ((t ++ [10]).dropWhile (fun c => c = 32 ∨ c = 9 ∨ c = 10)) 10 = true := by
        unfold strchr
        rw [dropWhile_append_ne _ t [10] hnb]
        simp
      rw [this]
      simp
  unfold hist_differs
  simp only [hlen.1, Int.toNat_ofNat, hlen.2]
  cases hp : s.hist_prev_saved with
  | none => simp
  | some prev =>
    simp only [ne_eq, Option.some.injEq]
    by_cases c : prev = t
    · subst c
      simp
    · have : ¬ ((prev.length : Int) = (t.length : Int) ∧ prev.take t.length = t) := by
        intro h
        apply c
        have h1 : prev.length = t.length := by exact_mod_cast h.1
        rw [← h.2, ← h1, List.take_length]
      simp only [c, not_false_eq_true, decide_True]
      by_cases c1 : (prev.length : Int) = (t.length : Int)
      · have c2 : prev.take t.length ≠ t := fun h => this ⟨c1, h⟩
        simp [c2]
      · simp [c1]

theorem nonblank_commit (t b : List Nat) (hb : b = t ∨ b = t ++ [10])
    (hnb : t.dropWhile (fun c => c = 32 ∨ c = 9 ∨ c = 10) ≠ []) :
    b.dropWhile (fun c => c = 32 ∨ c = 9 ∨ c = 10) ≠ [] := by
  rcases hb with hb | hb
  · subst hb; exact hnb
  · subst hb
    rw [dropWhile_append_ne _ t [10] hnb]
    simp

theorem save_commit (t b : List Nat) (hb : b = t ∨ b = t ++ [10]) (ht : 10 ∉ t) :
    hist_save b = t := by
  rcases hb with hb | hb
  · subst hb; exact (hist_save_line b ht).2
  · subst hb; exact (hist_save_line t ht).1

/-- What a call of `gl_histadd` that stores a line leaves besides the slots. -/
theorem histadd_fields (s : State) (buf : List Nat) (hinit : 0 ≤ s.gl_init_done)
    (hnb : buf.dropWhile (fun c => c = 32 ∨ c = 9 ∨ c = 10) ≠ []) :
    (gl_histadd false buf s).hist_prev_saved = some (hist_save buf)
      ∧ (gl_histadd false buf s).gl_init_done = s.gl_init_done
      ∧ (gl_histadd false buf s).HIST_SIZE = s.HIST_SIZE
      ∧ (gl_histadd false buf s).hist_buf.length = s.hist_buf.length := by
  have hg : gl_histadd false buf s
      = { hist_store buf s with hist_pos := (hist_store buf s).hist_last } := by
    unfold gl_histadd
    simp only [histadd_init_done s hinit]
    rw [if_pos hnb]
    simp
  rw [hg]
  refine ⟨rfl, rfl, rfl, ?_⟩
  show (hist_store buf s).hist_buf.length = _
  unfold hist_store
  simp only [length_hset]
/-- C14 (amended). A line `t` without a newline that is not blank is committed
twice in a row with `gl_histadd`, each time as `t` or as `t` and a newline, in
an initialised ring of at least three slots.  With `SKIP_DUPLICATES`, when the
entry saved last is not `t`, exactly one entry is added: `t` in the slot at
the old `hist_last`, which moves on by one slot.  When the entry saved last is
`t` already, nothing is added.  Without `SKIP_DUPLICATES` two entries `t` are
added and `hist_last` moves on by two slots.  The slot at the new `hist_last`
holds the empty string and the other slots stay as they were. -/
theorem C14_commit_twice (s : State) (t a b : List Nat) (ha : a = t ∨ a = t ++ [10])
    (hb : b = t ∨ b = t ++ [10]) (ht : 10 ∉ t)
    (hnb : t.dropWhile (fun c => c = 32 ∨ c = 9 ∨ c = 10) ≠ [])
    (hinit : 0 ≤ s.gl_init_done) (h3 : 3 ≤ s.HIST_SIZE)
    (hlen : (s.hist_buf.length : Int) = s.HIST_SIZE) (hl0 : 0 ≤ s.hist_last)
    (hl1 : s.hist_last < s.HIST_SIZE) :
    (s.hist_prev_saved ≠ some t →
        hslot (gl_histadd true b (gl_histadd true a s)) s.hist_last = some t
          ∧ (gl_histadd true b (gl_histadd true a s)).hist_last
              = (s.hist_last + 1) % s.HIST_SIZE
          ∧ hslot (gl_histadd true b (gl_histadd true a s)) ((s.hist_last + 1) % s.HIST_SIZE)
              = some []
          ∧ ∀ j, j ≠ s.hist_last → j ≠ (s.hist_last + 1) % s.HIST_SIZE →
              hslot (gl_histadd true b (gl_histadd true a s)) j = hslot s j)
      ∧ (s.hist_prev_saved = some t →
          gl_histadd true b (gl_histadd true a s) = { s with hist_pos := s.hist_last })
      ∧ (hslot (gl_histadd false b (gl_histadd false a s)) s.hist_last = some t
          ∧ hslot (gl_histadd false b (gl_histadd false a s)) ((s.hist_last + 1) % s.HIST_SIZE)
              = some t
          ∧ (gl_histadd false b (gl_histadd false a s)).hist_last
              = (s.hist_last + 2) % s.HIST_SIZE
          ∧ hslot (gl_histadd false b (gl_histadd false a s)) ((s.hist_last + 2) % s.HIST_SIZE)
              = some []
          ∧ ∀ j, j ≠ s.hist_last → j ≠ (s.hist_last + 1) % s.HIST_SIZE →
              j ≠ (s.hist_last + 2) % s.HIST_SIZE →
              hslot (gl_histadd false b (gl_histadd false a s)) j = hslot s j) := by
  have hna := nonblank_commit t a ha hnb
  have hnb2 := nonblank_commit t b hb hnb
  have hsa := save_commit t a ha ht
  have hsb := save_commit t b hb ht
  obtain ⟨p1, p2, p3, _, p5⟩ := (histadd_spec s a hinit (by omega) hlen hl0 hl1).1 hna
  obtain ⟨q1, q2, q3, q4⟩ := histadd_fields s a hinit hna
  rw [hsa] at p1 q1
  have e1 := emod_fwd s.hist_last 1 s.HIST_SIZE hl0 hl1 (by omega) (by omega)
  have e2 := emod_fwd s.hist_last 2 s.HIST_SIZE hl0 hl1 (by omega) (by omega)
  have hn0 : 0 ≤ (s.hist_last + 1) % s.HIST_SIZE := by rw [e1]; split <;> omega
  have hn1 : (s.hist_last + 1) % s.HIST_SIZE < s.HIST_SIZE := by rw [e1]; split <;> omega
  have hne : s.hist_last ≠ (s.hist_last + 1) % s.HIST_SIZE := by rw [e1]; split <;> omega
  have hne2 : s.hist_last ≠ (s.hist_last + 2) % s.HIST_SIZE := by rw [e2]; split <;> omega
  have hne3 : (s.hist_last + 1) % s.HIST_SIZE ≠ (s.hist_last + 2) % s.HIST_SIZE := by
    rw [e1, e2]; split <;> split <;> omega
  have hnext : ((s.hist_last + 1) % s.HIST_SIZE + 1) % s.HIST_SIZE
      = (s.hist_last + 2) % s.HIST_SIZE := by
    rw [Int.emod_add_emod]
    congr 1
    omega
  refine ⟨?_, ?_, ?_⟩
  · intro hprev
    have k1 : gl_histadd true a s = gl_histadd false a s :=
      histadd_keep true s a hinit (by rw [differs_iff s t a ha ht hnb]; simpa using hprev)
    have k2 : gl_histadd true b (gl_histadd false a s)
        = { gl_histadd false a s with hist_pos := (gl_histadd false a s).hist_last } :=
      histadd_skip _ b (by rw [q2]; exact hinit)
        (by rw [differs_iff _ t b hb ht hnb, q1]; simp)
    rw [k1, k2]
    rw [p2] at p3
    exact ⟨p1, p2, p3, p5⟩
  · intro hprev
    have k1 : gl_histadd true a s = { s with hist_pos := s.hist_last } :=
      histadd_skip s a hinit (by rw [differs_iff s t a ha ht hnb, hprev]; simp)
    rw [k1]
    have k2 : gl_histadd true b { s with hist_pos := s.hist_last }
        = { s with hist_pos := s.hist_last } :=
      histadd_skip _ b hinit (by rw [differs_iff _ t b hb ht hnb]; simpa using hprev)
    exact k2
  · obtain ⟨r1, r2, r3, _, r5⟩ := (histadd_spec (gl_histadd false a s) b (by rw [q2]; exact hinit)
      (by rw [q3]; omega) (by rw [q4, q3]; exact hlen) (by rw [p2]; exact hn0)
      (by rw [p2, q3]; exact hn1)).1 hnb2
    rw [hsb, p2] at r1
    rw [p2, q3, hnext] at r2 r5
    rw [r2] at r3
    refine ⟨?_, r1, r2, r3, ?_⟩
    · rw [r5 _ hne hne2]; exact p1
    · intro j j0 j1 j2
      rw [r5 j j1 j2]
      exact p5 j j0 j1

set_option maxRecDepth 100000 in
/-- C14 (counterexample). A program compiled with `SKIP_DUPLICATES` commits
`abc` three times: the first commit adds the entry, and the two commits in a
row that follow add no entry at all, since the entry saved last is `abc`
already: `hist_last` stays 1 and slot 1 holds the empty string. -/
theorem C14_two_commits_add_nothing :
    (gl_histadd true (bytes "abc") (initial [])).hist_last = 1
      ∧ hslot (gl_histadd true (bytes "abc") (initial [])) 0 = some (bytes "abc")
      ∧ (gl_histadd true (bytes "abc")
          (gl_histadd true (bytes "abc") (gl_histadd true (bytes "abc") (initial [])))).hist_last
          = 1
      ∧ hslot (gl_histadd true (bytes "abc")
          (gl_histadd true (bytes "abc") (gl_histadd true (bytes "abc") (initial [])))) 1
          = some [] := by
  decide

set_option maxRecDepth 100000 in
theorem C14_commit_twice_witness :
    (sample_two.hist_prev_saved ≠ some (bytes "abc") →
        hslot (gl_histadd true (bytes "abc") (gl_histadd true (bytes "abc\n") sample_two))
            sample_two.hist_last = some (bytes "abc")
          ∧ (gl_histadd true (bytes "abc") (gl_histadd true (bytes "abc\n") sample_two)).hist_last
              = (sample_two.hist_last + 1) % sample_two.HIST_SIZE
          ∧ hslot (gl_histadd true (bytes "abc") (gl_histadd true (bytes "abc\n") sample_two))
              ((sample_two.hist_last + 1) % sample_two.HIST_SIZE) = some []
          ∧ ∀ j, j ≠ sample_two.hist_last →
              j ≠ (sample_two.hist_last + 1) % sample_two.HIST_SIZE →
              hslot (gl_histadd true (bytes "abc") (gl_histadd true (bytes "abc\n") sample_two)) j
                = hslot sample_two j)
      ∧ (sample_two.hist_prev_saved = some (bytes "abc") →
          gl_histadd true (bytes "abc") (gl_histadd true (bytes "abc\n") sample_two)
            = { sample_two with hist_pos := sample_two.hist_last })
      ∧ (hslot (gl_histadd false (bytes "abc") (gl_histadd false (bytes "abc\n") sample_two))
            sample_two.hist_last = some (bytes "abc")
          ∧ hslot (gl_histadd false (bytes "abc") (gl_histadd false (bytes "abc\n") sample_two))
              ((sample_two.hist_last + 1) % sample_two.HIST_SIZE) = some (bytes "abc")
          ∧ (gl_histadd false (bytes "abc") (gl_histadd false (bytes "abc\n") sample_two)).hist_last
              = (sample_two.hist_last + 2) % sample_two.HIST_SIZE
          ∧ hslot (gl_histadd false (bytes "abc") (gl_histadd false (bytes "abc\n") sample_two))
              ((sample_two.hist_last + 2) % sample_two.HIST_SIZE) = some []
          ∧ ∀ j, j ≠ sample_two.hist_last →
              j ≠ (sample_two.hist_last + 1) % sample_two.HIST_SIZE →
              j ≠ (sample_two.hist_last + 2) % sample_two.HIST_SIZE →
              hslot (gl_histadd false (bytes "abc") (gl_histadd false (bytes "abc\n") sample_two)) j
                = hslot sample_two j) :=
  C14_commit_twice sample_two (bytes "abc") (bytes "abc\n") (bytes "abc") (Or.inr (by decide))
    (Or.inl rfl) (by decide) (by decide) (by decide) (by decide) (by decide) (by decide)
    (by decide)

/-! ## The scroll state -/

theorem Drawn.drefl (s : State) : Drawn s s := by
  unfold Drawn; rfl

theorem Drawn.dtrans {a b c : State} (h1 : Drawn a b) (h2 : Drawn b c) : Drawn a c := by
  unfold Drawn at *
  rw [h2, h1]

theorem Drawn.dof_eq {s t : State} (p : Int) (o : List Nat)
    (h : t = { s with
      gl_pos := p
      out := o }) :
    Drawn s t := by
  subst h; unfold Drawn; rfl

/-- What drawing leaves alone. -/
theorem Drawn.scroll_state {s t : State} (h : Drawn s t) :
    t.gl_shift = s.gl_shift ∧ t.off_left = s.off_left ∧ t.off_right = s.off_right
      ∧ t.gl_cnt = s.gl_cnt ∧ t.gl_width = s.gl_width ∧ t.gl_scroll = s.gl_scroll
      ∧ t.gl_termw = s.gl_termw ∧ t.last_prompt = s.last_prompt ∧ t.gl_strlen = s.gl_strlen
      ∧ t.gl_buf = s.gl_buf ∧ t.BUF_SIZE = s.BUF_SIZE ∧ t.gl_extent = s.gl_extent := by
  have a0 := congrArg State.gl_shift (id h : t = _)
  have a1 := congrArg State.off_left (id h : t = _)
  have a2 := congrArg State.off_right (id h : t = _)
  have a3 := congrArg State.gl_cnt (id h : t = _)
  have a4 := congrArg State.gl_width (id h : t = _)
  have a5 := congrArg State.gl_scroll (id h : t = _)
  have a6 := congrArg State.gl_termw (id h : t = _)
  have a7 := congrArg State.last_prompt (id h : t = _)
  have a8 := congrArg State.gl_strlen (id h : t = _)
  have a9 := congrArg State.gl_buf (id h : t = _)
  have a10 := congrArg State.BUF_SIZE (id h : t = _)
  have a11 := congrArg State.gl_extent (id h : t = _)
  exact ⟨a0, a1, a2, a3, a4, a5, a6, a7, a8, a9, a10, a11⟩

theorem drawn_putc (c : Nat) (s : State) : Drawn s (gl_putc c s) := by
  unfold Drawn gl_putc; rfl

theorem drawn_forUp (lo hi : Int) (body : Int → State → State) (s : State)
    (h : ∀ i st, Drawn st (body i st)) : Drawn s (forUp lo hi body s) :=
  forUp_inv (fun t => Drawn s t) body lo hi s (fun i st hs => hs.dtrans (h i st)) (Drawn.drefl s)

theorem drawn_ite {s a b : State} (c : Prop) [Decidable c] (h1 : Drawn s a) (h2 : Drawn s b) :
    Drawn s (if c then a else b) := by
  split
  · exact h1
  · exact h2

theorem drawn_bell (cu : Int) (s : State) : Drawn s (fixup_bell cu s) := by
  unfold fixup_bell
  exact Drawn.dtrans (drawn_ite _ (drawn_ite _ (drawn_putc 7 s) (Drawn.drefl s)) (Drawn.drefl s))
    (drawn_ite _ (drawn_putc 7 _) (Drawn.drefl _))

theorem drawn_draw_end (b : Bounds) (pad : Int) (s : State) :
    Drawn s (fixup_draw_end b pad s) := by
  unfold fixup_draw_end
  split
  · exact Drawn.dof_eq _ _ rfl
  · exact (drawn_forUp 0 pad _ s (fun _ st => drawn_putc 32 st)).dtrans (Drawn.dof_eq _ _ rfl)

theorem drawn_draw (b : Bounds) (pad : Int) (s : State) : Drawn s (fixup_draw b pad s) := by
  unfold fixup_draw
  split
  · refine Drawn.dtrans ?_ (drawn_draw_end b pad _)
    refine Drawn.dtrans ?_ (Drawn.dof_eq _ _ rfl)
    refine Drawn.dtrans ?_ (drawn_forUp _ _ _ _ (fun _ st => drawn_putc _ st))
    exact Drawn.dtrans (drawn_forUp 0 _ _ s (fun _ st => drawn_putc 8 st))
      (drawn_ite _ (drawn_putc 36 _) (Drawn.drefl _))
  · exact Drawn.drefl s

theorem drawn_move (cu : Int) (s : State) : Drawn s (fixup_move cu s) := by
  unfold fixup_move
  refine Drawn.dtrans ?_ (Drawn.dof_eq _ _ rfl)
  exact drawn_ite _ (drawn_forUp 0 _ _ s (fun _ st => drawn_putc 8 st))
    (drawn_forUp _ _ _ s (fun _ st => drawn_putc _ st))

/-- The redraw routine, in stages: after the scroll decision it only draws. -/
theorem fixup_stages (p : List Nat) (ch cu : Int) (s : State) :
    Drawn (fixup_scrolled p ch cu s) (gl_fixup p ch cu s)
      ∧ Drawn (fixup_count (fixup_change p ch s) (fixup_prompt p ch s)) (fixup_ready p ch cu s)
      ∧ (gl_fixup p ch cu s).gl_pos = fixup_target p ch cu s := by
  refine ⟨?_, drawn_bell _ _, fixup_pos p ch cu s⟩
  unfold gl_fixup fixup_scrolled fixup_changed fixup_target fixup_ready
  exact Drawn.dtrans (drawn_draw _ _ _) (drawn_move _ _)
/-- The scroll state after the start of `gl_fixup`. -/
theorem prompt_state (p : List Nat) (ch : Int) (s : State) :
    (fixup_prompt p ch s).gl_scroll = s.gl_scroll
      ∧ (fixup_prompt p ch s).gl_termw = s.gl_termw
      ∧ (fixup_prompt p ch s).gl_strlen = s.gl_strlen
      ∧ (fixup_prompt p ch s).last_prompt = p
      ∧ (ch = -2 → (fixup_prompt p ch s).gl_shift = 0 ∧ (fixup_prompt p ch s).off_left = 0
          ∧ (fixup_prompt p ch s).off_right = 0 ∧ (fixup_prompt p ch s).gl_cnt = 0
          ∧ (fixup_prompt p ch s).gl_width = s.gl_termw - s.gl_strlen p)
      ∧ (ch ≠ -2 → (fixup_prompt p ch s).gl_shift = s.gl_shift
          ∧ (fixup_prompt p ch s).off_left = s.off_left
          ∧ (fixup_prompt p ch s).off_right = s.off_right
          ∧ (p ≠ s.last_prompt → (fixup_prompt p ch s).gl_width = s.gl_termw - s.gl_strlen p)
          ∧ (p = s.last_prompt → (fixup_prompt p ch s).gl_width = s.gl_width
              ∧ (fixup_prompt p ch s).gl_cnt = s.gl_cnt)) := by
  unfold fixup_prompt
  by_cases c : ch = -2
  · rw [if_pos c]
    obtain ⟨_, _, _, _, _, a5, a6, _, a8, _, _, _⟩ :=
      (drawn_forUp 0 s.gl_pos (fun _ => gl_putc 8) s (fun _ st => drawn_putc 8 st)).scroll_state
    refine ⟨a5, a6, a8, rfl, fun _ => ⟨rfl, rfl, rfl, rfl, ?_⟩, fun h => absurd c h⟩
    show (forUp 0 s.gl_pos (fun _ => gl_putc 8) s).gl_termw
      - (forUp 0 s.gl_pos (fun _ => gl_putc 8) s).gl_strlen p = _
    rw [a6, a8]
  · rw [if_neg c]
    by_cases c2 : p ≠ s.last_prompt
    · rw [if_pos c2]
      obtain ⟨a0, a1, a2, _, _, a5, a6, a7, a8, _, _, _⟩ :=
        (drawn_forUp 0 (s.gl_pos + s.gl_strlen s.last_prompt) (fun _ => gl_putc 8)
          { s with
            gl_cnt := s.gl_cnt + s.gl_strlen s.last_prompt - s.gl_strlen p
            last_prompt := p } (fun _ st => drawn_putc 8 st)).scroll_state
      refine ⟨a5, a6, a8, a7, fun h => absurd h c, fun _ => ⟨a0, a1, a2, fun _ => ?_,
        fun h => absurd h c2⟩⟩
      show (forUp 0 (s.gl_pos + s.gl_strlen s.last_prompt) (fun _ => gl_putc 8)
          { s with
            gl_cnt := s.gl_cnt + s.gl_strlen s.last_prompt - s.gl_strlen p
            last_prompt := p }).gl_termw - s.gl_strlen p = _
      rw [a6]
    · rw [if_neg c2]
      have e : p = s.last_prompt := by
        by_contra h
        exact c2 h
      exact ⟨rfl, rfl, rfl, e.symm, fun h => absurd h c, fun _ => ⟨rfl, rfl, rfl,
        fun h => absurd e h, fun _ => ⟨rfl, rfl⟩⟩⟩

theorem count_state (ch : Int) (s : State) :
    (fixup_count ch s).gl_scroll = s.gl_scroll ∧ (fixup_count ch s).gl_termw = s.gl_termw
      ∧ (fixup_count ch s).gl_strlen = s.gl_strlen
      ∧ (fixup_count ch s).last_prompt = s.last_prompt
      ∧ (fixup_count ch s).gl_shift = s.gl_shift ∧ (fixup_count ch s).off_left = s.off_left
      ∧ (fixup_count ch s).off_right = s.off_right ∧ (fixup_count ch s).gl_width = s.gl_width
      ∧ (0 ≤ ch → (fixup_count ch s).gl_cnt = strlen s.gl_buf)
      ∧ (ch < 0 → (fixup_count ch s).gl_cnt = s.gl_cnt) := by
  unfold fixup_count
  split
  · exact ⟨rfl, rfl, rfl, rfl, rfl, rfl, rfl, rfl, fun _ => rfl, fun h => by omega⟩
  · exact ⟨rfl, rfl, rfl, rfl, rfl, rfl, rfl, rfl, fun h => by omega, fun _ => rfl⟩

theorem change_cases (p : List Nat) (ch : Int) (s : State) :
    (fixup_change p ch s < 0 → ch ≠ -2 ∧ p = s.last_prompt ∧ fixup_change p ch s = ch)
      ∧ (0 ≤ ch ∨ ch = -2 ∨ p ≠ s.last_prompt → 0 ≤ fixup_change p ch s) := by
  unfold fixup_change
  by_cases c : ch = -2
  · rw [if_pos c]
    exact ⟨fun h => by omega, fun _ => le_refl 0⟩
  · rw [if_neg c]
    by_cases c2 : p ≠ s.last_prompt
    · rw [if_pos c2]
      exact ⟨fun h => by omega, fun _ => le_refl 0⟩
    · rw [if_neg c2]
      have e : p = s.last_prompt := by
        by_contra h
        exact c2 h
      refine ⟨fun _ => ⟨c, e, rfl⟩, fun h => ?_⟩
      rcases h with h | h | h
      · exact h
      · exact absurd h c
      · exact absurd e h

/-- The scroll state at the scroll decision of `gl_fixup`, from a state that
is in order or at a reset. -/
theorem ready_state (p : List Nat) (ch cu : Int) (s : State)
    (hv : ViewOk s ∨ (ch = -2 ∧ 0 < s.gl_scroll)) :
    0 < (fixup_ready p ch cu s).gl_scroll ∧ 0 ≤ (fixup_ready p ch cu s).gl_cnt
      ∧ 0 ≤ (fixup_ready p ch cu s).gl_shift
      ∧ ((fixup_ready p ch cu s).gl_shift = 0 → (fixup_ready p ch cu s).off_left = 0)
      ∧ (fixup_ready p ch cu s).gl_width
          = (fixup_ready p ch cu s).gl_termw - (fixup_ready p ch cu s).gl_strlen p
      ∧ (fixup_ready p ch cu s).last_prompt = p
      ∧ (fixup_changed p ch s < 0 → (fixup_ready p ch cu s).off_right ≠ 0 →
          (fixup_ready p ch cu s).gl_cnt
            > (fixup_ready p ch cu s).gl_shift + (fixup_ready p ch cu s).gl_width - 1)
      ∧ (ch = -2 → (fixup_ready p ch cu s).off_left = 0 ∧ (fixup_ready p ch cu s).off_right = 0)
      ∧ (ch ≠ -2 → (fixup_ready p ch cu s).off_left = s.off_left
          ∧ (fixup_ready p ch cu s).off_right = s.off_right)
      ∧ 0 ≤ fixup_target p ch cu s ∧ fixup_target p ch cu s ≤ (fixup_ready p ch cu s).gl_cnt := by
  obtain ⟨p1, p2, p3, p4, p5, p6⟩ := prompt_state p ch s
  obtain ⟨c1, c2, c3, c4, c5, c6, c7, c8, c9, c10⟩ :=
    count_state (fixup_change p ch s) (fixup_prompt p ch s)
  obtain ⟨d0, d1, d2, d3, d4, d5, d6, d7, d8, _, _, _⟩ :=
    (drawn_bell cu (fixup_count (fixup_change p ch s) (fixup_prompt p ch s))).scroll_state
  obtain ⟨g1, g2⟩ := change_cases p ch s
  have hcnt : 0 ≤ (fixup_count (fixup_change p ch s) (fixup_prompt p ch s)).gl_cnt := by
    by_cases c : 0 ≤ fixup_change p ch s
    · rw [c9 c]; exact strlen_nonneg _
    · obtain ⟨k1, k2, _⟩ := g1 (by omega)
      rw [c10 (by omega), ((p6 k1).2.2.2.2 k2).2]
      rcases hv with hv | hv
      · exact hv.2.1
      · exact absurd hv.1 k1
  have htgt : 0 ≤ fixup_target p ch cu s ∧ fixup_target p ch cu s
      ≤ (fixup_count (fixup_change p ch s) (fixup_prompt p ch s)).gl_cnt := by
    unfold fixup_target fixup_cursor
    simp only []
    split <;> split <;> omega
  have hch : fixup_changed p ch s < 0 → fixup_change p ch s < 0 := by
    unfold fixup_changed
    split
    · intro h; omega
    · intro h; exact h
  unfold fixup_ready at *
  rw [d5, d3, d0, d1, d4, d6, d8, d7, d2, c1, c5, c6, c8, c2, c3, c7, c4, p1, p2, p3, p4]
  refine ⟨?_, hcnt, ?_, ?_, ?_, rfl, ?_, ?_, ?_, htgt.1, htgt.2⟩
  · rcases hv with hv | hv
    · exact hv.1
    · exact hv.2
  · by_cases c : ch = -2
    · rw [(p5 c).1]
    · rw [(p6 c).1]
      rcases hv with hv | hv
      · exact hv.2.2.1
      · exact absurd hv.1 c
  · by_cases c : ch = -2
    · intro _; exact (p5 c).2.1
    · rw [(p6 c).1, (p6 c).2.1]
      rcases hv with hv | hv
      · exact hv.2.2.2.1
      · exact absurd hv.1 c
  · by_cases c : ch = -2
    · exact (p5 c).2.2.2.2
    · by_cases c2 : p = s.last_prompt
      · rw [((p6 c).2.2.2.2 c2).1, c2]
        rcases hv with hv | hv
        · exact hv.2.2.2.2.2
        · exact absurd hv.1 c
      · exact (p6 c).2.2.2.1 c2
  · intro h
    obtain ⟨k1, k2, _⟩ := g1 (hch h)
    rw [c10 (hch h), ((p6 k1).2.2.2.2 k2).2, (p6 k1).2.2.1, (p6 k1).1, ((p6 k1).2.2.2.2 k2).1]
    rcases hv with hv | hv
    · exact hv.2.2.2.2.1
    · exact absurd hv.1 k1
  · intro c
    exact ⟨(p5 c).2.1, (p5 c).2.2.1⟩
  · intro c
    exact ⟨(p6 c).2.1, (p6 c).2.2.1⟩
theorem extra_cases (cu : Int) (r : State) :
    (fixup_extra cu r = 0 ∨ (fixup_extra cu r = 2 ∧ (r.off_right ≠ 0 ∨ r.off_left ≠ 0))) := by
  unfold fixup_extra
  split
  · next h =>
    right
    refine ⟨rfl, ?_⟩
    rcases h with h | h
    · exact Or.inl h
    · exact Or.inr h.1
  · left; rfl

/-- The shift `gl_fixup` decides on is not negative, and it is zero when the
cursor and the margin `extra` fit in the window. -/
theorem new_shift_facts (cu : Int) (r : State) (hs : 0 < r.gl_scroll) :
    0 ≤ fixup_new_shift cu r
      ∧ (cu + fixup_extra cu r < r.gl_width → fixup_new_shift cu r = 0) := by
  unfold fixup_new_shift
  simp only []
  constructor
  · split
    · next h =>
      rw [Int.tdiv_eq_ediv (by omega) (by omega)]
      exact Int.mul_nonneg (Int.ediv_nonneg (by omega) (by omega)) (by omega)
    · exact le_refl 0
  · intro h
    split
    · next h2 =>
      rw [Int.tdiv_eq_ediv (by omega) (by omega), Int.ediv_eq_zero_of_lt (by omega) (by omega)]
      simp
    · rfl

/-- The scroll decision of `gl_fixup`. -/
theorem scroll_decision (ch ns : Int) (r : State) :
    (fixup_scroll ch ns r).gl_shift = ns
      ∧ (fixup_scroll ch ns r).off_left
          = (if ns ≠ r.gl_shift then (if ns ≠ 0 then 1 else 0) else r.off_left)
      ∧ (fixup_scroll ch ns r).off_right
          = (if ns ≠ r.gl_shift ∨ ch ≥ 0 then (if r.gl_cnt > ns + r.gl_width - 1 then 1 else 0)
             else r.off_right)
      ∧ (fixup_scroll ch ns r).gl_cnt = r.gl_cnt ∧ (fixup_scroll ch ns r).gl_width = r.gl_width
      ∧ (fixup_scroll ch ns r).gl_scroll = r.gl_scroll
      ∧ (fixup_scroll ch ns r).gl_termw = r.gl_termw
      ∧ (fixup_scroll ch ns r).gl_strlen = r.gl_strlen
      ∧ (fixup_scroll ch ns r).last_prompt = r.last_prompt := by
  unfold fixup_scroll
  by_cases c : ns ≠ r.gl_shift
  · rw [if_pos c, if_pos c, if_pos (Or.inl c)]
    exact ⟨rfl, rfl, rfl, rfl, rfl, rfl, rfl, rfl, rfl⟩
  · have e : ns = r.gl_shift := by
      by_contra h
      exact c h
    rw [if_neg c, if_neg c]
    by_cases c2 : ch ≥ 0
    · rw [if_pos c2, if_pos (Or.inr c2), e]
      exact ⟨rfl, rfl, rfl, rfl, rfl, rfl, rfl, rfl, rfl⟩
    · rw [if_neg c2, if_neg (by intro h; rcases h with h | h; exact c h; exact c2 h)]
      exact ⟨e.symm, rfl, rfl, rfl, rfl, rfl, rfl, rfl, rfl⟩

/-- The scroll state `gl_fixup` leaves, in terms of the state at the scroll
decision. -/
theorem fixup_view (p : List Nat) (ch cu : Int) (s : State) :
    (gl_fixup p ch cu s).gl_shift
        = fixup_new_shift (fixup_target p ch cu s) (fixup_ready p ch cu s)
      ∧ (gl_fixup p ch cu s).off_left
          = (if fixup_new_shift (fixup_target p ch cu s) (fixup_ready p ch cu s)
                ≠ (fixup_ready p ch cu s).gl_shift
             then (if fixup_new_shift (fixup_target p ch cu s) (fixup_ready p ch cu s) ≠ 0
                   then 1 else 0)
             else (fixup_ready p ch cu s).off_left)
      ∧ (gl_fixup p ch cu s).off_right
          = (if fixup_new_shift (fixup_target p ch cu s) (fixup_ready p ch cu s)
                  ≠ (fixup_ready p ch cu s).gl_shift ∨ fixup_changed p ch s ≥ 0
             then (if (fixup_ready p ch cu s).gl_cnt
                      > fixup_new_shift (fixup_target p ch cu s) (fixup_ready p ch cu s)
                        + (fixup_ready p ch cu s).gl_width - 1 then 1 else 0)
             else (fixup_ready p ch cu s).off_right)
      ∧ (gl_fixup p ch cu s).gl_cnt = (fixup_ready p ch cu s).gl_cnt
      ∧ (gl_fixup p ch cu s).gl_width = (fixup_ready p ch cu s).gl_width
      ∧ (gl_fixup p ch cu s).gl_scroll = (fixup_ready p ch cu s).gl_scroll
      ∧ (gl_fixup p ch cu s).gl_termw = (fixup_ready p ch cu s).gl_termw
      ∧ (gl_fixup p ch cu s).gl_strlen = (fixup_ready p ch cu s).gl_strlen
      ∧ (gl_fixup p ch cu s).last_prompt = (fixup_ready p ch cu s).last_prompt := by
  obtain ⟨h1, _, _⟩ := fixup_stages p ch cu s
  obtain ⟨a0, a1, a2, a3, a4, a5, a6, a7, a8, _, _, _⟩ := h1.scroll_state
  obtain ⟨b0, b1, b2, b3, b4, b5, b6, b7, b8⟩ := scroll_decision (fixup_changed p ch s)
    (fixup_new_shift (fixup_target p ch cu s) (fixup_ready p ch cu s)) (fixup_ready p ch cu s)
  unfold fixup_scrolled at a0 a1 a2 a3 a4 a5 a6 a7 a8
  exact ⟨a0.trans b0, a1.trans b1, a2.trans b2, a3.trans b3, a4.trans b4, a5.trans b5,
    a6.trans b6, a8.trans b7, a7.trans b8⟩

/-- The redraw routine keeps the scroll state in order, and puts it in order
at a reset. -/
theorem viewok_fixup (p : List Nat) (ch cu : Int) (s : State)
    (hv : ViewOk s ∨ (ch = -2 ∧ 0 < s.gl_scroll)) : ViewOk (gl_fixup p ch cu s) := by
  obtain ⟨r1, r2, r3, r4, r5, r6, r7, _, _, r10, r11⟩ := ready_state p ch cu s hv
  obtain ⟨v0, v1, v2, v3, v4, v5, v6, v7, v8⟩ := fixup_view p ch cu s
  obtain ⟨n1, _⟩ := new_shift_facts (fixup_target p ch cu s) (fixup_ready p ch cu s) r1
  unfold ViewOk
  rw [v0, v1, v2, v3, v4, v5, v6, v7, v8]
  refine ⟨r1, r2, n1, ?_, ?_, by rw [r6]; exact r5⟩
  · intro h0
    split
    · rw [if_neg (by simp [h0])]
    · next h =>
      apply r4
      have : fixup_new_shift (fixup_target p ch cu s) (fixup_ready p ch cu s)
          = (fixup_ready p ch cu s).gl_shift := by
        by_contra hne
        exact h hne
      rw [← this]; exact h0
  · intro h
    split at h
    · split at h
      · next hc => exact hc
      · exact absurd rfl h
    · next hn =>
      have e : fixup_new_shift (fixup_target p ch cu s) (fixup_ready p ch cu s)
          = (fixup_ready p ch cu s).gl_shift := by
        by_contra hne
        exact hn (Or.inl hne)
      rw [e]
      exact r7 (by
        by_contra hc
        exact hn (Or.inr (by omega))) h

/-- The flags after a call of `gl_fixup` that leaves a line shorter than the
usable width, from a scroll state that is in order or at a reset. -/
theorem short_line_flags (p : List Nat) (ch cu : Int) (s : State)
    (hv : ViewOk s ∨ (ch = -2 ∧ 0 < s.gl_scroll))
    (hshort : (gl_fixup p ch cu s).gl_cnt < (gl_fixup p ch cu s).gl_width) :
    (gl_fixup p ch cu s).gl_width
        = (gl_fixup p ch cu s).gl_termw - (gl_fixup p ch cu s).gl_strlen p
      ∧ (gl_fixup p ch cu s).off_right = 0
      ∧ (ch = -2 ∨ (s.off_left = 0 ∧ s.off_right = 0)
            ∨ (gl_fixup p ch cu s).gl_pos + 2 < (gl_fixup p ch cu s).gl_width →
          (gl_fixup p ch cu s).off_left = 0 ∧ (gl_fixup p ch cu s).gl_shift = 0) := by
  obtain ⟨r1, r2, r3, r4, r5, r6, r7, r8, r9, r10, r11⟩ := ready_state p ch cu s hv
  obtain ⟨v0, v1, v2, v3, v4, v5, v6, v7, v8⟩ := fixup_view p ch cu s
  obtain ⟨n1, n2⟩ := new_shift_facts (fixup_target p ch cu s) (fixup_ready p ch cu s) r1
  have hpos := (fixup_stages p ch cu s).2.2
  rw [v3, v4] at hshort
  rw [hpos, v0, v1, v2, v4, v6, v7]
  refine ⟨r5, ?_, ?_⟩
  · split
    · rw [if_neg (by omega)]
    · next hn =>
      have e : fixup_new_shift (fixup_target p ch cu s) (fixup_ready p ch cu s)
          = (fixup_ready p ch cu s).gl_shift := by
        by_contra hne
        exact hn (Or.inl hne)
      by_contra ho
      have := r7 (by
        by_contra hc
        exact hn (Or.inr (by omega))) ho
      omega
  · intro hc
    have hz : fixup_new_shift (fixup_target p ch cu s) (fixup_ready p ch cu s) = 0 := by
      apply n2
      rcases extra_cases (fixup_target p ch cu s) (fixup_ready p ch cu s) with he | ⟨he, hf⟩
      · rw [he]; omega
      · rw [he]
        rcases hc with hc | hc | hc
        · obtain ⟨k1, k2⟩ := r8 hc
          rcases hf with hf | hf
          · exact absurd k2 hf
          · exact absurd k1 hf
        · by_cases c : ch = -2
          · obtain ⟨k1, k2⟩ := r8 c
            rcases hf with hf | hf
            · exact absurd k2 hf
            · exact absurd k1 hf
          · obtain ⟨k1, k2⟩ := r9 c
            rcases hf with hf | hf
            · exact absurd (k2.trans hc.2) hf
            · exact absurd (k1.trans hc.1) hf
        · omega
    refine ⟨?_, hz⟩
    split
    · rw [if_neg (by simp [hz])]
    · next h =>
      apply r4
      have : fixup_new_shift (fixup_target p ch cu s) (fixup_ready p ch cu s)
          = (fixup_ready p ch cu s).gl_shift := by
        by_contra hne
        exact h hne
      rw [← this]; exact hz
theorem viewok_same (s t : State) (h : ViewOk s) (hk : SameView s t) : ViewOk t := by
  obtain ⟨k1, k2, k3, k4, k5, k6, k7, k8, k9⟩ := hk
  unfold ViewOk
  rw [k1, k2, k3, k4, k5, k6, k7, k8, k9]
  exact h

theorem viewok_fix (p : List Nat) (ch cu : Int) (s u : State) (h : ViewOk s)
    (hk : SameView s u) : ViewOk (gl_fixup p ch cu u) :=
  viewok_fixup p ch cu u (Or.inl (viewok_same s u h hk))

theorem same_view_refl (s : State) : SameView s s :=
  ⟨rfl, rfl, rfl, rfl, rfl, rfl, rfl, rfl, rfl⟩

theorem same_view_putc (c : Nat) (s : State) : SameView s (gl_putc c s) :=
  ⟨rfl, rfl, rfl, rfl, rfl, rfl, rfl, rfl, rfl⟩

theorem same_view_in_hook (s : State) : SameView s (in_hook s) := by
  unfold in_hook
  split
  · exact ⟨rfl, rfl, rfl, rfl, rfl, rfl, rfl, rfl, rfl⟩
  · exact ⟨rfl, rfl, rfl, rfl, rfl, rfl, rfl, rfl, rfl⟩

theorem same_view_bell (s : State) : SameView s (hist_bell s) := by
  unfold hist_bell
  split
  · exact ⟨rfl, rfl, rfl, rfl, rfl, rfl, rfl, rfl, rfl⟩
  · exact ⟨rfl, rfl, rfl, rfl, rfl, rfl, rfl, rfl, rfl⟩

theorem same_view_trans {a b c : State} (h1 : SameView a b) (h2 : SameView b c) :
    SameView a c := by
  obtain ⟨a1, a2, a3, a4, a5, a6, a7, a8, a9⟩ := h1
  obtain ⟨b1, b2, b3, b4, b5, b6, b7, b8, b9⟩ := h2
  exact ⟨b1.trans a1, b2.trans a2, b3.trans a3, b4.trans a4, b5.trans a5, b6.trans a6,
    b7.trans a7, b8.trans a8, b9.trans a9⟩

theorem same_view_prev (s : State) : SameView s (gl_hist_prev s).2 := by
  unfold gl_hist_prev
  simp only []
  split
  · split
    · exact ⟨rfl, rfl, rfl, rfl, rfl, rfl, rfl, rfl, rfl⟩
    · exact same_view_trans ⟨rfl, rfl, rfl, rfl, rfl, rfl, rfl, rfl, rfl⟩ (same_view_bell _)
  · exact same_view_bell s

theorem same_view_next (s : State) : SameView s (gl_hist_next s).2 := by
  unfold gl_hist_next
  split
  · simp only []
    split
    · exact ⟨rfl, rfl, rfl, rfl, rfl, rfl, rfl, rfl, rfl⟩
    · exact same_view_trans ⟨rfl, rfl, rfl, rfl, rfl, rfl, rfl, rfl, rfl⟩ (same_view_bell _)
  · exact same_view_bell s

theorem viewok_addchar (c : Int) (s : State) (h : ViewOk s) : ViewOk (gl_addchar c s) := by
  unfold gl_addchar
  split
  · exact viewok_same s _ h (same_view_putc 7 s)
  · split
    · exact viewok_fix _ _ _ s _ h ⟨rfl, rfl, rfl, rfl, rfl, rfl, rfl, rfl, rfl⟩
    · exact viewok_fix _ _ _ s _ h ⟨rfl, rfl, rfl, rfl, rfl, rfl, rfl, rfl, rfl⟩

theorem viewok_yank (s t : State) (h : ViewOk s) (ht : gl_yank s = .ok t) : ViewOk t := by
  unfold gl_yank at ht
  simp only [] at ht
  split at ht
  · split at ht
    · split at ht
      · cases ht
      · cases ht
        exact viewok_fix _ _ _ s _ h ⟨rfl, rfl, rfl, rfl, rfl, rfl, rfl, rfl, rfl⟩
    · split at ht
      · cases ht
      · cases ht
        exact viewok_fix _ _ _ s _ h ⟨rfl, rfl, rfl, rfl, rfl, rfl, rfl, rfl, rfl⟩
  · cases ht
    exact viewok_same s _ h (same_view_putc 7 s)

theorem viewok_transpose (s : State) (h : ViewOk s) : ViewOk (gl_transpose s) := by
  unfold gl_transpose
  split
  · exact viewok_fix _ _ _ s _ h ⟨rfl, rfl, rfl, rfl, rfl, rfl, rfl, rfl, rfl⟩
  · exact viewok_same s _ h (same_view_putc 7 s)

theorem viewok_del (loc : Int) (s : State) (h : ViewOk s) : ViewOk (gl_del loc s) := by
  unfold gl_del
  split
  · exact viewok_fix _ _ _ s _ h ⟨rfl, rfl, rfl, rfl, rfl, rfl, rfl, rfl, rfl⟩
  · exact viewok_same s _ h (same_view_putc 7 s)

theorem viewok_kill (pos : Int) (s : State) (h : ViewOk s) : ViewOk (gl_kill pos s) := by
  unfold gl_kill
  split
  · exact viewok_fix _ _ _ s _ h ⟨rfl, rfl, rfl, rfl, rfl, rfl, rfl, rfl, rfl⟩
  · exact viewok_same s _ h (same_view_putc 7 s)

theorem viewok_word (d : Int) (s : State) (h : ViewOk s) : ViewOk (gl_word d s) := by
  unfold gl_word
  exact viewok_fix _ _ _ s _ h (same_view_refl s)

theorem viewok_redraw (s : State) (h : ViewOk s) : ViewOk (gl_redraw s) := by
  unfold gl_redraw
  split
  · exact viewok_fix _ _ _ s _ h (same_view_putc 10 s)
  · exact h

theorem viewok_hist_load (r : List Nat × State) (h : ViewOk r.2) : ViewOk (hist_load r) := by
  unfold hist_load
  exact viewok_fix _ _ _ r.2 _ h
    (same_view_trans ⟨rfl, rfl, rfl, rfl, rfl, rfl, rfl, rfl, rfl⟩ (same_view_in_hook _))

theorem viewok_intr (s : State) (h : ViewOk s) : ViewOk (key_intr s) := by
  unfold key_intr
  simp only []
  have h1 : ViewOk (gl_fixup s.gl_prompt (-1) s.gl_cnt s) := viewok_fix _ _ _ s _ h (same_view_refl s)
  have h2 : ViewOk (gl_puts [94, 67, 10] (gl_fixup s.gl_prompt (-1) s.gl_cnt s)) :=
    viewok_same _ _ h1 ⟨rfl, rfl, rfl, rfl, rfl, rfl, rfl, rfl, rfl⟩
  exact viewok_fix _ _ _ _ _ (viewok_kill 0 _ h2) (same_view_refl _)

theorem viewok_tab (s : State) (h : ViewOk s) : ViewOk (key_tab s) := by
  unfold key_tab
  split
  · simp only []
    split
    · exact viewok_fix _ _ _ s _ h ⟨rfl, rfl, rfl, rfl, rfl, rfl, rfl, rfl, rfl⟩
    · exact viewok_same s _ h ⟨rfl, rfl, rfl, rfl, rfl, rfl, rfl, rfl, rfl⟩
  · exact h

theorem viewok_getc (s : State) (h : ViewOk s) : ViewOk (gl_getc s).2 := by
  unfold gl_getc
  split
  · exact h
  · exact viewok_same s _ h ⟨rfl, rfl, rfl, rfl, rfl, rfl, rfl, rfl, rfl⟩

theorem viewok_arrow (c : Int) (s : State) (h : ViewOk s) : ViewOk (key_arrow c s) := by
  unfold key_arrow
  split
  · exact viewok_hist_load _ (viewok_same s _ h (same_view_prev s))
  · split
    · exact viewok_hist_load _ (viewok_same s _ h (same_view_next s))
    · split
      · exact viewok_fix _ _ _ s _ h (same_view_refl s)
      · split
        · exact viewok_fix _ _ _ s _ h (same_view_refl s)
        · exact viewok_same s _ h (same_view_putc 7 s)

theorem viewok_esc (s : State) (h : ViewOk s) : ViewOk (key_esc s) := by
  unfold key_esc
  simp only []
  split
  · exact viewok_arrow _ _ (viewok_getc _ (viewok_getc s h))
  · split
    · exact viewok_word _ _ (viewok_getc s h)
    · split
      · exact viewok_word _ _ (viewok_getc s h)
      · exact viewok_same _ _ (viewok_getc s h) (same_view_putc 7 _)
theorem viewok_search_update (c : Int) (s : State) (h : ViewOk s) :
    ViewOk (search_update c s) := by
  unfold search_update
  split
  · exact viewok_same s _ h ⟨rfl, rfl, rfl, rfl, rfl, rfl, rfl, rfl, rfl⟩
  · split
    · exact viewok_same s _ h ⟨rfl, rfl, rfl, rfl, rfl, rfl, rfl, rfl, rfl⟩
    · split
      · exact viewok_same s _ h ⟨rfl, rfl, rfl, rfl, rfl, rfl, rfl, rfl, rfl⟩
      · exact viewok_same s _ h ⟨rfl, rfl, rfl, rfl, rfl, rfl, rfl, rfl, rfl⟩

theorem viewok_hit (ns : Int) (e : List Nat) (loc : Nat) (s : State) (h : ViewOk s) :
    ViewOk (search_hit ns e loc s) := by
  have h1 : ViewOk (gl_fixup (cstr s.search_prompt) 0 loc (load_buf e s)) :=
    viewok_fix _ _ _ s _ h ⟨rfl, rfl, rfl, rfl, rfl, rfl, rfl, rfl, rfl⟩
  unfold search_hit
  simp only []
  split
  · exact viewok_same _ _ h1 ⟨rfl, rfl, rfl, rfl, rfl, rfl, rfl, rfl, rfl⟩
  · exact h1

theorem viewok_miss (s : State) (h : ViewOk s) : ViewOk (search_miss s) := by
  unfold search_miss
  exact viewok_fix _ _ _ s _ h ⟨rfl, rfl, rfl, rfl, rfl, rfl, rfl, rfl, rfl⟩

theorem viewok_loop (step : State → List Nat × State)
    (hstep : ∀ s, SameView s (step s).2) (ns : Int) (n : Nat) (s t : State) (h : ViewOk s)
    (ht : search_loop step ns n s = some t) : ViewOk t :=
  search_loop_inv step ns ViewOk ViewOk (fun u hu => viewok_same u _ hu (hstep u))
    (fun u hu => viewok_miss u hu) (fun u e loc hu => viewok_hit ns e loc u hu) n s t h ht

theorem viewok_enter (s : State) (h : ViewOk s) : ViewOk (search_enter s) := by
  unfold search_enter
  simp only []
  have h1 : ViewOk (search_update 0 { s with search_last := s.hist_last, hist_pos := s.hist_last }) :=
    viewok_search_update 0 _ (viewok_same s _ h ⟨rfl, rfl, rfl, rfl, rfl, rfl, rfl, rfl, rfl⟩)
  exact viewok_fix _ _ _ _ _ h1 ⟨rfl, rfl, rfl, rfl, rfl, rfl, rfl, rfl, rfl⟩

theorem viewok_search_back (ns : Int) (s t : State) (h : ViewOk s)
    (ht : search_back ns s = some t) : ViewOk t := by
  have h0 : ViewOk { s with search_forw_flg := 0 } :=
    viewok_same s _ h ⟨rfl, rfl, rfl, rfl, rfl, rfl, rfl, rfl, rfl⟩
  unfold search_back at ht
  simp only [] at ht
  split at ht
  · cases ht
    exact viewok_enter _ h0
  · split at ht
    · exact viewok_loop _ same_view_prev ns _ _ t h0 ht
    · cases ht
      exact viewok_same _ _ h0 (same_view_putc 7 _)

theorem viewok_search_forw (ns : Int) (s t : State) (h : ViewOk s)
    (ht : search_forw ns s = some t) : ViewOk t := by
  have h0 : ViewOk { s with search_forw_flg := 1 } :=
    viewok_same s _ h ⟨rfl, rfl, rfl, rfl, rfl, rfl, rfl, rfl, rfl⟩
  unfold search_forw at ht
  simp only [] at ht
  split at ht
  · cases ht
    exact viewok_enter _ h0
  · split at ht
    · exact viewok_loop _ same_view_next ns _ _ t h0 ht
    · cases ht
      exact viewok_same _ _ h0 (same_view_putc 7 _)

theorem viewok_reload (s : State) (h : ViewOk s) : ViewOk (search_reload s) := by
  unfold search_reload load_buf
  simp only []
  split
  · exact viewok_same s _ h ⟨rfl, rfl, rfl, rfl, rfl, rfl, rfl, rfl, rfl⟩
  · exact viewok_same s _ h ⟨rfl, rfl, rfl, rfl, rfl, rfl, rfl, rfl, rfl⟩

theorem viewok_search_addchar (c : Int) (s t : State) (h : ViewOk s)
    (ht : search_addchar c s = some t) : ViewOk t := by
  have h1 : ViewOk (if c < 0 then search_reload (search_update c s) else search_update c s) := by
    split
    · exact viewok_reload _ (viewok_search_update c s h)
    · exact viewok_search_update c s h
  unfold search_addchar at ht
  simp only [] at ht
  generalize (if c < 0 then search_reload (search_update c s) else search_update c s) = u
    at h1 ht
  split at ht
  · cases ht
    exact viewok_fix _ _ _ u _ h1 (same_view_refl u)
  · split at ht
    · split at ht
      · exact viewok_search_forw 0 u t h1 ht
      · exact viewok_search_back 0 u t h1 ht
    · cases ht
      exact viewok_fix _ _ _ u _ h1 (same_view_refl u)

theorem viewok_term (s : State) (h : ViewOk s) : ViewOk (search_term s) := by
  unfold search_term
  simp only []
  refine viewok_fix _ _ _ s _ h (same_view_trans ?_ (same_view_in_hook _))
  split
  · exact ⟨rfl, rfl, rfl, rfl, rfl, rfl, rfl, rfl, rfl⟩
  · exact ⟨rfl, rfl, rfl, rfl, rfl, rfl, rfl, rfl, rfl⟩

theorem viewok_edit (c : Int) (s t : State) (h : ViewOk s) (ht : key_edit c s = .cont t) :
    ViewOk t := by
  unfold key_edit at ht
  by_cases c1 : c = 1
  · rw [if_pos c1] at ht
    cases ht; exact viewok_fix _ _ _ s _ h (same_view_refl s)
  rw [if_neg c1] at ht
  by_cases c2 : c = 2
  · rw [if_pos c2] at ht
    cases ht; exact viewok_fix _ _ _ s _ h (same_view_refl s)
  rw [if_neg c2] at ht
  by_cases c3 : c = 3
  · rw [if_pos c3] at ht
    cases ht; exact viewok_intr s h
  rw [if_neg c3] at ht
  by_cases c4 : c = 4
  · rw [if_pos c4] at ht
    unfold key_eof at ht
    split at ht
    · cases ht
    · cases ht; exact viewok_del 0 s h
  rw [if_neg c4] at ht
  by_cases c5 : c = 5
  · rw [if_pos c5] at ht
    cases ht; exact viewok_fix _ _ _ s _ h (same_view_refl s)
  rw [if_neg c5] at ht
  by_cases c6 : c = 6
  · rw [if_pos c6] at ht
    cases ht; exact viewok_fix _ _ _ s _ h (same_view_refl s)
  rw [if_neg c6] at ht
  by_cases c8 : c = 8 ∨ c = 127
  · rw [if_pos c8] at ht
    cases ht; exact viewok_del (-1) s h
  rw [if_neg c8] at ht
  by_cases c9 : c = 9
  · rw [if_pos c9] at ht
    cases ht; exact viewok_tab s h
  rw [if_neg c9] at ht
  by_cases c11 : c = 11
  · rw [if_pos c11] at ht
    cases ht; exact viewok_kill _ s h
  rw [if_neg c11] at ht
  by_cases c12 : c = 12
  · rw [if_pos c12] at ht
    cases ht; exact viewok_redraw s h
  rw [if_neg c12] at ht
  by_cases c15 : c = 15
  · rw [if_pos c15] at ht
    cases ht; exact viewok_same s _ h ⟨rfl, rfl, rfl, rfl, rfl, rfl, rfl, rfl, rfl⟩
  rw [if_neg c15] at ht
  by_cases c20 : c = 20
  · rw [if_pos c20] at ht
    cases ht; exact viewok_transpose s h
  rw [if_neg c20] at ht
  by_cases c21 : c = 21
  · rw [if_pos c21] at ht
    cases ht; exact viewok_kill 0 s h
  rw [if_neg c21] at ht
  by_cases c25 : c = 25
  · rw [if_pos c25] at ht
    unfold ofExcept at ht
    cases hy : gl_yank s with
    | ok u =>
      rw [hy] at ht
      cases ht
      exact viewok_yank s _ h hy
    | error u =>
      rw [hy] at ht
      cases ht
  rw [if_neg c25] at ht
  by_cases c27 : c = 27
  · rw [if_pos c27] at ht
    cases ht; exact viewok_esc s h
  rw [if_neg c27] at ht
  cases ht
  split
  · exact viewok_same s _ h (same_view_putc 7 s)
  · exact h

theorem viewok_switch (c : Int) (s t : State) (h : ViewOk s) (ht : key_switch c s = .cont t) :
    ViewOk t := by
  unfold key_switch at ht
  split at ht
  · cases hn : gl_newline s with
    | ok u => rw [hn] at ht; cases ht
    | error u => rw [hn] at ht; cases ht
  split at ht
  · cases ht; exact viewok_hist_load _ (viewok_same s _ h (same_view_next s))
  split at ht
  · cases ht; exact viewok_hist_load _ (viewok_same s _ h (same_view_prev s))
  split at ht
  · unfold ofSearch at ht
    cases hb : search_back 1 s with
    | some u => rw [hb] at ht; cases ht; exact viewok_search_back 1 s _ h hb
    | none => rw [hb] at ht; cases ht
  split at ht
  · unfold ofSearch at ht
    cases hb : search_forw 1 s with
    | some u => rw [hb] at ht; cases ht; exact viewok_search_forw 1 s _ h hb
    | none => rw [hb] at ht; cases ht
  · exact viewok_edit c s t h ht

theorem viewok_search_key (c : Int) (s : State) (r : Int × State) (h : ViewOk s)
    (hr : search_key c s = some r) : ViewOk r.2 := by
  unfold search_key at hr
  split at hr
  · split at hr
    · cases hr; exact viewok_term s h
    · split at hr
      · cases ha : search_addchar (-1) s with
        | some u =>
          rw [ha] at hr
          cases hr
          exact viewok_search_addchar (-1) s u h ha
        | none => rw [ha] at hr; cases hr
      · split at hr
        · cases hr; exact viewok_term s h
        · cases hr; exact h
  · cases hr; exact h

/-- A turn of the loop of `getline` keeps the scroll state in order. -/
theorem viewok_key (c : Int) (s t : State) (h : ViewOk s) (ht : key c s = .cont t) :
    ViewOk t := by
  have h0 : ViewOk { s with gl_extent := 0 } :=
    viewok_same s _ h ⟨rfl, rfl, rfl, rfl, rfl, rfl, rfl, rfl, rfl⟩
  unfold key at ht
  simp only [] at ht
  split at ht
  · split at ht
    · unfold ofSearch at ht
      cases ha : search_addchar c { s with gl_extent := 0 } with
      | some u => rw [ha] at ht; cases ht; exact viewok_search_addchar c _ _ h0 ha
      | none => rw [ha] at ht; cases ht
    · cases ht
      exact viewok_addchar c _ h0
  · cases hk : search_key c { s with gl_extent := 0 } with
    | some r =>
      rw [hk] at ht
      exact viewok_switch r.1 r.2 t (viewok_search_key c _ r h0 hk) ht
    | none => rw [hk] at ht; cases ht

theorem viewok_turns (n : Nat) (s t : State) (h : ViewOk s) (ht : turns n s = some t) :
    ViewOk t := by
  induction n generalizing t with
  | zero =>
    cases ht
    exact h
  | succ n ih =>
    unfold turns at ht
    cases hn : turns n s with
    | none => rw [hn] at ht; cases ht
    | some u =>
      rw [hn] at ht
      simp only [] at ht
      split at ht
      · cases hk : key (gl_getc u).1 (gl_getc u).2 with
        | cont v =>
          rw [hk] at ht
          cases ht
          exact viewok_key _ _ _ (viewok_getc u (ih u hn)) hk
        | ret v => rw [hk] at ht; cases ht
        | jump v => rw [hk] at ht; cases ht
        | stuck => rw [hk] at ht; cases ht
      · cases ht

/-- The reset that starts `getline` puts the scroll state in order. -/
theorem viewok_start (s0 s1 : State) (prompt : Option (List Nat)) (buf : List Nat)
    (buflen : Int) (hs : 0 < s0.gl_scroll)
    (h : getline_start prompt buf buflen s0 = .ok s1) : ViewOk s1 := by
  unfold getline_start at h
  cases hi : gl_init { s0 with BUF_SIZE := buflen, gl_buf := wr buf 0 0 } with
  | error e => rw [hi] at h; cases h
  | ok a =>
    rw [hi] at h
    have ha : a.gl_scroll = s0.gl_scroll := by
      unfold gl_init at hi
      by_cases c : s0.gl_init_done < 0
      · simp only [if_pos c] at hi
        split at hi
        · cases hi
        · cases hi
          rfl
      · simp only [if_neg c] at hi
        split at hi
        · cases hi
        · cases hi
          rfl
    have hs1 : s1 = gl_fixup (in_hook { a with gl_pos := 0, gl_prompt := prompt.getD [] }).gl_prompt
        (-2) (in_hook { a with gl_pos := 0, gl_prompt := prompt.getD [] }).BUF_SIZE
        (in_hook { a with gl_pos := 0, gl_prompt := prompt.getD [] }) := by
      injection h with h; exact h.symm
    rw [hs1]
    apply viewok_fixup
    right
    refine ⟨rfl, ?_⟩
    rw [(same_view_in_hook _).1]
    show 0 < a.gl_scroll
    rw [ha]; exact hs
/-- C16 (amended). Within a call of `getline` with a positive scroll width,
every state the loop reaches key by key has its scroll state in order.  For
such a state, and at a reset: when the line is shorter than the usable width
`W` after a call of `gl_fixup`, where `W` is the screen width less the width
of the prompt, `off_right` is false after the call.  `off_left` is false as
well, and the view not shifted, when the call is a reset, or both flags were
false before the call, or the cursor ends more than two columns left of `W`. -/
theorem C16_short_line_flags (s0 : State) (prompt : Option (List Nat)) (buf : List Nat)
    (buflen : Int) (hscroll : 0 < s0.gl_scroll) :
    (∀ (n : Nat) (s : State),
        (entered prompt buf buflen s0).bind (turns n) = some s → ViewOk s)
      ∧ ∀ (s : State) (p : List Nat) (ch cu : Int),
          ViewOk s ∨ (ch = -2 ∧ 0 < s.gl_scroll) →
          (gl_fixup p ch cu s).gl_cnt < (gl_fixup p ch cu s).gl_width →
          (gl_fixup p ch cu s).gl_width
              = (gl_fixup p ch cu s).gl_termw - (gl_fixup p ch cu s).gl_strlen p
            ∧ (gl_fixup p ch cu s).off_right = 0
            ∧ (ch = -2 ∨ (s.off_left = 0 ∧ s.off_right = 0)
                  ∨ (gl_fixup p ch cu s).gl_pos + 2 < (gl_fixup p ch cu s).gl_width →
                (gl_fixup p ch cu s).off_left = 0 ∧ (gl_fixup p ch cu s).gl_shift = 0) := by
  constructor
  · intro n s h
    unfold entered at h
    cases hs : getline_start prompt buf buflen s0 with
    | error e => rw [hs] at h; cases h
    | ok s1 =>
      rw [hs] at h
      exact viewok_turns n s1 s (viewok_start s0 s1 prompt buf buflen hscroll hs) h
  · intro s p ch cu hv hshort
    exact short_line_flags p ch cu s hv hshort

set_option maxRecDepth 100000 in
/-- C16 (counterexample). On a screen of width 21 with the prompt `> ` the
usable width is 19.  After 19 characters the view is shifted by the scroll
width 7 and `off_left` is set; the backspace that follows leaves a line of 18
characters, shorter than the usable width, and `off_left` is still set: the
view stays shifted.  Two more backspaces bring the view back. -/
theorem C16_short_line_stays_scrolled :
    ((sample_narrow (List.replicate 19 97 ++ [8, 8, 8])).bind (turns 19)).map
        (fun t => (t.gl_cnt, t.gl_width, t.off_left, t.off_right, t.gl_shift))
        = some (19, 19, 1, 0, 7)
      ∧ ((sample_narrow (List.replicate 19 97 ++ [8, 8, 8])).bind (turns 20)).map
          (fun t => (t.gl_cnt, t.gl_width, t.off_left, t.off_right, t.gl_shift))
          = some (18, 19, 1, 0, 7)
      ∧ ((sample_narrow (List.replicate 19 97 ++ [8, 8, 8])).bind (turns 22)).map
          (fun t => (t.gl_cnt, t.gl_width, t.off_left, t.off_right, t.gl_shift))
          = some (16, 19, 0, 0, 0) := by
  decide

theorem sample_hi_view : ViewOk sample_hi := by
  unfold ViewOk
  decide

set_option maxRecDepth 100000 in
theorem C16_short_line_flags_witness :
    ViewOk sample_hi
      ∧ (gl_fixup [] 0 1 sample_hi).gl_cnt < (gl_fixup [] 0 1 sample_hi).gl_width
      ∧ (gl_fixup [] 0 1 sample_hi).off_right = 0
      ∧ (gl_fixup [] 0 1 sample_hi).off_left = 0 :=
  ⟨sample_hi_view, by decide,
    ((C16_short_line_flags (initial []) none [] 0 (by decide)).2 sample_hi [] 0 1
      (Or.inl sample_hi_view) (by decide)).2.1,
    (((C16_short_line_flags (initial []) none [] 0 (by decide)).2 sample_hi [] 0 1
      (Or.inl sample_hi_view) (by decide)).2.2 (Or.inr (Or.inl (by decide)))).1⟩

/-! ## A line longer than the window -/

theorem draw_fold (lo : Int) (l : List Nat) :
    ∀ s : State, l.foldl (fun acc (k : Nat) => gl_putc (rd acc.gl_buf (lo + (k : Int))) acc) s
      = { s with out := s.out
            ++ l.foldr (fun (k : Nat) o => putcBytes (rd s.gl_buf (lo + (k : Int))) ++ o) [] } := by
  induction l with
  | nil => intro s; simp
  | cons a l ih =>
    intro s
    rw [List.foldl_cons, ih]
    simp only [gl_putc, List.foldr_cons, List.append_assoc]

/-- The loop of `gl_fixup` that draws a stretch of the line. -/
theorem draw_loop (lo hi : Int) (s : State) :
    forUp lo hi (fun i st => gl_putc (rd st.gl_buf i) st) s
      = { s with out := s.out ++ shown s.gl_buf lo hi } := by
  unfold forUp shown
  exact draw_fold lo _ s

theorem putc_fold (c : Nat) (hc : c ≠ 10) (l : List Nat) :
    ∀ s : State, l.foldl (fun acc (_ : Nat) => gl_putc c acc) s
      = { s with out := s.out ++ List.replicate l.length c } := by
  induction l with
  | nil => intro s; simp
  | cons a l ih =>
    intro s
    rw [List.foldl_cons, ih]
    simp only [gl_putc, putcBytes, if_neg hc, List.length_cons, List.replicate_succ,
      List.append_assoc, List.singleton_append]

/-- The loops of `gl_fixup` that write the same byte over and over. -/
theorem putc_loop (c : Nat) (hc : c ≠ 10) (n : Int) (s : State) :
    forUp 0 n (fun _ => gl_putc c) s
      = { s with out := s.out ++ List.replicate n.toNat c } := by
  unfold forUp
  rw [putc_fold c hc]
  simp

/-- The redraw routine as its stages put together. -/
theorem fixup_eq (p : List Nat) (ch cu : Int) (s : State) :
    gl_fixup p ch cu s
      = fixup_move (fixup_target p ch cu s)
          (fixup_draw
            (fixup_bounds (fixup_changed p ch s)
              (fixup_new_shift (fixup_target p ch cu s) (fixup_ready p ch cu s))
              ((fixup_prompt p ch s).gl_pos - (fixup_prompt p ch s).gl_shift)
              (fixup_ready p ch cu s))
            (if fixup_len (fixup_prompt p ch s) - fixup_len (fixup_scrolled p ch cu s) < 0 then 0
             else fixup_len (fixup_prompt p ch s) - fixup_len (fixup_scrolled p ch cu s))
            (fixup_scrolled p ch cu s)) := by
  unfold gl_fixup fixup_scrolled fixup_changed fixup_target fixup_ready
  rfl

/-- The bells of `gl_fixup` stay silent for a cursor inside the line and for
the cursor `BUF_SIZE`, which stands for the end of the line. -/
theorem bell_none (cu : Int) (b : State) (h1 : cu ≤ b.gl_cnt ∨ cu = b.BUF_SIZE) (h2 : 0 ≤ cu)
    (h3 : 0 ≤ b.gl_cnt) : fixup_bell cu b = b := by
  unfold fixup_bell
  simp only []
  by_cases c : cu > b.gl_cnt
  · have e : cu = b.BUF_SIZE := by
      rcases h1 with h1 | h1
      · omega
      · exact h1
    simp only [if_pos c, if_neg (not_not.mpr e)]
    rw [if_neg (by omega)]
  · simp only [if_neg c]
    rw [if_neg (by omega)]
theorem tdiv_one (s : Int) (h : 2 ≤ s) : Int.tdiv (s + 1) s = 1 := by
  rw [Int.tdiv_eq_ediv (by omega) (by omega)]
  exact ((@Int.ediv_emod_unique (s + 1) s 1 1 (by omega)).2 ⟨by omega, by omega, by omega⟩).1

/-- The stages of `gl_fixup` before the scroll decision, for a change at
index 0 on a fresh line: nothing of the line is on the screen, the prompt is
the one drawn last, and the cursor asked for is in the line or is `BUF_SIZE`. -/
theorem fresh_stages (p : List Nat) (a : State) (cu : Int)
    (hlp : a.last_prompt = p) (h0 : 0 ≤ cu) (h1 : cu ≤ strlen a.gl_buf ∨ cu = a.BUF_SIZE) :
    fixup_prompt p 0 a = a ∧ fixup_changed p 0 a = 0
      ∧ fixup_ready p 0 cu a = { a with gl_cnt := strlen a.gl_buf }
      ∧ fixup_target p 0 cu a = (if cu > strlen a.gl_buf then strlen a.gl_buf else cu) := by
  have hn := strlen_nonneg a.gl_buf
  have e1 : fixup_prompt p 0 a = a := by
    unfold fixup_prompt
    rw [if_neg (by decide), if_neg (fun h => h hlp.symm)]
  have e2 : fixup_change p 0 a = 0 := by
    unfold fixup_change
    rw [if_neg (by decide), if_neg (fun h => h hlp.symm)]
  have e3 : fixup_count 0 a = { a with gl_cnt := strlen a.gl_buf } := by
    unfold fixup_count
    rw [if_pos (le_refl _)]
  refine ⟨e1, ?_, ?_, ?_⟩
  · unfold fixup_changed
    rw [e2, e1, e3]
    rw [if_neg (by
      intro h
      have h2 : (0 : Int) > strlen a.gl_buf := h.2
      omega)]
  · unfold fixup_ready
    rw [e2, e1, e3]
    exact bell_none cu _ h1 h0 hn
  · unfold fixup_target
    rw [e2, e1, e3]
    unfold fixup_cursor
    simp only []
    rw [if_neg (by split <;> omega)]
/-- The scroll decision for a line one character longer than the window, on a
view that is not shifted, with the cursor at the end of the line: the view is
shifted by the scroll width. -/
theorem scroll_end (r : State) (bk : Int) (hshift : r.gl_shift = 0) (hol : r.off_left = 0)
    (hor : r.off_right = 0) (hcnt : r.gl_cnt = r.gl_width + 1) (hs : 2 ≤ r.gl_scroll) :
    fixup_new_shift r.gl_cnt r = r.gl_scroll
      ∧ fixup_scroll 0 r.gl_scroll r
          = { r with gl_shift := r.gl_scroll, off_left := 1, off_right := 0 }
      ∧ fixup_bounds 0 r.gl_scroll bk r
          = { left := r.gl_scroll, right := r.gl_cnt, new_right := r.gl_cnt, backup := bk } := by
  have hextra : fixup_extra r.gl_cnt r = 0 := by
    unfold fixup_extra
    rw [if_neg (by
      intro h
      rcases h with h | h
      · exact h hor
      · exact h.1 hol)]
  have hsc : fixup_scroll 0 r.gl_scroll r
      = { r with gl_shift := r.gl_scroll, off_left := 1, off_right := 0 } := by
    unfold fixup_scroll
    rw [if_pos (by rw [hshift]; omega)]
    simp only []
    rw [if_pos (show r.gl_scroll ≠ 0 by omega),
      if_neg (show ¬ r.gl_cnt > r.gl_scroll + r.gl_width - 1 by omega)]
  refine ⟨?_, hsc, ?_⟩
  · unfold fixup_new_shift
    simp only [hextra]
    have e : r.gl_cnt + 0 + r.gl_scroll - r.gl_width = r.gl_scroll + 1 := by omega
    rw [e, if_pos (by omega), tdiv_one _ hs]
    omega
  · unfold fixup_bounds
    simp only [hsc]
    rw [if_pos (by rw [hshift]; omega), if_neg (by simp)]

/-- The redraw after a shift of the view, with nothing to back up over and
nothing to erase: the marker `$` and the line from the second column on. -/
theorem draw_shifted (c : State) (right bk : Int) (hbk : bk ≤ 0) (hol : c.off_left ≠ 0)
    (hor : c.off_right = 0) (hlr : c.gl_shift ≤ right) :
    fixup_draw { left := c.gl_shift, right := right, new_right := right, backup := bk } 0 c
      = { c with
          gl_pos := right
          out := c.out ++ 36 :: shown c.gl_buf (c.gl_shift + 1) right } := by
  have hm : fixup_marker
      { left := c.gl_shift, right := right, new_right := right, backup := bk } c = true := by
    unfold fixup_marker
    simp [hol]
  unfold fixup_draw
  simp only []
  rw [if_pos hlr, forUp_nil 0 bk _ _ hbk]
  simp only [hm, if_true]
  rw [draw_loop]
  unfold fixup_draw_end
  simp only []
  rw [if_neg (by
    intro h
    exact h.1 hor)]
  rw [forUp_nil 0 0 _ _ (le_refl _)]
  simp [gl_putc, putcBytes]

theorem move_stay (cu : Int) (d : State) (h : d.gl_pos = cu) : fixup_move cu d = d := by
  unfold fixup_move
  simp only []
  rw [if_neg (by omega), forUp_nil _ _ _ _ (by omega)]
  cases d
  simp only at h
  subst h
  rfl

theorem move_back (cu : Int) (d : State) (h : cu < d.gl_pos) :
    fixup_move cu d
      = { d with gl_pos := cu, out := d.out ++ List.replicate (d.gl_pos - cu).toNat 8 } := by
  unfold fixup_move
  simp only []
  rw [if_pos (by omega), putc_loop 8 (by decide)]

/-- A line of `W + 1` characters drawn from a fresh line with the cursor at
its end, for the usable width `W` and a scroll width between 2 and `W + 1`:
the view is shifted by the scroll width, and the line is drawn from there
with the marker `$` in the first column. -/
theorem fresh_cursor_end (p : List Nat) (a : State) (cu : Int) (hpos : a.gl_pos = 0)
    (hcnt : a.gl_cnt = 0) (hshift : a.gl_shift = 0) (hol : a.off_left = 0)
    (hor : a.off_right = 0) (hlp : a.last_prompt = p)
    (hlen : strlen a.gl_buf = a.gl_width + 1) (hs : 2 ≤ a.gl_scroll)
    (hsw : a.gl_scroll ≤ a.gl_width + 1)
    (hcu : cu = strlen a.gl_buf ∨ (cu = a.BUF_SIZE ∧ strlen a.gl_buf ≤ cu)) :
    gl_fixup p 0 cu a
      = { a with
          gl_cnt := strlen a.gl_buf
          gl_shift := a.gl_scroll
          off_left := 1
          off_right := 0
          gl_pos := strlen a.gl_buf
          out := a.out ++ 36 :: shown a.gl_buf (a.gl_scroll + 1) (strlen a.gl_buf) } := by
  have hn := strlen_nonneg a.gl_buf
  obtain ⟨e1, e2, e3, e4⟩ := fresh_stages p a cu hlp (by rcases hcu with h | h <;> omega)
    (by rcases hcu with h | h; exact Or.inl (by omega); exact Or.inr h.1)
  have e5 : fixup_target p 0 cu a = strlen a.gl_buf := by
    rw [e4]
    split
    · rfl
    · rcases hcu with h | h <;> omega
  obtain ⟨f1, f2, f3⟩ := scroll_end { a with gl_cnt := strlen a.gl_buf }
    (a.gl_pos - a.gl_shift) hshift hol hor hlen hs
  have hscr : fixup_scrolled p 0 cu a
      = { a with
          gl_cnt := strlen a.gl_buf
          gl_shift := a.gl_scroll
          off_left := 1
          off_right := 0 } := by
    unfold fixup_scrolled
    rw [e2, e5, e3, f1]
    exact f2
  have hpad : (if fixup_len (fixup_prompt p 0 a) - fixup_len (fixup_scrolled p 0 cu a) < 0
      then 0 else fixup_len (fixup_prompt p 0 a) - fixup_len (fixup_scrolled p 0 cu a)) = 0 := by
    rw [e1, hscr]
    have g1 : fixup_len a = 0 := by
      unfold fixup_len
      rw [if_neg (by simp [hor]), hcnt, hshift]
      rfl
    have g2 : fixup_len { a with
          gl_cnt := strlen a.gl_buf
          gl_shift := a.gl_scroll
          off_left := 1
          off_right := 0 } = strlen a.gl_buf - a.gl_scroll := by
      unfold fixup_len
      rw [if_neg (by simp)]
    rw [g1, g2]
    split <;> omega
  rw [fixup_eq, hpad, hscr, e2, e5, e3, e1, f1]
  have f3b : fixup_bounds 0 a.gl_scroll (a.gl_pos - a.gl_shift)
        { a with gl_cnt := strlen a.gl_buf }
      = { left := a.gl_scroll, right := strlen a.gl_buf, new_right := strlen a.gl_buf,
          backup := a.gl_pos - a.gl_shift } := f3
  rw [f3b]
  have hd := draw_shifted { a with
          gl_cnt := strlen a.gl_buf
          gl_shift := a.gl_scroll
          off_left := 1
          off_right := 0 } (strlen a.gl_buf) (a.gl_pos - a.gl_shift) (by omega) (by simp) rfl
    (by show a.gl_scroll ≤ strlen a.gl_buf; omega)
  rw [hd]
  exact move_stay _ _ rfl
/-- The scroll decision for a line one character longer than the window, on a
view that is not shifted, with the cursor at the start of the line: the view
stays, and the line goes beyond it on the right. -/
theorem scroll_start (r : State) (bk : Int) (hshift : r.gl_shift = 0) (hol : r.off_left = 0)
    (hor : r.off_right = 0) (hext : r.gl_extent = 0) (hcnt : r.gl_cnt = r.gl_width + 1)
    (hs : 0 < r.gl_scroll) (hw : 0 < r.gl_width) :
    fixup_new_shift 0 r = 0
      ∧ fixup_scroll 0 0 r = { r with off_right := 1 }
      ∧ fixup_bounds 0 0 bk r
          = { left := 0, right := r.gl_width - 2, new_right := r.gl_width - 2,
              backup := r.gl_pos - 0 } := by
  have hextra : fixup_extra 0 r = 0 := by
    unfold fixup_extra
    rw [if_neg (by
      intro h
      rcases h with h | h
      · exact h hor
      · exact h.1 hol)]
  have hsc : fixup_scroll 0 0 r = { r with off_right := 1 } := by
    unfold fixup_scroll
    rw [if_neg (by rw [hshift]; simp), if_pos (le_refl _),
      if_pos (show r.gl_cnt > r.gl_shift + r.gl_width - 1 by omega)]
  refine ⟨?_, hsc, ?_⟩
  · unfold fixup_new_shift
    simp only [hextra]
    split
    · rw [Int.tdiv_eq_ediv (by omega) (by omega), Int.ediv_eq_zero_of_lt (by omega) (by omega)]
      simp
    · rfl
  · unfold fixup_bounds
    simp [hsc, hshift, hol, hext]

/-- The redraw of a line that goes beyond the window on the right, on a view
that is not shifted, with nothing to back up over: the line up to the last
column but one, and the marker `$`. -/
theorem draw_beyond (c : State) (right bk pad : Int) (hbk : bk ≤ 0)
    (hol : c.off_left = 0) (hor : c.off_right ≠ 0) (hlr : 0 ≤ right) :
    fixup_draw { left := 0, right := right, new_right := right, backup := bk } pad c
      = { c with
          gl_pos := right + 1
          out := c.out ++ shown c.gl_buf 0 right ++ [36] } := by
  have hm : fixup_marker
      { left := 0, right := right, new_right := right, backup := bk } c = false := by
    unfold fixup_marker
    simp [hol]
  unfold fixup_draw
  simp only []
  rw [if_pos hlr, forUp_nil 0 bk _ _ hbk]
  simp only [hm, Bool.false_eq_true, if_false]
  rw [draw_loop]
  unfold fixup_draw_end
  simp only []
  rw [if_pos ⟨hor, trivial⟩]
  simp [gl_putc, putcBytes]

/-- A line of `W + 1` characters drawn from a fresh line with the cursor at
its start, for the usable width `W ≥ 2`: the view is not shifted, the line is
drawn up to the last column but one with the marker `$` after it, and the
cursor goes back to the start. -/
theorem fresh_cursor_start (p : List Nat) (a : State) (hpos : a.gl_pos = 0)
    (hcnt : a.gl_cnt = 0) (hshift : a.gl_shift = 0) (hol : a.off_left = 0)
    (hor : a.off_right = 0) (hext : a.gl_extent = 0) (hlp : a.last_prompt = p)
    (hlen : strlen a.gl_buf = a.gl_width + 1) (hs : 0 < a.gl_scroll) (hw : 2 ≤ a.gl_width) :
    gl_fixup p 0 0 a
      = { a with
          gl_cnt := strlen a.gl_buf
          off_right := 1
          gl_pos := 0
          out := a.out ++ shown a.gl_buf 0 (a.gl_width - 2) ++ [36]
            ++ List.replicate (a.gl_width - 1).toNat 8 } := by
  have hn := strlen_nonneg a.gl_buf
  obtain ⟨e1, e2, e3, e4⟩ := fresh_stages p a 0 hlp (le_refl _) (Or.inl hn)
  have e5 : fixup_target p 0 0 a = 0 := by
    rw [e4, if_neg (by omega)]
  obtain ⟨f1, f2, f3⟩ := scroll_start { a with gl_cnt := strlen a.gl_buf }
    (a.gl_pos - a.gl_shift) hshift hol hor hext hlen hs (by show 0 < a.gl_width; omega)
  have hscr : fixup_scrolled p 0 0 a = { a with gl_cnt := strlen a.gl_buf, off_right := 1 } := by
    unfold fixup_scrolled
    rw [e2, e5, e3, f1]
    exact f2
  have hpad : (if fixup_len (fixup_prompt p 0 a) - fixup_len (fixup_scrolled p 0 0 a) < 0
      then 0 else fixup_len (fixup_prompt p 0 a) - fixup_len (fixup_scrolled p 0 0 a)) = 0 := by
    rw [e1, hscr]
    have g1 : fixup_len a = 0 := by
      unfold fixup_len
      rw [if_neg (by simp [hor]), hcnt, hshift]
      rfl
    have g2 : fixup_len { a with gl_cnt := strlen a.gl_buf, off_right := 1 }
        = a.gl_width - 1 := by
      unfold fixup_len
      rw [if_pos (by simp)]
    rw [g1, g2]
    split <;> omega
  rw [fixup_eq, hpad, hscr, e2, e5, e3, e1, f1]
  have f3b : fixup_bounds 0 0 (a.gl_pos - a.gl_shift) { a with gl_cnt := strlen a.gl_buf }
      = { left := 0, right := a.gl_width - 2, new_right := a.gl_width - 2,
          backup := a.gl_pos - 0 } := f3
  rw [f3b]
  have hd := draw_beyond { a with gl_cnt := strlen a.gl_buf, off_right := 1 }
    (a.gl_width - 2) (a.gl_pos - 0) 0 (by omega) hol (by simp) (by omega)
  rw [hd]
  rw [move_back 0 _ (by show 0 < a.gl_width - 2 + 1; omega)]
  have e : a.gl_width - 2 + 1 - 0 = a.gl_width - 1 := by omega
  simp only [e]
/-- C17 (amended). A line of exactly `W + 1` characters is drawn from a fresh
line by `gl_fixup`, where `W` is the usable width and the scroll width is
between 2 and `W`.  With the cursor at the end of the line the view is shifted
by the scroll width: `off_left` is true, `off_right` is false, and what is
written is the marker `$` in the first column, then the line from the index
after the shift to its end.  With the cursor at the start of the line the
view is not shifted: `off_right` is true, `off_left` is false, and what is
written is the first `W - 2` characters, the marker `$` after them, and the
backspaces that take the cursor back to the start. -/
theorem C17_long_line_scrolls (p buf : List Nat) (u : State) (cu : Int)
    (hlen : strlen buf = u.gl_termw - u.gl_strlen p + 1) (hs : 2 ≤ u.gl_scroll)
    (hsw : u.gl_scroll ≤ u.gl_termw - u.gl_strlen p)
    (hcu : cu = strlen buf ∨ (cu = u.BUF_SIZE ∧ strlen buf ≤ cu)) :
    ((gl_fixup p 0 cu (fresh p buf u)).off_left = 1
        ∧ (gl_fixup p 0 cu (fresh p buf u)).off_right = 0
        ∧ (gl_fixup p 0 cu (fresh p buf u)).gl_shift = u.gl_scroll
        ∧ (gl_fixup p 0 cu (fresh p buf u)).gl_pos = strlen buf
        ∧ (gl_fixup p 0 cu (fresh p buf u)).out
            = u.out ++ 36 :: shown buf (u.gl_scroll + 1) (strlen buf))
      ∧ ((gl_fixup p 0 0 (fresh p buf u)).off_right = 1
        ∧ (gl_fixup p 0 0 (fresh p buf u)).off_left = 0
        ∧ (gl_fixup p 0 0 (fresh p buf u)).gl_shift = 0
        ∧ (gl_fixup p 0 0 (fresh p buf u)).gl_pos = 0
        ∧ (gl_fixup p 0 0 (fresh p buf u)).out
            = u.out ++ shown buf 0 (u.gl_termw - u.gl_strlen p - 2) ++ [36]
              ++ List.replicate (u.gl_termw - u.gl_strlen p - 1).toNat 8) := by
  constructor
  · rw [fresh_cursor_end p (fresh p buf u) cu rfl rfl rfl rfl rfl rfl hlen hs
      (by show u.gl_scroll ≤ u.gl_termw - u.gl_strlen p + 1; omega) hcu]
    exact ⟨rfl, rfl, rfl, rfl, rfl⟩
  · rw [fresh_cursor_start p (fresh p buf u) rfl rfl rfl rfl rfl rfl rfl hlen (by show 0 < u.gl_scroll; omega)
      (by show 2 ≤ u.gl_termw - u.gl_strlen p; omega)]
    exact ⟨rfl, rfl, rfl, rfl, rfl⟩

set_option maxRecDepth 100000 in
/-- C17 (counterexample). On a screen of width 21 with the prompt `> ` the
usable width is 19.  A line of 20 characters drawn from a fresh line with the
cursor at its end (`BUF_SIZE` stands for the end) leaves `off_right` false and
`off_left` true, with the view shifted by 7: the bytes written are `$` and the
characters 8 to 19 of the line.  The same holds after the 20 characters have
been typed one by one. -/
theorem C17_cursor_at_end_scrolls :
    (gl_fixup (bytes "> ") 0 32 sample_long).off_right = 0
      ∧ (gl_fixup (bytes "> ") 0 32 sample_long).off_left = 1
      ∧ (gl_fixup (bytes "> ") 0 32 sample_long).gl_shift = 7
      ∧ (gl_fixup (bytes "> ") 0 32 sample_long).out = 36 :: List.replicate 12 97
      ∧ ((sample_narrow (List.replicate 20 97)).bind (turns 20)).map
          (fun t => (t.gl_cnt, t.gl_width, t.off_left, t.off_right, t.gl_shift))
          = some (20, 19, 1, 0, 7) := by
  decide

set_option maxRecDepth 100000 in
theorem C17_long_line_scrolls_witness :
    ((gl_fixup (bytes "> ") 0 32 sample_long).off_left = 1
        ∧ (gl_fixup (bytes "> ") 0 32 sample_long).off_right = 0
        ∧ (gl_fixup (bytes "> ") 0 32 sample_long).gl_shift = 7
        ∧ (gl_fixup (bytes "> ") 0 32 sample_long).gl_pos = 20
        ∧ (gl_fixup (bytes "> ") 0 32 sample_long).out
            = [] ++ 36 :: shown (List.replicate 20 97 ++ List.replicate 12 0) (7 + 1) 20)
      ∧ ((gl_fixup (bytes "> ") 0 0 sample_long).off_right = 1
        ∧ (gl_fixup (bytes "> ") 0 0 sample_long).off_left = 0
        ∧ (gl_fixup (bytes "> ") 0 0 sample_long).gl_shift = 0
        ∧ (gl_fixup (bytes "> ") 0 0 sample_long).gl_pos = 0
        ∧ (gl_fixup (bytes "> ") 0 0 sample_long).out
            = [] ++ shown (List.replicate 20 97 ++ List.replicate 12 0) 0 (21 - 2 - 2) ++ [36]
              ++ List.replicate (21 - 2 - 1 : Int).toNat 8) :=
  C17_long_line_scrolls (bytes "> ") (List.replicate 20 97 ++ List.replicate 12 0)
    { initial [] with gl_termw := 21, gl_scroll := 7, BUF_SIZE := 32 } 32 (by decide)
    (by decide) (by decide) (Or.inr ⟨rfl, by decide⟩)

/-! ## Backward search -/

theorem strstr_isSome (h n : List Nat) :
    (strstr h n).isSome ↔ ∃ i, i ≤ h.length ∧ n <+: h.drop i := by
  unfold strstr
  rw [List.find?_isSome]
  constructor
  · rintro ⟨i, hi, hp⟩
    exact ⟨i, by simpa [Nat.lt_succ_iff] using hi, by simpa using hp⟩
  · rintro ⟨i, hi, hp⟩
    exact ⟨i, by simpa [Nat.lt_succ_iff] using hi, by simpa using hp⟩

theorem strstr_le (h n : List Nat) (loc : Nat) (e : strstr h n = some loc) : loc ≤ h.length := by
  unfold strstr at e
  have := List.mem_of_find?_eq_some e
  simpa [Nat.lt_succ_iff] using this

/-- A string that holds a pattern holds every prefix of it. -/
theorem strstr_prefix (h q r : List Nat) (e : (strstr h (q ++ r)).isSome) :
    (strstr h q).isSome := by
  rw [strstr_isSome] at e ⊢
  obtain ⟨i, hi, hp⟩ := e
  exact ⟨i, hi, (List.prefix_append q r).trans hp⟩

theorem strstr_grow_none (h q r : List Nat) (e : strstr h q = none) :
    strstr h (q ++ r) = none := by
  cases hh : strstr h (q ++ r) with
  | none => rfl
  | some loc =>
    have := strstr_prefix h q r (by rw [hh]; rfl)
    rw [e] at this
    cases this

theorem strstr_nil_hay (n : List Nat) (hn : n ≠ []) : strstr [] n = none := by
  cases hh : strstr [] n with
  | none => rfl
  | some loc =>
    have := (strstr_isSome [] n).1 (by rw [hh]; rfl)
    obtain ⟨i, _, hp⟩ := this
    simp at hp
    exact absurd hp hn

theorem strstr_empty (h : List Nat) : strstr h [] = some 0 := by
  unfold strstr
  rw [List.range_succ_eq_map, List.find?_cons]
  simp

/-- The value of `strncpy(dst, src, n)` at an index inside `dst`. -/
theorem rd_strncpy (dst src : List Nat) (n i : Int) (h0 : 0 ≤ n) (hi0 : 0 ≤ i)
    (hi : i < dst.length) :
    rd (strncpy dst src n) i
      = if i < n then (if i < src.length then src.getD i.toNat 0 else 0) else rd dst i := by
  obtain ⟨m, rfl⟩ := Int.eq_ofNat_of_zero_le h0
  obtain ⟨k, rfl⟩ := Int.eq_ofNat_of_zero_le hi0
  have hk : k < dst.length := by omega
  unfold strncpy
  rw [rd_nat, rd_nat]
  simp only [Int.toNat_ofNat, List.getD_eq_getElem?_getD]
  rw [List.getElem?_take_of_lt hk]
  by_cases c1 : (k : Int) < (m : Int)
  · have c1n : k < m := by omega
    rw [if_pos c1]
    by_cases c2 : (k : Int) < (src.length : Int)
    · have c2n : k < src.length := by omega
      rw [if_pos c2, List.append_assoc, List.getElem?_append_left (by simp; omega),
        List.getElem?_take_of_lt c1n]
    · have c2n : src.length ≤ k := by omega
      rw [if_neg c2, List.append_assoc, List.getElem?_append_right (by simp; omega),
        List.getElem?_append_left (by simp; omega), List.getElem?_replicate]
      simp only [List.length_take]
      rw [if_pos (by omega)]
      rfl
  · have c1n : m ≤ k := by omega
    rw [if_neg c1, List.getElem?_append_right (by simp; omega), List.getElem?_drop]
    congr 2
    simp only [List.length_append, List.length_take, List.length_replicate]
    omega

theorem length_strncpy (dst src : List Nat) (n : Int) :
    (strncpy dst src n).length = dst.length := by
  unfold strncpy
  simp only [List.length_take, List.length_append, List.length_replicate, List.length_drop]
  omega

/-- The line buffer after `strncpy(gl_buf, p, BUF_SIZE-2); gl_buf[BUF_SIZE-2] = 0`
holds the entry `p`, when `p` is a C string of at most `BUF_SIZE - 2` bytes. -/
theorem load_buf_cstr (p : List Nat) (s : State) (hlen : (s.gl_buf.length : Int) = s.BUF_SIZE)
    (hfit : (p.length : Int) ≤ s.BUF_SIZE - 2) (hnul : 0 ∉ p) :
    cstr (load_buf p s).gl_buf = p ∧ ((load_buf p s).gl_buf.length : Int) = s.BUF_SIZE := by
  have hb : (load_buf p s).gl_buf = wr (strncpy s.gl_buf p (s.BUF_SIZE - 2)) (s.BUF_SIZE - 2) 0 :=
    rfl
  have hrd : ∀ i : Int, 0 ≤ i → i < s.BUF_SIZE →
      rd (load_buf p s).gl_buf i
        = if i < p.length then p.getD i.toNat 0
          else if i < s.BUF_SIZE - 2 then 0
          else if i = s.BUF_SIZE - 2 then 0 else rd s.gl_buf i := by
    intro i hi0 hi1
    rw [hb, rd_wr, rd_strncpy _ _ _ _ (by omega) hi0 (by omega), length_strncpy]
    split_ifs <;> first | rfl | omega
  have hl : ((load_buf p s).gl_buf.length : Int) = s.BUF_SIZE := by
    rw [hb, length_wr, length_strncpy]; exact hlen
  refine ⟨?_, hl⟩
  apply cstr_eq_of_rd
  · apply strlen_eq
    · omega
    · omega
    · intro i hi0 hi1
      rw [hrd i hi0 (by omega), if_pos hi1]
      intro h0
      apply hnul
      rw [← h0]
      obtain ⟨k, rfl⟩ := Int.eq_ofNat_of_zero_le hi0
      have hk : k < p.length := by omega
      simp only [Int.toNat_ofNat, List.getD_eq_getElem?_getD, List.getElem?_eq_getElem hk,
        Option.getD_some]
      exact List.getElem_mem hk
    · rw [hrd _ (by omega) (by omega), if_neg (by omega)]
      split
      · rfl
      · split
        · rfl
        · omega
  · intro i hi
    rw [hrd _ (by omega) (by omega), if_pos (by omega)]
    rfl
/-- The search string after `search_update(c)` for a key `c` that is not NUL:
the pattern with `c` added. -/
theorem pattern_grow (str : List Nat) (pos : Int) (v : Nat) (hv : v ≠ 0)
    (hlen : str.length = 100) (hpos : strlen str = pos) (h98 : pos ≤ 98) :
    cstr (wr (wr str pos v) (pos + 1) 0) = cstr str ++ [v]
      ∧ (wr (wr str pos v) (pos + 1) 0).length = 100 := by
  have hn := strlen_nonneg str
  have hs : strlen str = (cstr str).length := rfl
  have hrd : ∀ i : Int, rd (wr (wr str pos v) (pos + 1) 0) i
      = if i = pos + 1 then 0 else if i = pos then v else rd str i := by
    intro i
    rw [rd_wr, rd_wr, length_wr, hlen]
    split_ifs <;> first | rfl | omega
  refine ⟨?_, by rw [length_wr, length_wr, hlen]⟩
  apply cstr_eq_of_rd
  · apply strlen_eq
    · omega
    · rw [length_wr, length_wr, hlen]
      simp only [List.length_append, List.length_singleton, Nat.cast_add, Nat.cast_one]
      omega
    · intro i hi0 hi1
      simp only [List.length_append, List.length_singleton, Nat.cast_add, Nat.cast_one] at hi1
      rw [hrd]
      split_ifs with c1 c2
      · omega
      · exact hv
      · exact rd_ne_of_lt_strlen str i hi0 (by omega)
    · rw [hrd]
      simp only [List.length_append, List.length_singleton, Nat.cast_add, Nat.cast_one]
      rw [if_pos (by omega)]
  · intro i hi
    simp only [List.length_append, List.length_singleton] at hi
    rw [hrd, if_neg (by omega)]
    by_cases c : (i : Int) = pos
    · rw [if_pos c]
      have : i = (cstr str).length := by omega
      subst this
      simp [List.getD_eq_getElem?_getD]
    · rw [if_neg c, rd_eq_cstr str i (by omega)]
      simp only [List.getD_eq_getElem?_getD]
      rw [List.getElem?_append_left (by omega)]

theorem rslot_zero (s : State) (h0 : 0 ≤ s.hist_last) (h1 : s.hist_last < s.HIST_SIZE) :
    rslot s 0 = s.hist_last := by
  unfold rslot
  simp only [Nat.cast_zero, Int.sub_zero]
  exact Int.emod_eq_of_lt h0 h1

/-- One call of `gl_hist_prev`, `k` entries back from `hist_last`: it steps
back onto the entry `k + 1` back and returns it. -/
theorem prev_recent_step (s u : State) (k : Nat) (e : List Nat) (h0 : 0 ≤ s.hist_last)
    (h1 : s.hist_last < s.HIST_SIZE) (hk : (k : Int) + 1 < s.HIST_SIZE)
    (hb : u.hist_buf = s.hist_buf) (hl : u.hist_last = s.hist_last)
    (hh : u.HIST_SIZE = s.HIST_SIZE) (hp : u.hist_pos = rslot s k)
    (hcur : hslot s (rslot s k) ≠ none) (he : hslot s (rslot s (k + 1)) = some e) :
    gl_hist_prev u = (e, { u with hist_pos := rslot s (k + 1) }) := by
  have ea := emod_back s.hist_last k s.HIST_SIZE h0 h1 (by omega) (by omega)
  have eb := emod_back s.hist_last (k + 1 : Nat) s.HIST_SIZE h0 h1 (by omega)
    (by push_cast; omega)
  have hp0 : 0 ≤ rslot s k := by unfold rslot; rw [ea]; split <;> omega
  have hp1 : rslot s k < s.HIST_SIZE := by unfold rslot; rw [ea]; split <;> omega
  have hsl : ∀ i, hslot u i = hslot s i := by
    intro i
    unfold hslot
    rw [hb]
  apply prev_move u e (rslot s (k + 1))
  · rw [hp, hh, ring_pred _ _ hp0 hp1]
    unfold rslot
    rw [ea, eb]
    push_cast
    split_ifs <;> omega
  · rw [hsl, hp]; exact hcur
  · rw [hl]
    unfold rslot
    rw [eb]
    push_cast
    split_ifs <;> omega
  · rw [hsl]; exact he
/-- A walk back through the history with the pattern `q`, from `j` entries
back: it stops on the first entry, going back, that holds the pattern. -/
theorem search_walk (s : State) (es : List (List Nat)) (q : List Nat) (ns : Int)
    (hrec : Recent s es) (h0 : 0 ≤ s.hist_last) (h1 : s.hist_last < s.HIST_SIZE)
    (hsent : hslot s s.hist_last ≠ none) :
    ∀ (d j K : Nat) (u : State), K < es.length → j + d = K →
      (strstr (es.getD K []) q).isSome →
      u.hist_buf = s.hist_buf → u.hist_last = s.hist_last → u.HIST_SIZE = s.HIST_SIZE →
      u.hist_pos = rslot s j → cstr u.search_string = q →
      ∀ fuel, d + 1 ≤ fuel →
      ∃ m loc, j ≤ m ∧ m ≤ K ∧ (∀ i, j ≤ i → i < m → strstr (es.getD i []) q = none)
        ∧ strstr (es.getD m []) q = some loc
        ∧ search_loop gl_hist_prev ns fuel u
            = some (search_hit ns (es.getD m []) loc { u with hist_pos := rslot s (m + 1) }) := by
  intro d
  induction d with
  | zero =>
    intro j K u hK hjK hm hb hl hh hp hq fuel hf
    have hjK2 : j = K := by omega
    subst hjK2
    obtain ⟨f, rfl⟩ : ∃ f, fuel = f + 1 := ⟨fuel - 1, by omega⟩
    obtain ⟨r1, r2, _, _⟩ := hrec.2 j hK
    have hcur : hslot s (rslot s j) ≠ none := by
      cases j with
      | zero => rw [rslot_zero s h0 h1]; exact hsent
      | succ i =>
        rw [(hrec.2 i (by omega)).1]
        simp
    have hstep := prev_recent_step s u j (es.getD j []) h0 h1 (by have := hrec.1; omega)
      hb hl hh hp hcur r1
    cases hs : strstr (es.getD j []) q with
    | none => rw [hs] at hm; cases hm
    | some loc =>
      refine ⟨j, loc, le_refl _, le_refl _, fun i hi1 hi2 => by omega, hs, ?_⟩
      unfold search_loop
      simp only [hstep]
      rw [if_neg r2]
      show (match strstr (es.getD j []) (cstr u.search_string) with
        | some loc => some (search_hit ns (es.getD j []) loc { u with hist_pos := rslot s (j + 1) })
        | none => search_loop gl_hist_prev ns f { u with hist_pos := rslot s (j + 1) }) = _
      rw [hq, hs]
  | succ d ih =>
    intro j K u hK hjK hm hb hl hh hp hq fuel hf
    obtain ⟨f, rfl⟩ : ∃ f, fuel = f + 1 := ⟨fuel - 1, by omega⟩
    obtain ⟨r1, r2, _, _⟩ := hrec.2 j (by omega)
    have hcur : hslot s (rslot s j) ≠ none := by
      cases j with
      | zero => rw [rslot_zero s h0 h1]; exact hsent
      | succ i =>
        rw [(hrec.2 i (by omega)).1]
        simp
    have hstep := prev_recent_step s u j (es.getD j []) h0 h1 (by have := hrec.1; omega)
      hb hl hh hp hcur r1
    have hloop : search_loop gl_hist_prev ns (f + 1) u
        = (match strstr (es.getD j []) q with
          | some loc =>
            some (search_hit ns (es.getD j []) loc { u with hist_pos := rslot s (j + 1) })
          | none => search_loop gl_hist_prev ns f { u with hist_pos := rslot s (j + 1) }) := by
      conv_lhs => unfold search_loop
      simp only [hstep]
      rw [if_neg r2]
      show (match strstr (es.getD j []) (cstr u.search_string) with
        | some loc => some (search_hit ns (es.getD j []) loc { u with hist_pos := rslot s (j + 1) })
        | none => search_loop gl_hist_prev ns f { u with hist_pos := rslot s (j + 1) }) = _
      rw [hq]
    cases hs : strstr (es.getD j []) q with
    | some loc =>
      refine ⟨j, loc, le_refl _, by omega, fun i hi1 hi2 => by omega, hs, ?_⟩
      rw [hloop, hs]
    | none =>
      obtain ⟨m, loc, a1, a2, a3, a4, a5⟩ := ih (j + 1) K { u with hist_pos := rslot s (j + 1) }
        hK (by omega) hm hb hl hh rfl hq f (by omega)
      refine ⟨m, loc, by omega, a2, ?_, a4, ?_⟩
      · intro i hi1 hi2
        by_cases c : i = j
        · subst c; exact hs
        · exact a3 i (by omega) hi2
      · rw [hloop, hs]
        exact a5

/-- The state after a hit of a backward search on entry `m` of the newest
entries: the line holds the entry, the cursor is on the pattern, and
`hist_pos` is `m + 1` entries back. -/
theorem hit_state (s : State) (es : List (List Nat)) (q : List Nat) (ns : Int) (m loc : Nat)
    (u : State) (hrec : Recent s es) (hm : m < es.length)
    (hloc : strstr (es.getD m []) q = some loc)
    (u1 : u.gl_search_mode ≠ 0) (u2 : u.search_forw_flg = 0) (u3 : u.search_string.length = 100)
    (u4 : cstr u.search_string = q) (u5 : u.search_pos = q.length)
    (u6 : u.hist_buf = s.hist_buf) (u7 : u.hist_last = s.hist_last)
    (u8 : u.HIST_SIZE = s.HIST_SIZE) (u9 : u.BUF_SIZE = s.BUF_SIZE)
    (u10 : (u.gl_buf.length : Int) = u.BUF_SIZE) :
    (search_hit ns (es.getD m []) loc { u with hist_pos := rslot s (m + 1) }).gl_search_mode ≠ 0
      ∧ (search_hit ns (es.getD m []) loc
          { u with hist_pos := rslot s (m + 1) }).search_forw_flg = 0
      ∧ (search_hit ns (es.getD m []) loc
          { u with hist_pos := rslot s (m + 1) }).search_string.length = 100
      ∧ cstr (search_hit ns (es.getD m []) loc
          { u with hist_pos := rslot s (m + 1) }).search_string = q
      ∧ (search_hit ns (es.getD m []) loc
          { u with hist_pos := rslot s (m + 1) }).search_pos = q.length
      ∧ (search_hit ns (es.getD m []) loc
          { u with hist_pos := rslot s (m + 1) }).hist_buf = s.hist_buf
      ∧ (search_hit ns (es.getD m []) loc
          { u with hist_pos := rslot s (m + 1) }).hist_last = s.hist_last
      ∧ (search_hit ns (es.getD m []) loc
          { u with hist_pos := rslot s (m + 1) }).HIST_SIZE = s.HIST_SIZE
      ∧ (search_hit ns (es.getD m []) loc
          { u with hist_pos := rslot s (m + 1) }).BUF_SIZE = s.BUF_SIZE
      ∧ ((search_hit ns (es.getD m []) loc
          { u with hist_pos := rslot s (m + 1) }).gl_buf.length : Int)
          = (search_hit ns (es.getD m []) loc { u with hist_pos := rslot s (m + 1) }).BUF_SIZE
      ∧ (search_hit ns (es.getD m []) loc
          { u with hist_pos := rslot s (m + 1) }).hist_pos = rslot s (m + 1)
      ∧ contents (search_hit ns (es.getD m []) loc { u with hist_pos := rslot s (m + 1) })
          = es.getD m []
      ∧ (search_hit ns (es.getD m []) loc { u with hist_pos := rslot s (m + 1) }).gl_pos = loc
      ∧ (search_hit ns (es.getD m []) loc { u with hist_pos := rslot s (m + 1) }).inp = u.inp
      ∧ (search_hit ns (es.getD m []) loc { u with hist_pos := rslot s (m + 1) }).search_last
          = (if ns ≠ 0 then rslot s (m + 1) else u.search_last) := by
  obtain ⟨_, r2, r3, r4⟩ := hrec.2 m hm
  obtain ⟨b1, b2⟩ := load_buf_cstr (es.getD m []) { u with hist_pos := rslot s (m + 1) } u10
    (by show ((es.getD m []).length : Int) ≤ u.BUF_SIZE - 2; rw [u9]; exact r4) r3
  have hle := strstr_le _ _ _ hloc
  have hfix : ∀ X : State, X = gl_fixup (cstr u.search_prompt) 0 loc
      (load_buf (es.getD m []) { u with hist_pos := rslot s (m + 1) }) →
      X.gl_search_mode ≠ 0 ∧ X.search_forw_flg = 0 ∧ X.search_string.length = 100
        ∧ cstr X.search_string = q ∧ X.search_pos = q.length
        ∧ X.hist_buf = s.hist_buf ∧ X.hist_last = s.hist_last ∧ X.HIST_SIZE = s.HIST_SIZE
        ∧ X.BUF_SIZE = s.BUF_SIZE ∧ (X.gl_buf.length : Int) = X.BUF_SIZE
        ∧ X.hist_pos = rslot s (m + 1) ∧ contents X = es.getD m [] ∧ X.gl_pos = loc
        ∧ X.inp = u.inp ∧ X.search_last = u.search_last := by
    intro X hX
    subst hX
    refine ⟨?_, ?_, ?_, ?_, ?_, ?_, ?_, ?_, ?_, ?_, ?_, ?_, ?_, ?_, ?_⟩
    · rw [fixup_gl_search_mode]; exact u1
    · rw [fixup_search_forw_flg]; exact u2
    · rw [fixup_search_string]; exact u3
    · rw [fixup_search_string]; exact u4
    · rw [fixup_search_pos]; exact u5
    · rw [fixup_hist_buf]; exact u6
    · rw [fixup_hist_last]; exact u7
    · rw [fixup_HIST_SIZE]; exact u8
    · rw [fixup_BUF_SIZE]; exact u9
    · rw [fixup_gl_buf, fixup_BUF_SIZE]; exact b2
    · rw [fixup_hist_pos]; rfl
    · unfold contents
      rw [fixup_gl_buf]; exact b1
    · rw [fixup_pos_of_change _ _ _ _ (Or.inl (le_refl 0))]
      have : strlen (load_buf (es.getD m []) { u with hist_pos := rslot s (m + 1) }).gl_buf
          = (es.getD m []).length := by
        unfold strlen; rw [b1]
      rw [this]
      split_ifs <;> omega
    · rw [fixup_inp]; rfl
    · rw [fixup_search_last]; rfl
  obtain ⟨x1, x2, x3, x4, x5, x6, x7, x8, x9, x10, x11, x12, x13, x14, x15⟩ := hfix _ rfl
  unfold search_hit
  simp only []
  by_cases c : ns ≠ 0
  · rw [if_pos c, if_pos c]
    exact ⟨x1, x2, x3, x4, x5, x6, x7, x8, x9, x10, x11, x12, x13, x14, x11⟩
  · rw [if_neg c, if_neg c]
    exact ⟨x1, x2, x3, x4, x5, x6, x7, x8, x9, x10, x11, x12, x13, x14, x15⟩

/-- The state after a hit of a backward search on the first entry that holds
the pattern: the search is `m + 1` entries back. -/
theorem hit_searching (s : State) (es : List (List Nat)) (q : List Nat) (ns : Int) (m loc : Nat)
    (u : State) (hrec : Recent s es) (hm : m < es.length)
    (hfirst : ∀ i, i < m → strstr (es.getD i []) q = none)
    (hloc : strstr (es.getD m []) q = some loc)
    (u1 : u.gl_search_mode ≠ 0) (u2 : u.search_forw_flg = 0) (u3 : u.search_string.length = 100)
    (u4 : cstr u.search_string = q) (u5 : u.search_pos = q.length)
    (u6 : u.hist_buf = s.hist_buf) (u7 : u.hist_last = s.hist_last)
    (u8 : u.HIST_SIZE = s.HIST_SIZE) (u9 : u.BUF_SIZE = s.BUF_SIZE)
    (u10 : (u.gl_buf.length : Int) = u.BUF_SIZE) :
    Searching s es q (m + 1)
        (search_hit ns (es.getD m []) loc { u with hist_pos := rslot s (m + 1) })
      ∧ (search_hit ns (es.getD m []) loc { u with hist_pos := rslot s (m + 1) }).inp
          = u.inp := by
  obtain ⟨x1, x2, x3, x4, x5, x6, x7, x8, x9, x10, x11, x12, x13, x14, _⟩ :=
    hit_state s es q ns m loc u hrec hm hloc u1 u2 u3 u4 u5 u6 u7 u8 u9 u10
  exact ⟨⟨x1, x2, x3, x4, x5, x6, x7, x8, x9, x10, by omega, x11,
    fun i hi => hfirst i (by omega), fun h => by omega,
    fun _ => ⟨x12, loc, hloc, x13⟩⟩, x14⟩
theorem cstr_wr_zero (b : List Nat) : cstr (wr b 0 0) = [] := by
  cases b with
  | nil => simp [wr, cstr]
  | cons a l => simp [wr, cstr]

/-- The key `^R` outside search mode: the search is entered on the empty line,
at `hist_last`, with the empty pattern. -/
theorem searching_enter (s : State) (es : List (List Nat)) (hm : s.gl_search_mode = 0)
    (h0 : 0 ≤ s.hist_last) (h1 : s.hist_last < s.HIST_SIZE)
    (hstr : s.search_string.length = 100) (hbuf : (s.gl_buf.length : Int) = s.BUF_SIZE) :
    ∃ t, key 18 s = .cont t ∧ Searching s es [] 0 t ∧ t.inp = s.inp := by
  have hi : iscntrl 18 = true := by decide
  have hsk : search_key 18 { s with gl_extent := 0 } = some (18, { s with gl_extent := 0 }) := by
    unfold search_key
    rw [if_neg (by simp [hm])]
  have hkey : key 18 s = .cont (search_enter { s with gl_extent := 0, search_forw_flg := 0 }) := by
    unfold key
    simp only [hi, hsk, Bool.true_eq_false, if_false]
    unfold key_switch
    rw [if_neg (by decide), if_neg (by decide), if_neg (by decide), if_pos rfl]
    unfold search_back
    simp only []
    rw [if_pos hm]
    rfl
  refine ⟨_, hkey, ?_, ?_⟩
  · unfold search_enter search_update
    simp only [if_true]
    refine ⟨?_, ?_, ?_, ?_, ?_, ?_, ?_, ?_, ?_, ?_, Nat.zero_le _, ?_, ?_, ?_, ?_⟩
    · rw [fixup_gl_search_mode]; simp
    · rw [fixup_search_forw_flg]
    · rw [fixup_search_string]
      show (wr s.search_string 0 0).length = 100
      rw [length_wr]; exact hstr
    · rw [fixup_search_string]
      exact cstr_wr_zero _
    · rw [fixup_search_pos]; rfl
    · rw [fixup_hist_buf]
    · rw [fixup_hist_last]
    · rw [fixup_HIST_SIZE]
    · rw [fixup_BUF_SIZE]
    · rw [fixup_gl_buf, fixup_BUF_SIZE]
      show ((wr s.gl_buf 0 0).length : Int) = s.BUF_SIZE
      rw [length_wr]; exact hbuf
    · rw [fixup_hist_pos, rslot_zero s h0 h1]
    · intro i hi; omega
    · intro _
      unfold contents
      rw [fixup_gl_buf]
      exact cstr_wr_zero _
    · intro h; omega
  · unfold search_enter
    simp only []
    rw [fixup_inp]
    unfold search_update
    simp only [if_true]
/-- A printable key in a backward search: the pattern grows by the key, and
the search stays on its entry when that holds the longer pattern, or else
goes back to the first entry that does. -/
theorem searching_key (s : State) (es : List (List Nat)) (q : List Nat) (j : Nat) (t : State)
    (c : Int) (K : Nat) (hS : Searching s es q j t) (hc : printable c)
    (hq : q.length ≤ 97) (hrec : Recent s es) (h0 : 0 ≤ s.hist_last)
    (h1 : s.hist_last < s.HIST_SIZE) (hsent : hslot s s.hist_last ≠ none)
    (hK : K < es.length) (hmatch : (strstr (es.getD K []) (q ++ [c.toNat])).isSome) :
    ∃ t' j', key c t = .cont t' ∧ Searching s es (q ++ [c.toNat]) j' t' ∧ 0 < j'
      ∧ j' ≤ K + 1 ∧ t'.inp = t.inp := by
  obtain ⟨x1, x2, x3, x4, x5, x6, x7, x8, x9, x10, x11, x12, x13, x14, x15⟩ := hS
  obtain ⟨hb1, hb2⟩ := toByte_printable c hc
  have hpos : strlen t.search_string = t.search_pos := by
    unfold strlen; rw [x4, x5]
  obtain ⟨g1, g2⟩ := pattern_grow t.search_string t.search_pos (toByte c) hb2 x3 hpos
    (by rw [x5]; omega)
  rw [x4, hb1] at g1
  apply Exists.elim (p := fun (t' : State) => search_addchar c { t with gl_extent := 0 } = some t'
      ∧ ∃ j', Searching s es (q ++ [c.toNat]) j' t' ∧ 0 < j' ∧ j' ≤ K + 1 ∧ t'.inp = t.inp)
  · unfold search_addchar
    simp only [search_update_grow c { t with gl_extent := 0 } (by unfold printable at hc; omega)]
    rw [if_neg (by unfold printable at hc; omega)]
    rw [hb1] at g2 ⊢
    show ∃ t', (match strstr (cstr t.gl_buf)
          (cstr (wr (wr t.search_string t.search_pos c.toNat) (t.search_pos + 1) 0)) with
        | some loc => _
        | none => _) = some t' ∧ _
    rw [g1]
    cases hs : strstr (cstr t.gl_buf) (q ++ [c.toNat]) with
    | some loc =>
      have hj : 0 < j := by
        by_contra hj0
        have : contents t = [] := x14 (by omega)
        unfold contents at this
        rw [this, strstr_nil_hay _ (by simp)] at hs
        cases hs
      obtain ⟨y1, _⟩ := x15 hj
      unfold contents at y1
      refine ⟨_, rfl, j, ?_, hj, ?_, ?_⟩
      · refine ⟨?_, ?_, ?_, ?_, ?_, ?_, ?_, ?_, ?_, ?_, x11, ?_, ?_, ?_, ?_⟩
        · rw [fixup_gl_search_mode]; exact x1
        · rw [fixup_search_forw_flg]; exact x2
        · rw [fixup_search_string]; exact g2
        · rw [fixup_search_string]; exact g1
        · rw [fixup_search_pos]
          show t.search_pos + 1 = _
          rw [x5]; simp
        · rw [fixup_hist_buf]; exact x6
        · rw [fixup_hist_last]; exact x7
        · rw [fixup_HIST_SIZE]; exact x8
        · rw [fixup_BUF_SIZE]; exact x9
        · rw [fixup_gl_buf, fixup_BUF_SIZE]; exact x10
        · rw [fixup_hist_pos]; exact x12
        · intro i hi
          exact strstr_grow_none _ _ _ (x13 i hi)
        · intro h; omega
        · intro _
          refine ⟨?_, loc, ?_, ?_⟩
          · unfold contents
            rw [fixup_gl_buf]; exact y1
          · rw [← y1]; exact hs
          · rw [fixup_pos_of_change _ _ _ _ (Or.inl (le_refl 0))]
            have hle := strstr_le _ _ _ hs
            have : strlen t.gl_buf = (cstr t.gl_buf).length := rfl
            show (if (if (loc : Int) > strlen t.gl_buf then strlen t.gl_buf else (loc : Int)) < 0
              then 0 else (if (loc : Int) > strlen t.gl_buf then strlen t.gl_buf else (loc : Int)))
              = loc
            split_ifs <;> omega
      · by_contra hgt
        have hKj : K + 1 < j := by omega
        have hn := x13 K hKj
        have := strstr_prefix _ q [c.toNat] hmatch
        rw [hn] at this
        cases this
      · rw [fixup_inp]
    | none =>
      simp only []
      rw [if_pos (by show t.search_pos + 1 > 0; rw [x5]; omega),
        if_neg (by show ¬ t.search_forw_flg ≠ 0; rw [x2]; simp)]
      have hKj : j ≤ K := by
        by_contra hgt
        by_cases c2 : K + 1 < j
        · have hn := x13 K c2
          have := strstr_prefix _ q [c.toNat] hmatch
          rw [hn] at this
          cases this
        · have e : K = j - 1 := by omega
          obtain ⟨y1, _⟩ := x15 (by omega)
          unfold contents at y1
          rw [e, ← y1, hs] at hmatch
          cases hmatch
      obtain ⟨m, loc, a1, a2, a3, a4, a5⟩ := search_walk s es (q ++ [c.toNat]) 0 hrec h0 h1 hsent
        (K - j) j K
        { t with
          gl_extent := 0
          search_string := wr (wr t.search_string t.search_pos c.toNat) (t.search_pos + 1) 0
          search_prompt :=
            wr (wr (wr (wr t.search_prompt t.search_pos c.toNat) (t.search_pos + 1) 63)
              (t.search_pos + 2) 32) (t.search_pos + 3) 0
          search_pos := t.search_pos + 1
          search_forw_flg := 0 }
        hK (by omega) hmatch x6 x7 x8 x12 g1 (t.HIST_SIZE.toNat + 1)
        (by
          have := hrec.1
          rw [x8]
          omega)
      obtain ⟨b1, b2⟩ := hit_searching s es (q ++ [c.toNat]) 0 m loc
        { t with
          gl_extent := 0
          search_string := wr (wr t.search_string t.search_pos c.toNat) (t.search_pos + 1) 0
          search_prompt :=
            wr (wr (wr (wr t.search_prompt t.search_pos c.toNat) (t.search_pos + 1) 63)
              (t.search_pos + 2) 32) (t.search_pos + 3) 0
          search_pos := t.search_pos + 1
          search_forw_flg := 0 }
        hrec (by omega)
        (by
          intro i hi
          by_cases c1 : i + 1 < j
          · exact strstr_grow_none _ _ _ (x13 i c1)
          · by_cases c2 : i + 1 = j
            · obtain ⟨y1, _⟩ := x15 (by omega)
              unfold contents at y1
              have e : i = j - 1 := by omega
              rw [e, ← y1]
              exact hs
            · exact a3 i (by omega) hi)
        a4 x1 rfl g2 g1 (by show t.search_pos + 1 = _; rw [x5]; simp) x6 x7 x8 x9 x10
      refine ⟨_, ?_, m + 1, b1, by omega, by omega, b2⟩
      unfold search_back
      simp only []
      rw [if_neg (by show ¬ t.gl_search_mode = 0; exact x1),
        if_pos (by show t.search_pos + 1 > 0; rw [x5]; omega)]
      exact a5
  · intro t' ⟨h, j', hj⟩
    exact ⟨t', j', key_pattern c t t' hc x1 h, hj⟩
/-- The key `^R` in a backward search with a pattern: the search goes back to
the next entry that holds the pattern, and records it in `search_last`. -/
theorem searching_again (s : State) (es : List (List Nat)) (q : List Nat) (j : Nat) (t : State)
    (K : Nat) (hS : Searching s es q j t) (hq : q ≠ []) (hrec : Recent s es)
    (h0 : 0 ≤ s.hist_last) (h1 : s.hist_last < s.HIST_SIZE)
    (hsent : hslot s s.hist_last ≠ none) (hK : K < es.length) (hjK : j ≤ K)
    (hmatch : (strstr (es.getD K []) q).isSome) :
    ∃ t' m loc, key 18 t = .cont t' ∧ j ≤ m ∧ m ≤ K
      ∧ (∀ i, j ≤ i → i < m → strstr (es.getD i []) q = none)
      ∧ strstr (es.getD m []) q = some loc
      ∧ contents t' = es.getD m [] ∧ t'.gl_pos = loc ∧ t'.hist_pos = rslot s (m + 1)
      ∧ t'.search_last = rslot s (m + 1) ∧ t'.inp = t.inp := by
  obtain ⟨x1, x2, x3, x4, x5, x6, x7, x8, x9, x10, x11, x12, x13, x14, x15⟩ := hS
  have hlen : 0 < q.length := List.length_pos.mpr hq
  obtain ⟨m, loc, a1, a2, a3, a4, a5⟩ := search_walk s es q 1 hrec h0 h1 hsent
    (K - j) j K { t with gl_extent := 0, search_forw_flg := 0 }
    hK (by omega) hmatch x6 x7 x8 x12 x4 (t.HIST_SIZE.toNat + 1)
    (by
      have := hrec.1
      rw [x8]
      omega)
  obtain ⟨_, _, _, _, _, _, _, _, _, _, y11, y12, y13, y14, y15⟩ := hit_state s es q 1 m loc
    { t with gl_extent := 0, search_forw_flg := 0 } hrec (by omega)
    a4 x1 rfl x3 x4 x5 x6 x7 x8 x9 x10
  have hi : iscntrl 18 = true := by decide
  have hm2 : ({ t with gl_extent := 0 } : State).gl_search_mode ≠ 0 := x1
  have hsk : search_key 18 { t with gl_extent := 0 } = some (18, { t with gl_extent := 0 }) := by
    unfold search_key
    rw [if_pos hm2, if_neg (by decide), if_neg (by decide), if_neg (by decide)]
  have hkey : key 18 t = .cont (search_hit 1 (es.getD m []) loc
      { t with gl_extent := 0, search_forw_flg := 0, hist_pos := rslot s (m + 1) }) := by
    unfold key
    simp only [hi, hsk, Bool.true_eq_false, if_false]
    unfold key_switch
    rw [if_neg (by decide), if_neg (by decide), if_neg (by decide), if_pos rfl]
    unfold search_back
    simp only []
    rw [if_neg (by show ¬ t.gl_search_mode = 0; exact x1),
      if_pos (by show t.search_pos > 0; rw [x5]; omega), a5]
    rfl
  rw [if_pos (by decide)] at y15
  exact ⟨_, m, loc, hkey, a1, a2, a3, a4, y12, y13, y11, y15, y14⟩
theorem turns_key (n : Nat) (s t t2 : State) (c : Int) (r : List Int) (h : turns n s = some t)
    (hinp : t.inp = c :: r) (hc : c ≥ 0) (hk : key c { t with inp := r } = .cont t2) :
    turns (n + 1) s = some t2 := by
  have hg : gl_getc t = (c, { t with inp := r }) := by
    unfold gl_getc
    rw [hinp]
  show (match turns n s with
    | none => none
    | some t =>
      if (gl_getc t).1 ≥ 0 then
        match key (gl_getc t).1 (gl_getc t).2 with
        | .cont u => some u
        | _ => none
      else none) = _
  rw [h]
  simp only [hg]
  rw [if_pos hc, hk]

theorem searching_inp (s : State) (es : List (List Nat)) (q : List Nat) (j : Nat) (t : State)
    (r : List Int) (h : Searching s es q j t) : Searching s es q j { t with inp := r } := h

/-- The state after `^R` and the first `i` keys of a pattern that some entry
holds: the search is on the first entry that holds these `i` keys. -/
theorem searching_prefix (s : State) (es : List (List Nat)) (pat rest : List Int) (K : Nat)
    (hmode : s.gl_search_mode = 0) (h0 : 0 ≤ s.hist_last) (h1 : s.hist_last < s.HIST_SIZE)
    (hsent : hslot s s.hist_last ≠ none) (hstr : s.search_string.length = 100)
    (hbuf : (s.gl_buf.length : Int) = s.BUF_SIZE) (hrec : Recent s es)
    (hpr : ∀ c ∈ pat, printable c) (hlen : pat.length ≤ 98) (hK : K < es.length)
    (hmatch : (strstr (es.getD K []) (pat.map Int.toNat)).isSome)
    (hinp : s.inp = 18 :: pat ++ rest) :
    ∀ i, i ≤ pat.length →
      ∃ t j, turns (i + 1) s = some t ∧ Searching s es ((pat.take i).map Int.toNat) j t
        ∧ (0 < i → 0 < j) ∧ j ≤ K + 1 ∧ t.inp = pat.drop i ++ rest := by
  intro i
  induction i with
  | zero =>
    intro _
    obtain ⟨t, ht, hS, hi⟩ := searching_enter { s with inp := pat ++ rest } es hmode h0 h1 hstr hbuf
    refine ⟨t, 0, turns_key 0 s s t 18 (pat ++ rest) rfl hinp (by decide) ht, hS,
      fun h => absurd h (by omega), by omega, ?_⟩
    rw [hi]
    simp
  | succ i ih =>
    intro hi
    obtain ⟨t, j, ht, hS, _, hj, hin⟩ := ih (by omega)
    have hlt : i < pat.length := by omega
    have hd : pat.drop i = pat[i] :: pat.drop (i + 1) := by
      rw [List.drop_eq_getElem_cons hlt]
    have htk : pat.take (i + 1) = pat.take i ++ [pat[i]] := by
      rw [List.take_succ, List.getElem?_eq_getElem hlt]
      rfl
    have hpc : printable pat[i] := hpr _ (List.getElem_mem hlt)
    have hm2 : (strstr (es.getD K []) ((pat.take i).map Int.toNat ++ [pat[i].toNat])).isSome := by
      have e : pat.map Int.toNat
          = ((pat.take i).map Int.toNat ++ [pat[i].toNat]) ++ (pat.drop (i + 1)).map Int.toNat := by
        conv_lhs => rw [← List.take_append_drop (i + 1) pat]
        rw [List.map_append, htk, List.map_append]
        rfl
      rw [e] at hmatch
      exact strstr_prefix _ _ _ hmatch
    obtain ⟨t', j', hk, hS', hj0, hj', hin'⟩ := searching_key s es ((pat.take i).map Int.toNat) j
      { t with inp := pat.drop (i + 1) ++ rest } pat[i] K
      (searching_inp s es _ j t _ hS) hpc (by simp; omega) hrec h0 h1 hsent hK hm2
    refine ⟨t', j', turns_key (i + 1) s t t' pat[i] (pat.drop (i + 1) ++ rest) ht
      (by rw [hin, hd]; rfl) (printable_nonneg _ hpc) hk, ?_, fun _ => hj0, hj', hin'⟩
    rw [htk, List.map_append]
    exact hS'

/-- C12 (amended). In a call of `getline` outside search mode, with a history
whose newest entries `es` are C strings that fit the line buffer: the key `^R`
and then the keys of a pattern of 1 to 77 printable characters that entry `K`
of `es` holds, and no newer entry, leave that entry in the line buffer with
the cursor on the first occurrence of the pattern in it.  A further `^R` loads
the next older entry of `es` that holds the pattern.  With at most 77 keys the
search prompt, the pattern followed by `? `, fits the 80 bytes of the array
`last_prompt` of `gl_fixup`. -/
theorem C12_backward_search (s : State) (es : List (List Nat)) (pat rest : List Int)
    (K loc : Nat) (hmode : s.gl_search_mode = 0) (h0 : 0 ≤ s.hist_last)
    (h1 : s.hist_last < s.HIST_SIZE) (hsent : hslot s s.hist_last ≠ none)
    (hstr : s.search_string.length = 100) (hbuf : (s.gl_buf.length : Int) = s.BUF_SIZE)
    (hrec : Recent s es) (hpat : pat ≠ []) (hpr : ∀ c ∈ pat, printable c)
    (hlen : pat.length ≤ 77) (hK : K < es.length)
    (hloc : strstr (es.getD K []) (pat.map Int.toNat) = some loc)
    (hfirst : ∀ i, i < K → strstr (es.getD i []) (pat.map Int.toNat) = none)
    (hinp : s.inp = 18 :: pat ++ rest) :
    ∃ t, turns (pat.length + 1) s = some t ∧ contents t = es.getD K [] ∧ t.gl_pos = loc
      ∧ t.inp = rest
      ∧ ∀ (K2 loc2 : Nat) (rest2 : List Int), K < K2 → K2 < es.length →
          strstr (es.getD K2 []) (pat.map Int.toNat) = some loc2 →
          (∀ i, K < i → i < K2 → strstr (es.getD i []) (pat.map Int.toNat) = none) →
          rest = 18 :: rest2 →
          ∃ t2, turns (pat.length + 2) s = some t2 ∧ contents t2 = es.getD K2 []
            ∧ t2.gl_pos = loc2 ∧ t2.inp = rest2 := by
  obtain ⟨t, j, ht, hS, hj0, hj, hin⟩ := searching_prefix s es pat rest K hmode h0 h1 hsent hstr
    hbuf hrec hpr (by omega) hK (by rw [hloc]; rfl) hinp pat.length (le_refl _)
  rw [List.take_length, List.drop_length, List.nil_append] at *
  have hplen : 0 < pat.length := List.length_pos.mpr hpat
  have hS2 := hS
  obtain ⟨_, _, _, _, _, _, _, _, _, _, _, _, x13, _, x15⟩ := hS
  obtain ⟨y1, l2, y2, y3⟩ := x15 (hj0 hplen)
  have hjK : j = K + 1 := by
    by_contra hne
    have hlt : j - 1 < K := by have := hj0 hplen; omega
    rw [hfirst _ hlt] at y2
    cases y2
  subst hjK
  rw [Nat.add_sub_cancel] at y1 y2
  rw [hloc] at y2
  have e : l2 = loc := by
    injection y2 with y2
    exact y2.symm
  subst e
  refine ⟨t, ht, y1, y3, hin, ?_⟩
  intro K2 loc2 rest2 hK2 hK2l hloc2 hbetween hrest
  obtain ⟨t2, m, lc, hk, a1, a2, a3, a4, a5, a6, _, _, a9⟩ := searching_again s es
    (pat.map Int.toNat) (K + 1) { t with inp := rest2 } K2
    (searching_inp s es _ _ t _ hS2) (by simpa using hpat) hrec h0 h1 hsent hK2l (by omega)
    (by rw [hloc2]; rfl)
  have hm : m = K2 := by
    by_contra hne
    have := hbetween m (by omega) (by omega)
    rw [this] at a4
    cases a4
  subst hm
  rw [hloc2] at a4
  have e : lc = loc2 := by
    injection a4 with a4
    exact a4.symm
  subst e
  exact ⟨t2, turns_key (pat.length + 1) s t t2 18 rest2 ht (by rw [hin, hrest]) (by decide) hk,
    a5, a6, a9⟩
set_option maxRecDepth 100000 in
/-- C12 (counterexample). The history holds the entry `abcdefghij` and
`getline` is called with an array of 8 bytes.  The keys `^R`, `j` find the
entry, the only one that holds `j`, but the line buffer does not hold it:
`strncpy` copies `BUF_SIZE - 2 = 6` bytes, so the line is `abcdef`, and the
cursor is at its end, not on a `j`. -/
theorem C12_long_entry_is_cut :
    (sample_long_entry.bind (turns 2)).map (fun t => (contents t, t.gl_pos, hslot t 0))
      = some (bytes "abcdef", 6, some (bytes "abcdefghij")) := by
  decide

theorem sample_foo_recent :
    Recent (sample_foo [18, 102, 111, 111, 18]) [bytes "baz foo", bytes "foo bar"] := by
  unfold Recent
  decide

set_option maxRecDepth 100000 in
theorem C12_backward_search_witness :
    (∃ t, turns ([102, 111, 111] : List Int).length.succ (sample_foo [18, 102, 111, 111, 18])
          = some t
        ∧ contents t = [bytes "baz foo", bytes "foo bar"].getD 0 [] ∧ t.gl_pos = (4 : Nat)
        ∧ t.inp = [18]
        ∧ ∀ (K2 loc2 : Nat) (rest2 : List Int), 0 < K2 →
            K2 < [bytes "baz foo", bytes "foo bar"].length →
            strstr ([bytes "baz foo", bytes "foo bar"].getD K2 [])
              (([102, 111, 111] : List Int).map Int.toNat) = some loc2 →
            (∀ i, 0 < i → i < K2 →
              strstr ([bytes "baz foo", bytes "foo bar"].getD i [])
                (([102, 111, 111] : List Int).map Int.toNat) = none) →
            [18] = 18 :: rest2 →
            ∃ t2, turns (([102, 111, 111] : List Int).length + 2)
                  (sample_foo [18, 102, 111, 111, 18]) = some t2
              ∧ contents t2 = [bytes "baz foo", bytes "foo bar"].getD K2 []
              ∧ t2.gl_pos = loc2 ∧ t2.inp = rest2)
      ∧ (turns 4 (sample_foo [18, 102, 111, 111, 18])).map (fun t => (contents t, t.gl_pos))
          = some (bytes "baz foo", 4)
      ∧ (turns 5 (sample_foo [18, 102, 111, 111, 18])).map (fun t => (contents t, t.gl_pos))
          = some (bytes "foo bar", 0) :=
  ⟨C12_backward_search (sample_foo [18, 102, 111, 111, 18]) [bytes "baz foo", bytes "foo bar"]
      [102, 111, 111] [18] 0 4 (by decide) (by decide) (by decide) (by decide) (by decide)
      (by decide) sample_foo_recent (by decide)
      (by intro c hc; simp at hc; rcases hc with rfl | rfl <;> (unfold printable; decide))
      (by decide) (by decide) (by decide) (fun i hi => absurd hi (by omega)) (by decide),
    by decide, by decide⟩

/-! ## The shift and the cursor after a redraw -/

/-- The state at the scroll decision of `gl_fixup` in terms of the state at
the call: a reset clears the shift and the flags, a reset or a new prompt sets
the width, and the line is counted unless the call is a plain move. -/
theorem ready_fields (p : List Nat) (ch cu : Int) (s : State) :
    (fixup_ready p ch cu s).gl_scroll = s.gl_scroll
      ∧ (fixup_ready p ch cu s).gl_shift = (if ch = -2 then 0 else s.gl_shift)
      ∧ (fixup_ready p ch cu s).off_left = (if ch = -2 then 0 else s.off_left)
      ∧ (fixup_ready p ch cu s).off_right = (if ch = -2 then 0 else s.off_right)
      ∧ (fixup_ready p ch cu s).gl_width
          = (if ch = -2 ∨ p ≠ s.last_prompt then s.gl_termw - s.gl_strlen p else s.gl_width)
      ∧ (fixup_ready p ch cu s).gl_cnt
          = (if 0 ≤ ch ∨ ch = -2 ∨ p ≠ s.last_prompt then strlen s.gl_buf else s.gl_cnt)
      ∧ 0 ≤ fixup_target p ch cu s
      ∧ (0 ≤ (fixup_ready p ch cu s).gl_cnt →
          fixup_target p ch cu s ≤ (fixup_ready p ch cu s).gl_cnt) := by
  obtain ⟨p1, p2, p3, p4, p5, p6⟩ := prompt_state p ch s
  obtain ⟨c1, c2, c3, c4, c5, c6, c7, c8, c9, c10⟩ :=
    count_state (fixup_change p ch s) (fixup_prompt p ch s)
  obtain ⟨d0, d1, d2, d3, d4, d5, d6, d7, d8, _, _, _⟩ :=
    (drawn_bell cu (fixup_count (fixup_change p ch s) (fixup_prompt p ch s))).scroll_state
  obtain ⟨g1, g2⟩ := change_cases p ch s
  have htgt : 0 ≤ fixup_target p ch cu s ∧
      (0 ≤ (fixup_count (fixup_change p ch s) (fixup_prompt p ch s)).gl_cnt →
        fixup_target p ch cu s
          ≤ (fixup_count (fixup_change p ch s) (fixup_prompt p ch s)).gl_cnt) := by
    unfold fixup_target fixup_cursor
    simp only []
    split <;> split <;> constructor <;> intros <;> omega
  unfold fixup_ready at *
  rw [d5, d3, d0, d1, d4, d2, c1, c5, c6, c8, c7, p1]
  refine ⟨rfl, ?_, ?_, ?_, ?_, ?_, htgt.1, htgt.2⟩
  · by_cases c : ch = -2
    · rw [if_pos c]; exact (p5 c).1
    · rw [if_neg c]; exact (p6 c).1
  · by_cases c : ch = -2
    · rw [if_pos c]; exact (p5 c).2.1
    · rw [if_neg c]; exact (p6 c).2.1
  · by_cases c : ch = -2
    · rw [if_pos c]; exact (p5 c).2.2.1
    · rw [if_neg c]; exact (p6 c).2.2.1
  · by_cases c : ch = -2
    · rw [if_pos (Or.inl c)]; exact (p5 c).2.2.2.2
    · by_cases c2 : p = s.last_prompt
      · rw [if_neg (by intro h; rcases h with h | h; exact c h; exact h c2)]
        exact ((p6 c).2.2.2.2 c2).1
      · rw [if_pos (Or.inr c2)]
        exact (p6 c).2.2.2.1 c2
  · by_cases c : 0 ≤ ch ∨ ch = -2 ∨ p ≠ s.last_prompt
    · rw [if_pos c, c9 (g2 c), fixup_prompt_buf]
    · have k1 : ch ≠ -2 := fun h => c (Or.inr (Or.inl h))
      have k2 : p = s.last_prompt := by
        by_contra h
        exact c (Or.inr (Or.inr h))
      have k3 : fixup_change p ch s = ch := by
        unfold fixup_change
        rw [if_neg k1, if_neg (by intro h; exact h k2)]
      rw [if_neg c, c10 (by rw [k3]; omega)]
      exact ((p6 k1).2.2.2.2 k2).2

/-- The shift `gl_fixup` decides on, for a positive scroll width: it is 0
when `cursor + extra + gl_scroll - gl_width` is not positive, else the largest
multiple of `gl_scroll` that does not exceed that value. -/
theorem new_shift_value (cu : Int) (r : State) (hs : 0 < r.gl_scroll) :
    (cu + fixup_extra cu r + r.gl_scroll - r.gl_width ≤ 0 → fixup_new_shift cu r = 0)
      ∧ (0 < cu + fixup_extra cu r + r.gl_scroll - r.gl_width →
          r.gl_scroll ∣ fixup_new_shift cu r
            ∧ fixup_new_shift cu r ≤ cu + fixup_extra cu r + r.gl_scroll - r.gl_width
            ∧ cu + fixup_extra cu r + r.gl_scroll - r.gl_width
                < fixup_new_shift cu r + r.gl_scroll) := by
  unfold fixup_new_shift
  simp only []
  constructor
  · intro h
    rw [if_neg (by omega)]
  · intro h
    rw [if_pos (by omega), Int.tdiv_eq_ediv (by omega) (by omega)]
    refine ⟨Dvd.intro_left _ rfl, ?_, ?_⟩
    · exact Int.ediv_mul_le _ (by omega)
    · have := Int.lt_ediv_add_one_mul_self
        (cu + fixup_extra cu r + r.gl_scroll - r.gl_width) hs
      rw [add_mul, one_mul] at this
      exact this

/-- C26. For every call of `gl_fixup` with a positive scroll width, a line
length that is not negative and a usable width (the `gl_width` the call works
with, which it leaves) of at least `gl_scroll + 2`, whatever the shift and the
edge flags before the call: after the call the cursor lies inside the window,
`gl_shift ≤ gl_pos` and `gl_pos - gl_shift < gl_width`, with
`0 ≤ gl_pos ≤ gl_cnt`. -/
theorem C26_cursor_in_viewport (p : List Nat) (ch cu : Int) (s : State)
    (hS : 0 < s.gl_scroll) (hcnt : 0 ≤ s.gl_cnt)
    (hW : (gl_fixup p ch cu s).gl_width ≥ s.gl_scroll + 2) :
    (gl_fixup p ch cu s).gl_shift ≤ (gl_fixup p ch cu s).gl_pos
      ∧ (gl_fixup p ch cu s).gl_pos - (gl_fixup p ch cu s).gl_shift
          < (gl_fixup p ch cu s).gl_width
      ∧ 0 ≤ (gl_fixup p ch cu s).gl_pos
      ∧ (gl_fixup p ch cu s).gl_pos ≤ (gl_fixup p ch cu s).gl_cnt := by
  obtain ⟨r1, _, _, _, _, r6, r7, r8⟩ := ready_fields p ch cu s
  obtain ⟨v0, _, _, v3, v4, _⟩ := fixup_view p ch cu s
  obtain ⟨_, _, hpos⟩ := fixup_stages p ch cu s
  have hs : 0 < (fixup_ready p ch cu s).gl_scroll := by rw [r1]; exact hS
  obtain ⟨n1, n2⟩ := new_shift_value (fixup_target p ch cu s) (fixup_ready p ch cu s) hs
  have hc : 0 ≤ (fixup_ready p ch cu s).gl_cnt := by
    rw [r6]
    split
    · exact strlen_nonneg _
    · exact hcnt
  rw [v4, r1.symm] at hW
  rw [v0, v3, v4, hpos]
  have he := extra_cases (fixup_target p ch cu s) (fixup_ready p ch cu s)
  refine ⟨?_, ?_, r7, r8 hc⟩
  · by_cases hx : 0 < fixup_target p ch cu s
        + fixup_extra (fixup_target p ch cu s) (fixup_ready p ch cu s)
        + (fixup_ready p ch cu s).gl_scroll - (fixup_ready p ch cu s).gl_width
    · obtain ⟨_, k2, _⟩ := n2 hx
      rcases he with he | he
      · omega
      · omega
    · rw [n1 (by omega)]; exact r7
  · by_cases hx : 0 < fixup_target p ch cu s
        + fixup_extra (fixup_target p ch cu s) (fixup_ready p ch cu s)
        + (fixup_ready p ch cu s).gl_scroll - (fixup_ready p ch cu s).gl_width
    · obtain ⟨_, _, k3⟩ := n2 hx
      rcases he with he | he
      · omega
      · omega
    · rw [n1 (by omega)]
      rcases he with he | he
      · omega
      · omega

/-- C23. For every call of `gl_fixup` with a positive scroll width `S`, with
the cursor `c` the call ends on (the desired cursor brought into the line),
the width `W` it works with and the local `extra` of the call: the shift after
the call is 0 when `c + extra + S - W ≤ 0`, else it is the largest multiple of
`S` that does not exceed `c + extra + S - W`; and when the shift after the
call differs from the shift before it, `off_left` tells whether the new shift
is positive and `off_right` whether the length exceeds `shift + W - 1`. -/
theorem C23_shift_is_rounded_down (p : List Nat) (ch cu : Int) (s : State)
    (hS : 0 < s.gl_scroll) :
    ((gl_fixup p ch cu s).gl_pos
          + fixup_extra (gl_fixup p ch cu s).gl_pos (fixup_ready p ch cu s)
          + s.gl_scroll - (gl_fixup p ch cu s).gl_width ≤ 0 →
        (gl_fixup p ch cu s).gl_shift = 0)
      ∧ (0 < (gl_fixup p ch cu s).gl_pos
            + fixup_extra (gl_fixup p ch cu s).gl_pos (fixup_ready p ch cu s)
            + s.gl_scroll - (gl_fixup p ch cu s).gl_width →
          s.gl_scroll ∣ (gl_fixup p ch cu s).gl_shift
            ∧ (gl_fixup p ch cu s).gl_shift
                ≤ (gl_fixup p ch cu s).gl_pos
                  + fixup_extra (gl_fixup p ch cu s).gl_pos (fixup_ready p ch cu s)
                  + s.gl_scroll - (gl_fixup p ch cu s).gl_width
            ∧ (gl_fixup p ch cu s).gl_pos
                  + fixup_extra (gl_fixup p ch cu s).gl_pos (fixup_ready p ch cu s)
                  + s.gl_scroll - (gl_fixup p ch cu s).gl_width
                < (gl_fixup p ch cu s).gl_shift + s.gl_scroll)
      ∧ ((gl_fixup p ch cu s).gl_shift ≠ s.gl_shift →
          (gl_fixup p ch cu s).off_left = (if (gl_fixup p ch cu s).gl_shift > 0 then 1 else 0)
            ∧ (gl_fixup p ch cu s).off_right
                = (if (gl_fixup p ch cu s).gl_cnt
                      > (gl_fixup p ch cu s).gl_shift + (gl_fixup p ch cu s).gl_width - 1
                   then 1 else 0)) := by
  obtain ⟨r1, r2, r3, r4, _, _, _, _⟩ := ready_fields p ch cu s
  obtain ⟨v0, v1, v2, v3, v4, _⟩ := fixup_view p ch cu s
  obtain ⟨_, _, hpos⟩ := fixup_stages p ch cu s
  have hs : 0 < (fixup_ready p ch cu s).gl_scroll := by rw [r1]; exact hS
  obtain ⟨n1, n2⟩ := new_shift_value (fixup_target p ch cu s) (fixup_ready p ch cu s) hs
  obtain ⟨n0, _⟩ := new_shift_facts (fixup_target p ch cu s) (fixup_ready p ch cu s) hs
  rw [r1] at n1 n2
  rw [v1, v2, v3, v4, hpos, v0]
  refine ⟨n1, n2, ?_⟩
  intro hne
  by_cases c : ch = -2
  · rw [if_pos c] at r2 r3 r4
    by_cases c0 : fixup_new_shift (fixup_target p ch cu s) (fixup_ready p ch cu s) = 0
    · have hchg : fixup_changed p ch s ≥ 0 := by
        unfold fixup_changed
        have e : fixup_change p ch s = 0 := by
          unfold fixup_change
          rw [if_pos c]
        rw [e]
        split
        · rw [(count_state 0 (fixup_prompt p ch s)).2.2.2.2.2.2.2.2.1 (le_refl 0)]
          exact strlen_nonneg _
        · exact le_refl 0
      rw [c0, r2, if_neg (by simp), r3, if_neg (by simp), if_pos (Or.inr hchg)]
      exact ⟨rfl, rfl⟩
    · rw [r2, if_pos c0, if_pos c0, if_pos (by omega), if_pos (Or.inl c0)]
      exact ⟨rfl, rfl⟩
  · rw [if_neg c] at r2
    rw [r2, if_pos hne, if_pos (Or.inl hne)]
    refine ⟨?_, rfl⟩
    by_cases c0 : fixup_new_shift (fixup_target p ch cu s) (fixup_ready p ch cu s) = 0
    · rw [c0]; simp
    · rw [if_pos c0, if_pos (by omega)]

set_option maxRecDepth 100000 in
theorem C26_cursor_in_viewport_witness :
    (0 < sample_long.gl_scroll ∧ 0 ≤ sample_long.gl_cnt
        ∧ (gl_fixup (bytes "> ") 0 32 sample_long).gl_width ≥ sample_long.gl_scroll + 2)
      ∧ ((gl_fixup (bytes "> ") 0 32 sample_long).gl_shift
            ≤ (gl_fixup (bytes "> ") 0 32 sample_long).gl_pos
          ∧ (gl_fixup (bytes "> ") 0 32 sample_long).gl_pos
              - (gl_fixup (bytes "> ") 0 32 sample_long).gl_shift
              < (gl_fixup (bytes "> ") 0 32 sample_long).gl_width
          ∧ 0 ≤ (gl_fixup (bytes "> ") 0 32 sample_long).gl_pos
          ∧ (gl_fixup (bytes "> ") 0 32 sample_long).gl_pos
              ≤ (gl_fixup (bytes "> ") 0 32 sample_long).gl_cnt)
      ∧ ((gl_fixup (bytes "> ") 0 32 sample_long).gl_shift,
          (gl_fixup (bytes "> ") 0 32 sample_long).gl_pos,
          (gl_fixup (bytes "> ") 0 32 sample_long).gl_width,
          (gl_fixup (bytes "> ") 0 32 sample_long).gl_cnt) = (7, 20, 19, 20) :=
  ⟨⟨by decide, by decide, by decide⟩,
    C26_cursor_in_viewport (bytes "> ") 0 32 sample_long (by decide) (by decide) (by decide),
    by decide⟩

set_option maxRecDepth 100000 in
theorem C23_shift_is_rounded_down_witness :
    0 < sample_long.gl_scroll
      ∧ (0 < (gl_fixup (bytes "> ") 0 32 sample_long).gl_pos
            + fixup_extra (gl_fixup (bytes "> ") 0 32 sample_long).gl_pos
                (fixup_ready (bytes "> ") 0 32 sample_long)
            + sample_long.gl_scroll - (gl_fixup (bytes "> ") 0 32 sample_long).gl_width →
          sample_long.gl_scroll ∣ (gl_fixup (bytes "> ") 0 32 sample_long).gl_shift
            ∧ (gl_fixup (bytes "> ") 0 32 sample_long).gl_shift
                ≤ (gl_fixup (bytes "> ") 0 32 sample_long).gl_pos
                  + fixup_extra (gl_fixup (bytes "> ") 0 32 sample_long).gl_pos
                      (fixup_ready (bytes "> ") 0 32 sample_long)
                  + sample_long.gl_scroll - (gl_fixup (bytes "> ") 0 32 sample_long).gl_width
            ∧ (gl_fixup (bytes "> ") 0 32 sample_long).gl_pos
                  + fixup_extra (gl_fixup (bytes "> ") 0 32 sample_long).gl_pos
                      (fixup_ready (bytes "> ") 0 32 sample_long)
                  + sample_long.gl_scroll - (gl_fixup (bytes "> ") 0 32 sample_long).gl_width
                < (gl_fixup (bytes "> ") 0 32 sample_long).gl_shift + sample_long.gl_scroll)
      ∧ ((gl_fixup (bytes "> ") 0 32 sample_long).gl_shift ≠ sample_long.gl_shift →
          (gl_fixup (bytes "> ") 0 32 sample_long).off_left
              = (if (gl_fixup (bytes "> ") 0 32 sample_long).gl_shift > 0 then 1 else 0)
            ∧ (gl_fixup (bytes "> ") 0 32 sample_long).off_right
                = (if (gl_fixup (bytes "> ") 0 32 sample_long).gl_cnt
                      > (gl_fixup (bytes "> ") 0 32 sample_long).gl_shift
                        + (gl_fixup (bytes "> ") 0 32 sample_long).gl_width - 1
                   then 1 else 0))
      ∧ ((gl_fixup (bytes "> ") 0 32 sample_long).gl_pos,
          fixup_extra (gl_fixup (bytes "> ") 0 32 sample_long).gl_pos
            (fixup_ready (bytes "> ") 0 32 sample_long),
          (gl_fixup (bytes "> ") 0 32 sample_long).gl_width,
          (gl_fixup (bytes "> ") 0 32 sample_long).gl_shift,
          (gl_fixup (bytes "> ") 0 32 sample_long).off_left,
          (gl_fixup (bytes "> ") 0 32 sample_long).off_right) = (20, 0, 19, 7, 1, 0) :=
  ⟨by decide,
    (C23_shift_is_rounded_down (bytes "> ") 0 32 sample_long (by decide)).2.1,
    (C23_shift_is_rounded_down (bytes "> ") 0 32 sample_long (by decide)).2.2,
    by decide⟩

set_option maxRecDepth 100000 in
/-- C24 (counterexample). On a screen of width 21 with the prompt `> ` the
usable width is 19 and the scroll width 7, so `gl_scroll / 2` is 3.  After 30
characters and `^A` the view is at the start of the line with `off_right`
set: in the call `gl_fixup(gl_prompt, -1, 16)` the local `extra` is 2 and the
shift stays 0 (with 3 it would become 7).  After 24 characters the view is
shifted by 7 with `off_left` set and `off_right` clear: in the call
`gl_fixup(gl_prompt, -1, 24)` the local `extra` is 0 and the shift stays 7
(with 3 it would become 14). -/
theorem C24_extra_is_not_half_the_scroll_width :
    ((sample_narrow (List.replicate 30 97 ++ [1])).bind (turns 31)).map
        (fun t => (t.off_right, t.gl_shift, Int.tdiv t.gl_scroll 2,
          fixup_extra 16 (fixup_ready t.gl_prompt (-1) 16 t),
          (gl_fixup t.gl_prompt (-1) 16 t).gl_shift))
        = some (1, 0, 3, 2, 0)
      ∧ ((sample_narrow (List.replicate 24 97)).bind (turns 24)).map
          (fun t => (t.off_left, t.off_right, t.gl_shift, Int.tdiv t.gl_scroll 2,
            fixup_extra 24 (fixup_ready t.gl_prompt (-1) 24 t),
            (gl_fixup t.gl_prompt (-1) 24 t).gl_shift))
          = some (1, 0, 7, 3, 0, 7) := by
  decide

/-- C24 (amended). In every call of `gl_fixup` the local `extra` used in the
shift computation is 2 when the call is not a reset and, at the call,
`off_right` is set, or `off_left` is set and the cursor the call ends on is
less than `gl_shift + gl_width - gl_scroll / 2`; it is 0 otherwise.  The shift
the call leaves is computed with that value. -/
theorem C24_extra_is_two (p : List Nat) (ch cu : Int) (s : State) :
    fixup_extra (gl_fixup p ch cu s).gl_pos (fixup_ready p ch cu s)
        = (if ch ≠ -2 ∧ (s.off_right ≠ 0 ∨ (s.off_left ≠ 0 ∧ (gl_fixup p ch cu s).gl_pos
              < s.gl_shift + (gl_fixup p ch cu s).gl_width - Int.tdiv s.gl_scroll 2))
           then 2 else 0)
      ∧ (gl_fixup p ch cu s).gl_shift
          = (if (gl_fixup p ch cu s).gl_pos
                  + fixup_extra (gl_fixup p ch cu s).gl_pos (fixup_ready p ch cu s)
                  + s.gl_scroll - (gl_fixup p ch cu s).gl_width > 0
             then Int.tdiv ((gl_fixup p ch cu s).gl_pos
                    + fixup_extra (gl_fixup p ch cu s).gl_pos (fixup_ready p ch cu s)
                    + s.gl_scroll - (gl_fixup p ch cu s).gl_width) s.gl_scroll * s.gl_scroll
             else 0) := by
  obtain ⟨r1, r2, r3, r4, _, _, _, _⟩ := ready_fields p ch cu s
  obtain ⟨v0, _, _, _, v4, _⟩ := fixup_view p ch cu s
  obtain ⟨_, _, hpos⟩ := fixup_stages p ch cu s
  rw [v0, v4, hpos]
  constructor
  · unfold fixup_extra
    rw [r1, r2, r3, r4]
    by_cases c : ch = -2
    · rw [if_pos c, if_pos c, if_pos c, if_neg (by simp), if_neg (by intro h; exact h.1 c)]
    · rw [if_neg c, if_neg c, if_neg c]
      by_cases c2 : s.off_right ≠ 0 ∨ (s.off_left ≠ 0 ∧ fixup_target p ch cu s
          < s.gl_shift + (fixup_ready p ch cu s).gl_width - Int.tdiv s.gl_scroll 2)
      · rw [if_pos c2, if_pos ⟨c, c2⟩]
      · rw [if_neg c2, if_neg (by intro h; exact c2 h.2)]
  · conv_lhs => unfold fixup_new_shift
    rw [r1]

/-! ## Kill followed by yank -/

/-- The state `gl_kill(pos)` leaves when it cuts a well-formed line. -/
theorem kill_fields (s : State) (pos : Int) (hok : BufOk s) (h0 : 0 ≤ pos)
    (h1 : pos < s.gl_cnt) :
    (gl_kill pos s).gl_buf = wr s.gl_buf pos 0
      ∧ (gl_kill pos s).gl_killbuf = strcpy s.gl_killbuf (s.gl_buf.drop pos.toNat)
      ∧ (gl_kill pos s).gl_cnt = pos ∧ (gl_kill pos s).gl_pos = pos
      ∧ (gl_kill pos s).BUF_SIZE = s.BUF_SIZE
      ∧ (gl_kill pos s).gl_overwrite = s.gl_overwrite := by
  obtain ⟨k1, k2, k3, k4, k5⟩ := hok
  have hg : gl_kill pos s = gl_fixup s.gl_prompt pos pos
      { s with gl_killbuf := strcpy s.gl_killbuf (s.gl_buf.drop pos.toNat),
               gl_buf := wr s.gl_buf pos 0 } := by
    unfold gl_kill
    rw [if_pos h1]
  have hlen : strlen (wr s.gl_buf pos 0) = pos :=
    wr_zero_strlen s.gl_buf pos h0 (by omega) (by omega)
  refine ⟨?_, ?_, ?_, ?_, ?_, ?_⟩
  · rw [hg, fixup_gl_buf]
  · rw [hg, fixup_gl_killbuf]
  · rw [hg, fixup_cnt _ _ _ _ (Or.inl h0)]
    exact hlen
  · rw [hg, fixup_pos_of_change _ _ _ _ (Or.inl h0)]
    simp only [hlen]
    rw [if_neg (by omega), if_neg (by omega)]
  · rw [hg, fixup_BUF_SIZE]
  · rw [hg, fixup_gl_overwrite]

/-- The kill buffer after `strcpy(gl_killbuf, gl_buf + pos)`, pointwise: it
holds the tail of the line. -/
theorem killed_tail (b kb : List Nat) (pos : Int) (h0 : 0 ≤ pos) (h1 : pos < strlen b)
    (hk : strlen b < kb.length) :
    strlen (strcpy kb (b.drop pos.toNat)) = strlen b - pos
      ∧ ∀ i : Int, 0 ≤ i → i < strlen b - pos →
          rd (strcpy kb (b.drop pos.toNat)) i = rd b (pos + i) := by
  have hs : strlen b = (cstr b).length := rfl
  have hd : cstr (b.drop pos.toNat) = (cstr b).drop pos.toNat :=
    cstr_drop b pos.toNat (by omega)
  have hc := (cstr_strcpy kb (b.drop pos.toNat) (by rw [hd, List.length_drop]; omega)).1
  have hl : strlen (strcpy kb (b.drop pos.toNat)) = strlen b - pos := by
    unfold strlen
    rw [hc, hd, List.length_drop]
    omega
  refine ⟨hl, ?_⟩
  intro i hi0 hi1
  obtain ⟨m, rfl⟩ := Int.eq_ofNat_of_zero_le hi0
  obtain ⟨q, rfl⟩ := Int.eq_ofNat_of_zero_le h0
  have e1 := rd_eq_cstr (strcpy kb (b.drop (q : Int).toNat)) m (by
    unfold strlen at hl; omega)
  have e2 := rd_eq_cstr b (q + m) (by omega)
  have e3 : ((q : Int) + (m : Int)) = ((q + m : Nat) : Int) := by omega
  rw [e1, e3, e2, hc, hd]
  simp only [Int.toNat_ofNat, List.getD_eq_getElem?_getD, List.getElem?_drop]

/-- C27. On a well-formed line within capacity (`gl_cnt ≤ BUF_SIZE - 2`),
with the cursor before the end of the line and the kill buffer of `BUF_SIZE`
bytes that `gl_init` allocates, in insert mode as in overwrite mode:
`gl_kill(gl_pos)` followed by `gl_yank` does not call `gl_error`; it leaves
the text and the length of the line as they were, with the cursor at the end
of the line. -/
theorem C27_kill_then_yank (s : State) (hok : BufOk s)
    (hk : (s.gl_killbuf.length : Int) = s.BUF_SIZE) (hcap : s.gl_cnt ≤ s.BUF_SIZE - 2)
    (hpos : s.gl_pos < s.gl_cnt) :
    ∃ t, gl_yank (gl_kill s.gl_pos s) = .ok t ∧ contents t = contents s
      ∧ t.gl_cnt = s.gl_cnt ∧ t.gl_pos = s.gl_cnt := by
  obtain ⟨f1, f2, f3, f4, f5, f6⟩ := kill_fields s s.gl_pos hok hok.2.2.2.1 hpos
  obtain ⟨k1, k2, k3, k4, k5⟩ := hok
  have hn := strlen_nonneg s.gl_buf
  obtain ⟨t1, t2⟩ := killed_tail s.gl_buf s.gl_killbuf s.gl_pos k4 (by omega) (by omega)
  obtain ⟨k, hkk⟩ := Int.eq_ofNat_of_zero_le (show 0 ≤ s.gl_cnt - s.gl_pos by omega)
  have hlenk : strlen (gl_kill s.gl_pos s).gl_killbuf = k := by rw [f2, t1]; omega
  have hk0 : 0 < k := by omega
  have hcntk : (gl_kill s.gl_pos s).gl_cnt = strlen (gl_kill s.gl_pos s).gl_buf := by
    rw [f3, f1, wr_zero_strlen s.gl_buf s.gl_pos k4 (by omega) (by omega)]
  have hblen : (gl_kill s.gl_pos s).gl_buf.length = s.gl_buf.length := by
    rw [f1, length_wr]
  have hrdk : ∀ j : Int, rd (gl_kill s.gl_pos s).gl_buf j
      = if j = s.gl_pos then 0 else rd s.gl_buf j := by
    intro j
    rw [f1]
    exact wr_zero_rd s.gl_buf s.gl_pos k4 (by omega) j
  by_cases ho : s.gl_overwrite = 0
  · have hg : gl_yank (gl_kill s.gl_pos s)
        = .ok (gl_fixup (gl_kill s.gl_pos s).gl_prompt (gl_kill s.gl_pos s).gl_pos
            ((gl_kill s.gl_pos s).gl_pos + k)
            { gl_kill s.gl_pos s with gl_buf := yank_insert k (gl_kill s.gl_pos s) }) := by
      unfold gl_yank
      simp only [hlenk, f6, if_pos ho]
      rw [if_pos (by omega), if_neg (by rw [f3, f5]; omega)]
    have hsl := yank_insert_strlen (gl_kill s.gl_pos s) k hlenk hcntk (by rw [f4]; exact k4)
      (by rw [f4, f3]) (by rw [f3, hblen]; omega) hk0
    have hrd := yank_insert_rd (gl_kill s.gl_pos s) k (by rw [f4]; exact k4)
      (by rw [f4, f3]) (by rw [f3, hblen]; omega) hk0
    rw [f3] at hsl
    rw [f4, f3] at hrd
    refine ⟨_, hg, ?_, ?_, ?_⟩
    · unfold contents
      rw [fixup_gl_buf]
      show cstr (yank_insert k (gl_kill s.gl_pos s)) = cstr s.gl_buf
      apply cstr_eq_of_rd
      · rw [hsl]; show _ = strlen s.gl_buf; omega
      · intro i hi
        have hi2 : (i : Int) < strlen s.gl_buf := by unfold strlen; omega
        rw [hrd, ← rd_eq_cstr s.gl_buf i hi]
        by_cases c1 : s.gl_pos ≤ (i : Int) ∧ (i : Int) < s.gl_pos + k
        · rw [if_pos c1, f2, t2 _ (by omega) (by omega)]
          congr 1; omega
        · rw [if_neg c1, if_neg (by omega), hrdk, if_neg (by omega)]
    · rw [fixup_cnt _ _ _ _ (Or.inl (by rw [f4]; exact k4))]
      show strlen (yank_insert k (gl_kill s.gl_pos s)) = _
      rw [hsl]; omega
    · rw [fixup_pos_of_change _ _ _ _ (Or.inl (by rw [f4]; exact k4))]
      show (if (if (gl_kill s.gl_pos s).gl_pos + k > strlen (yank_insert k (gl_kill s.gl_pos s))
          then strlen (yank_insert k (gl_kill s.gl_pos s)) else (gl_kill s.gl_pos s).gl_pos + k) < 0
          then 0 else (if (gl_kill s.gl_pos s).gl_pos + k
            > strlen (yank_insert k (gl_kill s.gl_pos s))
          then strlen (yank_insert k (gl_kill s.gl_pos s)) else (gl_kill s.gl_pos s).gl_pos + k))
          = s.gl_cnt
      rw [hsl, f4, if_neg (by omega), if_neg (by omega)]
      omega
  · have hg : gl_yank (gl_kill s.gl_pos s)
        = .ok (gl_fixup (gl_kill s.gl_pos s).gl_prompt (gl_kill s.gl_pos s).gl_pos
            ((gl_kill s.gl_pos s).gl_pos + k)
            { gl_kill s.gl_pos s with
              gl_buf := yank_over k (gl_kill s.gl_pos s)
              gl_extent := k }) := by
      unfold gl_yank
      simp only [hlenk, f6, if_neg ho]
      rw [if_pos (by omega), if_neg (by rw [f4, f3, f5]; omega)]
    have hsl := yank_over_strlen (gl_kill s.gl_pos s) k hlenk hcntk (by rw [f4]; exact k4)
      (by rw [f4, f3]) (by rw [f4, hblen]; omega) (by rw [f3, hblen]; omega)
    have hrd := yank_over_rd (gl_kill s.gl_pos s) k (by rw [f4]; exact k4)
      (by rw [f4, hblen]; omega)
    rw [f3, f4] at hsl
    rw [f4, f3] at hrd
    have hmax : max s.gl_pos (s.gl_pos + (k : Int)) = s.gl_cnt := by omega
    rw [hmax] at hsl
    refine ⟨_, hg, ?_, ?_, ?_⟩
    · unfold contents
      rw [fixup_gl_buf]
      show cstr (yank_over k (gl_kill s.gl_pos s)) = cstr s.gl_buf
      apply cstr_eq_of_rd
      · rw [hsl]; show _ = strlen s.gl_buf; omega
      · intro i hi
        have hi2 : (i : Int) < strlen s.gl_buf := by unfold strlen; omega
        rw [hrd, ← rd_eq_cstr s.gl_buf i hi]
        by_cases c1 : s.gl_pos ≤ (i : Int) ∧ (i : Int) < s.gl_pos + k
        · rw [if_pos c1, f2, t2 _ (by omega) (by omega)]
          congr 1; omega
        · rw [if_neg c1, if_neg (by omega), hrdk, if_neg (by omega)]
    · rw [fixup_cnt _ _ _ _ (Or.inl (by rw [f4]; exact k4))]
      show strlen (yank_over k (gl_kill s.gl_pos s)) = _
      rw [hsl]
    · rw [fixup_pos_of_change _ _ _ _ (Or.inl (by rw [f4]; exact k4))]
      show (if (if (gl_kill s.gl_pos s).gl_pos + k > strlen (yank_over k (gl_kill s.gl_pos s))
          then strlen (yank_over k (gl_kill s.gl_pos s)) else (gl_kill s.gl_pos s).gl_pos + k) < 0
          then 0 else (if (gl_kill s.gl_pos s).gl_pos + k
            > strlen (yank_over k (gl_kill s.gl_pos s))
          then strlen (yank_over k (gl_kill s.gl_pos s)) else (gl_kill s.gl_pos s).gl_pos + k))
          = s.gl_cnt
      rw [hsl, f4, if_neg (by omega), if_neg (by omega)]
      omega

set_option maxRecDepth 100000 in
theorem C27_kill_then_yank_witness :
    (BufOk sample_hi ∧ (sample_hi.gl_killbuf.length : Int) = sample_hi.BUF_SIZE
        ∧ sample_hi.gl_cnt ≤ sample_hi.BUF_SIZE - 2 ∧ sample_hi.gl_pos < sample_hi.gl_cnt)
      ∧ (∃ t, gl_yank (gl_kill sample_hi.gl_pos sample_hi) = .ok t
          ∧ contents t = contents sample_hi ∧ t.gl_cnt = sample_hi.gl_cnt
          ∧ t.gl_pos = sample_hi.gl_cnt)
      ∧ (match gl_yank (gl_kill 1 sample_over) with
          | .ok t => some (contents t, t.gl_cnt, t.gl_pos, contents (gl_kill 1 sample_over))
          | .error _ => none) = some ([104, 105], 2, 2, [104]) :=
  ⟨⟨sample_hi_ok, by decide, by decide, by decide⟩,
    C27_kill_then_yank sample_hi sample_hi_ok (by decide) (by decide) (by decide),
    by decide⟩

/-! ## The word keys -/

/-- The loop `while (p(gl_buf[pos]) && pos < gl_cnt) pos++` moves right, and
not beyond `gl_cnt`. -/
theorem scanUp_range (p : Nat → Bool) (buf : List Nat) (cnt : Int) (n : Nat) :
    ∀ pos : Int, pos ≤ scanUp p buf cnt n pos
      ∧ (pos ≤ cnt → scanUp p buf cnt n pos ≤ cnt) := by
  induction n with
  | zero =>
    intro pos
    exact ⟨le_refl _, fun h => h⟩
  | succ n ih =>
    intro pos
    unfold scanUp
    split
    · next h =>
      obtain ⟨a, b⟩ := ih (pos + 1)
      exact ⟨by omega, fun _ => b (by omega)⟩
    · exact ⟨le_refl _, fun h => h⟩

/-- The loop `while (p(gl_buf[pos]) && pos > 0) pos--` moves left, and not
beyond 0. -/
theorem scanDown_range (p : Nat → Bool) (buf : List Nat) (n : Nat) :
    ∀ pos : Int, scanDown p buf n pos ≤ pos ∧ (0 ≤ pos → 0 ≤ scanDown p buf n pos) := by
  induction n with
  | zero =>
    intro pos
    exact ⟨le_refl _, fun h => h⟩
  | succ n ih =>
    intro pos
    unfold scanDown
    split
    · next h =>
      obtain ⟨a, b⟩ := ih (pos - 1)
      exact ⟨by omega, fun _ => b (by omega)⟩
    · exact ⟨le_refl _, fun h => h⟩

/-- The position `gl_word` aims at, forward and backward. -/
theorem word_target_range (s : State) (h0 : 0 ≤ s.gl_pos) (h1 : s.gl_pos ≤ s.gl_cnt) :
    (s.gl_pos ≤ word_target 1 s ∧ word_target 1 s ≤ s.gl_cnt)
      ∧ 0 ≤ word_target (-1) s ∧ word_target (-1) s ≤ s.gl_cnt
      ∧ (0 < s.gl_pos → word_target (-1) s ≤ s.gl_pos)
      ∧ (s.gl_pos = 0 →
          word_target (-1) s = (if 0 < s.gl_cnt ∧ isspace (rd s.gl_buf 0) then 1 else 0)) := by
  refine ⟨?_, ?_⟩
  · unfold word_target
    rw [if_pos (by decide)]
    simp only []
    obtain ⟨a1, a2⟩ := scanUp_range (fun c => !isspace c) s.gl_buf s.gl_cnt
      (s.gl_cnt - s.gl_pos).toNat s.gl_pos
    obtain ⟨b1, b2⟩ := scanUp_range isspace s.gl_buf s.gl_cnt
      (s.gl_cnt - scanUp (fun c => !isspace c) s.gl_buf s.gl_cnt
        (s.gl_cnt - s.gl_pos).toNat s.gl_pos).toNat
      (scanUp (fun c => !isspace c) s.gl_buf s.gl_cnt (s.gl_cnt - s.gl_pos).toNat s.gl_pos)
    exact ⟨by omega, b2 (a2 h1)⟩
  · by_cases c : 0 < s.gl_pos
    · unfold word_target
      rw [if_neg (by decide)]
      simp only [if_pos c]
      obtain ⟨a1, a2⟩ := scanDown_range isspace s.gl_buf (s.gl_pos - 1).toNat (s.gl_pos - 1)
      obtain ⟨b1, b2⟩ := scanDown_range (fun c => !isspace c) s.gl_buf
        (scanDown isspace s.gl_buf (s.gl_pos - 1).toNat (s.gl_pos - 1)).toNat
        (scanDown isspace s.gl_buf (s.gl_pos - 1).toNat (s.gl_pos - 1))
      have a3 := a2 (by omega)
      have b3 := b2 a3
      split
      · exact ⟨by omega, by omega, fun _ => by omega, fun h => by omega⟩
      · exact ⟨by omega, by omega, fun _ => by omega, fun h => by omega⟩
    · have e : s.gl_pos = 0 := by omega
      have hw : word_target (-1) s
          = (if 0 < s.gl_cnt ∧ isspace (rd s.gl_buf 0) then 1 else 0) := by
        unfold word_target
        rw [if_neg (by decide)]
        simp only [if_neg c, e]
        simp [scanDown]
      rw [hw]
      split
      · next h => exact ⟨by omega, by omega, fun h2 => absurd h2 c, fun _ => rfl⟩
      · exact ⟨by omega, by omega, fun h2 => absurd h2 c, fun _ => rfl⟩

/-- The state `gl_word` leaves on a line whose length `gl_cnt` is the length
of the string in the array: the array and the length stay, and the cursor is
the position aimed at. -/
theorem word_fields (d : Int) (s : State) (hc : s.gl_cnt = strlen s.gl_buf)
    (h0 : 0 ≤ word_target d s) (h1 : word_target d s ≤ s.gl_cnt) :
    (gl_word d s).gl_buf = s.gl_buf ∧ (gl_word d s).gl_cnt = s.gl_cnt
      ∧ (gl_word d s).gl_pos = word_target d s := by
  obtain ⟨_, _, _, _, _, r6, _, _⟩ :=
    ready_fields s.gl_prompt (-1) (word_target d s) s
  obtain ⟨_, _, _, v3, _⟩ := fixup_view s.gl_prompt (-1) (word_target d s) s
  have hcnt : (gl_word d s).gl_cnt = s.gl_cnt := by
    unfold gl_word
    rw [v3, r6]
    split
    · exact hc.symm
    · rfl
  refine ⟨?_, hcnt, ?_⟩
  · unfold gl_word
    rw [fixup_gl_buf]
  · have e := fixup_cnt_eq s.gl_prompt (-1) (word_target d s) s
    unfold gl_word at hcnt ⊢
    rw [fixup_pos]
    unfold fixup_cursor
    simp only []
    rw [← e, hcnt, if_neg (by omega), if_neg (by omega)]

/-- C28 (what the code does). On a well-formed line, word-right leaves the
cursor in `[old cursor, length]`; word-left leaves it at or before the old
cursor when the old cursor is not 0, or the line is empty, or the line does
not start with white space; but with the cursor at 0 on a line that starts
with white space, word-left moves the cursor right, to 1.  Neither changes the
text or the length of the line. -/
theorem C28_word_left_at_start_moves_right (s : State) (hok : BufOk s) :
    (s.gl_pos ≤ (gl_word 1 s).gl_pos ∧ (gl_word 1 s).gl_pos ≤ s.gl_cnt)
      ∧ (0 < s.gl_pos ∨ s.gl_cnt = 0 ∨ isspace (rd s.gl_buf 0) = false →
          0 ≤ (gl_word (-1) s).gl_pos ∧ (gl_word (-1) s).gl_pos ≤ s.gl_pos)
      ∧ (s.gl_pos = 0 → 0 < s.gl_cnt → isspace (rd s.gl_buf 0) = true →
          (gl_word (-1) s).gl_pos = 1)
      ∧ (contents (gl_word 1 s) = contents s ∧ (gl_word 1 s).gl_cnt = s.gl_cnt)
      ∧ (contents (gl_word (-1) s) = contents s ∧ (gl_word (-1) s).gl_cnt = s.gl_cnt) := by
  obtain ⟨k1, k2, k3, k4, k5⟩ := hok
  obtain ⟨⟨a1, a2⟩, b1, b2, b3, b4⟩ := word_target_range s k4 k5
  obtain ⟨f1, f2, f3⟩ := word_fields 1 s k2 (by omega) a2
  obtain ⟨g1, g2, g3⟩ := word_fields (-1) s k2 b1 b2
  refine ⟨by rw [f3]; exact ⟨a1, a2⟩, ?_, ?_, ?_, ?_⟩
  · intro h
    rw [g3]
    refine ⟨b1, ?_⟩
    by_cases c : 0 < s.gl_pos
    · exact b3 c
    · have e : s.gl_pos = 0 := by omega
      rw [b4 e, e]
      rcases h with h | h | h
      · exact absurd h c
      · rw [if_neg (by omega)]
      · rw [if_neg (by simp [h])]
  · intro e hc hsp
    rw [g3, b4 e, if_pos ⟨hc, hsp⟩]
  · unfold contents
    rw [f1]
    exact ⟨rfl, f2⟩
  · unfold contents
    rw [g1]
    exact ⟨rfl, g2⟩

theorem sample_blank_ok : BufOk sample_blank := by
  unfold BufOk; decide

set_option maxRecDepth 100000 in
theorem C28_word_left_at_start_moves_right_witness :
    BufOk sample_blank ∧ sample_blank.gl_pos = 0
      ∧ (gl_word (-1) sample_blank).gl_pos = 1
      ∧ ((sample_keys [32, 97, 1, 27, 98]).bind (turns 3)).map
          (fun t => (contents t, t.gl_pos)) = some (bytes " a", 0)
      ∧ ((sample_keys [32, 97, 1, 27, 98]).bind (turns 4)).map
          (fun t => (contents t, t.gl_pos)) = some (bytes " a", 1) :=
  ⟨sample_blank_ok, by decide,
    (C28_word_left_at_start_moves_right sample_blank sample_blank_ok).2.2.1
      (by decide) (by decide) (by decide),
    by decide, by decide⟩

/-! ## The default tab handler -/

/-- The loop that writes the byte `v` to `n` places from the index `pos` on. -/
theorem fill_spec (v : Nat) (pos : Int) (hpos : 0 ≤ pos) (n : Nat) :
    ∀ (b : List Nat),
    (forUp 0 n (fun i b => wr b (pos + i) v) b).length = b.length ∧
    ∀ j, rd (forUp 0 n (fun i b => wr b (pos + i) v) b) j
      = if pos ≤ j ∧ j < pos + n ∧ j < b.length then v else rd b j := by
  induction n with
  | zero =>
    intro b
    rw [forUp_nil _ _ _ _ (by simp)]
    refine ⟨rfl, fun j => ?_⟩
    rw [if_neg (by omega)]
  | succ n ih =>
    intro b
    rw [forUp_step _ _ _ _ (by omega)]
    have e : ((n + 1 : Nat) : Int) - 1 = (n : Int) := by omega
    rw [e]
    obtain ⟨hl, hr⟩ := ih b
    refine ⟨by rw [length_wr, hl], fun j => ?_⟩
    rw [rd_wr, hr, hl]
    by_cases hj : pos + n = j ∧ 0 ≤ pos + (n : Int) ∧ pos + n < b.length
    · rw [if_pos hj, if_pos (by omega)]
    · rw [if_neg hj]
      by_cases h5 : pos ≤ j ∧ j < pos + n ∧ j < b.length
      · rw [if_pos h5, if_pos (by omega)]
      · rw [if_neg h5, if_neg (by omega)]

/-- The array `gl_tab` leaves, pointwise, when it has room for the blanks. -/
theorem tab_rd (buf : List Nat) (loc : Int) (k : Nat) (hk : 0 < k) (h0 : 0 ≤ loc)
    (h1 : loc ≤ strlen buf) (hroom : strlen buf + k < buf.length) :
    (forUp 0 k (fun i b => wr b (loc + i) 32)
        (forDown (strlen buf) loc (fun i b => wr b (i + k) (rd b i)) buf)).length = buf.length
      ∧ ∀ j, rd (forUp 0 k (fun i b => wr b (loc + i) 32)
          (forDown (strlen buf) loc (fun i b => wr b (i + k) (rd b i)) buf)) j
        = if loc ≤ j ∧ j < loc + k then 32
          else if loc + k ≤ j ∧ j ≤ strlen buf + k then rd buf (j - k) else rd buf j := by
  obtain ⟨hl, hr⟩ := shiftR_spec k (by omega) (strlen buf) (strlen buf + 1 - loc).toNat loc
    buf (by omega) h0 hroom
  obtain ⟨fl, fr⟩ := fill_spec 32 loc h0 k
    (forDown (strlen buf) loc (fun i b => wr b (i + k) (rd b i)) buf)
  refine ⟨by rw [fl, hl], fun j => ?_⟩
  rw [fr, hl, hr]
  by_cases c1 : loc ≤ j ∧ j < loc + k
  · rw [if_pos (by omega), if_pos c1]
  · rw [if_neg (by omega), if_neg c1]

/-- C21 (what the code does). For every array `buf` that holds a string and
has room for the blanks, every prompt width `offset ≥ 0` and every cursor `loc` in
`[0, strlen(buf)]`: `gl_tab` inserts `k` blanks at the index `loc`, with
`1 ≤ k ≤ 8` and `(offset + loc + k) mod 8 = 0`; the characters before `loc`
stay and those from `loc` on move right by `k`; the cursor `*loc` becomes
`loc + k` and the value returned is `loc`.  `gl_tab` is not told the size of
the array and does not test for room: without room its loops write past the
end of the array. -/
theorem C21_tab_inserts_blanks (buf : List Nat) (offset loc : Int) (hoff : 0 ≤ offset)
    (h0 : 0 ≤ loc) (h1 : loc ≤ strlen buf)
    (hroom : strlen buf + (8 - (offset + loc) % 8) < buf.length) :
    ∃ k : Nat, 1 ≤ k ∧ k ≤ 8 ∧ (offset + loc + k) % 8 = 0
      ∧ cstr (gl_tab buf offset loc).1
          = (cstr buf).take loc.toNat ++ List.replicate k 32 ++ (cstr buf).drop loc.toNat
      ∧ (gl_tab buf offset loc).2.1 = loc + k
      ∧ (gl_tab buf offset loc).2.2 = loc := by
  have hm : Int.tmod (offset + loc) 8 = (offset + loc) % 8 :=
    Int.tmod_eq_emod (by omega) (by omega)
  obtain ⟨k, hk⟩ := Int.eq_ofNat_of_zero_le (show 0 ≤ 8 - (offset + loc) % 8 by omega)
  have hs : strlen buf = (cstr buf).length := rfl
  have hn := strlen_nonneg buf
  have hg : gl_tab buf offset loc
      = (forUp 0 k (fun i b => wr b (loc + i) 32)
          (forDown (strlen buf) loc (fun i b => wr b (i + k) (rd b i)) buf), loc + k, loc) := by
    unfold gl_tab
    simp only [hm, hk]
  obtain ⟨tl, tr⟩ := tab_rd buf loc k (by omega) h0 h1 (by omega)
  have hlen : strlen (forUp 0 k (fun i b => wr b (loc + i) 32)
      (forDown (strlen buf) loc (fun i b => wr b (i + k) (rd b i)) buf)) = strlen buf + k := by
    apply strlen_eq
    · omega
    · rw [tl]; omega
    · intro i hi0 hi1
      rw [tr]
      split
      · decide
      · split
        · exact rd_ne_of_lt_strlen _ _ (by omega) (by omega)
        · exact rd_ne_of_lt_strlen _ _ (by omega) (by omega)
    · rw [tr, if_neg (by omega), if_pos (by omega)]
      have : strlen buf + (k : Int) - k = strlen buf := by omega
      rw [this]
      exact rd_strlen _
  refine ⟨k, by omega, by omega, by omega, ?_, by rw [hg], by rw [hg]⟩
  rw [hg]
  apply cstr_eq_of_rd
  · rw [hlen]
    simp only [List.length_append, List.length_take, List.length_replicate, List.length_drop]
    omega
  · intro i hi
    simp only [List.length_append, List.length_take, List.length_replicate,
      List.length_drop] at hi
    rw [tr]
    by_cases c1 : (i : Int) < loc
    · rw [if_neg (by omega), if_neg (by omega), rd_eq_cstr buf i (by omega),
        List.append_assoc, List.getD_eq_getElem?_getD, List.getD_eq_getElem?_getD,
        List.getElem?_append_left (by rw [List.length_take]; omega), List.getElem?_take,
        if_pos (by omega)]
    · by_cases c2 : (i : Int) < loc + k
      · rw [if_pos (by omega), List.append_assoc, List.getD_eq_getElem?_getD,
          List.getElem?_append_right (by rw [List.length_take]; omega),
          List.getElem?_append_left (by rw [List.length_take, List.length_replicate]; omega),
          List.getElem?_replicate, if_pos (by rw [List.length_take]; omega)]
        rfl
      · have e : (i : Int) - (k : Int) = ((i - k : Nat) : Int) := by omega
        rw [if_neg (by omega), if_pos (by omega), e, rd_eq_cstr buf (i - k) (by omega),
          List.getD_eq_getElem?_getD, List.getD_eq_getElem?_getD,
          List.getElem?_append_right (by
            simp only [List.length_append, List.length_take, List.length_replicate]; omega),
          List.getElem?_drop]
        congr 2
        simp only [List.length_append, List.length_take, List.length_replicate]
        omega

set_option maxRecDepth 100000 in
theorem C21_tab_inserts_blanks_witness :
    ((0 : Int) ≤ 2 ∧ (0 : Int) ≤ 1 ∧ (1 : Int) ≤ strlen sample_hi.gl_buf
        ∧ strlen sample_hi.gl_buf + (8 - (2 + 1) % 8) < sample_hi.gl_buf.length)
      ∧ (∃ k : Nat, 1 ≤ k ∧ k ≤ 8 ∧ ((2 : Int) + 1 + k) % 8 = 0
          ∧ cstr (gl_tab sample_hi.gl_buf 2 1).1
              = (cstr sample_hi.gl_buf).take (1 : Int).toNat ++ List.replicate k 32
                  ++ (cstr sample_hi.gl_buf).drop (1 : Int).toNat
          ∧ (gl_tab sample_hi.gl_buf 2 1).2.1 = 1 + k
          ∧ (gl_tab sample_hi.gl_buf 2 1).2.2 = 1)
      ∧ (cstr (gl_tab sample_hi.gl_buf 2 1).1, (gl_tab sample_hi.gl_buf 2 1).2)
          = (bytes "h     i", 6, 1)
      ∧ (strlen (bytes "abcdef" ++ [0, 0]) + (8 - (2 + 6) % 8),
          (bytes "abcdef" ++ [0, 0]).length) = (14, 8)
      ∧ (sample_tab_full.bind (turns 7)).map (fun t => (t.gl_buf, measures t))
          = some (bytes "abcdef  ", 8, 8, 8) :=
  ⟨⟨by decide, by decide, by decide, by decide⟩,
    C21_tab_inserts_blanks sample_hi.gl_buf 2 1 (by decide) (by decide) (by decide)
      (by decide),
    by decide, by decide, by decide⟩

/-! ## Saving the history -/

/-- A list of one-element lists, flattened. -/
theorem flatten_singletons {α β : Type} (f : α → β) (l : List α) :
    (List.map (fun a => [f a]) l).flatten = List.map f l := by
  induction l with
  | nil => rfl
  | cons a l ih => simp [ih]

/-- The slots a loop over `List.range` visits, as `int`s. -/
theorem range_cast (n : Nat) :
    (List.range n >>= fun a => (pure (a : Int) : List Int))
      = List.map (fun (a : Nat) => (a : Int)) (List.range n) := by
  simp only [List.bind_eq_flatMap, List.flatMap, List.pure_def]
  exact flatten_singletons _ _

/-- C22 (what the code does). With `hist_last > 0`, `gl_savehistory` writes
the slots `0` to `hist_last - 1` of the ring, one per line, and no other slot:
the first loop, over the slots from `hist_last` on, tests the address
`hist_buf + i` and never writes.  In a ring that has wrapped around the slots
after `hist_last` hold the older entries, which are so left out. -/
theorem C22_save_skips_slots_after_last (s : State) (h : 0 < s.hist_last) :
    ∃ ls, gl_savehistory s = some ls ∧ (ls.length : Int) = s.hist_last
      ∧ ∀ i : Nat, (i : Int) < s.hist_last → ls.getD i [] = (hslot s i).getD [] ++ [10] := by
  unfold gl_savehistory
  rw [if_neg (by omega), range_cast]
  refine ⟨_, rfl, ?_, ?_⟩
  · rw [List.length_map, List.length_map, List.length_range]
    omega
  · intro i hi
    have hi2 : i < s.hist_last.toNat := by omega
    rw [List.getD_eq_getElem?_getD, List.getElem?_map, List.getElem?_map,
      List.getElem?_range hi2]
    rfl

set_option maxRecDepth 100000 in
theorem C22_save_skips_slots_after_last_witness :
    (0 < sample_wrapped.hist_last
        ∧ ∃ ls, gl_savehistory sample_wrapped = some ls
          ∧ (ls.length : Int) = sample_wrapped.hist_last
          ∧ ∀ i : Nat, (i : Int) < sample_wrapped.hist_last →
              ls.getD i [] = (hslot sample_wrapped i).getD [] ++ [10])
      ∧ gl_savehistory sample_wrapped = some [bytes "b\n", bytes "c\n"]
      ∧ (hslot sample_wrapped 2, hslot sample_wrapped 3, hslot sample_wrapped 511)
          = (some [], some (bytes "a"), some (bytes "a"))
      ∧ gl_savehistory (sample_ring 1) = none
      ∧ hslot (sample_ring 1) 1 = some (bytes "a") :=
  ⟨⟨by decide, C22_save_skips_slots_after_last sample_wrapped (by decide)⟩,
    by decide, by decide, by decide, by decide⟩

/-! ## The terminal cursor after a redraw -/

theorem columns_append (a b : List Nat) : columns (a ++ b) = columns a + columns b := by
  unfold columns
  rw [List.map_append, List.sum_append]

theorem columns_replicate (n : Nat) (c : Nat) :
    columns (List.replicate n c) = n * column_step c := by
  unfold columns
  rw [List.map_replicate, List.sum_replicate]
  simp

/-- A stretch of the line that holds no bell, backspace or newline takes the
terminal cursor on by its length when it is drawn. -/
theorem shown_columns (buf : List Nat) (lo hi : Int)
    (h : ∀ i, lo ≤ i → i < hi → glyph (rd buf i)) :
    columns (shown buf lo hi) = (hi - lo).toNat := by
  have key : ∀ l : List Nat, (∀ k ∈ l, glyph (rd buf (lo + (k : Int)))) →
      columns (l.foldr (fun (k : Nat) o => putcBytes (rd buf (lo + (k : Int))) ++ o) [])
        = l.length := by
    intro l
    induction l with
    | nil => intro _; rfl
    | cons a l ih =>
      intro hl
      obtain ⟨g1, g2, g3⟩ := hl a (by simp)
      rw [List.foldr_cons, columns_append, ih (fun k hk => hl k (by simp [hk]))]
      unfold putcBytes
      rw [if_neg g3]
      unfold columns column_step
      simp only [List.map_cons, List.map_nil, List.sum_cons, List.sum_nil, if_neg g2, if_neg g1,
        List.length_cons]
      push_cast
      omega
  unfold shown
  rw [key]
  · rw [List.length_range]
  · intro k hk
    rw [List.mem_range] at hk
    exact h _ (by omega) (by omega)

theorem Moves.mrefl (s : State) : Moves s s 0 :=
  ⟨[], by simp, rfl⟩

theorem Moves.mtrans {s t u : State} {d e : Int} (h1 : Moves s t d) (h2 : Moves t u e) :
    Moves s u (d + e) := by
  obtain ⟨o1, a1, b1⟩ := h1
  obtain ⟨o2, a2, b2⟩ := h2
  exact ⟨o1 ++ o2, by rw [a2, a1, List.append_assoc], by rw [columns_append, b1, b2]⟩

theorem Moves.mof_out {s t : State} (h : t.out = s.out) : Moves s t 0 :=
  ⟨[], by rw [h]; simp, rfl⟩

/-- The bells of `gl_fixup` do not move the terminal cursor. -/
theorem moves_bell (cu : Int) (r : State) : Moves r (fixup_bell cu r) 0 := by
  have hb : ∀ a : State, Moves a (gl_putc 7 a) 0 := fun a => ⟨[7], rfl, rfl⟩
  have hb2 : ∀ a : State, Moves a (gl_putc 7 (gl_putc 7 a)) 0 := fun a => by
    simpa using Moves.mtrans (hb a) (hb (gl_putc 7 a))
  unfold fixup_bell
  simp only []
  split_ifs <;> first | exact hb2 r | exact hb r | exact Moves.mrefl r

/-- The end of `gl_fixup` takes the terminal cursor from the column of
`gl_pos` to the column of the cursor. -/
theorem moves_move (cu : Int) (d : State)
    (h : ∀ i, d.gl_pos ≤ i → i < cu → glyph (rd d.gl_buf i)) :
    Moves d (fixup_move cu d) (cu - d.gl_pos) ∧ (fixup_move cu d).gl_pos = cu := by
  refine ⟨?_, rfl⟩
  unfold fixup_move
  simp only []
  by_cases c : d.gl_pos - cu > 0
  · rw [if_pos c, putc_loop 8 (by decide)]
    refine ⟨List.replicate (d.gl_pos - cu).toNat 8, rfl, ?_⟩
    rw [columns_replicate]
    have : column_step 8 = -1 := rfl
    rw [this]
    omega
  · rw [if_neg c, draw_loop]
    refine ⟨shown d.gl_buf d.gl_pos cu, rfl, ?_⟩
    rw [shown_columns _ _ _ h]
    omega

/-- The end of the redraw block takes the terminal cursor on by what it adds
to `gl_pos`: one column for the marker, or the blanks. -/
theorem moves_draw_end (b : Bounds) (pad : Int) (d : State) (hpad : 0 ≤ pad) :
    Moves d (fixup_draw_end b pad d) ((fixup_draw_end b pad d).gl_pos - d.gl_pos)
      ∧ d.gl_pos ≤ (fixup_draw_end b pad d).gl_pos := by
  unfold fixup_draw_end
  split
  · refine ⟨⟨[36], rfl, ?_⟩, ?_⟩
    · show columns [36] = (d.gl_pos + 1) - d.gl_pos
      have : columns [36] = 1 := rfl
      rw [this]; omega
    · show d.gl_pos ≤ d.gl_pos + 1
      omega
  · simp only []
    rw [putc_loop 32 (by decide)]
    refine ⟨⟨List.replicate pad.toNat 32, rfl, ?_⟩, ?_⟩
    · show columns (List.replicate pad.toNat 32) = (d.gl_pos + pad) - d.gl_pos
      rw [columns_replicate]
      have : column_step 32 = 1 := rfl
      rw [this]
      omega
    · show d.gl_pos ≤ d.gl_pos + pad
      omega

/-- The redraw block of `gl_fixup`: it backs up, draws from `left` on and
leaves the terminal cursor on the column of `gl_pos`; the net movement is
`gl_pos - left - backup`. -/
theorem moves_draw (b : Bounds) (pad : Int) (d : State) (hpad : 0 ≤ pad)
    (hlr : b.left ≤ b.right) (hbk : 0 ≤ b.backup) (hnr : b.left ≤ b.new_right)
    (hm : fixup_marker b d = true → b.left + 1 ≤ b.new_right)
    (htext : ∀ i, b.left ≤ i → i < b.new_right → glyph (rd d.gl_buf i)) :
    Moves d (fixup_draw b pad d) ((fixup_draw b pad d).gl_pos - b.left - b.backup)
      ∧ b.new_right ≤ (fixup_draw b pad d).gl_pos := by
  have h1 : Moves d (forUp 0 b.backup (fun _ => gl_putc 8) d) (-b.backup) := by
    rw [putc_loop 8 (by decide)]
    refine ⟨List.replicate b.backup.toNat 8, rfl, ?_⟩
    rw [columns_replicate]
    have : column_step 8 = -1 := rfl
    rw [this]
    omega
  have hbuf1 : (forUp 0 b.backup (fun _ => gl_putc 8) d).gl_buf = d.gl_buf := by
    rw [putc_loop 8 (by decide)]
  have hmk : fixup_marker b (forUp 0 b.backup (fun _ => gl_putc 8) d) = fixup_marker b d := by
    rw [putc_loop 8 (by decide)]
    rfl
  have hd : fixup_draw b pad d
      = fixup_draw_end b pad
          { forUp (if fixup_marker b d then b.left + 1 else b.left) b.new_right
              (fun i st => gl_putc (rd st.gl_buf i) st)
              (if fixup_marker b d then gl_putc 36 (forUp 0 b.backup (fun _ => gl_putc 8) d)
               else forUp 0 b.backup (fun _ => gl_putc 8) d) with gl_pos := b.new_right } := by
    unfold fixup_draw
    rw [if_pos hlr]
    simp only [hmk]
  have h3 : Moves d
      { forUp (if fixup_marker b d then b.left + 1 else b.left) b.new_right
          (fun i st => gl_putc (rd st.gl_buf i) st)
          (if fixup_marker b d then gl_putc 36 (forUp 0 b.backup (fun _ => gl_putc 8) d)
           else forUp 0 b.backup (fun _ => gl_putc 8) d) with gl_pos := b.new_right }
      (b.new_right - b.left - b.backup) := by
    by_cases c : fixup_marker b d = true
    · simp only [c, if_true]
      rw [draw_loop]
      have h2 : Moves (forUp 0 b.backup (fun _ => gl_putc 8) d)
          (gl_putc 36 (forUp 0 b.backup (fun _ => gl_putc 8) d)) 1 := ⟨[36], rfl, rfl⟩
      have h4 : Moves (gl_putc 36 (forUp 0 b.backup (fun _ => gl_putc 8) d))
          { ({ gl_putc 36 (forUp 0 b.backup (fun _ => gl_putc 8) d) with
                out := (gl_putc 36 (forUp 0 b.backup (fun _ => gl_putc 8) d)).out
                  ++ shown (gl_putc 36 (forUp 0 b.backup (fun _ => gl_putc 8) d)).gl_buf
                      (b.left + 1) b.new_right } : State) with gl_pos := b.new_right }
          ((b.new_right - (b.left + 1)).toNat) := by
        refine ⟨_, rfl, ?_⟩
        apply shown_columns
        intro i hi0 hi1
        show glyph (rd (forUp 0 b.backup (fun _ => gl_putc 8) d).gl_buf i)
        rw [hbuf1]
        exact htext i (by omega) hi1
      have h5 := Moves.mtrans (Moves.mtrans h1 h2) h4
      have e : -b.backup + 1 + ((b.new_right - (b.left + 1)).toNat : Int)
          = b.new_right - b.left - b.backup := by
        have := hm c
        omega
      rw [e] at h5
      exact h5
    · have c2 : fixup_marker b d = false := by
        cases hfm : fixup_marker b d
        · rfl
        · exact absurd hfm c
      simp only [c2, Bool.false_eq_true, if_false]
      rw [draw_loop]
      have h4 : Moves (forUp 0 b.backup (fun _ => gl_putc 8) d)
          { ({ forUp 0 b.backup (fun _ => gl_putc 8) d with
                out := (forUp 0 b.backup (fun _ => gl_putc 8) d).out
                  ++ shown (forUp 0 b.backup (fun _ => gl_putc 8) d).gl_buf
                      b.left b.new_right } : State) with gl_pos := b.new_right }
          ((b.new_right - b.left).toNat) := by
        refine ⟨_, rfl, ?_⟩
        apply shown_columns
        intro i hi0 hi1
        rw [hbuf1]
        exact htext i hi0 hi1
      have h5 := Moves.mtrans h1 h4
      have e : -b.backup + ((b.new_right - b.left).toNat : Int)
          = b.new_right - b.left - b.backup := by
        omega
      rw [e] at h5
      exact h5
  obtain ⟨h6, h7⟩ := moves_draw_end b pad
    { forUp (if fixup_marker b d then b.left + 1 else b.left) b.new_right
        (fun i st => gl_putc (rd st.gl_buf i) st)
        (if fixup_marker b d then gl_putc 36 (forUp 0 b.backup (fun _ => gl_putc 8) d)
         else forUp 0 b.backup (fun _ => gl_putc 8) d) with gl_pos := b.new_right } hpad
  rw [← hd] at h6 h7
  have h8 := Moves.mtrans h3 h6
  refine ⟨?_, h7⟩
  have e : b.new_right - b.left - b.backup + ((fixup_draw b pad d).gl_pos - b.new_right)
      = (fixup_draw b pad d).gl_pos - b.left - b.backup := by
    omega
  have e2 : ({ forUp (if fixup_marker b d then b.left + 1 else b.left) b.new_right
        (fun i st => gl_putc (rd st.gl_buf i) st)
        (if fixup_marker b d then gl_putc 36 (forUp 0 b.backup (fun _ => gl_putc 8) d)
         else forUp 0 b.backup (fun _ => gl_putc 8) d) with gl_pos := b.new_right } : State).gl_pos
      = b.new_right := rfl
  rw [e2] at h8
  rw [e] at h8
  exact h8

/-- The bounds of the redraw in a state whose cursor is on the screen: when
the block runs, `left + backup` is the new shift plus the old screen column of
the cursor, the stretch `[left, new_right)` lies in the line, and the marker
`$` on the left leaves at least one column to draw; when the block does not
run, the view has not been shifted. -/
theorem bounds_columns (chg ns bk : Int) (r : State) (hns0 : 0 ≤ ns)
    (hnsc : ns = 0 ∨ ns + 1 ≤ r.gl_cnt) (hW : 3 ≤ r.gl_width) (hcnt : 0 ≤ r.gl_cnt)
    (hchg : chg < 0 ∨ (chg ≤ r.gl_pos ∧ chg ≤ r.gl_cnt))
    (hbk : bk = r.gl_pos - r.gl_shift) (hpos : r.gl_shift ≤ r.gl_pos)
    (hol : r.gl_shift = 0 → r.off_left = 0) (hext : 0 ≤ r.gl_extent) :
    ((fixup_bounds chg ns bk r).left ≤ (fixup_bounds chg ns bk r).right →
        0 ≤ (fixup_bounds chg ns bk r).backup
          ∧ (fixup_bounds chg ns bk r).left + (fixup_bounds chg ns bk r).backup
              = ns + r.gl_pos - r.gl_shift
          ∧ 0 ≤ (fixup_bounds chg ns bk r).left
          ∧ (fixup_bounds chg ns bk r).left ≤ (fixup_bounds chg ns bk r).new_right
          ∧ (fixup_bounds chg ns bk r).new_right ≤ r.gl_cnt
          ∧ (fixup_marker (fixup_bounds chg ns bk r) (fixup_scroll chg ns r) = true →
              (fixup_bounds chg ns bk r).left + 1 ≤ (fixup_bounds chg ns bk r).new_right))
      ∧ (¬ (fixup_bounds chg ns bk r).left ≤ (fixup_bounds chg ns bk r).right →
          ns = r.gl_shift) := by
  obtain ⟨q1, q2, q3, q4, q5, _⟩ := scroll_decision chg ns r
  unfold fixup_marker
  simp only [decide_eq_true_eq]
  rw [q1, q2]
  unfold fixup_bounds
  simp only [q1, q3, q4, q5]
  by_cases c : ns ≠ r.gl_shift
  · simp only [if_pos c, if_pos (Or.inl c : ns ≠ r.gl_shift ∨ chg ≥ 0)]
    by_cases c1 : r.gl_cnt > ns + r.gl_width - 1
    · simp only [if_pos c1, if_pos (show (1 : Int) ≠ 0 by decide)]
      constructor
      · intro _
        refine ⟨by omega, by omega, hns0, by omega, by omega, ?_⟩
        intro _
        omega
      · intro h
        omega
    · simp only [if_neg c1, if_neg (show ¬ (0 : Int) ≠ 0 by simp)]
      constructor
      · intro _
        refine ⟨by omega, by omega, hns0, by omega, by omega, ?_⟩
        intro h
        by_cases c0 : ns = 0
        · rw [if_neg (by simp [c0])] at h
          exact absurd rfl h.2
        · omega
      · intro h
        omega
  · have e : ns = r.gl_shift := by
      by_contra h
      exact c h
    simp only [if_neg c]
    by_cases c2 : chg ≥ 0
    · simp only [if_pos c2, if_pos (Or.inr c2 : ns ≠ r.gl_shift ∨ chg ≥ 0)]
      refine ⟨?_, fun _ => e⟩
      have hch2 : chg ≤ r.gl_pos ∧ chg ≤ r.gl_cnt := by
        rcases hchg with h | h
        · omega
        · exact h
      by_cases c1 : r.gl_cnt > ns + r.gl_width - 1
      · simp only [if_pos c1, if_pos (show (1 : Int) ≠ 0 by decide)]
        intro hlr
        split_ifs at hlr ⊢ <;>
          refine ⟨by omega, by omega, by omega, by omega, by omega, fun hmk => ?_⟩ <;> omega
      · simp only [if_neg c1, if_neg (show ¬ (0 : Int) ≠ 0 by simp)]
        intro hlr
        split_ifs at hlr ⊢ <;>
          refine ⟨by omega, by omega, by omega, by omega, by omega, fun hmk => ?_⟩ <;>
          (have hne := hmk.2
           have hs : r.gl_shift ≠ 0 := fun h0 => hne (hol h0)
           omega)
    · simp only [if_neg c2]
      refine ⟨?_, fun _ => e⟩
      intro h
      omega

/-- The stages of `gl_fixup` before the redraw leave the cursor `gl_pos`, the
array and `gl_extent` alone; counting the line and the scroll decision write
nothing. -/
theorem stages_keep (ch cu ns : Int) (r : State) :
    (fixup_count ch r).gl_pos = r.gl_pos ∧ (fixup_count ch r).out = r.out
      ∧ (fixup_count ch r).gl_buf = r.gl_buf ∧ (fixup_count ch r).gl_extent = r.gl_extent
      ∧ (fixup_bell cu r).gl_pos = r.gl_pos ∧ (fixup_bell cu r).gl_buf = r.gl_buf
      ∧ (fixup_bell cu r).gl_extent = r.gl_extent
      ∧ (fixup_scroll ch ns r).gl_pos = r.gl_pos ∧ (fixup_scroll ch ns r).out = r.out
      ∧ (fixup_scroll ch ns r).gl_buf = r.gl_buf := by
  refine ⟨?_, ?_, ?_, ?_, ?_, ?_, ?_, ?_, ?_, ?_⟩
  · unfold fixup_count; split <;> rfl
  · unfold fixup_count; split <;> rfl
  · unfold fixup_count; split <;> rfl
  · unfold fixup_count; split <;> rfl
  · unfold fixup_bell; simp only []; split_ifs <;> rfl
  · unfold fixup_bell; simp only []; split_ifs <;> rfl
  · unfold fixup_bell; simp only []; split_ifs <;> rfl
  · unfold fixup_scroll; split_ifs <;> rfl
  · unfold fixup_scroll; split_ifs <;> rfl
  · unfold fixup_scroll; split_ifs <;> rfl

/-- The redraw block and the final move of `gl_fixup` together: they take the
terminal cursor to the column of the cursor, from the column `left - backup`
columns left of `left` when the block runs, from the column of `gl_pos` when
it does not. -/
theorem redraw_columns (b : Bounds) (pad c cnt : Int) (d : State) (hpad : 0 ≤ pad)
    (hc : c ≤ cnt) (hp0 : 0 ≤ d.gl_pos)
    (hb : b.left ≤ b.right →
      0 ≤ b.backup ∧ 0 ≤ b.left ∧ b.left ≤ b.new_right ∧ b.new_right ≤ cnt
        ∧ (fixup_marker b d = true → b.left + 1 ≤ b.new_right))
    (htext : ∀ i, 0 ≤ i → i < cnt → glyph (rd d.gl_buf i)) :
    Moves d (fixup_move c (fixup_draw b pad d))
      (if b.left ≤ b.right then c - (b.left + b.backup) else c - d.gl_pos) := by
  by_cases hlr : b.left ≤ b.right
  · rw [if_pos hlr]
    obtain ⟨c1, c3, c4, c5, c6⟩ := hb hlr
    obtain ⟨m3, m4⟩ := moves_draw b pad d hpad hlr c1 c4 c6
      (fun i hi0 hi1 => htext i (by omega) (by omega))
    have dbuf : (fixup_draw b pad d).gl_buf = d.gl_buf :=
      (drawn_draw b pad d).scroll_state.2.2.2.2.2.2.2.2.2.1
    obtain ⟨m5, _⟩ := moves_move c (fixup_draw b pad d) (by
      intro i hi0 hi1
      rw [dbuf]
      exact htext i (by omega) (by omega))
    have m6 := Moves.mtrans m3 m5
    have e : (fixup_draw b pad d).gl_pos - b.left - b.backup + (c - (fixup_draw b pad d).gl_pos)
        = c - (b.left + b.backup) := by omega
    rw [e] at m6
    exact m6
  · rw [if_neg hlr]
    have hd : fixup_draw b pad d = d := by
      unfold fixup_draw
      rw [if_neg hlr]
    rw [hd]
    exact (moves_move c d (fun i hi0 hi1 => htext i (by omega) (by omega))).1

/-- The scroll decision, the redraw block and the final move of `gl_fixup`
together, from the state `r` at the scroll decision: they take the terminal
cursor from the screen column of `gl_pos` to the screen column of the cursor
`c` under the new shift. -/
theorem scrolled_columns (chg c bk pad : Int) (r : State) (hS : 0 < r.gl_scroll)
    (hW : r.gl_width ≥ r.gl_scroll + 3) (hcnt : 0 ≤ r.gl_cnt)
    (hc1 : c ≤ r.gl_cnt) (hchg : chg < 0 ∨ (chg ≤ r.gl_pos ∧ chg ≤ r.gl_cnt))
    (hbk : bk = r.gl_pos - r.gl_shift) (hpos : r.gl_shift ≤ r.gl_pos) (hsh : 0 ≤ r.gl_shift)
    (hol : r.gl_shift = 0 → r.off_left = 0) (hext : 0 ≤ r.gl_extent) (hpad : 0 ≤ pad)
    (htext : ∀ i, 0 ≤ i → i < r.gl_cnt → glyph (rd r.gl_buf i)) :
    Moves r
      (fixup_move c (fixup_draw (fixup_bounds chg (fixup_new_shift c r) bk r) pad
        (fixup_scroll chg (fixup_new_shift c r) r)))
      (c - fixup_new_shift c r - (r.gl_pos - r.gl_shift)) := by
  obtain ⟨n0, _⟩ := new_shift_facts c r hS
  obtain ⟨n1, n2⟩ := new_shift_value c r hS
  have he := extra_cases c r
  have hnsc : fixup_new_shift c r = 0 ∨ fixup_new_shift c r + 1 ≤ r.gl_cnt := by
    by_cases hx : 0 < c + fixup_extra c r + r.gl_scroll - r.gl_width
    · obtain ⟨_, j2, _⟩ := n2 hx
      right
      rcases he with he | he
      · omega
      · omega
    · left
      exact n1 (by omega)
  obtain ⟨b1, b2⟩ := bounds_columns chg (fixup_new_shift c r) bk r n0 hnsc (by omega) hcnt hchg
    hbk hpos hol hext
  obtain ⟨_, _, _, _, _, _, _, s1, s2, s3⟩ := stages_keep chg c (fixup_new_shift c r) r
  have m3 := redraw_columns (fixup_bounds chg (fixup_new_shift c r) bk r) pad c r.gl_cnt
    (fixup_scroll chg (fixup_new_shift c r) r) hpad hc1 (by rw [s1]; omega)
    (fun hlr => ⟨(b1 hlr).1, (b1 hlr).2.2.1, (b1 hlr).2.2.2.1, (b1 hlr).2.2.2.2.1,
      (b1 hlr).2.2.2.2.2⟩)
    (fun i hi0 hi1 => by rw [s3]; exact htext i hi0 hi1)
  have m4 := Moves.mtrans (Moves.mof_out s2) m3
  have e : 0 + (if (fixup_bounds chg (fixup_new_shift c r) bk r).left
          ≤ (fixup_bounds chg (fixup_new_shift c r) bk r).right
        then c - ((fixup_bounds chg (fixup_new_shift c r) bk r).left
          + (fixup_bounds chg (fixup_new_shift c r) bk r).backup)
        else c - (fixup_scroll chg (fixup_new_shift c r) r).gl_pos)
      = c - fixup_new_shift c r - (r.gl_pos - r.gl_shift) := by
    by_cases hlr : (fixup_bounds chg (fixup_new_shift c r) bk r).left
        ≤ (fixup_bounds chg (fixup_new_shift c r) bk r).right
    · rw [if_pos hlr, (b1 hlr).2.1]
      omega
    · rw [if_neg hlr, s1, b2 hlr]
      omega
  rw [e] at m4
  exact m4

/-- The state at the scroll decision of a call of `gl_fixup` that keeps the
prompt. -/
theorem ready_same_prompt (ch cu : Int) (s : State) (hne2 : ch ≠ -2) :
    fixup_prompt s.last_prompt ch s = s
      ∧ fixup_changed s.last_prompt ch s
          = (if ch ≥ 0 ∧ ch > (fixup_ready s.last_prompt ch cu s).gl_cnt
             then (fixup_ready s.last_prompt ch cu s).gl_cnt else ch)
      ∧ (fixup_ready s.last_prompt ch cu s).gl_pos = s.gl_pos
      ∧ (fixup_ready s.last_prompt ch cu s).gl_buf = s.gl_buf
      ∧ (fixup_ready s.last_prompt ch cu s).gl_extent = s.gl_extent
      ∧ (fixup_ready s.last_prompt ch cu s).gl_shift = s.gl_shift
      ∧ (fixup_ready s.last_prompt ch cu s).off_left = s.off_left
      ∧ (fixup_ready s.last_prompt ch cu s).gl_width = s.gl_width
      ∧ (fixup_ready s.last_prompt ch cu s).gl_scroll = s.gl_scroll
      ∧ (fixup_ready s.last_prompt ch cu s).gl_cnt = (gl_fixup s.last_prompt ch cu s).gl_cnt
      ∧ Moves s (fixup_ready s.last_prompt ch cu s) 0 := by
  have hp : fixup_prompt s.last_prompt ch s = s := by
    unfold fixup_prompt
    rw [if_neg hne2, if_neg (by simp)]
  have hc : fixup_change s.last_prompt ch s = ch := by
    unfold fixup_change
    rw [if_neg hne2, if_neg (by simp)]
  obtain ⟨r1, r2, r3, _, r5, _, _, _⟩ := ready_fields s.last_prompt ch cu s
  rw [if_neg hne2] at r2 r3
  rw [if_neg (by simp [hne2])] at r5
  have v3 := (fixup_view s.last_prompt ch cu s).2.2.2.1
  have hrdy : fixup_ready s.last_prompt ch cu s = fixup_bell cu (fixup_count ch s) := by
    unfold fixup_ready
    rw [hp, hc]
  obtain ⟨k1, k2, k3, k4, _⟩ := stages_keep ch cu 0 s
  obtain ⟨_, _, _, _, k5, k6, k7, _⟩ := stages_keep ch cu 0 (fixup_count ch s)
  have e : (fixup_ready s.last_prompt ch cu s).gl_cnt
      = (fixup_count (fixup_change s.last_prompt ch s)
          (fixup_prompt s.last_prompt ch s)).gl_cnt := by
    rw [← v3]
    exact fixup_cnt_eq s.last_prompt ch cu s
  refine ⟨hp, ?_, ?_, ?_, ?_, r2, r3, r5, r1, v3.symm, ?_⟩
  · unfold fixup_changed
    rw [← e, hc]
  · rw [hrdy, k5, k1]
  · rw [hrdy, k6, k3]
  · rw [hrdy, k7, k4]
  · rw [hrdy]
    have := Moves.mtrans (Moves.mof_out k2) (moves_bell cu (fixup_count ch s))
    simpa using this

/-- A byte read from an array that holds no bell, backspace or newline. -/
theorem glyph_rd (buf : List Nat) (h : ∀ b ∈ buf, b ≠ 7 ∧ b ≠ 8 ∧ b ≠ 10) (i : Int) :
    glyph (rd buf i) := by
  unfold rd
  split
  · exact ⟨by decide, by decide, by decide⟩
  · rw [List.getD_eq_getElem?_getD]
    cases hg : buf[i.toNat]? with
    | none => exact ⟨by decide, by decide, by decide⟩
    | some b => exact h b (List.getElem?_mem hg)

/-- C25. With the terminal cursor taken as a column counter (`columns`: a
backspace takes it back by one, every other byte `gl_fixup` writes for a
character of the line, a marker `$` or a blank takes it on by one, the bell
leaves it), for every call of `gl_fixup` with the prompt drawn last, a usable
width `gl_width ≥ gl_scroll + 3` and a change index that is -1 or lies in
`[0, gl_pos]`, from a state whose scroll state is in order and whose cursor is
on the screen (`gl_shift ≤ gl_pos`), the line holding no bell, backspace or
newline: the bytes the call writes move the terminal cursor by
`(gl_pos' - gl_shift') - (gl_pos - gl_shift)`, so that it ends on the screen
column of the new cursor, and the new cursor `gl_pos'` is the desired cursor
brought into `[0, gl_cnt']`. -/
theorem C25_cursor_column (ch cu : Int) (s : State) (hv : ViewOk s)
    (hW : s.gl_width ≥ s.gl_scroll + 3) (hch : ch = -1 ∨ (0 ≤ ch ∧ ch ≤ s.gl_pos))
    (hpos : s.gl_shift ≤ s.gl_pos) (hext : 0 ≤ s.gl_extent)
    (htext : ∀ i, 0 ≤ i → i < (gl_fixup s.last_prompt ch cu s).gl_cnt → glyph (rd s.gl_buf i)) :
    ∃ o, (gl_fixup s.last_prompt ch cu s).out = s.out ++ o
      ∧ columns o
          = ((gl_fixup s.last_prompt ch cu s).gl_pos - (gl_fixup s.last_prompt ch cu s).gl_shift)
            - (s.gl_pos - s.gl_shift)
      ∧ (gl_fixup s.last_prompt ch cu s).gl_pos
          = max 0 (min cu (gl_fixup s.last_prompt ch cu s).gl_cnt) := by
  obtain ⟨w1, w2, w3, w4, _, _⟩ := hv
  have hne2 : ch ≠ -2 := by omega
  obtain ⟨hp, hcg, gpos, gbuf, gext, gsh, gol, gw, gsc, gcnt, m1⟩ :=
    ready_same_prompt ch cu s hne2
  obtain ⟨_, _, _, _, _, r6, _, r8⟩ := ready_fields s.last_prompt ch cu s
  have v0 := (fixup_view s.last_prompt ch cu s).1
  have hpos2 := (fixup_stages s.last_prompt ch cu s).2.2
  have hcnt : 0 ≤ (fixup_ready s.last_prompt ch cu s).gl_cnt := by
    rw [r6]
    split
    · exact strlen_nonneg _
    · exact w2
  have r9 := r8 hcnt
  have htgt : (gl_fixup s.last_prompt ch cu s).gl_pos
      = max 0 (min cu (gl_fixup s.last_prompt ch cu s).gl_cnt) := by
    rw [← gcnt, hpos2]
    have e : (fixup_ready s.last_prompt ch cu s).gl_cnt
        = (fixup_count (fixup_change s.last_prompt ch s)
            (fixup_prompt s.last_prompt ch s)).gl_cnt := by
      rw [gcnt]
      exact fixup_cnt_eq s.last_prompt ch cu s
    unfold fixup_target fixup_cursor
    simp only []
    rw [← e]
    split <;> split <;> omega
  suffices hm : Moves s (gl_fixup s.last_prompt ch cu s)
      (((gl_fixup s.last_prompt ch cu s).gl_pos - (gl_fixup s.last_prompt ch cu s).gl_shift)
        - (s.gl_pos - s.gl_shift)) by
    obtain ⟨o, h1, h2⟩ := hm
    exact ⟨o, h1, h2, htgt⟩
  have hfe := fixup_eq s.last_prompt ch cu s
  rw [hp] at hfe
  have hpad : 0 ≤ (if fixup_len s - fixup_len (fixup_scrolled s.last_prompt ch cu s) < 0 then 0
      else fixup_len s - fixup_len (fixup_scrolled s.last_prompt ch cu s)) := by
    split <;> omega
  have hchg : fixup_changed s.last_prompt ch s < 0
      ∨ (fixup_changed s.last_prompt ch s ≤ (fixup_ready s.last_prompt ch cu s).gl_pos
          ∧ fixup_changed s.last_prompt ch s ≤ (fixup_ready s.last_prompt ch cu s).gl_cnt) := by
    rw [hcg, gpos]
    rcases hch with h | h
    · left
      rw [if_neg (by omega)]
      omega
    · right
      split <;> omega
  have m3 := scrolled_columns (fixup_changed s.last_prompt ch s)
    (fixup_target s.last_prompt ch cu s) (s.gl_pos - s.gl_shift)
    (if fixup_len s - fixup_len (fixup_scrolled s.last_prompt ch cu s) < 0 then 0
      else fixup_len s - fixup_len (fixup_scrolled s.last_prompt ch cu s))
    (fixup_ready s.last_prompt ch cu s) (by rw [gsc]; exact w1) (by rw [gw, gsc]; exact hW)
    hcnt r9 hchg (by rw [gpos, gsh]) (by rw [gpos, gsh]; exact hpos) (by rw [gsh]; exact w3)
    (by rw [gsh, gol]; exact w4) (by rw [gext]; exact hext) hpad
    (fun i hi0 hi1 => by rw [gbuf]; exact htext i hi0 (by rw [← gcnt]; exact hi1))
  have m4 := Moves.mtrans m1 m3
  rw [gpos, gsh, zero_add] at m4
  rw [v0, hpos2, hfe]
  exact m4

theorem sample_long_view : ViewOk sample_long := by
  unfold ViewOk; decide

set_option maxRecDepth 100000 in
theorem C25_cursor_column_witness :
    (ViewOk sample_long ∧ sample_long.gl_width ≥ sample_long.gl_scroll + 3
        ∧ sample_long.gl_shift ≤ sample_long.gl_pos ∧ 0 ≤ sample_long.gl_extent)
      ∧ (∃ o, (gl_fixup sample_long.last_prompt 0 32 sample_long).out = sample_long.out ++ o
          ∧ columns o
              = ((gl_fixup sample_long.last_prompt 0 32 sample_long).gl_pos
                  - (gl_fixup sample_long.last_prompt 0 32 sample_long).gl_shift)
                - (sample_long.gl_pos - sample_long.gl_shift)
          ∧ (gl_fixup sample_long.last_prompt 0 32 sample_long).gl_pos
              = max 0 (min 32 (gl_fixup sample_long.last_prompt 0 32 sample_long).gl_cnt))
      ∧ ((gl_fixup sample_long.last_prompt 0 32 sample_long).out,
          (gl_fixup sample_long.last_prompt 0 32 sample_long).gl_pos,
          (gl_fixup sample_long.last_prompt 0 32 sample_long).gl_shift,
          columns (gl_fixup sample_long.last_prompt 0 32 sample_long).out)
          = (36 :: List.replicate 12 97, 20, 7, 13) :=
  ⟨⟨sample_long_view, by decide, by decide, by decide⟩,
    C25_cursor_column 0 32 sample_long sample_long_view (by decide) (Or.inr (by decide))
      (by decide) (by decide) (fun i _ _ => glyph_rd _ (by decide) i),
    by decide⟩

/-! ## The history keys -/

/-- The key `^P` outside search mode: the entry `gl_hist_prev` returns is
loaded into the line. -/
theorem key_prev (t : State) (hm : t.gl_search_mode = 0) :
    key 16 t = .cont (hist_load (gl_hist_prev { t with gl_extent := 0 })) := by
  have hi : iscntrl 16 = true := by decide
  have hsk : search_key 16 { t with gl_extent := 0 } = some (16, { t with gl_extent := 0 }) := by
    unfold search_key
    rw [if_neg (by simp [hm])]
  unfold key
  simp only [hi, hsk, Bool.true_eq_false, if_false]
  unfold key_switch
  rw [if_neg (by decide), if_neg (by decide), if_pos rfl]

/-- Loading a history entry with no input hook: the string is copied into the
line buffer and the line redrawn. -/
theorem hist_load_plain (e : List Nat) (v : State) (hin : v.gl_in_hook = none) :
    hist_load (e, v) = gl_fixup v.gl_prompt 0 v.BUF_SIZE (load_buf e v) := by
  have h2 : (load_buf e v).gl_in_hook = none := hin
  unfold hist_load
  simp only []
  rw [in_hook_none _ h2]
  rfl

/-- One `^P` on an entry that is not the oldest: the line holds the next
older entry. -/
theorem browsing_step (s : State) (es : List (List Nat)) (j : Nat) (t : State)
    (h0 : 0 ≤ s.hist_last) (h1 : s.hist_last < s.HIST_SIZE)
    (hsent : hslot s s.hist_last ≠ none) (hrec : Recent s es) (hj : j < es.length)
    (hB : Browsing s es j t) :
    ∃ t2, key 16 t = .cont t2 ∧ Browsing s es (j + 1) t2 ∧ t2.inp = t.inp := by
  obtain ⟨b1, b2, b3, b4, b5, b6, b7, b8, b9, b10⟩ := hB
  obtain ⟨hr1, hr2⟩ := hrec
  obtain ⟨e1, e2, e3, e4⟩ := hr2 j hj
  have hcur : hslot s (rslot s j) ≠ none := by
    cases j with
    | zero => rw [rslot_zero s h0 h1]; exact hsent
    | succ m =>
      rw [(hr2 m (by omega)).1]
      simp
  have hp := prev_recent_step s { t with gl_extent := 0 } j (es.getD j []) h0 h1 (by omega)
    b3 b4 b5 b9 hcur e1
  refine ⟨_, key_prev t b1, ?_, ?_⟩
  · rw [hp, hist_load_plain _
      ({ ({ t with gl_extent := 0 } : State) with hist_pos := rslot s (j + 1) } : State) b2]
    have hl := load_buf_cstr (es.getD j [])
      ({ ({ t with gl_extent := 0 } : State) with hist_pos := rslot s (j + 1) } : State) b7
      (by show ((es.getD j []).length : Int) ≤ t.BUF_SIZE - 2; rw [b6]; exact e4) e3
    refine ⟨?_, ?_, ?_, ?_, ?_, ?_, ?_, ?_, ?_, ?_⟩
    · rw [fixup_gl_search_mode]; exact b1
    · rw [fixup_gl_in_hook]; exact b2
    · rw [fixup_hist_buf]; exact b3
    · rw [fixup_hist_last]; exact b4
    · rw [fixup_HIST_SIZE]; exact b5
    · rw [fixup_BUF_SIZE]; exact b6
    · rw [fixup_gl_buf, fixup_BUF_SIZE]; exact hl.2
    · rw [fixup_gl_beep]; exact b8
    · rw [fixup_hist_pos]; rfl
    · intro _
      unfold contents
      rw [fixup_gl_buf]
      exact hl.1
  · rw [hp, hist_load_plain _
      ({ ({ t with gl_extent := 0 } : State) with hist_pos := rslot s (j + 1) } : State) b2,
      fixup_inp]
    rfl

theorem prev_null (s : State) (nx : Int)
    (hnx : Int.tmod (s.hist_pos - 1 + s.HIST_SIZE) s.HIST_SIZE = nx)
    (h1 : hslot s s.hist_pos ≠ none) (h2 : nx ≠ s.hist_last) (h3 : hslot s nx = none) :
    gl_hist_prev s = ([], hist_bell { s with hist_pos := nx }) := by
  subst hnx
  unfold gl_hist_prev
  simp only [h3]
  rw [if_pos ⟨h1, h2⟩]

/-- One call of `gl_hist_prev`, `k` entries back from `hist_last`, when the
slot `k + 1` back is `NULL`: it steps onto that slot and returns the empty
string, with the bell when `gl_beep` is set. -/
theorem prev_recent_end (s u : State) (k : Nat) (h0 : 0 ≤ s.hist_last)
    (h1 : s.hist_last < s.HIST_SIZE) (hk : (k : Int) + 1 < s.HIST_SIZE)
    (hb : u.hist_buf = s.hist_buf) (hl : u.hist_last = s.hist_last)
    (hh : u.HIST_SIZE = s.HIST_SIZE) (hp : u.hist_pos = rslot s k)
    (hcur : hslot s (rslot s k) ≠ none) (he : hslot s (rslot s (k + 1)) = none) :
    gl_hist_prev u = ([], hist_bell { u with hist_pos := rslot s (k + 1) }) := by
  have ea := emod_back s.hist_last k s.HIST_SIZE h0 h1 (by omega) (by omega)
  have eb := emod_back s.hist_last (k + 1 : Nat) s.HIST_SIZE h0 h1 (by omega)
    (by push_cast; omega)
  have hp0 : 0 ≤ rslot s k := by unfold rslot; rw [ea]; split <;> omega
  have hp1 : rslot s k < s.HIST_SIZE := by unfold rslot; rw [ea]; split <;> omega
  have hsl : ∀ i, hslot u i = hslot s i := by
    intro i
    unfold hslot
    rw [hb]
  apply prev_null u (rslot s (k + 1))
  · rw [hp, hh, ring_pred _ _ hp0 hp1]
    unfold rslot
    rw [ea, eb]
    push_cast
    split_ifs <;> omega
  · rw [hsl, hp]; exact hcur
  · rw [hl]
    unfold rslot
    rw [eb]
    push_cast
    split_ifs <;> omega
  · rw [hsl]; exact he

/-- One `^P` on the oldest entry of a ring that is not full: `gl_hist_prev`
steps onto the slot before it, which is `NULL`, and returns the empty string,
with the bell when `gl_beep` is set; the empty string is loaded into the line. -/
theorem browsing_end (s : State) (es : List (List Nat)) (t : State)
    (h0 : 0 ≤ s.hist_last) (h1 : s.hist_last < s.HIST_SIZE)
    (hsent : hslot s s.hist_last ≠ none) (hrec : Recent s es)
    (hroom : (es.length : Int) + 1 < s.HIST_SIZE)
    (hnull : hslot s (rslot s (es.length + 1)) = none) (hsize : 2 ≤ s.BUF_SIZE)
    (hB : Browsing s es es.length t) :
    ∃ u, key 16 t = .cont u ∧ contents u = [] ∧ u.hist_pos = rslot s (es.length + 1)
      ∧ (∃ o, u.out = t.out ++ beep s ++ o) ∧ u.inp = t.inp := by
  obtain ⟨b1, b2, b3, b4, b5, b6, b7, b8, b9, b10⟩ := hB
  obtain ⟨hr1, hr2⟩ := hrec
  have hcur : hslot s (rslot s es.length) ≠ none := by
    cases hn : es.length with
    | zero => rw [rslot_zero s h0 h1]; exact hsent
    | succ m =>
      rw [(hr2 m (by omega)).1]
      simp
  have hp := prev_recent_end s { t with gl_extent := 0 } es.length h0 h1 hroom b3 b4 b5 b9
    hcur hnull
  have hbell : ∀ v : State, (hist_bell v).gl_in_hook = v.gl_in_hook
      ∧ (hist_bell v).BUF_SIZE = v.BUF_SIZE ∧ (hist_bell v).gl_buf = v.gl_buf
      ∧ (hist_bell v).inp = v.inp ∧ (hist_bell v).out = v.out ++ beep v := by
    intro v
    unfold hist_bell beep gl_putc
    split
    · exact ⟨rfl, rfl, rfl, rfl, rfl⟩
    · exact ⟨rfl, rfl, rfl, rfl, by simp⟩
  obtain ⟨l1, l2, l3, l4, l5⟩ := hbell
    { ({ t with gl_extent := 0 } : State) with hist_pos := rslot s (es.length + 1) }
  have hbs : beep ({ ({ t with gl_extent := 0 } : State) with
      hist_pos := rslot s (es.length + 1) } : State) = beep s := by
    unfold beep
    rw [show ({ ({ t with gl_extent := 0 } : State) with
      hist_pos := rslot s (es.length + 1) } : State).gl_beep = s.gl_beep from b8]
  refine ⟨_, key_prev t b1, ?_, ?_, ?_, ?_⟩
  · rw [hp, hist_load_plain _ (hist_bell { ({ t with gl_extent := 0 } : State) with
        hist_pos := rslot s (es.length + 1) }) (l1.trans b2)]
    unfold contents
    rw [fixup_gl_buf]
    exact (load_buf_cstr [] _ (by rw [l3, l2]; exact b7) (by
      rw [l2]
      show ((0 : Nat) : Int) ≤ t.BUF_SIZE - 2
      omega) (by simp)).1
  · rw [hp, hist_load_plain _ (hist_bell { ({ t with gl_extent := 0 } : State) with
        hist_pos := rslot s (es.length + 1) }) (l1.trans b2), fixup_hist_pos]
    show (hist_bell _).hist_pos = _
    rw [bell_hist_pos]
  · rw [hp, hist_load_plain _ (hist_bell { ({ t with gl_extent := 0 } : State) with
        hist_pos := rslot s (es.length + 1) }) (l1.trans b2)]
    obtain ⟨o, ho⟩ := appends_fixup (hist_bell { ({ t with gl_extent := 0 } : State) with
        hist_pos := rslot s (es.length + 1) }).gl_prompt 0
      (hist_bell { ({ t with gl_extent := 0 } : State) with
        hist_pos := rslot s (es.length + 1) }).BUF_SIZE
      (load_buf [] (hist_bell { ({ t with gl_extent := 0 } : State) with
        hist_pos := rslot s (es.length + 1) }))
    refine ⟨o, ?_⟩
    rw [ho]
    show (hist_bell _).out ++ o = _
    rw [l5, hbs]
  · rw [hp, hist_load_plain _ (hist_bell { ({ t with gl_extent := 0 } : State) with
        hist_pos := rslot s (es.length + 1) }) (l1.trans b2), fixup_inp]
    show (hist_bell _).inp = _
    rw [l4]

/-- The state after `i` presses of `^P`, for `i` up to the number of entries:
the line is `i` entries back. -/
theorem browsing_prefix (s : State) (es : List (List Nat)) (rest : List Int)
    (hmode : s.gl_search_mode = 0) (hin : s.gl_in_hook = none) (h0 : 0 ≤ s.hist_last)
    (h1 : s.hist_last < s.HIST_SIZE) (hpos : s.hist_pos = s.hist_last)
    (hsent : hslot s s.hist_last ≠ none) (hbuf : (s.gl_buf.length : Int) = s.BUF_SIZE)
    (hrec : Recent s es) (hinp : s.inp = List.replicate (es.length + 1) 16 ++ rest) :
    ∀ i, i ≤ es.length →
      ∃ t, turns i s = some t ∧ Browsing s es i t
        ∧ t.inp = List.replicate (es.length + 1 - i) 16 ++ rest := by
  intro i
  induction i with
  | zero =>
    intro _
    refine ⟨s, rfl, ⟨hmode, hin, rfl, rfl, rfl, rfl, hbuf, rfl, ?_, fun h => absurd h (by omega)⟩,
      hinp⟩
    rw [rslot_zero s h0 h1]
    exact hpos
  | succ i ih =>
    intro hi
    obtain ⟨t, ht, hB, hti⟩ := ih (by omega)
    have hr : List.replicate (es.length + 1 - i) (16 : Int) ++ rest
        = 16 :: (List.replicate (es.length + 1 - (i + 1)) 16 ++ rest) := by
      have e : es.length + 1 - i = (es.length + 1 - (i + 1)) + 1 := by omega
      rw [e, List.replicate_succ]
      rfl
    have hB2 : Browsing s es i
        { t with inp := List.replicate (es.length + 1 - (i + 1)) 16 ++ rest } := hB
    obtain ⟨t2, hk, hB3, hi3⟩ := browsing_step s es i _ h0 h1 hsent hrec (by omega) hB2
    exact ⟨t2, turns_key i s t t2 16 _ ht (by rw [hti, hr]) (by decide) hk, hB3, hi3⟩

/-- C11 (amended). In a call of `getline` outside search mode and with no
input hook, with a history of `n ≥ 1` entries `es` (newest first) that are C
strings fitting the line buffer, in a ring that is not full (the slot before
the oldest entry is `NULL`): `n` presses of `^P` from `hist_last` leave the
oldest entry in the line buffer; one more press writes the bell, when
`gl_beep` is not zero, and leaves the line buffer empty. -/
theorem C11_prev_past_oldest_empties_line (s : State) (es : List (List Nat)) (rest : List Int)
    (hmode : s.gl_search_mode = 0) (hin : s.gl_in_hook = none) (h0 : 0 ≤ s.hist_last)
    (h1 : s.hist_last < s.HIST_SIZE) (hpos : s.hist_pos = s.hist_last)
    (hsent : hslot s s.hist_last ≠ none) (hbuf : (s.gl_buf.length : Int) = s.BUF_SIZE)
    (hrec : Recent s es) (hne : es ≠ []) (hroom : (es.length : Int) + 1 < s.HIST_SIZE)
    (hnull : hslot s (rslot s (es.length + 1)) = none)
    (hinp : s.inp = List.replicate (es.length + 1) 16 ++ rest) :
    ∃ t u, turns es.length s = some t ∧ contents t = es.getD (es.length - 1) []
      ∧ turns (es.length + 1) s = some u ∧ contents u = []
      ∧ (∃ o, u.out = t.out ++ beep s ++ o) ∧ u.inp = rest := by
  have hlen : 0 < es.length := List.length_pos.mpr hne
  obtain ⟨t, ht, hB, hti⟩ := browsing_prefix s es rest hmode hin h0 h1 hpos hsent hbuf hrec hinp
    es.length (le_refl _)
  have hsize : 2 ≤ s.BUF_SIZE := by
    obtain ⟨_, _, _, e4⟩ := hrec.2 0 hlen
    omega
  have hB2 : Browsing s es es.length { t with inp := rest } := hB
  obtain ⟨u, hk, hc, _, ho, hi⟩ := browsing_end s es _ h0 h1 hsent hrec hroom hnull hsize hB2
  have hti2 : t.inp = 16 :: rest := by
    rw [hti]
    have e : es.length + 1 - es.length = 1 := by omega
    rw [e]
    rfl
  exact ⟨t, u, ht, hB.2.2.2.2.2.2.2.2.2 hlen,
    turns_key es.length s t u 16 rest ht hti2 (by decide) hk, hc, ho, hi⟩

theorem sample_prev_recent : Recent sample_prev_keys [bytes "two", bytes "one"] := by
  unfold Recent
  decide

set_option maxRecDepth 100000 in
theorem C11_prev_past_oldest_empties_line_witness :
    (∃ t u, turns 2 sample_prev_keys = some t ∧ contents t = bytes "one"
        ∧ turns 3 sample_prev_keys = some u ∧ contents u = []
        ∧ (∃ o, u.out = t.out ++ beep sample_prev_keys ++ o) ∧ u.inp = [])
      ∧ beep sample_prev_keys = [7]
      ∧ (turns 2 sample_prev_keys).map contents = some (bytes "one")
      ∧ (turns 3 sample_prev_keys).map contents = some [] :=
  ⟨C11_prev_past_oldest_empties_line sample_prev_keys [bytes "two", bytes "one"] []
      (by decide) rfl (by decide) (by decide) (by decide) (by decide) (by decide)
      sample_prev_recent (by decide) (by decide) (by decide) (by decide),
    by decide, by decide, by decide⟩

set_option maxRecDepth 100000 in
/-- C11 (counterexample). With the history `one`, `two` and the call
`getline("> ", buf, 16)`, two presses of `^P` leave `one` in the line buffer,
on slot 0; the third press moves `hist_pos` to slot 511, writes the bell and
empties the line buffer, erasing the three characters on the screen: the
contents do not stay.  With `gl_beep = 0` the third press empties the line
without a bell.  With the entry `abcdefghij` and an array of 8 bytes one press
leaves `abcdef`, the entry cut to `BUF_SIZE - 2` bytes. -/
theorem C11_prev_past_oldest_clears_line :
    (sample_prev3.bind (turns 1)).map contents = some (bytes "two")
      ∧ (sample_prev3.bind (turns 2)).map contents = some (bytes "one")
      ∧ (sample_prev3.bind (turns 2)).map (fun t => t.hist_pos) = some 0
      ∧ (sample_prev3.bind (turns 3)).map contents = some []
      ∧ (sample_prev3.bind (turns 3)).map (fun t => t.hist_pos) = some 511
      ∧ (sample_prev3.bind (turns 3)).map (fun t => t.out)
          = (sample_prev3.bind (turns 2)).map
              (fun t => t.out ++ [7, 8, 8, 8, 32, 32, 32, 8, 8, 8])
      ∧ (sample_silent_prev3.bind (turns 2)).map contents = some (bytes "one")
      ∧ (sample_silent_prev3.bind (turns 3)).map contents = some []
      ∧ (sample_silent_prev3.bind (turns 3)).map (fun t => t.out)
          = (sample_silent_prev3.bind (turns 2)).map
              (fun t => t.out ++ [8, 8, 8, 32, 32, 32, 8, 8, 8])
      ∧ (sample_long_prev.bind (turns 1)).map (fun t => (contents t, hslot t 0))
          = some (bytes "abcdef", some (bytes "abcdefghij")) := by
  decide

end Getline
